import Mathlib

/-!
# Vectoroids: a shallow embedding of `vectoroids.c`

The global variables of the C program and the locals of `game()` become the
fields of one record `Game`; every C function that mutates them becomes a
function from `Game` to `Game`.

Conventions of the embedding.

* `int32_t` values are mathematical integers (`Int`).  C leaves signed overflow
  and division by zero undefined, so the embedding describes the executions in
  which neither occurs.  C division and remainder truncate (`Int.tdiv`,
  `Int.tmod`); `x >> n` on a signed value is the arithmetic shift, i.e. floor
  division by `2 ^ n`.
* `size_t` values (`lives`, `score`, `high`, `level`) are naturals below
  `2 ^ 64`, and every `size_t` operation is taken modulo `2 ^ 64`.
* The three pools are maps from slot number to record; the C loops only ever
  touch the slots below `kNumBullets`, `kNumAsteroids`, `kNumBits`.
* `rand()` reads the next element of a stream `r : Nat → Nat`; the field `rng`
  counts the calls made so far.  Where C leaves the order of evaluation of
  several `rand()` calls in one expression open, they are taken left to right.
* `while (xm == 0)` in `add_asteroid` may spin for as long as the stream keeps
  returning values that are `1` modulo `3`.  The loop is given a fuel bound and
  the functions that reach it return an `Option`; `none` means that the bound
  was too small.
* `zoom_str` is a string; the C buffer holds 24 bytes, and a longer text is a
  write past its end, undefined in C.
* The `double` values of the line rasteriser are embedded twice: as exact
  rationals, and, in the definitions with the suffix `_d`, as rationals with
  the result of every operation rounded to the nearest binary64 value.  The
  two sections on the rasteriser say which statements use which reading.
* SDL (renderer, mixer, events, clock) is outside the embedding; `playsound`
  keeps a log of the queued sound numbers.
-/

namespace Vectoroids

/-! ## Constants -/

def kNumBullets : Nat := 2
def kNumAsteroids : Nat := 20
def kNumBits : Nat := 50
def kAsteroidsSides : Nat := 6
def kAsteroidsRadius : Int := 10
def kShipRadius : Int := 20
def kZoomStart : Int := 40
def kOneUpScore : Nat := 10000
def kScreenWidth : Int := 480
def kScreenHeight : Int := 480

/-- One more than the largest `size_t` value. -/
def SIZE_T_MOD : Nat := 2 ^ 64

def SND_BULLET : Int := 0
def SND_AST1 : Int := 1
def SND_AST2 : Int := 2
def SND_AST3 : Int := 3
def SND_AST4 : Int := 4
def SND_THRUST : Int := 5
def SND_EXPLODE : Int := 6
def SND_GAMEOVER : Int := 7
def SND_EXTRALIFE : Int := 8

/-! ## Types -/

structure bullet_type where
  timer : Int
  x : Int
  y : Int
  xm : Int
  ym : Int
deriving DecidableEq, Inhabited

structure shape_type where
  radius : Int
  angle : Int
deriving DecidableEq, Inhabited

structure asteroid_type where
  alive : Int
  size : Int
  x : Int
  y : Int
  xm : Int
  ym : Int
  angle : Int
  angle_m : Int
  shape : List shape_type
deriving DecidableEq, Inhabited

structure bit_type where
  timer : Int
  x : Int
  y : Int
  xm : Int
  ym : Int
deriving DecidableEq, Inhabited

/-- The globals of the program, the locals of `game()` that live across frames,
the position in the `rand()` stream and the log of queued sounds. -/
structure Game where
  bullets : Nat → bullet_type
  asteroids : Nat → asteroid_type
  bits : Nat → bit_type
  use_sound : Bool
  text_zoom : Int
  zoom_str : String
  player_x : Int
  player_y : Int
  player_xm : Int
  player_ym : Int
  player_angle : Int
  player_alive : Int
  player_die_timer : Int
  lives : Nat
  score : Nat
  high : Nat
  level : Nat
  game_pending : Bool
  done : Bool
  quit : Bool
  counter : Int
  num_asteroids_alive : Int
  left_pressed : Bool
  right_pressed : Bool
  up_pressed : Bool
  shift_pressed : Bool
  rng : Nat
  sound_log : List Int

/-- Conversion of a signed value to `size_t`. -/
def to_size_t (x : Int) : Nat := (x % (SIZE_T_MOD : Int)).toNat

/-- Arithmetic right shift `x >> n` of a signed value. -/
def sar (x : Int) (n : Nat) : Int := x / (2 ^ n : Int)

/-- The C truth value of an `int32_t`. -/
def truthy (x : Int) : Bool := decide (x ≠ 0)

/-! ## Trigonometry -/

def trig : List Int := [1024, 1014, 984, 935, 868, 784, 685, 572, 448, 316, 117, 0]

/-- The table read `trig[i]`; an index outside the table reads as `0`. -/
def trig_at (i : Int) : Int := if 0 ≤ i then trig.getD i.toNat 0 else 0

def fast_cos (angle : Int) : Int :=
  let angle := Int.tmod angle 45
  if angle < 12 then trig_at angle
  else if angle < 23 then -trig_at (10 - (angle - 12))
  else if angle < 34 then -trig_at (angle - 22)
  else trig_at (45 - angle)

def fast_sin (angle : Int) : Int := -fast_cos (Int.tmod (angle + 11) 45)

/-! ## Sound and score -/

/-- The body of `playsound`: with sound on, one `rand()` call picks a fallback
channel and the sound is queued; the channel itself belongs to the mixer. -/
def playsound (snd : Int) (s : Game) : Game :=
  if s.use_sound then { s with rng := s.rng + 1, sound_log := snd :: s.sound_log } else s

def add_score (amount : Int) (s : Game) : Game :=
  let a := to_size_t amount
  let s1 :=
    if s.score / kOneUpScore < ((s.score + a) % SIZE_T_MOD) / kOneUpScore then
      playsound SND_EXTRALIFE
        { s with lives := (s.lives + 1) % SIZE_T_MOD, zoom_str := "EXTRA LIFE", text_zoom := kZoomStart }
    else s
  { s1 with score := (s1.score + a) % SIZE_T_MOD }

/-! ## Pools -/

/-- The slot search shared by the three `add_*` functions:
`for (i = lo; i < lo + n && found == -1; i++) if (free i) found = i;`
with `none` for `found == -1`. -/
def first_free (free : Nat → Bool) : Nat → Nat → Option Nat
  | _, 0 => none
  | lo, n + 1 => if free lo then some lo else first_free free (lo + 1) n

def add_bullet (x y a xm ym : Int) (s : Game) : Game :=
  match first_free (fun i => decide ((s.bullets i).timer ≤ 0)) 0 kNumBullets with
  | none => s
  | some found =>
    playsound SND_BULLET
      { s with bullets := Function.update s.bullets found (bullet_type.mk 50 x y
          (sar (fast_cos (sar a 3) * 5) 10 + sar xm 4)
          (-(sar (fast_sin (sar a 3) * 5) 10) + sar ym 4)) }

/-- The loop `while (xm == 0) xm = (rand() % 3) - 1;` started at stream
position `c`; the result is the final `xm` and the new stream position. -/
def resample_xm (r : Nat → Nat) : Nat → Nat → Int → Option (Int × Nat)
  | 0, c, xm => if xm = 0 then none else some (xm, c)
  | fuel + 1, c, xm =>
    if xm = 0 then resample_xm r fuel (c + 1) (((r c % 3 : Nat) : Int) - 1) else some (xm, c)

/-- The polygon of a new asteroid: sides `i, i+1, ...`, two `rand()` calls each. -/
def gen_shape (r : Nat → Nat) : Nat → Nat → Nat → List shape_type
  | 0, _, _ => []
  | n + 1, i, c =>
    { radius := ((r c % 3 : Nat) : Int), angle := (i : Int) * 60 + ((r (c + 1) % 40 : Nat) : Int) }
      :: gen_shape r n (i + 1) (c + 2)

def add_asteroid (r : Nat → Nat) (fuel : Nat) (x y xm ym size : Int) (s : Game) : Option Game :=
  let found := first_free (fun i => decide ((s.asteroids i).alive = 0)) 0 kNumAsteroids
  match resample_xm r fuel s.rng xm with
  | none => none
  | some (xm1, c) =>
    match found with
    | none => some { s with rng := c }
    | some found =>
      some { s with
        rng := c + 2 + 2 * kAsteroidsSides,
        asteroids := Function.update s.asteroids found
          ({ alive := 1, x := x, y := y, xm := xm1, ym := ym,
             angle := ((r c % 360 : Nat) : Int),
             angle_m := ((r (c + 1) % 6 : Nat) : Int) - 3,
             size := size,
             shape := gen_shape r kAsteroidsSides 0 (c + 2) } : asteroid_type) }

def add_bit (x y xm ym : Int) (s : Game) : Game :=
  match first_free (fun i => decide ((s.bits i).timer ≤ 0)) 0 kNumBits with
  | none => s
  | some found =>
    { s with bits := Function.update s.bits found { timer := 16, x := x, y := y, xm := xm, ym := ym } }

/-- The explosion loop of `hurt_asteroid`: `n` further calls of `add_bit`, four
`rand()` calls each. -/
def hurt_asteroid_bits (r : Nat → Nat) (j : Nat) (xm ym : Int) : Nat → Game → Game
  | 0, s => s
  | n + 1, s =>
    let a := s.asteroids j
    let c := s.rng
    let s1 := add_bit
      (a.x - a.size * kAsteroidsRadius + Int.tmod (r c) (kAsteroidsRadius * 2))
      (a.y - a.size * kAsteroidsRadius + Int.tmod (r (c + 1)) (kAsteroidsRadius * 2))
      (Int.tmod (r (c + 2)) (a.size * 3) - a.size + Int.tdiv (xm + a.xm) 3)
      (Int.tmod (r (c + 3)) (a.size * 3) - a.size + Int.tdiv (ym + a.ym) 3)
      { s with rng := c + 4 }
    hurt_asteroid_bits r j xm ym n s1

/-- The two `add_asteroid` calls of `hurt_asteroid`, made when the rock is
larger than size 1. -/
def hurt_asteroid_split (r : Nat → Nat) (fuel : Nat) (j : Nat) (xm ym : Int) (s : Game) : Option Game :=
  if (s.asteroids j).size > 1 then
    match add_asteroid r fuel (s.asteroids j).x (s.asteroids j).y
        (Int.tdiv ((s.asteroids j).xm + xm) 2) ((s.asteroids j).ym + ym)
        ((s.asteroids j).size - 1) s with
    | none => none
    | some s1 =>
      add_asteroid r fuel (s1.asteroids j).x (s1.asteroids j).y
        ((s1.asteroids j).xm + xm) (Int.tdiv ((s1.asteroids j).ym + ym) 2)
        ((s1.asteroids j).size - 1) s1
  else some s

def hurt_asteroid (r : Nat → Nat) (fuel : Nat) (j : Nat) (xm ym : Int) (exp_size : Nat) (s : Game) :
    Option Game :=
  let s1 := add_score (Int.tdiv 100 ((s.asteroids j).size + 1)) s
  match hurt_asteroid_split r fuel j xm ym s1 with
  | none => none
  | some s2 =>
    let s3 := { s2 with asteroids := Function.update s2.asteroids j { s2.asteroids j with alive := 0 } }
    let s4 := playsound (SND_AST1 + (s3.asteroids j).size - 1) s3
    some (hurt_asteroid_bits r j xm ym exp_size s4)

/-- The number of live asteroids among the slots below `n`. -/
def live_count (a : Nat → asteroid_type) : Nat → Nat
  | 0 => 0
  | n + 1 => live_count a n + (if (a n).alive ≠ 0 then 1 else 0)

/-- A stream on which the resampling loop of `add_asteroid` always ends: from
every position on, some later `rand()` result is not `1` modulo `3`. -/
def Fair (r : Nat → Nat) : Prop := ∀ n, ∃ k, r (n + k) % 3 ≠ 1

/-! ## Level population -/

/-- The text that `printf` produces for a `size_t` under the conversion `%ld`. -/
def fmt_ld (n : Nat) : String :=
  if n < 2 ^ 63 then toString n else "-" ++ toString (SIZE_T_MOD - n)

/-- The spawning loop of `reset_level`, `n` further iterations; each one makes
five `rand()` calls for the arguments of `add_asteroid`. -/
def reset_level_spawn (r : Nat → Nat) (fuel : Nat) : Nat → Game → Option Game
  | 0, s => some s
  | n + 1, s =>
    let c := s.rng
    match add_asteroid r fuel
        (((r c % 40 : Nat) : Int) + (kScreenWidth - 40) * ((r (c + 1) % 2 : Nat) : Int))
        (Int.tmod (r (c + 2)) kScreenHeight)
        (((r (c + 3) % 9 : Nat) : Int) - 4)
        ((((r (c + 4) % 9 : Nat) : Int) - 4) * 4)
        (((r (c + 5) % 3 : Nat) : Int) + 2)
        { s with rng := c + 6 } with
    | none => none
    | some s1 => reset_level_spawn r fuel n s1

def reset_level (r : Nat → Nat) (fuel : Nat) (s : Game) : Option Game :=
  let s1 := { s with
    bullets := fun i => if i < kNumBullets then { s.bullets i with timer := 0 } else s.bullets i,
    asteroids := fun i => if i < kNumAsteroids then { s.asteroids i with alive := 0 } else s.asteroids i,
    bits := fun i => if i < kNumBits then { s.bits i with timer := 0 } else s.bits i }
  -- `for (i = 0; i < (level + 1) && i < 10; i++)`
  match reset_level_spawn r fuel (min ((s1.level + 1) % SIZE_T_MOD) 10) s1 with
  | none => none
  | some s2 => some { s2 with zoom_str := "LEVEL " ++ fmt_ld s2.level, text_zoom := kZoomStart }

/-- The start of `game()`: a new game unless one is pending. -/
def game_start (r : Nat → Nat) (fuel : Nat) (s : Game) : Option Game :=
  if !s.game_pending then
    match reset_level r fuel
        { s with lives := 3, score := 0, player_alive := 1, player_die_timer := 0, player_angle := 90,
                 player_x := Int.tdiv kScreenWidth 2 * 2 ^ 4, player_y := Int.tdiv kScreenHeight 2 * 2 ^ 4,
                 player_xm := 0, player_ym := 0, level := 1 } with
    | none => none
    | some s1 => some { s1 with game_pending := true }
  else some { s with game_pending := true }

/-! ## The phases of a frame -/

/-- The wrap rule `if (x >= bound) x -= bound; else if (x < 0) x += bound;`. -/
def wrap (bound x : Int) : Int :=
  if x ≥ bound then x - bound else if x < 0 then x + bound else x

/-- The test of the respawn scan: asteroid `i` is alive and inside the safety
rectangle around the ship. -/
def too_close (s : Game) (i : Nat) : Bool :=
  truthy (s.asteroids i).alive &&
    (decide ((s.asteroids i).x ≥ sar s.player_x 4 - Int.tdiv kScreenWidth 5) &&
     decide ((s.asteroids i).x ≤ sar s.player_x 4 + Int.tdiv kScreenWidth 5) &&
     decide ((s.asteroids i).y ≥ sar s.player_y 4 - Int.tdiv kScreenHeight 5) &&
     decide ((s.asteroids i).y ≤ sar s.player_y 4 + Int.tdiv kScreenHeight 5))

/-- The scan `for (i = lo; i < lo + n && player_alive; i++)` of the respawn code. -/
def respawn_scan : Nat → Nat → Game → Game
  | 0, _, s => s
  | n + 1, i, s =>
    if truthy s.player_alive then
      respawn_scan n (i + 1) (if too_close s i then { s with player_alive := 0 } else s)
    else s

/-- The block "Reset player" of the death handling. -/
def respawn_reset (s : Game) : Game :=
  { s with
    player_die_timer := 0, player_angle := 90,
    player_x := Int.tdiv kScreenWidth 2 * 2 ^ 4, player_y := Int.tdiv kScreenHeight 2 * 2 ^ 4,
    player_xm := 0, player_ym := 0, player_alive := 1 }

/-- The block "Handle player death" of the game loop. -/
def handle_death (s : Game) : Game :=
  if s.player_alive = 0 then
    let s1 := { s with player_die_timer := s.player_die_timer - 1 }
    if s1.player_die_timer ≤ 0 then
      if s1.lives > 0 then
        let s2 := respawn_reset s1
        if !s2.shift_pressed then respawn_scan kNumAsteroids 0 s2 else s2
      else { s1 with done := true, game_pending := false }
    else s1
  else s

/-- The overlap test between bullet `i` and asteroid `j`. -/
def bullet_hits (s : Game) (i j : Nat) : Bool :=
  decide ((s.bullets i).x + 5 ≥ (s.asteroids j).x - (s.asteroids j).size * kAsteroidsRadius) &&
  decide ((s.bullets i).x - 5 ≤ (s.asteroids j).x + (s.asteroids j).size * kAsteroidsRadius) &&
  decide ((s.bullets i).y + 5 ≥ (s.asteroids j).y - (s.asteroids j).size * kAsteroidsRadius) &&
  decide ((s.bullets i).y - 5 ≤ (s.asteroids j).y + (s.asteroids j).size * kAsteroidsRadius)

/-- The collision scan of bullet `i` over the asteroids `j, j+1, ...`, `n` of them. -/
def bullet_scan (r : Nat → Nat) (fuel : Nat) (i : Nat) : Nat → Nat → Game → Option Game
  | 0, _, s => some s
  | n + 1, j, s =>
    if decide ((s.bullets i).timer > 0) && truthy (s.asteroids j).alive then
      if bullet_hits s i j then
        let s1 := { s with bullets := Function.update s.bullets i { s.bullets i with timer := 0 } }
        match hurt_asteroid r fuel j (s1.bullets i).xm (s1.bullets i).ym
            (to_size_t ((s1.asteroids j).size * 3)) s1 with
        | none => none
        | some s2 => bullet_scan r fuel i n (j + 1) s2
      else bullet_scan r fuel i n (j + 1) s
    else bullet_scan r fuel i n (j + 1) s

/-- Bullet `i` after its countdown and its move-and-wrap. -/
def bullet_moved (b : bullet_type) : bullet_type :=
  { b with timer := b.timer - 1,
           x := wrap kScreenWidth (b.x + b.xm),
           y := wrap kScreenHeight (b.y + b.ym) }

/-- The body of the loop "Move bullets" for bullet `i`. -/
def move_bullet (r : Nat → Nat) (fuel : Nat) (i : Nat) (s : Game) : Option Game :=
  if (s.bullets i).timer ≥ 0 then
    bullet_scan r fuel i kNumAsteroids 0
      { s with bullets := Function.update s.bullets i (bullet_moved (s.bullets i)) }
  else some s

/-- The loop "Move bullets" over the bullets `i, i+1, ...`, `n` of them. -/
def move_bullets_from (r : Nat → Nat) (fuel : Nat) : Nat → Nat → Game → Option Game
  | 0, _, s => some s
  | n + 1, i, s =>
    match move_bullet r fuel i s with
    | none => none
    | some s1 => move_bullets_from r fuel n (i + 1) s1

def move_bullets (r : Nat → Nat) (fuel : Nat) (s : Game) : Option Game :=
  move_bullets_from r fuel kNumBullets 0 s

/-- Asteroid `a` after its move (every fourth frame), its wrap and its rotation. -/
def asteroid_moved (counter : Int) (a : asteroid_type) : asteroid_type :=
  let a1 := if Int.tmod counter 4 = 0 then { a with x := a.x + a.xm, y := a.y + a.ym } else a
  let a2 := { a1 with x := wrap kScreenWidth a1.x, y := wrap kScreenHeight a1.y }
  let a3 := { a2 with angle := a2.angle + a2.angle_m }
  { a3 with angle :=
      if a3.angle < 0 then a3.angle + 360 else if a3.angle ≥ 360 then a3.angle - 360 else a3.angle }

/-- The test "See if we collided with the player" for asteroid `i`. -/
def ship_hit (s : Game) (i : Nat) : Bool :=
  decide ((s.asteroids i).x ≥ sar s.player_x 4 - kShipRadius) &&
  decide ((s.asteroids i).x ≤ sar s.player_x 4 + kShipRadius) &&
  decide ((s.asteroids i).y ≥ sar s.player_y 4 - kShipRadius) &&
  decide ((s.asteroids i).y ≤ sar s.player_y 4 + kShipRadius) &&
  truthy s.player_alive

/-- The block `if (use_sound) { playsound(SND_GAMEOVER); ... }`, three calls. -/
def gameover_sounds (s : Game) : Game :=
  if s.use_sound then playsound SND_GAMEOVER (playsound SND_GAMEOVER (playsound SND_GAMEOVER s))
  else s

/-- What follows `hurt_asteroid` in the collision branch: the ship dies and a
life is taken. -/
def ship_dies (s : Game) : Game :=
  let s1 := playsound SND_EXPLODE { s with player_alive := 0, player_die_timer := 30 }
  let s2 := { s1 with lives := (s1.lives + (SIZE_T_MOD - 1)) % SIZE_T_MOD }
  if s2.lives = 0 then { gameover_sounds s2 with player_die_timer := 100 } else s2

/-- The body of the loop "Move asteroids" for asteroid `i`. -/
def move_asteroid (r : Nat → Nat) (fuel : Nat) (i : Nat) (s : Game) : Option Game :=
  if truthy (s.asteroids i).alive then
    let s1 := { s with
      num_asteroids_alive := s.num_asteroids_alive + 1,
      asteroids := Function.update s.asteroids i (asteroid_moved s.counter (s.asteroids i)) }
    if ship_hit s1 i then
      match hurt_asteroid r fuel i (sar s1.player_xm 4) (sar s1.player_ym 4) kNumBits s1 with
      | none => none
      | some s2 => some (ship_dies s2)
    else some s1
  else some s

/-- The loop "Move asteroids" over the asteroids `i, i+1, ...`, `n` of them. -/
def move_asteroids_from (r : Nat → Nat) (fuel : Nat) : Nat → Nat → Game → Option Game
  | 0, _, s => some s
  | n + 1, i, s =>
    match move_asteroid r fuel i s with
    | none => none
    | some s1 => move_asteroids_from r fuel n (i + 1) s1

def move_asteroids (r : Nat → Nat) (fuel : Nat) (s : Game) : Option Game :=
  move_asteroids_from r fuel kNumAsteroids 0 { s with num_asteroids_alive := 0 }

/-! ## Sample states -/

/-- A paused game with empty pools, three lives and the ship at rest in the
centre of the screen. -/
def empty_game : Game :=
  { bullets := fun _ => default, asteroids := fun _ => default, bits := fun _ => default,
    use_sound := false, text_zoom := 0, zoom_str := "",
    player_x := 3840, player_y := 3840, player_xm := 0, player_ym := 0, player_angle := 90,
    player_alive := 1, player_die_timer := 0,
    lives := 3, score := 0, high := 0, level := 1,
    game_pending := true, done := false, quit := false, counter := 0, num_asteroids_alive := 0,
    left_pressed := false, right_pressed := false, up_pressed := false, shift_pressed := false,
    rng := 0, sound_log := [] }

/-- A live asteroid with an empty polygon. -/
def rock (size x y xm ym : Int) : asteroid_type :=
  { alive := 1, size := size, x := x, y := y, xm := xm, ym := ym, angle := 0, angle_m := 0, shape := [] }

/-- The stream on which `rand()` always returns `0`. -/
def zero_stream : Nat → Nat := fun _ => 0

/-- The stream on which `rand()` always returns `4`. -/
def four_stream : Nat → Nat := fun _ => 4

/-- One resting rock of the given size in slot 0, at (100, 100). -/
def one_rock (size : Int) : Game :=
  { empty_game with asteroids := fun i => if i = 0 then rock size 100 100 0 0 else default }

/-- The state `one_rock 3` after a hit on slot 0 by a resting impactor. -/
def one_rock_3_hit : Game := (hurt_asteroid zero_stream 1 0 0 0 9 (one_rock 3)).getD empty_game

/-- The state `one_rock 1` after a hit on slot 0 by a resting impactor. -/
def one_rock_1_hit : Game := (hurt_asteroid zero_stream 1 0 0 0 3 (one_rock 1)).getD empty_game

/-- A game whose score is the largest `size_t` value. -/
def max_score_game : Game := { empty_game with score := SIZE_T_MOD - 1 }

/-- A game in which every slot of every pool is occupied. -/
def full_game : Game :=
  { empty_game with
    bullets := fun _ => { timer := 50, x := 10, y := 10, xm := 1, ym := 1 },
    asteroids := fun _ => rock 1 300 300 1 0,
    bits := fun _ => { timer := 16, x := 20, y := 20, xm := 1, ym := 1 } }

/-- A dead ship whose death timer is about to run out, with a rock of size 2 at
the given position in slot 4. -/
def dead_ship_game (lives : Nat) (shift : Bool) (x y : Int) : Game :=
  { empty_game with
    player_alive := 0, player_die_timer := 1, lives := lives, shift_pressed := shift,
    player_x := 100, player_y := 200, player_xm := 7, player_ym := -7, player_angle := 8,
    asteroids := fun i => if i = 4 then rock 2 x y 1 0 else default }

/-- A game whose level counter is the largest `size_t` value. -/
def max_level_game : Game := { empty_game with level := SIZE_T_MOD - 1 }

/-- The state `max_level_game` after `reset_level`. -/
def max_level_reset : Game := (reset_level zero_stream 0 max_level_game).getD empty_game

/-- A title-screen state with no game pending. -/
def title_game : Game := { empty_game with game_pending := false, lives := 0, level := 0 }

/-- The state `one_rock 3` with a bullet in slot 0 that flies into the rock. -/
def shot_game : Game :=
  { one_rock 3 with
    bullets := fun i => if i = 0 then { timer := 10, x := 90, y := 100, xm := 5, ym := 0 } else default }

/-- The state `shot_game` after the move of bullet 0. -/
def shot_game_after : Game := (move_bullet zero_stream 0 0 shot_game).getD empty_game

/-- A rock of size 2 in slot 0 that drifts onto the live ship. -/
def crash_game : Game :=
  { empty_game with asteroids := fun i => if i = 0 then rock 2 250 250 1 0 else default }

/-- The state `crash_game` after the loop "Move asteroids". -/
def crash_game_after : Game := (move_asteroids zero_stream 1 crash_game).getD empty_game

/-- A game whose lives counter is the largest `size_t` value, 50 points short of
an extra life. -/
def max_lives_game : Game := { empty_game with lives := SIZE_T_MOD - 1, score := 9950 }

/-! ## The rest of the frame -/

/-- The keys that `game()` looks at; every other scancode is `other`. -/
inductive Key where
  | escape | right | left | up | space | shift | other
deriving DecidableEq, Inhabited

/-- The SDL events that `game()` looks at; every other event type is `other`. -/
inductive Event where
  | quit_event
  | key_down (k : Key)
  | key_up (k : Key)
  | other
deriving DecidableEq, Inhabited

/-- The locals of `game()` as they are initialised on entry. -/
def game_locals (s : Game) : Game :=
  { s with done := false, quit := false, counter := 0, num_asteroids_alive := 0,
           left_pressed := false, right_pressed := false, up_pressed := false,
           shift_pressed := false }

/-- The body of the loop `while (SDL_PollEvent(&event) > 0)` for one event. -/
def handle_event (e : Event) (s : Game) : Game :=
  match e with
  | Event.quit_event => { s with done := true, quit := true }
  | Event.key_down Key.escape => { s with done := true }
  | Event.key_down Key.right => { s with left_pressed := false, right_pressed := true }
  | Event.key_down Key.left => { s with left_pressed := true, right_pressed := false }
  | Event.key_down Key.up => { s with up_pressed := true }
  | Event.key_down Key.space =>
    if truthy s.player_alive then
      add_bullet (sar s.player_x 4) (sar s.player_y 4) s.player_angle s.player_xm s.player_ym s
    else s
  | Event.key_down Key.shift => { s with shift_pressed := true }
  | Event.key_down Key.other => s
  | Event.key_up Key.right => { s with right_pressed := false }
  | Event.key_up Key.left => { s with left_pressed := false }
  | Event.key_up Key.up => { s with up_pressed := false }
  | Event.key_up Key.shift => { s with shift_pressed := false }
  | Event.key_up _ => s
  | Event.other => s

/-- The event loop of one frame: the pending events in the order of their arrival. -/
def handle_events : List Event → Game → Game
  | [], s => s
  | e :: es, s => handle_events es (handle_event e s)

/-- The block "Rotate ship". -/
def rotate_ship (s : Game) : Game :=
  if s.right_pressed then
    let a := s.player_angle - 8
    { s with player_angle := if a < 0 then a + 360 else a }
  else if s.left_pressed then
    let a := s.player_angle + 8
    { s with player_angle := if a ≥ 360 then a - 360 else a }
  else s

/-- The block "Thrust ship"; the thruster sound is played on the mixer directly. -/
def thrust_ship (s : Game) : Game :=
  if s.up_pressed && truthy s.player_alive then
    { s with
      player_xm := s.player_xm + sar (fast_cos (sar s.player_angle 3) * 3) 10,
      player_ym := s.player_ym - sar (fast_sin (sar s.player_angle 3) * 3) 10 }
  else if Int.tmod s.counter 20 = 0 then
    { s with
      player_xm := Int.tdiv (s.player_xm * 7) 8,
      player_ym := Int.tdiv (s.player_ym * 7) 8 }
  else s

/-- The blocks "Move ship" and "Wrap ship around edges of screen". -/
def move_ship (s : Game) : Game :=
  { s with
    player_x := wrap (kScreenWidth * 2 ^ 4) (s.player_x + s.player_xm),
    player_y := wrap (kScreenHeight * 2 ^ 4) (s.player_y + s.player_ym) }

/-- A debris bit after its countdown and its move-and-wrap. -/
def bit_moved (b : bit_type) : bit_type :=
  { b with timer := b.timer - 1,
           x := wrap kScreenWidth (b.x + b.xm),
           y := wrap kScreenHeight (b.y + b.ym) }

/-- The loop "Move bits": every bit below `kNumBits` with `timer > 0`. -/
def move_bits (s : Game) : Game :=
  { s with bits := fun i =>
      if i < kNumBits ∧ (s.bits i).timer > 0 then bit_moved (s.bits i) else s.bits i }

/-- The number of `rand()` calls of the loop "Draw bullets" over the bullets
below `n`: forty for every bullet with `timer >= 0`. -/
def draw_bullets_rand (s : Game) : Nat → Nat
  | 0 => 0
  | n + 1 => draw_bullets_rand s n + (if (s.bullets n).timer ≥ 0 then 40 else 0)

/-- What drawing a frame does to the state: the `rand()` calls of the flame, of
the bullets and of the GAME OVER banner, and the countdown of the zoom text.
The pixels go to the renderer. -/
def draw_frame (s : Game) : Game :=
  let flame := if truthy s.player_alive && s.up_pressed then 1 else 0
  let shots := draw_bullets_rand s kNumBullets
  let zoom :=
    if s.text_zoom > 0 then (if Int.tmod s.counter 2 = 0 then s.text_zoom - 1 else s.text_zoom)
    else s.text_zoom
  let over := if s.player_alive = 0 ∧ s.lives = 0 ∧ s.player_die_timer > 14 then 3 else 0
  { s with rng := s.rng + flame + shots + over, text_zoom := zoom }

/-- The block "Go to next level?". -/
def next_level (r : Nat → Nat) (fuel : Nat) (s : Game) : Option Game :=
  if s.num_asteroids_alive = 0 then
    reset_level r fuel { s with level := (s.level + 1) % SIZE_T_MOD }
  else some s

/-- The frame up to and including the loop "Move bullets". -/
def step_head (r : Nat → Nat) (fuel : Nat) (events : List Event) (s : Game) : Option Game :=
  move_bullets r fuel
    (move_ship (handle_death (thrust_ship (rotate_ship
      (handle_events events { s with counter := s.counter + 1 })))))

/-- The frame from the loop "Move asteroids" on. -/
def step_tail (r : Nat → Nat) (fuel : Nat) (s : Game) : Option Game :=
  match move_asteroids r fuel s with
  | none => none
  | some s1 => next_level r fuel (draw_frame (move_bits s1))

/-- One pass through the body of the `do ... while (!done)` loop of `game()`. -/
def step (r : Nat → Nat) (fuel : Nat) (events : List Event) (s : Game) : Option Game :=
  match step_head r fuel events s with
  | none => none
  | some s1 => step_tail r fuel s1

/-- Repeated advance-and-wrap of one coordinate, one velocity per time step. -/
def advance (bound : Int) : List Int → Int → Int
  | [], x => x
  | v :: vs, x => advance bound vs (wrap bound (x + v))

/-- The properties of a rock of a new level: the left or the right band, a `y`
on the screen, a non-zero `xm` of at most 4 and a size of 2, 3 or 4. -/
def level_rock (a : asteroid_type) : Prop :=
  ((0 ≤ a.x ∧ a.x < 40) ∨ (440 ≤ a.x ∧ a.x < 480)) ∧ (0 ≤ a.y ∧ a.y < 480) ∧
  a.xm ≠ 0 ∧ |a.xm| ≤ 4 ∧ (a.size = 2 ∨ a.size = 3 ∨ a.size = 4)

/-- The state `empty_game` after `reset_level` at level 1. -/
def level_one_game : Game := (reset_level zero_stream 1 empty_game).getD empty_game

/-- The part of the state that neither the collision code nor `reset_level`
writes: the ship's position, velocity and heading, the level and high score,
the frame counter and the flags. -/
def untouched (s : Game) :
    Int × Int × Int × Int × Int × Nat × Nat × Int × Bool × Bool × Bool × Bool × Bool × Bool × Bool × Bool :=
  (s.player_x, s.player_y, s.player_xm, s.player_ym, s.player_angle, s.level, s.high, s.counter,
   s.use_sound, s.game_pending, s.done, s.quit,
   s.left_pressed, s.right_pressed, s.up_pressed, s.shift_pressed)

/-- The states of a round: `game()` entered with no game pending, followed by
any number of frames, each with any list of events. -/
inductive Reachable (r : Nat → Nat) : Game → Prop
  | new_game (fuel : Nat) (s0 s : Game) :
      s0.game_pending = false → game_start r fuel (game_locals s0) = some s → Reachable r s
  | frame (fuel : Nat) (events : List Event) (s t : Game) :
      Reachable r s → step r fuel events s = some t → Reachable r t

/-- A live ship with the last rock of the level, of size 1, on top of it. -/
def last_rock_game : Game :=
  { empty_game with asteroids := fun i => if i = 0 then rock 1 240 240 1 0 else default }

/-- The state `last_rock_game` one frame later. -/
def last_rock_game_after : Game := (step zero_stream 0 [] last_rock_game).getD empty_game

/-- The state `empty_game` after the second half of a frame. -/
def empty_game_after : Game := (step_tail zero_stream 1 empty_game).getD empty_game

/-- The ship's position, velocity and heading. -/
def ship_motion (s : Game) : Int × Int × Int × Int × Int :=
  (s.player_x, s.player_y, s.player_xm, s.player_ym, s.player_angle)

/-- A ship at the left edge with a velocity of 20000 sixteenths of a pixel per
frame, and one rock far from it. -/
def fast_ship_game : Game :=
  { empty_game with
    player_x := 0, player_xm := 20000,
    asteroids := fun i => if i = 0 then rock 2 100 100 1 0 else default }

/-- The state `fast_ship_game` one frame later. -/
def fast_ship_game_after : Game := (step zero_stream 0 [] fast_ship_game).getD empty_game

/-- A ship that thrusts to the right at 7677 sixteenths of a pixel per frame,
next to the right edge, and one rock far from it. -/
def edge_ship_game : Game :=
  { empty_game with
    player_x := 7679, player_xm := 7677, player_angle := 0, up_pressed := true,
    asteroids := fun i => if i = 0 then rock 2 100 100 1 0 else default }

/-- The state `edge_ship_game` one frame later. -/
def edge_ship_game_after : Game := (step zero_stream 0 [] edge_ship_game).getD empty_game

/-- The state in which a new game starts, entered from the title screen. -/
def new_game_state : Game := (game_start zero_stream 1 (game_locals title_game)).getD empty_game

/-- The new game one frame later, with no input. -/
def new_game_frame : Game := (step zero_stream 1 [] new_game_state).getD empty_game

/-- A bullet in slot 0 whose timer has just run out, still carrying its velocity. -/
def expired_bullet_game : Game :=
  { empty_game with
    bullets := fun i => if i = 0 then { timer := 0, x := 100, y := 100, xm := 5, ym := 0 } else default }

/-- The new game after a frame in which the fire key went down. -/
def fired_game : Game :=
  (step zero_stream 1 [Event.key_down Key.space] new_game_state).getD empty_game

/-- Whether the key `k` is down after the events `es`, `h` telling whether it
was down before them: the key is held from its press to its release.  This is
the reading of "held" in the specification; the code keeps the flags
`left_pressed` and `right_pressed` instead. -/
def key_held (k : Key) : List Event → Bool → Bool
  | [], h => h
  | Event.key_down k1 :: es, h => key_held k es (if k1 = k then true else h)
  | Event.key_up k1 :: es, h => key_held k es (if k1 = k then false else h)
  | _ :: es, h => key_held k es h

/-- The new game after a frame in which the left key and then the right key
went down, neither being released. -/
def both_keys_game : Game :=
  (step zero_stream 1 [Event.key_down Key.left, Event.key_down Key.right] new_game_state).getD
    empty_game

/-- The state `both_keys_game` one frame later, with no event: both keys are
still down. -/
def both_keys_game_after : Game := (step zero_stream 1 [] both_keys_game).getD empty_game

/-! ## The line rasteriser

The renderer is a list of pixel writes, in the order in which `putpixel` issues
them.  The `double` variables of `clip`, `sdl_drawline` and `drawvertline` are
embedded twice.  In this section they are exact rationals: `clip_edge`,
`clip_loop`, `clip`, `drawvertline_loop`, `drawvertline`, `sdl_drawline_loop`
and `sdl_drawline` follow the arithmetic that the code writes down and leave
the rounding of the machine out.  In the section "The line rasteriser in double
arithmetic" the same functions, with the suffix `_d`, round the result of
every operation on a `double` to the nearest `double`.  The two readings differ
on some inputs; a statement about a function of this section is a statement
about the exact reading only. -/

def LEFT_EDGE : Nat := 1
def RIGHT_EDGE : Nat := 2
def TOP_EDGE : Nat := 4
def BOTTOM_EDGE : Nat := 8

structure color_type where
  r : Nat
  g : Nat
  b : Nat
deriving DecidableEq, Inhabited

/-- One `SDL_RenderDrawPoint` call with the colour set before it. -/
structure pixel where
  x : Int
  y : Int
  c : color_type
deriving DecidableEq, Inhabited

/-- The conversion `(int32_t)` of a `double`: truncation toward zero. -/
def trunc (q : ℚ) : Int := if 0 ≤ q then ⌊q⌋ else ⌈q⌉

/-- The conversion `(uint8_t)` of an integer. -/
def to_uint8 (x : Int) : Nat := (x % 256).toNat

def mkcolor (r g b : Int) : color_type :=
  let r := if r > 255 then 255 else r
  let g := if g > 255 then 255 else g
  let b := if b > 255 then 255 else b
  { r := to_uint8 r, g := to_uint8 g, b := to_uint8 b }

def encode (x y : ℚ) : Nat :=
  let code := 0
  let code :=
    if x < 0 then code ||| LEFT_EDGE
    else if x ≥ (kScreenWidth : ℚ) then code ||| RIGHT_EDGE else code
  let code :=
    if y < 0 then code ||| TOP_EDGE
    else if y ≥ (kScreenHeight : ℚ) then code ||| BOTTOM_EDGE else code
  code

/-- The second half of the body of the loop of `clip`: the slope `m` and the
move of the first point, whose code is `code1`, onto the edge that `code1`
names first.  The result is the new `fx1, fy1`. -/
def clip_edge (fx1 fy1 fx2 fy2 : ℚ) (code1 : Nat) : ℚ × ℚ :=
  let m : ℚ := if fx2 ≠ fx1 then (fy2 - fy1) / (fx2 - fx1) else 1
  if code1 &&& LEFT_EDGE ≠ 0 then (0, fy1 + (0 - fx1) * m)
  else if code1 &&& RIGHT_EDGE ≠ 0 then
    ((kScreenWidth : ℚ) - 1, fy1 + (((kScreenWidth : ℚ) - 1) - fx1) * m)
  else if code1 &&& TOP_EDGE ≠ 0 then
    (if fx2 ≠ fx1 then fx1 + (0 - fy1) / m else fx1, 0)
  else if code1 &&& BOTTOM_EDGE ≠ 0 then
    (if fx2 ≠ fx1 then fx1 + (((kScreenHeight : ℚ) - 1) - fy1) / m else fx1,
      (kScreenHeight : ℚ) - 1)
  else (fx1, fy1)

/-- The loop `while (!done)` of `clip`, at most `fuel` iterations; the result is
`fx1, fy1, fx2, fy2, swapped, draw` at the exit of the loop.  When `code1` is
zero the two points and their codes change places and `swapped` is set. -/
def clip_loop : Nat → ℚ → ℚ → ℚ → ℚ → Bool → Option (ℚ × ℚ × ℚ × ℚ × Bool × Bool)
  | 0, _, _, _, _, _ => none
  | fuel + 1, fx1, fy1, fx2, fy2, swapped =>
    let code1 := encode fx1 fy1
    let code2 := encode fx2 fy2
    if code1 ||| code2 = 0 then some (fx1, fy1, fx2, fy2, swapped, true)
    else if code1 &&& code2 ≠ 0 then some (fx1, fy1, fx2, fy2, swapped, false)
    else if code1 = 0 then
      clip_loop fuel (clip_edge fx2 fy2 fx1 fy1 code2).1 (clip_edge fx2 fy2 fx1 fy1 code2).2
        fx1 fy1 true
    else
      clip_loop fuel (clip_edge fx1 fy1 fx2 fy2 code1).1 (clip_edge fx1 fy1 fx2 fy2 code1).2
        fx2 fy2 swapped

/-- The function `clip`: the new `x1, y1, x2, y2` and the returned `draw`. -/
def clip (fuel : Nat) (x1 y1 x2 y2 : Int) : Option (Int × Int × Int × Int × Bool) :=
  match clip_loop fuel x1 y1 x2 y2 false with
  | none => none
  | some (fx1, fy1, fx2, fy2, swapped, draw) =>
    if swapped then some (trunc fx2, trunc fy2, trunc fx1, trunc fy1, draw)
    else some (trunc fx1, trunc fy1, trunc fx2, trunc fy2, draw)

def putpixel (x y : Int) (color : color_type) : List pixel :=
  if x ≥ 0 ∧ y ≥ 0 ∧ x < kScreenWidth ∧ y < kScreenHeight then [{ x := x, y := y, c := color }]
  else []

/-- The loop `for (dy = y1; dy <= y2; dy++)` of `drawvertline`, `n` iterations
from `dy` on. -/
def drawvertline_loop (x : Int) (rd gd bd : ℚ) : Nat → Int → ℚ → ℚ → ℚ → List pixel
  | 0, _, _, _, _ => []
  | n + 1, dy, cr, cg, cb =>
    putpixel (x + 1) (dy + 1) { r := 0, g := 0, b := 0 } ++
    putpixel x dy { r := to_uint8 (trunc cr), g := to_uint8 (trunc cg), b := to_uint8 (trunc cb) } ++
    drawvertline_loop x rd gd bd n (dy + 1) (cr + rd) (cg + gd) (cb + bd)

def drawvertline (x y1 : Int) (c1 : color_type) (y2 : Int) (c2 : color_type) : List pixel :=
  let p : Int × Int × color_type × color_type :=
    if y1 > y2 then (y2, y1, c2, c1) else (y1, y2, c1, c2)
  let y1 := p.1
  let y2 := p.2.1
  let c1 := p.2.2.1
  let c2 := p.2.2.2
  let rd : ℚ := if y1 ≠ y2 then (((c2.r : Int) - (c1.r : Int) : Int) : ℚ) / ((y2 - y1 : Int) : ℚ) else 0
  let gd : ℚ := if y1 ≠ y2 then (((c2.g : Int) - (c1.g : Int) : Int) : ℚ) / ((y2 - y1 : Int) : ℚ) else 0
  let bd : ℚ := if y1 ≠ y2 then (((c2.b : Int) - (c1.b : Int) : Int) : ℚ) / ((y2 - y1 : Int) : ℚ) else 0
  drawvertline_loop x rd gd bd (y2 - y1 + 1).toNat y1 c1.r c1.g c1.b

/-- The loop `while (x1 != x2)` of `sdl_drawline`, at most `fuel` iterations. -/
def sdl_drawline_loop (m b : ℚ) (dx : Int) (rd gd bd : ℚ) (x2 : Int) :
    Nat → Int → ℚ → ℚ → ℚ → Option (List pixel)
  | 0, x1, _, _, _ => if x1 ≠ x2 then none else some []
  | fuel + 1, x1, cr, cg, cb =>
    if x1 ≠ x2 then
      let y1 := trunc (m * x1 + b)
      let y2 := trunc (m * ((x1 + dx : Int) : ℚ) + b)
      match sdl_drawline_loop m b dx rd gd bd x2 fuel (x1 + dx) (cr + rd) (cg + gd) (cb + bd) with
      | none => none
      | some rest =>
        some (drawvertline x1 y1 (mkcolor (trunc cr) (trunc cg) (trunc cb)) y2
          (mkcolor (trunc (cr + rd)) (trunc (cg + gd)) (trunc (cb + bd))) ++ rest)
    else some []

/-- The function `sdl_drawline`: the pixel writes it issues, in order. -/
def sdl_drawline (fuel : Nat) (x1 y1 : Int) (c1 : color_type) (x2 y2 : Int) (c2 : color_type) :
    Option (List pixel) :=
  match clip fuel x1 y1 x2 y2 with
  | none => none
  | some (x1, y1, x2, y2, draw) =>
    if draw then
      let dx := x2 - x1
      let dy := y2 - y1
      if dx ≠ 0 then
        let m : ℚ := (dy : ℚ) / (dx : ℚ)
        let b : ℚ := (y1 : ℚ) - m * (x1 : ℚ)
        let dx : Int := if x2 ≥ x1 then 1 else -1
        let rd : ℚ := (((c2.r : Int) - (c1.r : Int) : Int) : ℚ) / ((x2 - x1 : Int) : ℚ) * (dx : ℚ)
        let gd : ℚ := (((c2.g : Int) - (c1.g : Int) : Int) : ℚ) / ((x2 - x1 : Int) : ℚ) * (dx : ℚ)
        let bd : ℚ := (((c2.b : Int) - (c1.b : Int) : Int) : ℚ) / ((x2 - x1 : Int) : ℚ) * (dx : ℚ)
        sdl_drawline_loop m b dx rd gd bd x2 fuel x1 c1.r c1.g c1.b
      else some (drawvertline x1 y1 c1 y2 c2)
    else some []

/-- A point of the screen rectangle `0 ≤ x < 480`, `0 ≤ y < 480`. -/
def on_screen (x y : ℚ) : Prop := 0 ≤ x ∧ x < 480 ∧ 0 ≤ y ∧ y < 480

/-- The number of screen edges that a point is beyond. -/
def edges_beyond (x y : ℚ) : Nat :=
  (if x < 0 then 1 else 0) + (if x ≥ 480 then 1 else 0) +
  (if y < 0 then 1 else 0) + (if y ≥ 480 then 1 else 0)

/-- The segment from `(ax, ay)` to `(bx, by)` has no point in the screen
rectangle; the points are taken at every rational parameter. -/
def misses_screen (ax ay bx b_y : ℚ) : Prop :=
  ∀ t : ℚ, 0 ≤ t → t ≤ 1 → ¬ on_screen (ax + t * (bx - ax)) (ay + t * (b_y - ay))

/-! ## The line rasteriser in double arithmetic

The functions of the rasteriser once more, with every operation on a `double`
rounded as IEEE 754 binary64 does in the default rounding mode: to the nearest
`double`, a tie going to the even significand.  A `double` is the rational it
stands for.  The conversions between `int32_t` and `double` are exact for the
values of an `int32_t`; the comparisons in `encode` are exact.  Each operation
is taken to be rounded once, to 53 bits: no fused multiply-add and no extended
precision of intermediate results.  The exponent range is left out; the values
of the rasteriser are far from it. -/

/-- Rounding of a rational to the nearest integer, a tie going to the even
integer. -/
def round_even (q : ℚ) : Int :=
  if q - ⌊q⌋ < 1 / 2 then ⌊q⌋
  else if 1 / 2 < q - ⌊q⌋ then ⌊q⌋ + 1
  else if ⌊q⌋ % 2 = 0 then ⌊q⌋ else ⌊q⌋ + 1

/-- The value of the `double` that an arithmetic operation with the exact
result `q` returns: IEEE 754 binary64, round to nearest, ties to even.  The
significand has 53 bits; the exponent range is left out, so there is no
overflow, no subnormal number and no NaN. -/
def fl (q : ℚ) : ℚ :=
  if q = 0 then 0
  else (round_even (q / 2 ^ (Int.log 2 |q| - 52)) : ℚ) * 2 ^ (Int.log 2 |q| - 52)

/-- The unit roundoff of binary64: the largest relative error of one rounded
operation. -/
def unit_roundoff : ℚ := 1 / 2 ^ 53

/-- The function `clip_edge` with every operation on `double` rounded: the
slope `m` and the move of the first point onto the edge that `code1` names
first. -/
def clip_edge_d (fx1 fy1 fx2 fy2 : ℚ) (code1 : Nat) : ℚ × ℚ :=
  let m : ℚ := if fx2 ≠ fx1 then fl (fl (fy2 - fy1) / fl (fx2 - fx1)) else 1
  if code1 &&& LEFT_EDGE ≠ 0 then (0, fl (fy1 + fl (fl (0 - fx1) * m)))
  else if code1 &&& RIGHT_EDGE ≠ 0 then
    ((kScreenWidth : ℚ) - 1, fl (fy1 + fl (fl (((kScreenWidth : ℚ) - 1) - fx1) * m)))
  else if code1 &&& TOP_EDGE ≠ 0 then
    (if fx2 ≠ fx1 then fl (fx1 + fl (fl (0 - fy1) / m)) else fx1, 0)
  else if code1 &&& BOTTOM_EDGE ≠ 0 then
    (if fx2 ≠ fx1 then fl (fx1 + fl (fl (((kScreenHeight : ℚ) - 1) - fy1) / m)) else fx1,
      (kScreenHeight : ℚ) - 1)
  else (fx1, fy1)

/-- The loop `while (!done)` of `clip` in `double` arithmetic, at most `fuel`
iterations; the result is `fx1, fy1, fx2, fy2, swapped, draw`. -/
def clip_loop_d : Nat → ℚ → ℚ → ℚ → ℚ → Bool → Option (ℚ × ℚ × ℚ × ℚ × Bool × Bool)
  | 0, _, _, _, _, _ => none
  | fuel + 1, fx1, fy1, fx2, fy2, swapped =>
    let code1 := encode fx1 fy1
    let code2 := encode fx2 fy2
    if code1 ||| code2 = 0 then some (fx1, fy1, fx2, fy2, swapped, true)
    else if code1 &&& code2 ≠ 0 then some (fx1, fy1, fx2, fy2, swapped, false)
    else if code1 = 0 then
      clip_loop_d fuel (clip_edge_d fx2 fy2 fx1 fy1 code2).1 (clip_edge_d fx2 fy2 fx1 fy1 code2).2
        fx1 fy1 true
    else
      clip_loop_d fuel (clip_edge_d fx1 fy1 fx2 fy2 code1).1 (clip_edge_d fx1 fy1 fx2 fy2 code1).2
        fx2 fy2 swapped

/-- The function `clip` in `double` arithmetic: the new `x1, y1, x2, y2` and the
returned `draw`. -/
def clip_d (fuel : Nat) (x1 y1 x2 y2 : Int) : Option (Int × Int × Int × Int × Bool) :=
  match clip_loop_d fuel x1 y1 x2 y2 false with
  | none => none
  | some (fx1, fy1, fx2, fy2, swapped, draw) =>
    if swapped then some (trunc fx2, trunc fy2, trunc fx1, trunc fy1, draw)
    else some (trunc fx1, trunc fy1, trunc fx2, trunc fy2, draw)

/-- The loop of `drawvertline` in `double` arithmetic, `n` iterations from `dy`
on. -/
def drawvertline_loop_d (x : Int) (rd gd bd : ℚ) : Nat → Int → ℚ → ℚ → ℚ → List pixel
  | 0, _, _, _, _ => []
  | n + 1, dy, cr, cg, cb =>
    putpixel (x + 1) (dy + 1) { r := 0, g := 0, b := 0 } ++
    putpixel x dy { r := to_uint8 (trunc cr), g := to_uint8 (trunc cg), b := to_uint8 (trunc cb) } ++
    drawvertline_loop_d x rd gd bd n (dy + 1) (fl (cr + rd)) (fl (cg + gd)) (fl (cb + bd))

/-- The function `drawvertline` in `double` arithmetic. -/
def drawvertline_d (x y1 : Int) (c1 : color_type) (y2 : Int) (c2 : color_type) : List pixel :=
  let p : Int × Int × color_type × color_type :=
    if y1 > y2 then (y2, y1, c2, c1) else (y1, y2, c1, c2)
  let y1 := p.1
  let y2 := p.2.1
  let c1 := p.2.2.1
  let c2 := p.2.2.2
  let rd : ℚ :=
    if y1 ≠ y2 then fl ((((c2.r : Int) - (c1.r : Int) : Int) : ℚ) / ((y2 - y1 : Int) : ℚ)) else 0
  let gd : ℚ :=
    if y1 ≠ y2 then fl ((((c2.g : Int) - (c1.g : Int) : Int) : ℚ) / ((y2 - y1 : Int) : ℚ)) else 0
  let bd : ℚ :=
    if y1 ≠ y2 then fl ((((c2.b : Int) - (c1.b : Int) : Int) : ℚ) / ((y2 - y1 : Int) : ℚ)) else 0
  drawvertline_loop_d x rd gd bd (y2 - y1 + 1).toNat y1 c1.r c1.g c1.b

/-- The loop `while (x1 != x2)` of `sdl_drawline` in `double` arithmetic, at most
`fuel` iterations. -/
def sdl_drawline_loop_d (m b : ℚ) (dx : Int) (rd gd bd : ℚ) (x2 : Int) :
    Nat → Int → ℚ → ℚ → ℚ → Option (List pixel)
  | 0, x1, _, _, _ => if x1 ≠ x2 then none else some []
  | fuel + 1, x1, cr, cg, cb =>
    if x1 ≠ x2 then
      let y1 := trunc (fl (fl (m * x1) + b))
      let y2 := trunc (fl (fl (m * ((x1 + dx : Int) : ℚ)) + b))
      match sdl_drawline_loop_d m b dx rd gd bd x2 fuel (x1 + dx)
          (fl (cr + rd)) (fl (cg + gd)) (fl (cb + bd)) with
      | none => none
      | some rest =>
        some (drawvertline_d x1 y1 (mkcolor (trunc cr) (trunc cg) (trunc cb)) y2
          (mkcolor (trunc (fl (cr + rd))) (trunc (fl (cg + gd))) (trunc (fl (cb + bd)))) ++ rest)
    else some []

/-- The function `sdl_drawline` in `double` arithmetic: the pixel writes it
issues, in order. -/
def sdl_drawline_d (fuel : Nat) (x1 y1 : Int) (c1 : color_type) (x2 y2 : Int) (c2 : color_type) :
    Option (List pixel) :=
  match clip_d fuel x1 y1 x2 y2 with
  | none => none
  | some (x1, y1, x2, y2, draw) =>
    if draw then
      let dx := x2 - x1
      let dy := y2 - y1
      if dx ≠ 0 then
        let m : ℚ := fl ((dy : ℚ) / (dx : ℚ))
        let b : ℚ := fl ((y1 : ℚ) - fl (m * (x1 : ℚ)))
        let dx : Int := if x2 ≥ x1 then 1 else -1
        let rd : ℚ :=
          fl (fl ((((c2.r : Int) - (c1.r : Int) : Int) : ℚ) / ((x2 - x1 : Int) : ℚ)) * (dx : ℚ))
        let gd : ℚ :=
          fl (fl ((((c2.g : Int) - (c1.g : Int) : Int) : ℚ) / ((x2 - x1 : Int) : ℚ)) * (dx : ℚ))
        let bd : ℚ :=
          fl (fl ((((c2.b : Int) - (c1.b : Int) : Int) : ℚ) / ((x2 - x1 : Int) : ℚ)) * (dx : ℚ))
        sdl_drawline_loop_d m b dx rd gd bd x2 fuel x1 c1.r c1.g c1.b
      else some (drawvertline_d x1 y1 c1 y2 c2)
    else some []

/-! ## The state file

A file is the list of its bytes.  The machine is taken to be little endian
with a 4-byte `int` and an 8-byte `size_t`; the three record types consist of
`int32_t` fields only and have no padding.  The streams are those of a POSIX
system, on which the modes `"r"` and `"w"` do not translate line ends. -/

def kGameName : String := "Vectoroids"
def kGameDate : String := "2023.08.17"

/-- The bytes of a string. -/
def str_bytes (s : String) : List Nat := s.toList.map Char.toNat

/-- The byte that `fputc(x, fi)` writes: `(unsigned char)x`. -/
def fputc (x : Int) : List Nat := [(x % 256).toNat]

/-- The four bytes of an `int32_t` object. -/
def le32 (x : Int) : List Nat :=
  [(x % 256).toNat, (x / 256 % 256).toNat, (x / 65536 % 256).toNat, (x / 16777216 % 256).toNat]

/-- The eight bytes of a `size_t` object. -/
def le64 (x : Nat) : List Nat :=
  [x % 256, x / 2 ^ 8 % 256, x / 2 ^ 16 % 256, x / 2 ^ 24 % 256,
   x / 2 ^ 32 % 256, x / 2 ^ 40 % 256, x / 2 ^ 48 % 256, x / 2 ^ 56 % 256]

/-- The value of an `int32_t` object with the given bytes. -/
def rd32 (bs : List Nat) : Int :=
  let u : Int := (bs.getD 0 0 + 256 * bs.getD 1 0 + 65536 * bs.getD 2 0 + 16777216 * bs.getD 3 0 : Nat)
  if u ≥ 2 ^ 31 then u - 2 ^ 32 else u

/-- The value of a `size_t` object with the given bytes. -/
def rd64 (bs : List Nat) : Nat :=
  bs.getD 0 0 + 2 ^ 8 * bs.getD 1 0 + 2 ^ 16 * bs.getD 2 0 + 2 ^ 24 * bs.getD 3 0 +
  2 ^ 32 * bs.getD 4 0 + 2 ^ 40 * bs.getD 5 0 + 2 ^ 48 * bs.getD 6 0 + 2 ^ 56 * bs.getD 7 0

/-- `fwrite(&x, sizeof(int), 1, fi)` for a `size_t` variable `x`: the first four
bytes of the object. -/
def fwrite_size_t (x : Nat) : List Nat := (le64 x).take 4

/-- `fgetc(fi)`: the next byte, or `EOF`. -/
def fgetc (bs : List Nat) : Int × List Nat :=
  match bs with
  | [] => (-1, [])
  | b :: rest => ((b : Int), rest)

/-- `fread` of `n` bytes into an object with the bytes `old`: the bytes that
the file still has replace the first bytes of the object. -/
def fread_bytes (n : Nat) (old bs : List Nat) : List Nat × List Nat :=
  (bs.take n ++ old.drop (bs.take n).length, bs.drop n)

/-- `fread(&x, sizeof(int), 1, fi)` for an `int32_t` variable. -/
def fread_int (old : Int) (bs : List Nat) : Int × List Nat :=
  (rd32 (fread_bytes 4 (le32 old) bs).1, (fread_bytes 4 (le32 old) bs).2)

/-- `fread(&x, sizeof(int), 1, fi)` for a `size_t` variable. -/
def fread_size_t (old : Nat) (bs : List Nat) : Nat × List Nat :=
  (rd64 (fread_bytes 4 (le64 old) bs).1, (fread_bytes 4 (le64 old) bs).2)

def save_bullet (b : bullet_type) : List Nat :=
  le32 b.timer ++ le32 b.x ++ le32 b.y ++ le32 b.xm ++ le32 b.ym

def load_bullet (old : bullet_type) (bs : List Nat) : bullet_type × List Nat :=
  let t := fread_int old.timer bs
  let x := fread_int old.x t.2
  let y := fread_int old.y x.2
  let xm := fread_int old.xm y.2
  let ym := fread_int old.ym xm.2
  ({ timer := t.1, x := x.1, y := y.1, xm := xm.1, ym := ym.1 }, ym.2)

def save_bit (b : bit_type) : List Nat :=
  le32 b.timer ++ le32 b.x ++ le32 b.y ++ le32 b.xm ++ le32 b.ym

def load_bit (old : bit_type) (bs : List Nat) : bit_type × List Nat :=
  let t := fread_int old.timer bs
  let x := fread_int old.x t.2
  let y := fread_int old.y x.2
  let xm := fread_int old.xm y.2
  let ym := fread_int old.ym xm.2
  ({ timer := t.1, x := x.1, y := y.1, xm := xm.1, ym := ym.1 }, ym.2)

/-- The bytes of the first `n` entries of the array `shape`. -/
def save_shapes : Nat → List shape_type → List Nat
  | 0, _ => []
  | n + 1, sh =>
    le32 (sh.headD default).radius ++ le32 (sh.headD default).angle ++ save_shapes n sh.tail

def load_shapes : Nat → List shape_type → List Nat → List shape_type × List Nat
  | 0, _, bs => ([], bs)
  | n + 1, old, bs =>
    let r := fread_int (old.headD default).radius bs
    let a := fread_int (old.headD default).angle r.2
    let rest := load_shapes n old.tail a.2
    ({ radius := r.1, angle := a.1 } :: rest.1, rest.2)

def save_asteroid (a : asteroid_type) : List Nat :=
  le32 a.alive ++ le32 a.size ++ le32 a.x ++ le32 a.y ++ le32 a.xm ++ le32 a.ym ++
  le32 a.angle ++ le32 a.angle_m ++ save_shapes kAsteroidsSides a.shape

def load_asteroid (old : asteroid_type) (bs : List Nat) : asteroid_type × List Nat :=
  let alive := fread_int old.alive bs
  let size := fread_int old.size alive.2
  let x := fread_int old.x size.2
  let y := fread_int old.y x.2
  let xm := fread_int old.xm y.2
  let ym := fread_int old.ym xm.2
  let angle := fread_int old.angle ym.2
  let angle_m := fread_int old.angle_m angle.2
  let shape := load_shapes kAsteroidsSides old.shape angle_m.2
  ({ alive := alive.1, size := size.1, x := x.1, y := y.1, xm := xm.1, ym := ym.1,
     angle := angle.1, angle_m := angle_m.1, shape := shape.1 }, shape.2)

/-- The bytes of the `n` slots of a pool from slot `i` on. -/
def save_pool {α : Type} (save : α → List Nat) : Nat → Nat → (Nat → α) → List Nat
  | 0, _, _ => []
  | n + 1, i, f => save (f i) ++ save_pool save n (i + 1) f

/-- The `fread` of the `n` slots of a pool from slot `i` on. -/
def load_pool {α : Type} (load : α → List Nat → α × List Nat) :
    Nat → Nat → (Nat → α) → List Nat → (Nat → α) × List Nat
  | 0, _, f, bs => (f, bs)
  | n + 1, i, f, bs =>
    load_pool load n (i + 1) (Function.update f i (load (f i) bs).1) (load (f i) bs).2

/-- The block "Save state" of `main`, for a file that could be opened. -/
def save_state (s : Game) : List Nat :=
  str_bytes (kGameName ++ " State File\n") ++ str_bytes (kGameDate ++ "\n") ++
  fputc (if s.game_pending then 1 else 0) ++ fputc s.lives ++ fputc s.level ++
  fputc s.player_alive ++ fputc s.player_die_timer ++
  fwrite_size_t s.score ++ fwrite_size_t s.high ++
  le32 s.player_x ++ le32 s.player_y ++ le32 s.player_xm ++ le32 s.player_ym ++
  le32 s.player_angle ++
  save_pool save_bullet kNumBullets 0 s.bullets ++
  save_pool save_asteroid kNumAsteroids 0 s.asteroids ++
  save_pool save_bit kNumBits 0 s.bits

/-- The characters that `fgets` stores, at most `n`, and the rest of the file. -/
def fgets_go : Nat → List Nat → List Nat × List Nat
  | 0, bs => ([], bs)
  | _ + 1, [] => ([], [])
  | n + 1, b :: bs =>
    if b = 10 then ([b], bs) else (b :: (fgets_go n bs).1, (fgets_go n bs).2)

/-- `fgets(buf, size, fi)`: `none` for the null pointer returned at the end of
the file. -/
def fgets (size : Nat) (bs : List Nat) : Option (List Nat × List Nat) :=
  if bs = [] then none else some (fgets_go (size - 1) bs)

/-- The C string that starts a buffer: the bytes before the first zero. -/
def c_string (buf : List Nat) : List Nat := buf.takeWhile (fun b => b ≠ 0)

/-- The truth value of `strncmp(a, b, n)`: whether the strings differ in their
first `n` characters. -/
def strncmp (a b : List Nat) (n : Nat) : Bool :=
  decide ((c_string a).take n ≠ (c_string b).take n)

/-- The reads of the branch of `main` that accepts the state file. -/
def load_fields (s : Game) (bs : List Nat) : Game :=
  let game_pending := fgetc bs
  let lives := fgetc game_pending.2
  let level := fgetc lives.2
  let player_alive := fgetc level.2
  let player_die_timer := fgetc player_alive.2
  let score := fread_size_t s.score player_die_timer.2
  let high := fread_size_t s.high score.2
  let player_x := fread_int s.player_x high.2
  let player_y := fread_int s.player_y player_x.2
  let player_xm := fread_int s.player_xm player_y.2
  let player_ym := fread_int s.player_ym player_xm.2
  let player_angle := fread_int s.player_angle player_ym.2
  let bullets := load_pool load_bullet kNumBullets 0 s.bullets player_angle.2
  let asteroids := load_pool load_asteroid kNumAsteroids 0 s.asteroids bullets.2
  let bits := load_pool load_bit kNumBits 0 s.bits asteroids.2
  { s with
    game_pending := decide (game_pending.1 ≠ 0),
    lives := to_size_t lives.1, level := to_size_t level.1,
    player_alive := player_alive.1, player_die_timer := player_die_timer.1,
    score := score.1, high := high.1,
    player_x := player_x.1, player_y := player_y.1,
    player_xm := player_xm.1, player_ym := player_ym.1, player_angle := player_angle.1,
    bullets := bullets.1, asteroids := asteroids.1, bits := bits.1 }

/-- The block "Load state from disk" of `main`; the file is `none` when it
cannot be opened, and the result is `none` when the program exits. -/
def load_state (file : Option (List Nat)) (s : Game) : Option Game :=
  match file with
  | none => some s
  | some bs =>
    match fgets 256 bs with
    | none => none
    | some line1 =>
      match fgets 256 line1.2 with
      | none => none
      | some line2 =>
        -- the last character of the string in `buf` is cut off
        let buf := (c_string line2.1).dropLast
        if strncmp buf (str_bytes kGameDate) 10 then some s
        else some (load_fields s line2.2)

/-- The globals as the program starts: all zero, with sound on. -/
def fresh_game : Game :=
  { bullets := fun _ => default, asteroids := fun _ => default, bits := fun _ => default,
    use_sound := true, text_zoom := 0, zoom_str := "",
    player_x := 0, player_y := 0, player_xm := 0, player_ym := 0, player_angle := 0,
    player_alive := 0, player_die_timer := 0,
    lives := 0, score := 0, high := 0, level := 0,
    game_pending := false, done := false, quit := false, counter := 0, num_asteroids_alive := 0,
    left_pressed := false, right_pressed := false, up_pressed := false, shift_pressed := false,
    rng := 0, sound_log := [] }

/-- A value that an `int32_t` can hold. -/
@[reducible]
def int32_ok (x : Int) : Prop := -2 ^ 31 ≤ x ∧ x < 2 ^ 31

@[reducible]
def bullet_ok (b : bullet_type) : Prop :=
  int32_ok b.timer ∧ int32_ok b.x ∧ int32_ok b.y ∧ int32_ok b.xm ∧ int32_ok b.ym

@[reducible]
def bit_ok (b : bit_type) : Prop :=
  int32_ok b.timer ∧ int32_ok b.x ∧ int32_ok b.y ∧ int32_ok b.xm ∧ int32_ok b.ym

@[reducible]
def shapes_ok (sh : List shape_type) : Prop :=
  ∀ p ∈ sh, int32_ok p.radius ∧ int32_ok p.angle

@[reducible]
def asteroid_ok (a : asteroid_type) : Prop :=
  int32_ok a.alive ∧ int32_ok a.size ∧ int32_ok a.x ∧ int32_ok a.y ∧ int32_ok a.xm ∧
  int32_ok a.ym ∧ int32_ok a.angle ∧ int32_ok a.angle_m ∧
  a.shape.length = kAsteroidsSides ∧ shapes_ok a.shape

/-- A state of the C program: every `int32_t` variable holds an `int32_t`
value, every `size_t` variable a `size_t` value, and every array `shape` has
its six entries. -/
@[reducible]
def c_state (s : Game) : Prop :=
  int32_ok s.player_x ∧ int32_ok s.player_y ∧ int32_ok s.player_xm ∧ int32_ok s.player_ym ∧
  int32_ok s.player_angle ∧ int32_ok s.player_alive ∧ int32_ok s.player_die_timer ∧
  s.lives < SIZE_T_MOD ∧ s.level < SIZE_T_MOD ∧ s.score < SIZE_T_MOD ∧ s.high < SIZE_T_MOD ∧
  (∀ i, i < kNumBullets → bullet_ok (s.bullets i)) ∧
  (∀ i, i < kNumAsteroids → asteroid_ok (s.asteroids i)) ∧
  (∀ i, i < kNumBits → bit_ok (s.bits i))

/-- A rock with an explicit polygon of six corners. -/
def shaped_rock (size x y xm ym : Int) : asteroid_type :=
  { alive := 1, size := size, x := x, y := y, xm := xm, ym := ym, angle := 10, angle_m := -3,
    shape := [{ radius := 1, angle := 5 }, { radius := 2, angle := 65 }, { radius := 0, angle := 130 },
              { radius := 1, angle := 190 }, { radius := 2, angle := 250 }, { radius := 0, angle := 310 }] }

/-- An empty slot of the asteroid pool with its six polygon entries. -/
def no_rock : asteroid_type :=
  { alive := 0, size := 0, x := 0, y := 0, xm := 0, ym := 0, angle := 0, angle_m := 0,
    shape := List.replicate 6 { radius := 0, angle := 0 } }

/-- A game in progress: score 12345, level 3, two live asteroids, a bullet in
flight and a ship that moves to the left. -/
def saved_game : Game :=
  { empty_game with
    score := 12345, high := 20000, level := 3, lives := 2,
    player_x := 1000, player_y := 2000, player_xm := -37, player_ym := 12, player_angle := 352,
    bullets := fun i => if i = 0 then { timer := 31, x := 100, y := 200, xm := -5, ym := 3 } else default,
    asteroids := fun i =>
      if i = 0 then shaped_rock 3 20 400 (-2) 8
      else if i = 1 then shaped_rock 2 450 17 3 (-12) else no_rock,
    bits := fun i => if i = 7 then { timer := 9, x := 50, y := 60, xm := 2, ym := -2 } else default }

/-- The game `saved_game` at level 256. -/
def level_256_game : Game := { saved_game with level := 256 }

/-! ## The table lookups of `fast_cos` -/

/-- The index at which `fast_cos` reads the table `trig`, branch by branch. -/
def fast_cos_index (angle : Int) : Int :=
  let angle := Int.tmod angle 45
  if angle < 12 then angle
  else if angle < 23 then 10 - (angle - 12)
  else if angle < 34 then angle - 22
  else 45 - angle

/-- A state file of another version of the program, with one byte of data. -/
def old_version_file : List Nat :=
  str_bytes (kGameName ++ " State File\n") ++ str_bytes "2001.11.30\n" ++ [1]

/-! ## The vector font -/

/-- The table `char_vectors[36][5][4]`: for each of the characters `0`-`9` and
`A`-`Z` five rows `x1, y1, x2, y2`; a row of `-1` is unused. -/
def char_vectors : List (List (List Int)) := [
  /- 0 -/ ([[0, 0, 1, 0], [1, 0, 1, 2], [1, 2, 0, 2], [0, 2, 0, 0], [-1, -1, -1, -1]] : List (List Int)),
  /- 1 -/ ([[1, 0, 1, 2], [-1, -1, -1, -1], [-1, -1, -1, -1], [-1, -1, -1, -1], [-1, -1, -1, -1]] : List (List Int)),
  /- 2 -/ ([[1, 0, 0, 0], [1, 0, 1, 1], [0, 1, 1, 1], [0, 1, 0, 2], [1, 2, 0, 2]] : List (List Int)),
  /- 3 -/ ([[0, 0, 1, 0], [1, 0, 1, 2], [0, 1, 1, 1], [0, 2, 1, 2], [-1, -1, -1, -1]] : List (List Int)),
  /- 4 -/ ([[1, 0, 1, 2], [0, 0, 0, 1], [0, 1, 1, 1], [-1, -1, -1, -1], [-1, -1, -1, -1]] : List (List Int)),
  /- 5 -/ ([[1, 0, 0, 0], [0, 0, 0, 1], [0, 1, 1, 1], [1, 1, 1, 2], [1, 2, 0, 2]] : List (List Int)),
  /- 6 -/ ([[1, 0, 0, 0], [0, 0, 0, 2], [0, 2, 1, 2], [1, 2, 1, 1], [1, 1, 0, 1]] : List (List Int)),
  /- 7 -/ ([[0, 0, 1, 0], [1, 0, 1, 2], [-1, -1, -1, -1], [-1, -1, -1, -1], [-1, -1, -1, -1]] : List (List Int)),
  /- 8 -/ ([[0, 0, 1, 0], [0, 0, 0, 2], [1, 0, 1, 2], [0, 2, 1, 2], [0, 1, 1, 1]] : List (List Int)),
  /- 9 -/ ([[1, 0, 1, 2], [0, 0, 1, 0], [0, 0, 0, 1], [0, 1, 1, 1], [-1, -1, -1, -1]] : List (List Int)),
  /- A -/ ([[0, 2, 0, 1], [0, 1, 1, 0], [1, 0, 1, 2], [0, 1, 1, 1], [-1, -1, -1, -1]] : List (List Int)),
  /- B -/ ([[0, 2, 0, 0], [0, 0, 1, 0], [1, 0, 0, 1], [0, 1, 1, 2], [1, 2, 0, 2]] : List (List Int)),
  /- C -/ ([[1, 0, 0, 0], [0, 0, 0, 2], [0, 2, 1, 2], [-1, -1, -1, -1], [-1, -1, -1, -1]] : List (List Int)),
  /- D -/ ([[0, 0, 1, 1], [1, 1, 0, 2], [0, 2, 0, 0], [-1, -1, -1, -1], [-1, -1, -1, -1]] : List (List Int)),
  /- E -/ ([[1, 0, 0, 0], [0, 0, 0, 2], [0, 2, 1, 2], [0, 1, 1, 1], [-1, -1, -1, -1]] : List (List Int)),
  /- F -/ ([[1, 0, 0, 0], [0, 0, 0, 2], [0, 1, 1, 1], [-1, -1, -1, -1], [-1, -1, -1, -1]] : List (List Int)),
  /- G -/ ([[1, 0, 0, 0], [0, 0, 0, 2], [0, 2, 1, 2], [1, 2, 1, 1], [-1, -1, -1, -1]] : List (List Int)),
  /- H -/ ([[0, 0, 0, 2], [1, 0, 1, 2], [0, 1, 1, 1], [-1, -1, -1, -1], [-1, -1, -1, -1]] : List (List Int)),
  /- I -/ ([[1, 0, 1, 2], [-1, -1, -1, -1], [-1, -1, -1, -1], [-1, -1, -1, -1], [-1, -1, -1, -1]] : List (List Int)),
  /- J -/ ([[1, 0, 1, 2], [1, 2, 0, 2], [0, 2, 0, 1], [-1, -1, -1, -1], [-1, -1, -1, -1]] : List (List Int)),
  /- K -/ ([[0, 0, 0, 2], [1, 0, 0, 1], [0, 1, 1, 2], [-1, -1, -1, -1], [-1, -1, -1, -1]] : List (List Int)),
  /- L -/ ([[0, 0, 0, 2], [0, 2, 1, 2], [-1, -1, -1, -1], [-1, -1, -1, -1], [-1, -1, -1, -1]] : List (List Int)),
  /- M -/ ([[0, 0, 0, 2], [1, 0, 1, 2], [0, 0, 1, 1], [0, 1, 1, 0], [-1, -1, -1, -1]] : List (List Int)),
  /- N -/ ([[0, 2, 0, 0], [0, 0, 1, 2], [1, 2, 1, 0], [-1, -1, -1, -1], [-1, -1, -1, -1]] : List (List Int)),
  /- O -/ ([[0, 0, 1, 0], [1, 0, 1, 2], [1, 2, 0, 2], [0, 2, 0, 0], [-1, -1, -1, -1]] : List (List Int)),
  /- P -/ ([[0, 2, 0, 0], [0, 0, 1, 0], [1, 0, 1, 1], [1, 1, 0, 1], [-1, -1, -1, -1]] : List (List Int)),
  /- Q -/ ([[0, 0, 1, 0], [1, 0, 1, 2], [1, 2, 0, 2], [0, 2, 0, 0], [0, 1, 1, 2]] : List (List Int)),
  /- R -/ ([[0, 2, 0, 0], [0, 0, 1, 0], [1, 0, 1, 1], [1, 1, 0, 1], [0, 1, 1, 2]] : List (List Int)),
  /- S -/ ([[1, 0, 0, 0], [0, 0, 0, 1], [0, 1, 1, 1], [1, 1, 1, 2], [1, 2, 0, 2]] : List (List Int)),
  /- T -/ ([[0, 0, 1, 0], [1, 0, 1, 2], [-1, -1, -1, -1], [-1, -1, -1, -1], [-1, -1, -1, -1]] : List (List Int)),
  /- U -/ ([[0, 0, 0, 2], [0, 2, 1, 2], [1, 2, 1, 0], [-1, -1, -1, -1], [-1, -1, -1, -1]] : List (List Int)),
  /- V -/ ([[0, 0, 0, 1], [0, 1, 1, 2], [1, 2, 1, 0], [-1, -1, -1, -1], [-1, -1, -1, -1]] : List (List Int)),
  /- W -/ ([[0, 0, 0, 2], [1, 0, 1, 2], [0, 1, 1, 2], [0, 2, 1, 1], [-1, -1, -1, -1]] : List (List Int)),
  /- X -/ ([[0, 0, 1, 2], [0, 2, 1, 0], [-1, -1, -1, -1], [-1, -1, -1, -1], [-1, -1, -1, -1]] : List (List Int)),
  /- Y -/ ([[0, 0, 1, 1], [1, 0, 1, 2], [-1, -1, -1, -1], [-1, -1, -1, -1], [-1, -1, -1, -1]] : List (List Int)),
  /- Z -/ ([[0, 0, 1, 0], [1, 0, 0, 2], [0, 2, 1, 2], [-1, -1, -1, -1], [-1, -1, -1, -1]] : List (List Int))]

/-- The entry `char_vectors[v][i][k]`. -/
def char_vector (v i k : Nat) : Int := ((char_vectors.getD v []).getD i []).getD k 0

/-- The index `v` that `draw_char` computes for the character with code `c`;
`-1` for a character without a vector. -/
def char_index (c : Int) : Int :=
  if c ≥ 48 ∧ c ≤ 57 then c - 48
  else if c ≥ 65 ∧ c ≤ 90 then c - 65 + 10
  else -1

/-- The `draw_line` calls of `draw_char`, in order: the arguments
`x1, y1, c1, x2, y2, c2` of each. -/
def draw_char_calls (c x y r : Int) (cl : color_type) :
    List (Int × Int × color_type × Int × Int × color_type) :=
  let v := char_index c
  if v ≠ -1 then
    ((List.range 5).filter (fun i => decide (char_vector v.toNat i 0 ≠ -1))).map (fun i =>
      (x + char_vector v.toNat i 0 * r, y + char_vector v.toNat i 1 * r, cl,
       x + char_vector v.toNat i 2 * r, y + char_vector v.toNat i 3 * r, cl))
  else []

/-- The pixel writes of two drawing steps, one after the other. -/
def draw_then (a b : Option (List pixel)) : Option (List pixel) :=
  match a, b with
  | some l1, some l2 => some (l1 ++ l2)
  | _, _ => none

/-- The function `draw_line`: the segment and its copies shifted by the width
and the height of the screen. -/
def draw_line (fuel : Nat) (x1 y1 : Int) (c1 : color_type) (x2 y2 : Int) (c2 : color_type) :
    Option (List pixel) :=
  draw_then (sdl_drawline fuel x1 y1 c1 x2 y2 c2)
    (draw_then
      (if x1 < 0 ∨ x2 < 0 then
        sdl_drawline fuel (x1 + kScreenWidth) y1 c1 (x2 + kScreenWidth) y2 c2
      else if x1 ≥ kScreenWidth ∨ x2 ≥ kScreenWidth then
        sdl_drawline fuel (x1 - kScreenWidth) y1 c1 (x2 - kScreenWidth) y2 c2
      else some [])
      (if y1 < 0 ∨ y2 < 0 then
        sdl_drawline fuel x1 (y1 + kScreenHeight) c1 x2 (y2 + kScreenHeight) c2
      else if y1 ≥ kScreenHeight ∨ y2 ≥ kScreenHeight then
        sdl_drawline fuel x1 (y1 - kScreenHeight) c1 x2 (y2 - kScreenHeight) c2
      else some []))

/-- The pixel writes of a list of `draw_line` calls. -/
def draw_lines (fuel : Nat) : List (Int × Int × color_type × Int × Int × color_type) →
    Option (List pixel)
  | [] => some []
  | sg :: rest =>
    draw_then (draw_line fuel sg.1 sg.2.1 sg.2.2.1 sg.2.2.2.1 sg.2.2.2.2.1 sg.2.2.2.2.2)
      (draw_lines fuel rest)

/-- The function `draw_char`, for the character with code `c`. -/
def draw_char (fuel : Nat) (c x y r : Int) (cl : color_type) : Option (List pixel) :=
  draw_lines fuel (draw_char_calls c x y r cl)

/-! ## Debris -/

/-- The number of active debris bits (`timer > 0`) among the slots below `n`. -/
def active_bits (b : Nat → bit_type) : Nat → Nat
  | 0 => 0
  | n + 1 => active_bits b n + (if (b n).timer > 0 then 1 else 0)

/-- The state `crash_game` with three debris bits still in flight. -/
def debris_game : Game :=
  { crash_game with
    bits := fun i => if i < 3 then { timer := 5, x := 7, y := 8, xm := 1, ym := 1 } else default }

/-- The state `debris_game` after the loop "Move asteroids", in which the rock
hits the ship. -/
def debris_game_after : Game := (move_asteroids zero_stream 1 debris_game).getD empty_game

/-! ## Live rocks -/

/-- The ranges of the spin and the size of a rock. -/
def rock_ok (a : asteroid_type) : Prop :=
  (0 ≤ a.angle ∧ a.angle < 360) ∧ (-3 ≤ a.angle_m ∧ a.angle_m ≤ 2) ∧ (1 ≤ a.size ∧ a.size ≤ 4)

/-- Every live asteroid of the pool is within the ranges of `rock_ok`. -/
def rocks_ok (s : Game) : Prop :=
  ∀ i, i < kNumAsteroids → (s.asteroids i).alive ≠ 0 → rock_ok (s.asteroids i)

/-- A live ship has a life left. -/
def lives_ok (s : Game) : Prop := s.player_alive ≠ 0 → 1 ≤ s.lives

/-! ## Rasterised columns -/

/-- The black of the shadow pixels. -/
def shadow_colour : color_type := { r := 0, g := 0, b := 0 }

/-- Column `k` of the loop of `sdl_drawline` that starts in column `x1` with
the colour `cr, cg, cb`: the call of `drawvertline` for column `x1 + k * dx`. -/
def column_run (m b : ℚ) (dx : Int) (rd gd bd : ℚ) (x1 : Int) (cr cg cb : ℚ) (k : Nat) :
    List pixel :=
  drawvertline (x1 + k * dx) (trunc (m * ((x1 + k * dx : Int) : ℚ) + b))
    (mkcolor (trunc (cr + k * rd)) (trunc (cg + k * gd)) (trunc (cb + k * bd)))
    (trunc (m * ((x1 + k * dx + dx : Int) : ℚ) + b))
    (mkcolor (trunc (cr + k * rd + rd)) (trunc (cg + k * gd + gd)) (trunc (cb + k * bd + bd)))

/-- Column `k` of a segment with `x1 ≠ x2`, with the slope, the offset and the
colour steps that `sdl_drawline` computes from the endpoints. -/
def segment_run (x1 y1 : Int) (c1 : color_type) (x2 y2 : Int) (c2 : color_type) (k : Nat) :
    List pixel :=
  let m : ℚ := ((y2 - y1 : Int) : ℚ) / ((x2 - x1 : Int) : ℚ)
  let b : ℚ := (y1 : ℚ) - m * (x1 : ℚ)
  let dx : Int := if x2 ≥ x1 then 1 else -1
  let rd : ℚ := (((c2.r : Int) - (c1.r : Int) : Int) : ℚ) / ((x2 - x1 : Int) : ℚ) * (dx : ℚ)
  let gd : ℚ := (((c2.g : Int) - (c1.g : Int) : Int) : ℚ) / ((x2 - x1 : Int) : ℚ) * (dx : ℚ)
  let bd : ℚ := (((c2.b : Int) - (c1.b : Int) : Int) : ℚ) / ((x2 - x1 : Int) : ℚ) * (dx : ℚ)
  column_run m b dx rd gd bd x1 c1.r c1.g c1.b k

/-- One row of a run: the shadow pixel at `(x + 1, y + 1)`, written when that
point is on the screen, and then the pixel at `(x, y)`. -/
def shadowed_pixel (x y : Int) (c : color_type) : List pixel :=
  (if x + 1 < kScreenWidth ∧ y + 1 < kScreenHeight then
    [({ x := x + 1, y := y + 1, c := shadow_colour } : pixel)] else []) ++
  [{ x := x, y := y, c := c }]

/-- The colour of row `j` of a run that starts with `cr, cg, cb` and steps by
`rd, gd, bd`. -/
def row_colour (cr cg cb rd gd bd : ℚ) (j : Nat) : color_type :=
  { r := to_uint8 (trunc (cr + j * rd)), g := to_uint8 (trunc (cg + j * gd)),
    b := to_uint8 (trunc (cb + j * bd)) }

/-- A vertical run row by row: `|y2 - y1| + 1` rows from the upper end
`min y1 y2` on, each a `shadowed_pixel`, the colour stepping from the colour
of the upper end to the colour of the lower end. -/
def vertical_run (x y1 : Int) (c1 : color_type) (y2 : Int) (c2 : color_type) : List pixel :=
  let lo := min y1 y2
  let hi := max y1 y2
  let ca := if y1 > y2 then c2 else c1
  let cb := if y1 > y2 then c1 else c2
  let rd : ℚ := if lo ≠ hi then (((cb.r : Int) - (ca.r : Int) : Int) : ℚ) / ((hi - lo : Int) : ℚ) else 0
  let gd : ℚ := if lo ≠ hi then (((cb.g : Int) - (ca.g : Int) : Int) : ℚ) / ((hi - lo : Int) : ℚ) else 0
  let bd : ℚ := if lo ≠ hi then (((cb.b : Int) - (ca.b : Int) : Int) : ℚ) / ((hi - lo : Int) : ℚ) else 0
  ((List.range ((y2 - y1).natAbs + 1)).map
    (fun (j : Nat) => shadowed_pixel x (lo + j) (row_colour ca.r ca.g ca.b rd gd bd j))).flatten

/-! ## Termination of clip -/

/-- A point whose coordinate strictly between 479 and 480, if it has one, was
produced by a move onto the top or bottom line (for `x`) or onto the left or
right line (for `y`).  Integer points and the results of `clip_edge` are such
points. -/
def grid_point (x y : ℚ) : Prop :=
  (479 < x ∧ x < 480 → y = 0 ∨ y = 479) ∧ (479 < y ∧ y < 480 → x = 0 ∨ x = 479)

/-- One when a move to the line 479 would pass the other point: one point has
a coordinate strictly between 479 and 480 and the other point is at 480 or
beyond in that coordinate. -/
def hazard (ax ay bx b_y : ℚ) : Nat :=
  if (479 < ax ∧ ax < 480 ∧ 480 ≤ bx) ∨ (479 < bx ∧ bx < 480 ∧ 480 ≤ ax) ∨
     (479 < ay ∧ ay < 480 ∧ 480 ≤ b_y) ∨ (479 < b_y ∧ b_y < 480 ∧ 480 ≤ ay) then 1 else 0

/-- The measure that every iteration of the loop of `clip` lowers, unless it
leads to a state in which the loop ends. -/
def clip_measure (ax ay bx b_y : ℚ) : Nat :=
  2 * (edges_beyond ax ay + edges_beyond bx b_y) + hazard ax ay bx b_y

/-! ## Slot search -/

theorem first_free_some {free : Nat → Bool} {n lo k : Nat} (h : first_free free lo n = some k) :
    lo ≤ k ∧ k < lo + n ∧ free k = true ∧ ∀ i, lo ≤ i → i < k → free i = false := by
  induction n generalizing lo with
  | zero => simp [first_free] at h
  | succ n ih =>
    simp only [first_free] at h
    by_cases hf : free lo = true
    · simp only [hf, if_true, Option.some.injEq] at h
      subst h
      exact ⟨le_refl _, by omega, hf, fun i h1 h2 => by omega⟩
    · simp only [hf] at h
      obtain ⟨h1, h2, h3, h4⟩ := ih h
      refine ⟨by omega, by omega, h3, fun i hi hk => ?_⟩
      by_cases e : i = lo
      · subst e
        simpa using hf
      · exact h4 i (by omega) hk

theorem first_free_none {free : Nat → Bool} {n lo : Nat} :
    first_free free lo n = none ↔ ∀ i, lo ≤ i → i < lo + n → free i = false := by
  induction n generalizing lo with
  | zero =>
    simp only [first_free, true_iff]
    intro i h1 h2
    omega
  | succ n ih =>
    simp only [first_free]
    by_cases hf : free lo = true
    · simp only [hf, if_true]
      constructor
      · intro h
        cases h
      · intro h
        have := h lo (le_refl _) (by omega)
        simp [hf] at this
    · rw [if_neg hf, ih]
      constructor
      · intro h i h1 h2
        by_cases e : i = lo
        · subst e
          simpa using hf
        · exact h i (by omega) (by omega)
      · intro h i h1 h2
        exact h i (by omega) (by omega)

theorem first_free_exists {free : Nat → Bool} {n lo i : Nat} (h1 : lo ≤ i) (h2 : i < lo + n)
    (h3 : free i = true) : ∃ k, first_free free lo n = some k := by
  cases h : first_free free lo n with
  | none =>
    have := first_free_none.mp h i h1 h2
    simp [h3] at this
  | some k => exact ⟨k, rfl⟩

/-! ## The resampling loop -/

theorem resample_xm_mono {r : Nat → Nat} {fuel c : Nat} {xm : Int} {v : Int × Nat} (d : Nat)
    (h : resample_xm r fuel c xm = some v) : resample_xm r (fuel + d) c xm = some v := by
  induction fuel generalizing c xm with
  | zero =>
    simp only [resample_xm] at h
    by_cases hx : xm = 0
    · simp [hx] at h
    · simp only [hx, if_false] at h
      cases d <;> simp [resample_xm, hx, h]
  | succ fuel ih =>
    rw [Nat.add_right_comm]
    simp only [resample_xm] at h ⊢
    by_cases hx : xm = 0
    · simp only [hx, if_true] at h ⊢
      exact ih h
    · simpa [hx] using h

theorem resample_xm_nonzero {r : Nat → Nat} {fuel c : Nat} {xm : Int} {v : Int × Nat}
    (h : resample_xm r fuel c xm = some v) : v.1 ≠ 0 := by
  induction fuel generalizing c xm with
  | zero =>
    simp only [resample_xm] at h
    by_cases hx : xm = 0
    · simp [hx] at h
    · simp only [hx, if_false, Option.some.injEq] at h
      subst h
      exact hx
  | succ fuel ih =>
    simp only [resample_xm] at h
    by_cases hx : xm = 0
    · simp only [hx, if_true] at h
      exact ih h
    · simp only [hx, if_false, Option.some.injEq] at h
      subst h
      exact hx

theorem resample_xm_skip {r : Nat → Nat} {c : Nat} {xm : Int} (hx : xm ≠ 0) (fuel : Nat) :
    resample_xm r fuel c xm = some (xm, c) := by
  cases fuel <;> simp [resample_xm, hx]

theorem resample_xm_terminates {r : Nat → Nat} (k : Nat) :
    ∀ (c : Nat) (xm : Int), r (c + k) % 3 ≠ 1 → ∃ fuel v, resample_xm r fuel c xm = some v := by
  induction k with
  | zero =>
    intro c xm hk
    by_cases hx : xm = 0
    · refine ⟨1, ((((r c % 3 : Nat) : Int) - 1), c + 1), ?_⟩
      simp only [Nat.add_zero] at hk
      have hne : ((r c % 3 : Nat) : Int) - 1 ≠ 0 := by omega
      simp only [resample_xm, hx, if_true, hne, if_false]
    · exact ⟨0, _, resample_xm_skip hx 0⟩
  | succ k ih =>
    intro c xm hk
    by_cases hx : xm = 0
    · have hk2 : r (c + 1 + k) % 3 ≠ 1 := by
        have e : c + 1 + k = c + (k + 1) := by omega
        rw [e]
        exact hk
      obtain ⟨fuel, v, hv⟩ := ih (c + 1) (((r c % 3 : Nat) : Int) - 1) hk2
      exact ⟨fuel + 1, v, by simp only [resample_xm, hx, if_true]; exact hv⟩
    · exact ⟨0, _, resample_xm_skip hx 0⟩

theorem resample_xm_fair {r : Nat → Nat} (hr : Fair r) (c : Nat) (xm : Int) :
    ∃ fuel v, resample_xm r fuel c xm = some v := by
  obtain ⟨k, hk⟩ := hr c
  exact resample_xm_terminates k c xm hk

/-! ## Counting live asteroids -/

theorem live_count_update_ge {a : Nat → asteroid_type} {n k : Nat} (v : asteroid_type) (h : n ≤ k) :
    live_count (Function.update a k v) n = live_count a n := by
  induction n with
  | zero => rfl
  | succ n ih =>
    have hne : n ≠ k := by omega
    simp only [live_count, ih (by omega), Function.update_noteq hne]

theorem live_count_update_lt {a : Nat → asteroid_type} {n k : Nat} (v : asteroid_type) (h : k < n) :
    live_count (Function.update a k v) n + (if (a k).alive ≠ 0 then 1 else 0)
      = live_count a n + (if v.alive ≠ 0 then 1 else 0) := by
  induction n with
  | zero => omega
  | succ n ih =>
    by_cases e : n = k
    · subst e
      simp only [live_count, live_count_update_ge v (le_refl _), Function.update_same]
      omega
    · have := ih (by omega)
      simp only [live_count, Function.update_noteq e]
      omega

/-! ## add_asteroid -/

theorem add_asteroid_some {r : Nat → Nat} {fuel : Nat} {x y xm ym size : Int} {s t : Game}
    (h : add_asteroid r fuel x y xm ym size s = some t) :
    (first_free (fun i => decide ((s.asteroids i).alive = 0)) 0 kNumAsteroids = none ∧
        ∃ c, t = { s with rng := c }) ∨
    (∃ f a c, first_free (fun i => decide ((s.asteroids i).alive = 0)) 0 kNumAsteroids = some f ∧
        t = { s with rng := c, asteroids := Function.update s.asteroids f a } ∧
        a.alive = 1 ∧ a.x = x ∧ a.y = y ∧ a.size = size ∧ a.ym = ym ∧ a.xm ≠ 0) := by
  unfold add_asteroid at h
  cases hres : resample_xm r fuel s.rng xm with
  | none => simp [hres] at h
  | some v =>
    obtain ⟨xm1, c⟩ := v
    have hx : xm1 ≠ 0 := resample_xm_nonzero hres
    simp only [hres] at h
    cases hf : first_free (fun i => decide ((s.asteroids i).alive = 0)) 0 kNumAsteroids with
    | none =>
      simp only [hf, Option.some.injEq] at h
      exact Or.inl ⟨rfl, c, h.symm⟩
    | some f =>
      simp only [hf, Option.some.injEq] at h
      exact Or.inr ⟨f, _, _, rfl, h.symm, rfl, rfl, rfl, rfl, rfl, hx⟩

theorem add_asteroid_mono {r : Nat → Nat} {fuel : Nat} {x y xm ym size : Int} {s t : Game} (d : Nat)
    (h : add_asteroid r fuel x y xm ym size s = some t) :
    add_asteroid r (fuel + d) x y xm ym size s = some t := by
  unfold add_asteroid at h ⊢
  cases hres : resample_xm r fuel s.rng xm with
  | none => simp [hres] at h
  | some v =>
    rw [resample_xm_mono d hres]
    simpa [hres] using h

theorem add_asteroid_terminates {r : Nat → Nat} (hr : Fair r) (x y xm ym size : Int) (s : Game) :
    ∃ fuel t, add_asteroid r fuel x y xm ym size s = some t := by
  obtain ⟨fuel, v, hv⟩ := resample_xm_fair hr s.rng xm
  refine ⟨fuel, ?_⟩
  unfold add_asteroid
  simp only [hv]
  cases first_free (fun i => decide ((s.asteroids i).alive = 0)) 0 kNumAsteroids with
  | none => exact ⟨_, rfl⟩
  | some f => exact ⟨_, rfl⟩

/-- Whatever `add_asteroid` does, it only touches the asteroid pool and the
stream position. -/
theorem add_asteroid_frame {r : Nat → Nat} {fuel : Nat} {x y xm ym size : Int} {s t : Game}
    (h : add_asteroid r fuel x y xm ym size s = some t) :
    ∃ a c, t = { s with rng := c, asteroids := a } := by
  rcases add_asteroid_some h with ⟨_, c, e⟩ | ⟨f, a, c, _, e, _⟩
  · exact ⟨s.asteroids, c, e⟩
  · exact ⟨_, c, e⟩

/-! ## Frame lemmas for `hurt_asteroid` -/

theorem playsound_frame (snd : Int) (s : Game) :
    ∃ c l, playsound snd s = { s with rng := c, sound_log := l } := by
  unfold playsound
  split
  · exact ⟨_, _, rfl⟩
  · exact ⟨s.rng, s.sound_log, rfl⟩

theorem add_score_asteroids (amount : Int) (s : Game) : (add_score amount s).asteroids = s.asteroids := by
  unfold add_score playsound
  dsimp only
  split <;> [split; skip] <;> rfl

theorem add_bit_frame (x y xm ym : Int) (s : Game) : ∃ b, add_bit x y xm ym s = { s with bits := b } := by
  unfold add_bit
  split
  · exact ⟨s.bits, rfl⟩
  · exact ⟨_, rfl⟩

theorem hurt_asteroid_bits_frame (r : Nat → Nat) (j : Nat) (xm ym : Int) (n : Nat) (s : Game) :
    ∃ b c, hurt_asteroid_bits r j xm ym n s = { s with bits := b, rng := c } := by
  induction n generalizing s with
  | zero => exact ⟨s.bits, s.rng, rfl⟩
  | succ n ih =>
    simp only [hurt_asteroid_bits]
    obtain ⟨b1, e1⟩ := add_bit_frame
      ((s.asteroids j).x - (s.asteroids j).size * kAsteroidsRadius
        + Int.tmod (r s.rng) (kAsteroidsRadius * 2))
      ((s.asteroids j).y - (s.asteroids j).size * kAsteroidsRadius
        + Int.tmod (r (s.rng + 1)) (kAsteroidsRadius * 2))
      (Int.tmod (r (s.rng + 2)) ((s.asteroids j).size * 3) - (s.asteroids j).size
        + Int.tdiv (xm + (s.asteroids j).xm) 3)
      (Int.tmod (r (s.rng + 3)) ((s.asteroids j).size * 3) - (s.asteroids j).size
        + Int.tdiv (ym + (s.asteroids j).ym) 3)
      { s with rng := s.rng + 4 }
    rw [e1]
    obtain ⟨b2, c2, e2⟩ := ih { s with rng := s.rng + 4, bits := b1 }
    exact ⟨b2, c2, e2⟩

theorem hurt_asteroid_split_frame {r : Nat → Nat} {fuel j : Nat} {xm ym : Int} {s t : Game}
    (h : hurt_asteroid_split r fuel j xm ym s = some t) :
    ∃ a c, t = { s with rng := c, asteroids := a } := by
  unfold hurt_asteroid_split at h
  split at h
  · cases h1 : add_asteroid r fuel (s.asteroids j).x (s.asteroids j).y
        (Int.tdiv ((s.asteroids j).xm + xm) 2) ((s.asteroids j).ym + ym)
        ((s.asteroids j).size - 1) s with
    | none => simp [h1] at h
    | some s1 =>
      simp only [h1] at h
      obtain ⟨a1, c1, e1⟩ := add_asteroid_frame h1
      obtain ⟨a2, c2, e2⟩ := add_asteroid_frame h
      subst e1
      exact ⟨a2, c2, e2⟩
  · simp only [Option.some.injEq] at h
    subst h
    exact ⟨s.asteroids, s.rng, rfl⟩

/-- The decomposition of a returning `hurt_asteroid` call into its four stages. -/
theorem hurt_asteroid_some {r : Nat → Nat} {fuel j : Nat} {xm ym : Int} {n : Nat} {s t : Game}
    (h : hurt_asteroid r fuel j xm ym n s = some t) :
    ∃ s2, hurt_asteroid_split r fuel j xm ym
        (add_score (Int.tdiv 100 ((s.asteroids j).size + 1)) s) = some s2 ∧
      t = hurt_asteroid_bits r j xm ym n
        (playsound (SND_AST1 + (s2.asteroids j).size - 1)
          { s2 with asteroids := Function.update s2.asteroids j { s2.asteroids j with alive := 0 } }) := by
  unfold hurt_asteroid at h
  dsimp only at h
  cases h2 : hurt_asteroid_split r fuel j xm ym
      (add_score (Int.tdiv 100 ((s.asteroids j).size + 1)) s) with
  | none => simp [h2] at h
  | some s2 =>
    simp only [h2, Option.some.injEq, Function.update_same] at h
    exact ⟨s2, rfl, h.symm⟩

theorem hurt_asteroid_asteroids {r : Nat → Nat} {fuel j : Nat} {xm ym : Int} {n : Nat} {s t : Game}
    (h : hurt_asteroid r fuel j xm ym n s = some t) :
    ∃ s2, hurt_asteroid_split r fuel j xm ym
        (add_score (Int.tdiv 100 ((s.asteroids j).size + 1)) s) = some s2 ∧
      t.asteroids = Function.update s2.asteroids j { s2.asteroids j with alive := 0 } := by
  obtain ⟨s2, h2, e⟩ := hurt_asteroid_some h
  refine ⟨s2, h2, ?_⟩
  obtain ⟨c, l, e1⟩ := playsound_frame (SND_AST1 + (s2.asteroids j).size - 1)
    { s2 with asteroids := Function.update s2.asteroids j { s2.asteroids j with alive := 0 } }
  obtain ⟨b, c2, e2⟩ := hurt_asteroid_bits_frame r j xm ym n
    (playsound (SND_AST1 + (s2.asteroids j).size - 1)
      { s2 with asteroids := Function.update s2.asteroids j { s2.asteroids j with alive := 0 } })
  rw [e, e2, e1]

/-! ## Splitting a rock -/

theorem hurt_asteroid_split_small {r : Nat → Nat} {fuel j : Nat} {xm ym : Int} {s : Game}
    (h : ¬ 1 < (s.asteroids j).size) : hurt_asteroid_split r fuel j xm ym s = some s := by
  unfold hurt_asteroid_split
  rw [if_neg (by simpa using h)]

theorem hurt_asteroid_split_big {r : Nat → Nat} {fuel j : Nat} {xm ym : Int} {s t : Game}
    (hlive : (s.asteroids j).alive ≠ 0) (hS : 1 < (s.asteroids j).size)
    (hfree : ∃ p q, p < q ∧ q < kNumAsteroids ∧ (s.asteroids p).alive = 0 ∧ (s.asteroids q).alive = 0)
    (h : hurt_asteroid_split r fuel j xm ym s = some t) :
    ∃ f1 f2 a1 a2, f1 < f2 ∧ f2 < kNumAsteroids ∧ f1 ≠ j ∧ f2 ≠ j ∧
      (s.asteroids f1).alive = 0 ∧ (s.asteroids f2).alive = 0 ∧
      (∀ i, i < f2 → i ≠ f1 → (s.asteroids i).alive ≠ 0) ∧
      t.asteroids = Function.update (Function.update s.asteroids f1 a1) f2 a2 ∧
      a1.alive = 1 ∧ a1.size = (s.asteroids j).size - 1 ∧
      a1.x = (s.asteroids j).x ∧ a1.y = (s.asteroids j).y ∧
      a2.alive = 1 ∧ a2.size = (s.asteroids j).size - 1 ∧
      a2.x = (s.asteroids j).x ∧ a2.y = (s.asteroids j).y := by
  obtain ⟨p, q, hpq, hq, hp0, hq0⟩ := hfree
  unfold hurt_asteroid_split at h
  rw [if_pos (by simpa using hS)] at h
  cases h1 : add_asteroid r fuel (s.asteroids j).x (s.asteroids j).y
      (Int.tdiv ((s.asteroids j).xm + xm) 2) ((s.asteroids j).ym + ym)
      ((s.asteroids j).size - 1) s with
  | none => simp [h1] at h
  | some s1 =>
    simp only [h1] at h
    rcases add_asteroid_some h1 with ⟨hn, _⟩ | ⟨f1, a1, c1, hf1, e1, ha1, hx1, hy1, hs1, _, _⟩
    · have := first_free_none.mp hn p (Nat.zero_le _) (by omega)
      simp [hp0] at this
    · obtain ⟨_, hf1lt, hf1free, hf1low⟩ := first_free_some hf1
      have hf1free : (s.asteroids f1).alive = 0 := by simpa using hf1free
      have hf1j : f1 ≠ j := by
        intro e
        rw [e] at hf1free
        exact hlive hf1free
      have hs1j : s1.asteroids j = s.asteroids j := by
        rw [e1]
        exact Function.update_noteq (Ne.symm hf1j) _ _
      rw [hs1j] at h
      rcases add_asteroid_some h with ⟨hn, _⟩ | ⟨f2, a2, c2, hf2, e2, ha2, hx2, hy2, hs2, _, _⟩
      · -- one of the two free slots is still free
        have hp := first_free_none.mp hn p (Nat.zero_le _) (by omega)
        have hq := first_free_none.mp hn q (Nat.zero_le _) (by omega)
        rw [e1] at hp hq
        by_cases e : p = f1
        · have hqf : q ≠ f1 := by omega
          simp [Function.update_noteq hqf, hq0] at hq
        · simp [Function.update_noteq e, hp0] at hp
      · obtain ⟨_, hf2lt, hf2free, hf2low⟩ := first_free_some hf2
        have hf2free : (s1.asteroids f2).alive = 0 := by simpa using hf2free
        have hf21 : f2 ≠ f1 := by
          intro e
          rw [e, e1] at hf2free
          simp [ha1] at hf2free
        have hf2s : (s.asteroids f2).alive = 0 := by
          rw [e1] at hf2free
          simpa [Function.update_noteq hf21] using hf2free
        have hf2j : f2 ≠ j := by
          intro e
          rw [e] at hf2s
          exact hlive hf2s
        have hlt : f1 < f2 := by
          rcases Nat.lt_or_ge f2 f1 with hlt | hge
          · have := hf1low f2 (Nat.zero_le _) hlt
            simp [hf2s] at this
          · omega
        refine ⟨f1, f2, a1, a2, hlt, by simpa using hf2lt, hf1j, hf2j, hf1free, hf2s, ?_, ?_,
          ha1, hs1, hx1, hy1, ha2, hs2, hx2, hy2⟩
        · intro i hi hne
          have := hf2low i (Nat.zero_le _) hi
          rw [e1] at this
          simpa [Function.update_noteq hne] using this
        · rw [e2, e1]

theorem hurt_asteroid_split_mono {r : Nat → Nat} {fuel j : Nat} {xm ym : Int} {s t : Game} (d : Nat)
    (h : hurt_asteroid_split r fuel j xm ym s = some t) :
    hurt_asteroid_split r (fuel + d) j xm ym s = some t := by
  unfold hurt_asteroid_split at h ⊢
  split
  · rename_i hS
    rw [if_pos hS] at h
    cases h1 : add_asteroid r fuel (s.asteroids j).x (s.asteroids j).y
        (Int.tdiv ((s.asteroids j).xm + xm) 2) ((s.asteroids j).ym + ym)
        ((s.asteroids j).size - 1) s with
    | none => simp [h1] at h
    | some s1 =>
      simp only [h1] at h
      rw [add_asteroid_mono d h1]
      exact add_asteroid_mono d h
  · rename_i hS
    rw [if_neg hS] at h
    exact h

theorem hurt_asteroid_split_terminates {r : Nat → Nat} (hr : Fair r) (j : Nat) (xm ym : Int) (s : Game) :
    ∃ fuel t, hurt_asteroid_split r fuel j xm ym s = some t := by
  by_cases hS : 1 < (s.asteroids j).size
  · obtain ⟨n1, s1, h1⟩ := add_asteroid_terminates hr (s.asteroids j).x (s.asteroids j).y
      (Int.tdiv ((s.asteroids j).xm + xm) 2) ((s.asteroids j).ym + ym) ((s.asteroids j).size - 1) s
    obtain ⟨n2, s2, h2⟩ := add_asteroid_terminates hr (s1.asteroids j).x (s1.asteroids j).y
      ((s1.asteroids j).xm + xm) (Int.tdiv ((s1.asteroids j).ym + ym) 2) ((s1.asteroids j).size - 1) s1
    refine ⟨n1 + n2, s2, ?_⟩
    unfold hurt_asteroid_split
    rw [if_pos (by simpa using hS), add_asteroid_mono n2 h1]
    have := add_asteroid_mono n1 h2
    rw [Nat.add_comm] at this
    exact this
  · exact ⟨0, s, hurt_asteroid_split_small hS⟩

theorem hurt_asteroid_mono {r : Nat → Nat} {fuel j : Nat} {xm ym : Int} {n : Nat} {s t : Game} (d : Nat)
    (h : hurt_asteroid r fuel j xm ym n s = some t) :
    hurt_asteroid r (fuel + d) j xm ym n s = some t := by
  obtain ⟨s2, h2, e⟩ := hurt_asteroid_some h
  unfold hurt_asteroid
  dsimp only
  rw [hurt_asteroid_split_mono d h2, e]
  simp only [Function.update_same]

theorem hurt_asteroid_terminates {r : Nat → Nat} (hr : Fair r) (j : Nat) (xm ym : Int) (n : Nat)
    (s : Game) : ∃ fuel t, hurt_asteroid r fuel j xm ym n s = some t := by
  obtain ⟨fuel, s2, h2⟩ := hurt_asteroid_split_terminates hr j xm ym
    (add_score (Int.tdiv 100 ((s.asteroids j).size + 1)) s)
  refine ⟨fuel, ?_⟩
  unfold hurt_asteroid
  dsimp only
  rw [h2]
  exact ⟨_, rfl⟩

/-! ## add_score -/

theorem to_size_t_of_nonneg {x : Int} (h0 : 0 ≤ x) (h1 : x < (SIZE_T_MOD : Int)) :
    to_size_t x = x.toNat := by
  unfold to_size_t
  rw [Int.emod_eq_of_lt h0 h1]

theorem add_score_score (amount : Int) (s : Game) :
    (add_score amount s).score = (s.score + to_size_t amount) % SIZE_T_MOD := by
  unfold add_score playsound
  dsimp only
  split <;> [split; skip] <;> rfl

theorem add_score_cross {amount : Int} {s : Game}
    (h : s.score / kOneUpScore < ((s.score + to_size_t amount) % SIZE_T_MOD) / kOneUpScore) :
    (add_score amount s).lives = (s.lives + 1) % SIZE_T_MOD ∧
    (add_score amount s).zoom_str = "EXTRA LIFE" ∧
    (add_score amount s).text_zoom = kZoomStart := by
  unfold add_score playsound
  dsimp only
  rw [if_pos h]
  split <;> exact ⟨rfl, rfl, rfl⟩

theorem add_score_no_cross {amount : Int} {s : Game}
    (h : ¬ s.score / kOneUpScore < ((s.score + to_size_t amount) % SIZE_T_MOD) / kOneUpScore) :
    (add_score amount s).lives = s.lives ∧
    (add_score amount s).zoom_str = s.zoom_str ∧
    (add_score amount s).text_zoom = s.text_zoom := by
  unfold add_score
  dsimp only
  rw [if_neg h]
  exact ⟨rfl, rfl, rfl⟩

theorem tdiv_100_bounds {S : Int} (hS : 1 ≤ S) :
    0 ≤ Int.tdiv 100 (S + 1) ∧ Int.tdiv 100 (S + 1) ≤ 50 := by
  rw [Int.tdiv_eq_ediv (by decide) (by omega)]
  exact ⟨Int.ediv_nonneg (by decide) (by omega), Int.ediv_le_of_le_mul (by omega) (by omega)⟩

/-- A returning `hurt_asteroid` call changes, beyond what `add_score` does, only
the asteroid pool, the bit pool, the stream position and the sound log. -/
theorem hurt_asteroid_frame {r : Nat → Nat} {fuel j : Nat} {xm ym : Int} {n : Nat} {s t : Game}
    (h : hurt_asteroid r fuel j xm ym n s = some t) :
    ∃ a b c l, t = { add_score (Int.tdiv 100 ((s.asteroids j).size + 1)) s with
      asteroids := a, bits := b, rng := c, sound_log := l } := by
  obtain ⟨s2, h2, e⟩ := hurt_asteroid_some h
  obtain ⟨a2, c2, e2⟩ := hurt_asteroid_split_frame h2
  obtain ⟨c3, l3, e3⟩ := playsound_frame (SND_AST1 + (s2.asteroids j).size - 1)
    { s2 with asteroids := Function.update s2.asteroids j { s2.asteroids j with alive := 0 } }
  obtain ⟨b4, c4, e4⟩ := hurt_asteroid_bits_frame r j xm ym n
    (playsound (SND_AST1 + (s2.asteroids j).size - 1)
      { s2 with asteroids := Function.update s2.asteroids j { s2.asteroids j with alive := 0 } })
  rw [e4, e3] at e
  refine ⟨Function.update s2.asteroids j { s2.asteroids j with alive := 0 }, b4, c4, l3, ?_⟩
  rw [e, e2]

/-! ## Death handling -/

theorem respawn_scan_dead {s : Game} (h : s.player_alive = 0) (n lo : Nat) :
    respawn_scan n lo s = s := by
  cases n <;> simp [respawn_scan, truthy, h]

theorem respawn_scan_hit {s : Game} (h : s.player_alive ≠ 0) (n lo : Nat)
    (hx : ∃ i, lo ≤ i ∧ i < lo + n ∧ too_close s i = true) :
    respawn_scan n lo s = { s with player_alive := 0 } := by
  induction n generalizing lo with
  | zero =>
    obtain ⟨i, h1, h2, _⟩ := hx
    omega
  | succ n ih =>
    have ht : truthy s.player_alive = true := by simp [truthy, h]
    simp only [respawn_scan, ht, if_true]
    by_cases hc : too_close s lo = true
    · rw [if_pos hc]
      exact respawn_scan_dead rfl n (lo + 1)
    · rw [if_neg hc]
      apply ih
      obtain ⟨i, h1, h2, h3⟩ := hx
      have hne : i ≠ lo := by
        intro e
        rw [e] at h3
        exact hc h3
      exact ⟨i, by omega, by omega, h3⟩

theorem respawn_scan_clear {s : Game} (n lo : Nat)
    (hx : ∀ i, lo ≤ i → i < lo + n → too_close s i = false) :
    respawn_scan n lo s = s := by
  induction n generalizing lo with
  | zero => rfl
  | succ n ih =>
    simp only [respawn_scan]
    split
    · rw [hx lo (le_refl _) (by omega)]
      simp only [Bool.false_eq_true, if_false]
      exact ih (lo + 1) (fun i h1 h2 => hx i (by omega) (by omega))
    · rfl

theorem respawn_reset_alive (s : Game) : (respawn_reset s).player_alive ≠ 0 :=
  show (1 : Int) ≠ 0 by decide

theorem respawn_reset_too_close (s : Game) (i : Nat) :
    too_close (respawn_reset s) i = true ↔
      ((s.asteroids i).alive ≠ 0 ∧ 144 ≤ (s.asteroids i).x ∧ (s.asteroids i).x ≤ 336 ∧
        144 ≤ (s.asteroids i).y ∧ (s.asteroids i).y ≤ 336) := by
  have e1 : sar (Int.tdiv kScreenWidth 2 * 2 ^ 4) 4 - Int.tdiv kScreenWidth 5 = 144 := by decide
  have e2 : sar (Int.tdiv kScreenWidth 2 * 2 ^ 4) 4 + Int.tdiv kScreenWidth 5 = 336 := by decide
  have e3 : sar (Int.tdiv kScreenHeight 2 * 2 ^ 4) 4 - Int.tdiv kScreenHeight 5 = 144 := by decide
  have e4 : sar (Int.tdiv kScreenHeight 2 * 2 ^ 4) 4 + Int.tdiv kScreenHeight 5 = 336 := by decide
  simp only [too_close, respawn_reset, truthy, e1, e2, e3, e4, Bool.and_eq_true, decide_eq_true_eq,
    ge_iff_le]
  tauto

/-- The two outcomes of the death handling when the timer has run out and lives
remain: the reset ship, alive or kept dead by the scan. -/
theorem handle_death_respawn_cases {s : Game} (hdead : s.player_alive = 0)
    (ht : s.player_die_timer - 1 ≤ 0) (hl : 0 < s.lives) :
    ((s.shift_pressed = true ∨
        ¬ ∃ i, i < kNumAsteroids ∧ (s.asteroids i).alive ≠ 0 ∧
          144 ≤ (s.asteroids i).x ∧ (s.asteroids i).x ≤ 336 ∧
          144 ≤ (s.asteroids i).y ∧ (s.asteroids i).y ≤ 336) →
      handle_death s = respawn_reset s) ∧
    (¬ (s.shift_pressed = true ∨
        ¬ ∃ i, i < kNumAsteroids ∧ (s.asteroids i).alive ≠ 0 ∧
          144 ≤ (s.asteroids i).x ∧ (s.asteroids i).x ≤ 336 ∧
          144 ≤ (s.asteroids i).y ∧ (s.asteroids i).y ≤ 336) →
      handle_death s = { respawn_reset s with player_alive := 0 }) := by
  have e : handle_death s =
      if (!s.shift_pressed) = true then respawn_scan kNumAsteroids 0 (respawn_reset s)
      else respawn_reset s := by
    unfold handle_death
    rw [if_pos hdead]
    dsimp only
    rw [if_pos ht, if_pos hl]
    rfl
  rw [e]
  constructor
  · rintro (hs | hx)
    · rw [if_neg (by simp [hs])]
    · by_cases hs : s.shift_pressed = true
      · rw [if_neg (by simp [hs])]
      · rw [if_pos (by simpa using hs)]
        apply respawn_scan_clear
        intro i _ hi
        have hn : ¬ too_close (respawn_reset s) i = true :=
          fun hc => hx ⟨i, by omega, (respawn_reset_too_close s i).mp hc⟩
        simpa using hn
  · intro hn
    have hs : ¬ s.shift_pressed = true := fun h => hn (Or.inl h)
    have hx : ∃ i, i < kNumAsteroids ∧ (s.asteroids i).alive ≠ 0 ∧
          144 ≤ (s.asteroids i).x ∧ (s.asteroids i).x ≤ 336 ∧
          144 ≤ (s.asteroids i).y ∧ (s.asteroids i).y ≤ 336 := by
      by_contra h
      exact hn (Or.inr h)
    obtain ⟨i, hi, hrest⟩ := hx
    rw [if_pos (by simpa using hs)]
    exact respawn_scan_hit (respawn_reset_alive s) kNumAsteroids 0
      ⟨i, Nat.zero_le _, by omega, (respawn_reset_too_close s i).mpr hrest⟩

/-! ## Level population -/

theorem live_count_le (a : Nat → asteroid_type) (n : Nat) : live_count a n ≤ n := by
  induction n with
  | zero => exact Nat.le_refl _
  | succ n ih =>
    simp only [live_count]
    split <;> omega

theorem live_count_zero {a : Nat → asteroid_type} {n : Nat} (h : ∀ i, i < n → (a i).alive = 0) :
    live_count a n = 0 := by
  induction n with
  | zero => rfl
  | succ n ih =>
    simp only [live_count, ih (fun i hi => h i (by omega))]
    rw [if_neg (by simp [h n (by omega)])]

theorem live_count_free {a : Nat → asteroid_type} {n : Nat} (h : live_count a n < n) :
    ∃ i, i < n ∧ (a i).alive = 0 := by
  induction n with
  | zero => omega
  | succ n ih =>
    by_cases hn : (a n).alive = 0
    · exact ⟨n, by omega, hn⟩
    · simp only [live_count] at h
      rw [if_pos hn] at h
      obtain ⟨i, hi, h0⟩ := ih (by omega)
      exact ⟨i, by omega, h0⟩

theorem add_asteroid_count {r : Nat → Nat} {fuel : Nat} {x y xm ym size : Int} {s t : Game}
    (h : add_asteroid r fuel x y xm ym size s = some t)
    (hroom : live_count s.asteroids kNumAsteroids < kNumAsteroids) :
    live_count t.asteroids kNumAsteroids = live_count s.asteroids kNumAsteroids + 1 := by
  obtain ⟨i, hi, h0⟩ := live_count_free hroom
  rcases add_asteroid_some h with ⟨hn, _⟩ | ⟨f, a, c, hf, e, ha, _⟩
  · have := first_free_none.mp hn i (Nat.zero_le _) (by omega)
    simp [h0] at this
  · obtain ⟨_, hlt, hfree, _⟩ := first_free_some hf
    have hfree : (s.asteroids f).alive = 0 := by simpa using hfree
    have c1 := live_count_update_lt (a := s.asteroids) a (show f < kNumAsteroids by omega)
    rw [if_neg (by simp [hfree]), if_pos (by simp [ha])] at c1
    rw [e]
    exact c1

theorem reset_level_spawn_some {r : Nat → Nat} {fuel n : Nat} {s t : Game}
    (h : reset_level_spawn r fuel n s = some t)
    (hroom : live_count s.asteroids kNumAsteroids + n ≤ kNumAsteroids) :
    live_count t.asteroids kNumAsteroids = live_count s.asteroids kNumAsteroids + n ∧
    (∃ a c, t = { s with asteroids := a, rng := c }) := by
  induction n generalizing s with
  | zero =>
    simp only [reset_level_spawn, Option.some.injEq] at h
    subst h
    exact ⟨rfl, s.asteroids, s.rng, rfl⟩
  | succ n ih =>
    simp only [reset_level_spawn] at h
    split at h
    · cases h
    · rename_i s1 h1
      have hc := add_asteroid_count h1 (by show live_count s.asteroids _ < _; omega)
      obtain ⟨a1, c1, e1⟩ := add_asteroid_frame h1
      have hc1 : live_count s1.asteroids kNumAsteroids = live_count s.asteroids kNumAsteroids + 1 := hc
      obtain ⟨hn, a2, c2, e2⟩ := ih h (by omega)
      refine ⟨by omega, a2, c2, ?_⟩
      rw [e2, e1]

theorem reset_level_spawn_mono {r : Nat → Nat} {fuel n : Nat} {s t : Game} (d : Nat)
    (h : reset_level_spawn r fuel n s = some t) : reset_level_spawn r (fuel + d) n s = some t := by
  induction n generalizing s with
  | zero => exact h
  | succ n ih =>
    simp only [reset_level_spawn] at h ⊢
    split at h
    · cases h
    · rename_i s1 h1
      rw [add_asteroid_mono d h1]
      exact ih h

theorem reset_level_spawn_terminates {r : Nat → Nat} (hr : Fair r) (n : Nat) (s : Game) :
    ∃ fuel t, reset_level_spawn r fuel n s = some t := by
  induction n generalizing s with
  | zero => exact ⟨0, s, rfl⟩
  | succ n ih =>
    obtain ⟨f1, s1, h1⟩ := add_asteroid_terminates hr
      (((r s.rng % 40 : Nat) : Int) + (kScreenWidth - 40) * ((r (s.rng + 1) % 2 : Nat) : Int))
      (Int.tmod (r (s.rng + 2)) kScreenHeight)
      (((r (s.rng + 3) % 9 : Nat) : Int) - 4)
      ((((r (s.rng + 4) % 9 : Nat) : Int) - 4) * 4)
      (((r (s.rng + 5) % 3 : Nat) : Int) + 2)
      { s with rng := s.rng + 6 }
    obtain ⟨f2, t, h2⟩ := ih s1
    refine ⟨f1 + f2, t, ?_⟩
    simp only [reset_level_spawn]
    rw [add_asteroid_mono f2 h1]
    have := reset_level_spawn_mono f1 h2
    rw [Nat.add_comm] at this
    exact this

theorem reset_level_terminates {r : Nat → Nat} (hr : Fair r) (s : Game) :
    ∃ fuel t, reset_level r fuel s = some t := by
  unfold reset_level
  dsimp only
  obtain ⟨fuel, t, h⟩ := reset_level_spawn_terminates hr (min ((s.level + 1) % SIZE_T_MOD) 10)
    { s with
      bullets := fun i => if i < kNumBullets then { s.bullets i with timer := 0 } else s.bullets i,
      asteroids := fun i =>
        if i < kNumAsteroids then { s.asteroids i with alive := 0 } else s.asteroids i,
      bits := fun i => if i < kNumBits then { s.bits i with timer := 0 } else s.bits i }
  exact ⟨fuel, _, by rw [h]⟩

/-- What a returning `reset_level` leaves behind. -/
theorem reset_level_some {r : Nat → Nat} {fuel : Nat} {s t : Game}
    (h : reset_level r fuel s = some t) :
    live_count t.asteroids kNumAsteroids = min ((s.level + 1) % SIZE_T_MOD) 10 ∧
    (∀ i, i < kNumBullets → (t.bullets i).timer = 0) ∧
    (∀ i, i < kNumBits → (t.bits i).timer = 0) ∧
    t.text_zoom = kZoomStart ∧ t.zoom_str = "LEVEL " ++ fmt_ld s.level ∧
    t.level = s.level ∧ t.lives = s.lives ∧ t.score = s.score ∧
    t.player_alive = s.player_alive ∧ t.game_pending = s.game_pending := by
  unfold reset_level at h
  dsimp only at h
  split at h
  · cases h
  · rename_i s2 h2
    have hz : live_count (fun i =>
        if i < kNumAsteroids then { s.asteroids i with alive := 0 } else s.asteroids i)
        kNumAsteroids = 0 := by
      apply live_count_zero
      intro i hi
      simp only [hi, if_true]
    obtain ⟨hc, a, c, e⟩ := reset_level_spawn_some h2 (by
      show live_count _ kNumAsteroids + _ ≤ _
      rw [hz]
      have : min ((s.level + 1) % SIZE_T_MOD) 10 ≤ 10 := Nat.min_le_right _ _
      unfold kNumAsteroids
      omega)
    simp only [Option.some.injEq] at h
    subst h
    rw [e] at hc ⊢
    refine ⟨?_, ?_, ?_, rfl, rfl, rfl, rfl, rfl, rfl, rfl⟩
    · show live_count a kNumAsteroids = _
      have hc2 : live_count a kNumAsteroids = live_count (fun i =>
        if i < kNumAsteroids then { s.asteroids i with alive := 0 } else s.asteroids i)
        kNumAsteroids + min ((s.level + 1) % SIZE_T_MOD) 10 := hc
      rw [hc2, hz, Nat.zero_add]
    · intro i hi
      show (if i < kNumBullets then ({ s.bullets i with timer := 0 } : bullet_type)
        else s.bullets i).timer = 0
      rw [if_pos hi]
    · intro i hi
      show (if i < kNumBits then ({ s.bits i with timer := 0 } : bit_type) else s.bits i).timer = 0
      rw [if_pos hi]

theorem game_start_new {r : Nat → Nat} {fuel : Nat} {s t : Game} (hp : s.game_pending = false)
    (h : game_start r fuel s = some t) :
    ∃ t1, reset_level r fuel
        { s with lives := 3, score := 0, player_alive := 1, player_die_timer := 0, player_angle := 90,
                 player_x := Int.tdiv kScreenWidth 2 * 2 ^ 4,
                 player_y := Int.tdiv kScreenHeight 2 * 2 ^ 4,
                 player_xm := 0, player_ym := 0, level := 1 } = some t1 ∧
      t = { t1 with game_pending := true } := by
  unfold game_start at h
  rw [if_pos (by simp [hp])] at h
  split at h
  · cases h
  · rename_i t1 h1
    simp only [Option.some.injEq] at h
    exact ⟨t1, h1, h.symm⟩

/-! ## Bullets against asteroids -/

theorem add_score_frame (amount : Int) (s : Game) :
    ∃ l z tz c sl sc, add_score amount s =
      { s with lives := l, zoom_str := z, text_zoom := tz, rng := c, sound_log := sl, score := sc } := by
  unfold add_score playsound
  dsimp only
  split <;> [split; skip] <;> exact ⟨_, _, _, _, _, _, rfl⟩

theorem hurt_asteroid_bullets {r : Nat → Nat} {fuel j : Nat} {xm ym : Int} {n : Nat} {s t : Game}
    (h : hurt_asteroid r fuel j xm ym n s = some t) : t.bullets = s.bullets := by
  obtain ⟨a, b, c, l, e⟩ := hurt_asteroid_frame h
  obtain ⟨l1, z, tz, c1, sl, sc, e1⟩ := add_score_frame (Int.tdiv 100 ((s.asteroids j).size + 1)) s
  rw [e, e1]

theorem bullet_hits_iff (s : Game) (i j : Nat) :
    bullet_hits s i j = true ↔
      (|(s.bullets i).x - (s.asteroids j).x| ≤ 10 * (s.asteroids j).size + 5 ∧
       |(s.bullets i).y - (s.asteroids j).y| ≤ 10 * (s.asteroids j).size + 5) := by
  simp only [bullet_hits, kAsteroidsRadius, Bool.and_eq_true, decide_eq_true_eq, ge_iff_le, abs_le]
  constructor
  · rintro ⟨⟨⟨h1, h2⟩, h3⟩, h4⟩
    exact ⟨⟨by omega, by omega⟩, ⟨by omega, by omega⟩⟩
  · rintro ⟨⟨h1, h2⟩, ⟨h3, h4⟩⟩
    exact ⟨⟨⟨by omega, by omega⟩, by omega⟩, by omega⟩

/-- A spent bullet scans without effect. -/
theorem bullet_scan_spent {r : Nat → Nat} {fuel i : Nat} {s : Game} (h : ¬ 0 < (s.bullets i).timer)
    (n lo : Nat) : bullet_scan r fuel i n lo s = some s := by
  induction n generalizing lo with
  | zero => rfl
  | succ n ih =>
    simp only [bullet_scan]
    rw [if_neg (by simp [h])]
    exact ih (lo + 1)

/-- The scan up to its first hit. -/
theorem bullet_scan_first (r : Nat → Nat) (fuel : Nat) {i j : Nat} {s : Game}
    (htimer : 0 < (s.bullets i).timer) (hlive : (s.asteroids j).alive ≠ 0)
    (hhit : bullet_hits s i j = true)
    (hlow : ∀ k, k < j → ¬ ((s.asteroids k).alive ≠ 0 ∧ bullet_hits s i k = true))
    (n lo : Nat) (h1 : lo ≤ j) (h2 : j < lo + n) :
    bullet_scan r fuel i n lo s =
      hurt_asteroid r fuel j (s.bullets i).xm (s.bullets i).ym (to_size_t ((s.asteroids j).size * 3))
        { s with bullets := Function.update s.bullets i { s.bullets i with timer := 0 } } := by
  induction n generalizing lo with
  | zero => omega
  | succ n ih =>
    simp only [bullet_scan]
    by_cases e : lo = j
    · subst e
      rw [if_pos (by simp [htimer, truthy, hlive]), if_pos hhit]
      simp only [Function.update_same]
      cases hh : hurt_asteroid r fuel lo (s.bullets i).xm (s.bullets i).ym
          (to_size_t ((s.asteroids lo).size * 3))
          { s with bullets := Function.update s.bullets i { s.bullets i with timer := 0 } } with
      | none => rfl
      | some t =>
        simp only []
        apply bullet_scan_spent
        rw [hurt_asteroid_bullets hh]
        simp only [Function.update_same]
        decide
    · have hk := hlow lo (by omega)
      by_cases hl : (s.asteroids lo).alive ≠ 0
      · have hm : ¬ bullet_hits s i lo = true := fun hb => hk ⟨hl, hb⟩
        rw [if_pos (by simp [htimer, truthy, hl]), if_neg hm]
        exact ih (lo + 1) (by omega) (by omega)
      · rw [if_neg (by simp [truthy, hl])]
        exact ih (lo + 1) (by omega) (by omega)

/-- The children of a split rock; the content of `hurt_asteroid` on the
asteroid pool when the rock is larger than size 1 and two slots are free. -/
theorem hurt_asteroid_big {r : Nat → Nat} {fuel j : Nat} {xm ym : Int} {n : Nat} {s t : Game}
    (hlive : (s.asteroids j).alive ≠ 0) (hS : 1 < (s.asteroids j).size)
    (hfree : ∃ p q, p < q ∧ q < kNumAsteroids ∧ (s.asteroids p).alive = 0 ∧ (s.asteroids q).alive = 0)
    (h : hurt_asteroid r fuel j xm ym n s = some t) :
    ∃ f1 f2 a1 a2, f1 < f2 ∧ f2 < kNumAsteroids ∧ f1 ≠ j ∧ f2 ≠ j ∧
      (s.asteroids f1).alive = 0 ∧ (s.asteroids f2).alive = 0 ∧
      t.asteroids = Function.update (Function.update (Function.update s.asteroids f1 a1) f2 a2) j
        { s.asteroids j with alive := 0 } ∧
      a1.alive = 1 ∧ a1.size = (s.asteroids j).size - 1 ∧
      a2.alive = 1 ∧ a2.size = (s.asteroids j).size - 1 := by
  obtain ⟨s2, h2, e⟩ := hurt_asteroid_asteroids h
  have hsc := add_score_asteroids (Int.tdiv 100 ((s.asteroids j).size + 1)) s
  rw [← hsc] at hlive hS hfree
  obtain ⟨f1, f2, a1, a2, h12, hf2, hf1j, hf2j, hf1, hf2z, _, ea, ha1, hs1, _, _, ha2, hs2, _, _⟩ :=
    hurt_asteroid_split_big hlive hS hfree h2
  rw [hsc] at hf1 hf2z hs1 hs2 ea
  have ej : s2.asteroids j = s.asteroids j := by
    rw [ea, Function.update_noteq (Ne.symm hf2j), Function.update_noteq (Ne.symm hf1j)]
  refine ⟨f1, f2, a1, a2, h12, hf2, hf1j, hf2j, hf1, hf2z, ?_, ha1, hs1, ha2, hs2⟩
  rw [e, ej, ea]

/-! ## Asteroids against the ship -/

theorem ship_hit_iff (s : Game) (i : Nat) :
    ship_hit s i = true ↔
      (|(s.asteroids i).x - sar s.player_x 4| ≤ 20 ∧ |(s.asteroids i).y - sar s.player_y 4| ≤ 20 ∧
        s.player_alive ≠ 0) := by
  simp only [ship_hit, kShipRadius, truthy, Bool.and_eq_true, decide_eq_true_eq, ge_iff_le, abs_le]
  constructor
  · rintro ⟨⟨⟨⟨h1, h2⟩, h3⟩, h4⟩, h5⟩
    exact ⟨⟨by omega, by omega⟩, ⟨by omega, by omega⟩, h5⟩
  · rintro ⟨⟨h1, h2⟩, ⟨h3, h4⟩, h5⟩
    exact ⟨⟨⟨⟨by omega, by omega⟩, by omega⟩, by omega⟩, h5⟩

theorem gameover_sounds_frame (s : Game) :
    ∃ c l, gameover_sounds s = { s with rng := c, sound_log := l } := by
  unfold gameover_sounds
  split
  · obtain ⟨c1, l1, e1⟩ := playsound_frame SND_GAMEOVER s
    obtain ⟨c2, l2, e2⟩ := playsound_frame SND_GAMEOVER (playsound SND_GAMEOVER s)
    obtain ⟨c3, l3, e3⟩ := playsound_frame SND_GAMEOVER
      (playsound SND_GAMEOVER (playsound SND_GAMEOVER s))
    rw [e3, e2, e1]
    exact ⟨c3, l3, rfl⟩
  · exact ⟨s.rng, s.sound_log, rfl⟩

theorem ship_dies_frame (s : Game) :
    ∃ c l, ship_dies s = { s with
      player_alive := 0,
      player_die_timer := (if (s.lives + (SIZE_T_MOD - 1)) % SIZE_T_MOD = 0 then 100 else 30),
      rng := c, sound_log := l,
      lives := (s.lives + (SIZE_T_MOD - 1)) % SIZE_T_MOD } := by
  obtain ⟨c1, l1, e1⟩ := playsound_frame SND_EXPLODE { s with player_alive := 0, player_die_timer := 30 }
  unfold ship_dies
  dsimp only
  rw [e1]
  dsimp only
  by_cases h0 : (s.lives + (SIZE_T_MOD - 1)) % SIZE_T_MOD = 0
  · rw [if_pos h0, if_pos h0]
    obtain ⟨c2, l2, e2⟩ := gameover_sounds_frame
      { s with player_alive := 0, player_die_timer := 30, rng := c1, sound_log := l1,
               lives := (s.lives + (SIZE_T_MOD - 1)) % SIZE_T_MOD }
    rw [e2]
    exact ⟨c2, l2, rfl⟩
  · rw [if_neg h0, if_neg h0]
    exact ⟨c1, l1, rfl⟩

theorem asteroid_moved_size (c : Int) (a : asteroid_type) : (asteroid_moved c a).size = a.size := by
  unfold asteroid_moved
  dsimp only
  split <;> rfl

theorem add_score_lives (amount : Int) (s : Game) :
    (add_score amount s).lives =
      if s.score / kOneUpScore < ((s.score + to_size_t amount) % SIZE_T_MOD) / kOneUpScore
      then (s.lives + 1) % SIZE_T_MOD else s.lives := by
  split
  · rename_i h
    exact (add_score_cross h).1
  · rename_i h
    exact (add_score_no_cross h).1

theorem move_asteroid_dead (r : Nat → Nat) (fuel i : Nat) {s : Game} (h : s.player_alive = 0) :
    ∃ a k, move_asteroid r fuel i s = some { s with asteroids := a, num_asteroids_alive := k } := by
  unfold move_asteroid
  split
  · have hm : ship_hit { s with
        num_asteroids_alive := s.num_asteroids_alive + 1,
        asteroids := Function.update s.asteroids i (asteroid_moved s.counter (s.asteroids i)) } i
        = false := by
      simp [ship_hit, truthy, h]
    dsimp only
    rw [hm]
    exact ⟨_, _, rfl⟩
  · exact ⟨s.asteroids, s.num_asteroids_alive, rfl⟩

theorem move_asteroids_from_dead (r : Nat → Nat) (fuel : Nat) (n i : Nat) {s : Game}
    (h : s.player_alive = 0) :
    ∃ a k, move_asteroids_from r fuel n i s = some { s with asteroids := a, num_asteroids_alive := k } := by
  induction n generalizing i s with
  | zero => exact ⟨s.asteroids, s.num_asteroids_alive, rfl⟩
  | succ n ih =>
    obtain ⟨a1, k1, e1⟩ := move_asteroid_dead r fuel i h
    obtain ⟨a2, k2, e2⟩ := ih (i + 1)
      (s := { s with asteroids := a1, num_asteroids_alive := k1 }) h
    simp only [move_asteroids_from, e1]
    exact ⟨a2, k2, e2⟩

theorem move_asteroid_hit {r : Nat → Nat} {fuel i : Nat} {s : Game}
    (hlive : (s.asteroids i).alive ≠ 0)
    (hhit : ship_hit { s with
      num_asteroids_alive := s.num_asteroids_alive + 1,
      asteroids := Function.update s.asteroids i (asteroid_moved s.counter (s.asteroids i)) } i = true) :
    move_asteroid r fuel i s = Option.map ship_dies
      (hurt_asteroid r fuel i (sar s.player_xm 4) (sar s.player_ym 4) kNumBits
        { s with
          num_asteroids_alive := s.num_asteroids_alive + 1,
          asteroids := Function.update s.asteroids i (asteroid_moved s.counter (s.asteroids i)) }) := by
  unfold move_asteroid
  rw [if_pos (by simp [truthy, hlive])]
  dsimp only
  rw [if_pos hhit]
  cases hurt_asteroid r fuel i (sar s.player_xm 4) (sar s.player_ym 4) kNumBits
      { s with
        num_asteroids_alive := s.num_asteroids_alive + 1,
        asteroids := Function.update s.asteroids i (asteroid_moved s.counter (s.asteroids i)) } <;> rfl

theorem move_asteroid_miss {r : Nat → Nat} {i : Nat} {s : Game}
    (hmiss : (s.asteroids i).alive ≠ 0 → ship_hit { s with
      num_asteroids_alive := s.num_asteroids_alive + 1,
      asteroids := Function.update s.asteroids i (asteroid_moved s.counter (s.asteroids i)) } i = false) :
    ∃ a k, (∀ fuel, move_asteroid r fuel i s
        = some { s with asteroids := a, num_asteroids_alive := k }) ∧
      ∀ j, j ≠ i → a j = s.asteroids j := by
  by_cases hl : (s.asteroids i).alive ≠ 0
  · refine ⟨Function.update s.asteroids i (asteroid_moved s.counter (s.asteroids i)),
      s.num_asteroids_alive + 1, fun fuel => ?_, fun j hj => Function.update_noteq hj _ _⟩
    unfold move_asteroid
    rw [if_pos (by simp [truthy, hl])]
    dsimp only
    rw [hmiss hl]
    rfl
  · refine ⟨s.asteroids, s.num_asteroids_alive, fun fuel => ?_, fun _ _ => rfl⟩
    unfold move_asteroid
    rw [if_neg (by simpa [truthy] using hl)]

/-- What the loop "Move asteroids" leaves behind once it has reached a live
asteroid within reach of a live ship. -/
theorem move_asteroids_from_collision {r : Nat → Nat} {fuel i n : Nat} {s t : Game}
    (hlive : (s.asteroids i).alive ≠ 0)
    (hhit : ship_hit { s with
      num_asteroids_alive := s.num_asteroids_alive + 1,
      asteroids := Function.update s.asteroids i (asteroid_moved s.counter (s.asteroids i)) } i = true)
    (h : move_asteroids_from r fuel (n + 1) i s = some t) :
    t.player_alive = 0 ∧
    t.lives = ((add_score (Int.tdiv 100 ((s.asteroids i).size + 1)) s).lives + (SIZE_T_MOD - 1))
      % SIZE_T_MOD ∧
    t.player_die_timer = (if t.lives = 0 then 100 else 30) := by
  simp only [move_asteroids_from, move_asteroid_hit hlive hhit] at h
  cases hh : hurt_asteroid r fuel i (sar s.player_xm 4) (sar s.player_ym 4) kNumBits
      { s with
        num_asteroids_alive := s.num_asteroids_alive + 1,
        asteroids := Function.update s.asteroids i (asteroid_moved s.counter (s.asteroids i)) } with
  | none => simp [hh] at h
  | some t1 =>
    simp only [hh, Option.map_some'] at h
    obtain ⟨c, l, e⟩ := ship_dies_frame t1
    obtain ⟨a2, k2, e2⟩ := move_asteroids_from_dead r fuel n (i + 1)
      (s := ship_dies t1) (by rw [e])
    rw [e2, Option.some.injEq] at h
    obtain ⟨a, b, c1, l1, e1⟩ := hurt_asteroid_frame hh
    have hl1 : t1.lives = (add_score (Int.tdiv 100 ((s.asteroids i).size + 1)) s).lives := by
      rw [e1]
      show (add_score _ _).lives = _
      rw [add_score_lives, add_score_lives]
      simp only [Function.update_same, asteroid_moved_size]
    have ht : t = { ship_dies t1 with asteroids := a2, num_asteroids_alive := k2 } := h.symm
    have hlives : t.lives = (t1.lives + (SIZE_T_MOD - 1)) % SIZE_T_MOD := by
      rw [ht, e]
    refine ⟨by rw [ht, e], by rw [hlives, hl1], ?_⟩
    rw [hlives]
    rw [ht, e]

theorem move_asteroids_from_add {r : Nat → Nat} {fuel : Nat} (n1 n2 lo : Nat) (s : Game) :
    move_asteroids_from r fuel (n1 + n2) lo s =
      (move_asteroids_from r fuel n1 lo s).bind (fun s1 => move_asteroids_from r fuel n2 (lo + n1) s1) := by
  induction n1 generalizing lo s with
  | zero => simp [move_asteroids_from]
  | succ n1 ih =>
    rw [Nat.succ_add]
    simp only [move_asteroids_from]
    cases move_asteroid r fuel lo s with
    | none => rfl
    | some s1 =>
      simp only []
      rw [ih (lo + 1) s1]
      have e : lo + 1 + n1 = lo + (n1 + 1) := by omega
      rw [e]

/-- A stretch of the loop "Move asteroids" in which no live asteroid comes within
reach of the ship only moves asteroids of that stretch and counts them. -/
theorem move_asteroids_from_miss {r : Nat → Nat} (n lo : Nat) {s : Game}
    (hmiss : ∀ k, lo ≤ k → k < lo + n → (s.asteroids k).alive ≠ 0 →
      ¬ (|(asteroid_moved s.counter (s.asteroids k)).x - sar s.player_x 4| ≤ 20 ∧
         |(asteroid_moved s.counter (s.asteroids k)).y - sar s.player_y 4| ≤ 20)) :
    ∃ a cnt, (∀ fuel, move_asteroids_from r fuel n lo s
        = some { s with asteroids := a, num_asteroids_alive := cnt }) ∧
      ∀ j, lo + n ≤ j → a j = s.asteroids j := by
  induction n generalizing lo s with
  | zero => exact ⟨s.asteroids, s.num_asteroids_alive, fun _ => rfl, fun _ _ => rfl⟩
  | succ n ih =>
    obtain ⟨a1, k1, e1, hf1⟩ := move_asteroid_miss (r := r) (i := lo) (s := s)
      (fun hl => by
        have hn := hmiss lo (le_refl _) (by omega) hl
        cases hb : ship_hit { s with
            num_asteroids_alive := s.num_asteroids_alive + 1,
            asteroids := Function.update s.asteroids lo (asteroid_moved s.counter (s.asteroids lo)) } lo with
        | false => rfl
        | true =>
          have := (ship_hit_iff _ lo).mp hb
          simp only [Function.update_same] at this
          exact absurd ⟨this.1, this.2.1⟩ hn)
    obtain ⟨a2, k2, e2, hf2⟩ := ih (lo + 1)
      (s := { s with asteroids := a1, num_asteroids_alive := k1 })
      (fun k h1 h2 hl => by
        have hk : a1 k = s.asteroids k := hf1 k (by omega)
        have hl2 : (a1 k).alive ≠ 0 := hl
        rw [hk] at hl2
        have hn := hmiss k (by omega) (by omega) hl2
        show ¬ (|(asteroid_moved s.counter (a1 k)).x - sar s.player_x 4| ≤ 20 ∧
          |(asteroid_moved s.counter (a1 k)).y - sar s.player_y 4| ≤ 20)
        rw [hk]
        exact hn)
    refine ⟨a2, k2, fun fuel => ?_, ?_⟩
    · simp only [move_asteroids_from, e1 fuel]
      exact e2 fuel
    · intro j hj
      rw [hf2 j (by omega)]
      exact hf1 j (by omega)

theorem move_asteroids_from_collision_terminates {r : Nat → Nat} (hr : Fair r) {i : Nat} (n : Nat)
    {s : Game} (hlive : (s.asteroids i).alive ≠ 0)
    (hhit : ship_hit { s with
      num_asteroids_alive := s.num_asteroids_alive + 1,
      asteroids := Function.update s.asteroids i (asteroid_moved s.counter (s.asteroids i)) } i = true) :
    ∃ fuel t, move_asteroids_from r fuel (n + 1) i s = some t := by
  obtain ⟨fuel, t1, h1⟩ := hurt_asteroid_terminates hr i (sar s.player_xm 4) (sar s.player_ym 4)
    kNumBits
    { s with
      num_asteroids_alive := s.num_asteroids_alive + 1,
      asteroids := Function.update s.asteroids i (asteroid_moved s.counter (s.asteroids i)) }
  obtain ⟨c, l, e⟩ := ship_dies_frame t1
  obtain ⟨a2, k2, e2⟩ := move_asteroids_from_dead r fuel n (i + 1)
    (s := ship_dies t1) (by rw [e])
  refine ⟨fuel, { ship_dies t1 with asteroids := a2, num_asteroids_alive := k2 }, ?_⟩
  simp only [move_asteroids_from, move_asteroid_hit hlive hhit, h1, Option.map_some']
  exact e2

theorem lives_after_hit {s : Game} {amount : Int} {L : Nat}
    (hL : L = ((add_score amount s).lives + (SIZE_T_MOD - 1)) % SIZE_T_MOD)
    (hn : ¬ s.score / kOneUpScore < ((s.score + to_size_t amount) % SIZE_T_MOD) / kOneUpScore) :
    L = (s.lives + (SIZE_T_MOD - 1)) % SIZE_T_MOD ∧
    (0 < s.lives → s.lives < SIZE_T_MOD → L + 1 = s.lives) := by
  rw [(add_score_no_cross hn).1] at hL
  refine ⟨hL, fun h0 h1 => ?_⟩
  rw [hL]
  unfold SIZE_T_MOD at h1 ⊢
  omega

/-! ## The two sample streams -/

theorem zero_stream_fair : Fair zero_stream :=
  fun _ => ⟨0, show 0 % 3 ≠ 1 by decide⟩

/-- On the stream that always returns 4 the resampling loop never ends: no fuel
is enough. -/
theorem resample_xm_four_stream (fuel c : Nat) : resample_xm four_stream fuel c 0 = none := by
  induction fuel generalizing c with
  | zero => rfl
  | succ fuel ih =>
    simp only [resample_xm, if_true]
    have e : (((four_stream c % 3 : Nat) : Int) - 1) = 0 :=
      show (((4 % 3 : Nat) : Int) - 1) = 0 by decide
    rw [e]
    exact ih (c + 1)

/-- On that stream `reset_level` does not return either: the first asteroid is
asked for with `xm = 4 % 9 - 4 = 0`. -/
theorem reset_level_four_stream (fuel : Nat) : reset_level four_stream fuel empty_game = none := by
  have h : ∀ (x y ym size : Int) (s : Game),
      add_asteroid four_stream fuel x y 0 ym size s = none := by
    intro x y ym size s
    unfold add_asteroid
    rw [resample_xm_four_stream]
  unfold reset_level
  dsimp only
  have e : min ((empty_game.level + 1) % SIZE_T_MOD) 10 = 1 + 1 := by decide
  rw [e]
  simp only [reset_level_spawn]
  have hx : (((four_stream (empty_game.rng + 3) % 9 : Nat) : Int) - 4) = 0 := by decide
  rw [hx, h]

/-! ## Wrapping -/

theorem wrap_range_iff {bound : Int} (hb : 0 < bound) (y : Int) :
    (0 ≤ wrap bound y ∧ wrap bound y < bound) ↔ (-bound ≤ y ∧ y < 2 * bound) := by
  unfold wrap
  split
  · constructor <;> intro h <;> constructor <;> omega
  · split
    · constructor <;> intro h <;> constructor <;> omega
    · constructor <;> intro h <;> constructor <;> omega

theorem wrap_step {bound x v : Int} (hx : 0 ≤ x ∧ x < bound) (hv : -bound ≤ v ∧ v ≤ bound) :
    0 ≤ wrap bound (x + v) ∧ wrap bound (x + v) < bound := by
  have hb : 0 < bound := by omega
  exact (wrap_range_iff hb (x + v)).mpr ⟨by omega, by omega⟩

/-! ## Rotation and events -/

theorem handle_event_flags (e : Event) (s : Game)
    (h : ¬ (s.left_pressed = true ∧ s.right_pressed = true)) :
    ¬ ((handle_event e s).left_pressed = true ∧ (handle_event e s).right_pressed = true) := by
  have hb : ∀ x y a xm ym : Int, (add_bullet x y a xm ym s).left_pressed = s.left_pressed ∧
      (add_bullet x y a xm ym s).right_pressed = s.right_pressed := by
    intro x y a xm ym
    unfold add_bullet playsound
    split
    · exact ⟨rfl, rfl⟩
    · dsimp only
      split <;> exact ⟨rfl, rfl⟩
  cases e with
  | quit_event => exact h
  | other => exact h
  | key_down k =>
    cases k with
    | space =>
      simp only [handle_event]
      split
      · rw [(hb _ _ _ _ _).1, (hb _ _ _ _ _).2]
        exact h
      · exact h
    | right => simp [handle_event]
    | left => simp [handle_event]
    | escape => exact h
    | up => exact h
    | shift => exact h
    | other => exact h
  | key_up k =>
    cases k with
    | right => simp [handle_event]
    | left => simp [handle_event]
    | escape => exact h
    | up => exact h
    | shift => exact h
    | space => exact h
    | other => exact h

theorem handle_events_flags (es : List Event) (s : Game)
    (h : ¬ (s.left_pressed = true ∧ s.right_pressed = true)) :
    ¬ ((handle_events es s).left_pressed = true ∧ (handle_events es s).right_pressed = true) := by
  induction es generalizing s with
  | nil => exact h
  | cons e es ih => exact ih (handle_event e s) (handle_event_flags e s h)

/-! ## The rocks of a new level -/

theorem resample_xm_value {r : Nat → Nat} {fuel c : Nat} {xm : Int} {v : Int × Nat}
    (h : resample_xm r fuel c xm = some v) : v.1 = xm ∨ v.1 = 1 ∨ v.1 = -1 := by
  induction fuel generalizing c xm with
  | zero =>
    simp only [resample_xm] at h
    by_cases hx : xm = 0
    · simp [hx] at h
    · simp only [hx, if_false, Option.some.injEq] at h
      subst h
      exact Or.inl rfl
  | succ fuel ih =>
    simp only [resample_xm] at h
    by_cases hx : xm = 0
    · simp only [hx, if_true] at h
      have hne := resample_xm_nonzero h
      rcases ih h with e | e | e
      · right
        omega
      · exact Or.inr (Or.inl e)
      · exact Or.inr (Or.inr e)
    · simp only [hx, if_false, Option.some.injEq] at h
      subst h
      exact Or.inl rfl

/-- The record that a returning `add_asteroid` writes, or nothing. -/
theorem add_asteroid_written {r : Nat → Nat} {fuel : Nat} {x y xm ym size : Int} {s t : Game}
    (h : add_asteroid r fuel x y xm ym size s = some t) :
    t.asteroids = s.asteroids ∨
    ∃ f a, (s.asteroids f).alive = 0 ∧ t.asteroids = Function.update s.asteroids f a ∧
      a.alive = 1 ∧ a.x = x ∧ a.y = y ∧ a.size = size ∧ a.ym = ym ∧ a.xm ≠ 0 ∧
      (a.xm = xm ∨ a.xm = 1 ∨ a.xm = -1) ∧ (xm ≠ 0 → a.xm = xm) := by
  unfold add_asteroid at h
  cases hres : resample_xm r fuel s.rng xm with
  | none => simp [hres] at h
  | some v =>
    obtain ⟨xm1, c⟩ := v
    have hx : xm1 ≠ 0 := resample_xm_nonzero hres
    have hv : xm1 = xm ∨ xm1 = 1 ∨ xm1 = -1 := resample_xm_value hres
    have hk : xm ≠ 0 → xm1 = xm := by
      intro hx0
      rw [resample_xm_skip hx0 fuel, Option.some.injEq] at hres
      exact (congrArg Prod.fst hres).symm
    simp only [hres] at h
    cases hf : first_free (fun i => decide ((s.asteroids i).alive = 0)) 0 kNumAsteroids with
    | none =>
      simp only [hf, Option.some.injEq] at h
      left
      rw [← h]
    | some f =>
      simp only [hf, Option.some.injEq] at h
      have hfree : (s.asteroids f).alive = 0 := by simpa using (first_free_some hf).2.2.1
      right
      exact ⟨f, _, hfree, by rw [← h], rfl, rfl, rfl, rfl, rfl, hx, hv, hk⟩

theorem reset_level_spawn_rocks {r : Nat → Nat} {fuel n : Nat} {s t : Game}
    (h : reset_level_spawn r fuel n s = some t)
    (hs : ∀ i, i < kNumAsteroids → (s.asteroids i).alive ≠ 0 → level_rock (s.asteroids i)) :
    ∀ i, i < kNumAsteroids → (t.asteroids i).alive ≠ 0 → level_rock (t.asteroids i) := by
  induction n generalizing s with
  | zero =>
    simp only [reset_level_spawn, Option.some.injEq] at h
    subst h
    exact hs
  | succ n ih =>
    simp only [reset_level_spawn] at h
    split at h
    · cases h
    · rename_i s1 h1
      apply ih h
      intro i hlt hi
      rcases add_asteroid_written h1 with e | ⟨f, a, _, e, ha, hx, hy, hsz, _, hne, hxm, _⟩
      · rw [e] at hi ⊢
        exact hs i hlt hi
      · rw [e] at hi ⊢
        by_cases hif : i = f
        · subst hif
          rw [Function.update_same]
          have hy2 := Int.tmod_eq_emod (a := ((r (s.rng + 2) : Nat) : Int)) (b := kScreenHeight)
            (by omega) (by decide)
          unfold kScreenHeight at hy2 hy
          unfold kScreenWidth at hx
          refine ⟨?_, ?_, hne, ?_, ?_⟩
          · rw [hx]
            have h2 : r (s.rng + 1) % 2 = 0 ∨ r (s.rng + 1) % 2 = 1 := by omega
            rcases h2 with h2 | h2
            · left
              rw [h2]
              omega
            · right
              rw [h2]
              omega
          · rw [hy, hy2]
            omega
          · rw [abs_le]
            omega
          · rw [hsz]
            omega
        · rw [Function.update_noteq hif] at hi ⊢
          exact hs i hlt hi

theorem reset_level_rocks {r : Nat → Nat} {fuel : Nat} {s t : Game}
    (h : reset_level r fuel s = some t) :
    ∀ i, i < kNumAsteroids → (t.asteroids i).alive ≠ 0 → level_rock (t.asteroids i) := by
  unfold reset_level at h
  dsimp only at h
  split at h
  · cases h
  · rename_i s2 h2
    simp only [Option.some.injEq] at h
    subst h
    intro i hi hl
    exact reset_level_spawn_rocks h2 (fun j hj hjl => by
      simp only [hj, if_true] at hjl
      exact absurd rfl hjl) i hi hl

/-! ## What the phases of a frame leave alone -/

theorem hurt_asteroid_keeps {r : Nat → Nat} {fuel j : Nat} {xm ym : Int} {n : Nat} {s t : Game}
    (h : hurt_asteroid r fuel j xm ym n s = some t) :
    untouched t = untouched s ∧ t.bullets = s.bullets ∧
    t.num_asteroids_alive = s.num_asteroids_alive ∧
    t.player_alive = s.player_alive ∧ t.player_die_timer = s.player_die_timer := by
  obtain ⟨a, b, c, l, e⟩ := hurt_asteroid_frame h
  obtain ⟨l1, z, tz, c1, sl, sc, e1⟩ := add_score_frame (Int.tdiv 100 ((s.asteroids j).size + 1)) s
  rw [e, e1]
  exact ⟨rfl, rfl, rfl, rfl, rfl⟩

theorem ship_dies_keeps (s : Game) :
    untouched (ship_dies s) = untouched s ∧ (ship_dies s).bullets = s.bullets ∧
    (ship_dies s).asteroids = s.asteroids ∧
    (ship_dies s).num_asteroids_alive = s.num_asteroids_alive := by
  obtain ⟨c, l, e⟩ := ship_dies_frame s
  rw [e]
  exact ⟨rfl, rfl, rfl, rfl⟩

theorem bullet_scan_keeps {r : Nat → Nat} {fuel i n j : Nat} {s t : Game}
    (h : bullet_scan r fuel i n j s = some t) :
    untouched t = untouched s ∧
    t.player_alive = s.player_alive ∧ t.player_die_timer = s.player_die_timer ∧
    (∀ k, k ≠ i → t.bullets k = s.bullets k) ∧
    (t.bullets i = s.bullets i ∨ t.bullets i = { s.bullets i with timer := 0 }) := by
  induction n generalizing j s with
  | zero =>
    simp only [bullet_scan, Option.some.injEq] at h
    subst h
    exact ⟨rfl, rfl, rfl, fun _ _ => rfl, Or.inl rfl⟩
  | succ n ih =>
    simp only [bullet_scan] at h
    split at h
    · split at h
      · split at h
        · cases h
        · rename_i s2 h2
          obtain ⟨u2, b2, _, a2, d2⟩ := hurt_asteroid_keeps h2
          obtain ⟨u, a, d, hk, hi⟩ := ih h
          refine ⟨u.trans u2, a.trans a2, d.trans d2, ?_, Or.inr ?_⟩
          · intro k hk1
            rw [hk k hk1, b2]
            exact Function.update_noteq hk1 _ _
          · have e2 : s2.bullets i = { s.bullets i with timer := 0 } := by
              rw [b2]
              exact Function.update_same _ _ _
            rcases hi with e | e
            · rw [e, e2]
            · rw [e, e2]
      · exact ih h
    · exact ih h

theorem move_bullet_keeps {r : Nat → Nat} {fuel i : Nat} {s t : Game}
    (h : move_bullet r fuel i s = some t) :
    untouched t = untouched s ∧
    t.player_alive = s.player_alive ∧ t.player_die_timer = s.player_die_timer ∧
    (∀ k, k ≠ i → t.bullets k = s.bullets k) ∧
    ((s.bullets i).timer < 0 → t = s) ∧
    ((s.bullets i).timer ≥ 0 →
      t.bullets i = bullet_moved (s.bullets i) ∨
      t.bullets i = { bullet_moved (s.bullets i) with timer := 0 }) := by
  unfold move_bullet at h
  split at h
  · rename_i hge
    obtain ⟨u, a, d, hk, hi⟩ := bullet_scan_keeps h
    refine ⟨u, a, d, ?_, fun hlt => absurd hge (by omega), fun _ => ?_⟩
    · intro k hk1
      rw [hk k hk1]
      exact Function.update_noteq hk1 _ _
    · have e : ({ s with bullets := Function.update s.bullets i (bullet_moved (s.bullets i)) } :
          Game).bullets i = bullet_moved (s.bullets i) := Function.update_same _ _ _
      rw [e] at hi
      exact hi
  · rename_i hlt
    simp only [Option.some.injEq] at h
    subst h
    exact ⟨rfl, rfl, rfl, fun _ _ => rfl, fun _ => rfl, fun hge => absurd hge hlt⟩

/-- The loop "Move bullets" keeps every bullet timer between -1 and 50. -/
theorem move_bullets_from_keeps {r : Nat → Nat} {fuel n i : Nat} {s t : Game}
    (h : move_bullets_from r fuel n i s = some t) :
    untouched t = untouched s ∧
    t.player_alive = s.player_alive ∧ t.player_die_timer = s.player_die_timer ∧
    (∀ k, (-1 ≤ (s.bullets k).timer ∧ (s.bullets k).timer ≤ 50) →
      (-1 ≤ (t.bullets k).timer ∧ (t.bullets k).timer ≤ 50)) := by
  induction n generalizing i s with
  | zero =>
    simp only [move_bullets_from, Option.some.injEq] at h
    subst h
    exact ⟨rfl, rfl, rfl, fun _ hk => hk⟩
  | succ n ih =>
    simp only [move_bullets_from] at h
    split at h
    · cases h
    · rename_i s1 h1
      obtain ⟨u1, a1, d1, hk1, hlt1, hge1⟩ := move_bullet_keeps h1
      obtain ⟨u, a, d, hk⟩ := ih h
      refine ⟨u.trans u1, a.trans a1, d.trans d1, fun k hok => hk k ?_⟩
      by_cases hki : k = i
      · subst hki
        by_cases hneg : (s.bullets k).timer < 0
        · rw [hlt1 hneg]
          exact hok
        · rcases hge1 (by omega) with e | e
          · rw [e]
            show -1 ≤ (s.bullets k).timer - 1 ∧ (s.bullets k).timer - 1 ≤ 50
            omega
          · rw [e]
            show -1 ≤ (0 : Int) ∧ (0 : Int) ≤ 50
            omega
      · rw [hk1 k hki]
        exact hok

theorem move_asteroid_keeps {r : Nat → Nat} {fuel i : Nat} {s t : Game}
    (h : move_asteroid r fuel i s = some t) :
    untouched t = untouched s ∧ t.bullets = s.bullets ∧
    t.num_asteroids_alive
      = s.num_asteroids_alive + (if truthy (s.asteroids i).alive then 1 else 0) ∧
    (¬ truthy (s.asteroids i).alive → t = s) := by
  unfold move_asteroid at h
  split at h
  · rename_i ha
    dsimp only at h
    split at h
    · split at h
      · cases h
      · rename_i s2 h2
        simp only [Option.some.injEq] at h
        subst h
        obtain ⟨u2, b2, n2, _, _⟩ := hurt_asteroid_keeps h2
        obtain ⟨u3, b3, _, n3⟩ := ship_dies_keeps s2
        refine ⟨u3.trans u2, b3.trans b2, ?_, fun hn => absurd ha hn⟩
        rw [n3, n2, if_pos ha]
    · simp only [Option.some.injEq] at h
      subst h
      refine ⟨rfl, rfl, ?_, fun hn => absurd ha hn⟩
      rw [if_pos ha]
  · rename_i ha
    simp only [Option.some.injEq] at h
    subst h
    refine ⟨rfl, rfl, ?_, fun _ => rfl⟩
    rw [if_neg ha, add_zero]

theorem move_asteroids_from_keeps {r : Nat → Nat} {fuel n i : Nat} {s t : Game}
    (h : move_asteroids_from r fuel n i s = some t) :
    untouched t = untouched s ∧ t.bullets = s.bullets ∧
    s.num_asteroids_alive ≤ t.num_asteroids_alive := by
  induction n generalizing i s with
  | zero =>
    simp only [move_asteroids_from, Option.some.injEq] at h
    subst h
    exact ⟨rfl, rfl, le_refl _⟩
  | succ n ih =>
    simp only [move_asteroids_from] at h
    split at h
    · cases h
    · rename_i s1 h1
      obtain ⟨u1, b1, n1, _⟩ := move_asteroid_keeps h1
      obtain ⟨u, b, hn⟩ := ih h
      refine ⟨u.trans u1, b.trans b1, ?_⟩
      have : s.num_asteroids_alive ≤ s1.num_asteroids_alive := by
        rw [n1]
        split <;> omega
      omega

/-- A stretch of the pool without a live asteroid is passed over. -/
theorem move_asteroids_from_none_alive {r : Nat → Nat} {fuel n i : Nat} {s : Game}
    (h : ∀ k, i ≤ k → k < i + n → (s.asteroids k).alive = 0) :
    move_asteroids_from r fuel n i s = some s := by
  induction n generalizing i with
  | zero => rfl
  | succ n ih =>
    have h0 : move_asteroid r fuel i s = some s := by
      unfold move_asteroid
      rw [if_neg]
      simp [truthy, h i (le_refl _) (by omega)]
    simp only [move_asteroids_from, h0]
    exact ih (fun k hk1 hk2 => h k (by omega) (by omega))

/-- A live asteroid in the stretch makes the loop count at least one. -/
theorem move_asteroids_from_counts {r : Nat → Nat} {fuel n i : Nat} {s t : Game}
    (h : move_asteroids_from r fuel n i s = some t)
    (hex : ∃ k, i ≤ k ∧ k < i + n ∧ (s.asteroids k).alive ≠ 0) :
    s.num_asteroids_alive < t.num_asteroids_alive := by
  induction n generalizing i s with
  | zero =>
    obtain ⟨k, h1, h2, _⟩ := hex
    omega
  | succ n ih =>
    simp only [move_asteroids_from] at h
    split at h
    · cases h
    · rename_i s1 h1
      obtain ⟨_, _, n1, hs⟩ := move_asteroid_keeps h1
      by_cases ha : truthy (s.asteroids i).alive
      · rw [if_pos ha] at n1
        have := (move_asteroids_from_keeps h).2.2
        omega
      · have e := hs ha
        subst e
        obtain ⟨k, hk1, hk2, hk3⟩ := hex
        have hki : k ≠ i := by
          intro e
          subst e
          apply ha
          simp [truthy, hk3]
        exact ih h ⟨k, by omega, by omega, hk3⟩

/-- The count of the loop "Move asteroids" is zero exactly when no asteroid is
alive when the loop starts. -/
theorem move_asteroids_count {r : Nat → Nat} {fuel : Nat} {s t : Game}
    (h : move_asteroids r fuel s = some t) :
    ((∀ k, k < kNumAsteroids → (s.asteroids k).alive = 0) →
      t = { s with num_asteroids_alive := 0 }) ∧
    ((∃ k, k < kNumAsteroids ∧ (s.asteroids k).alive ≠ 0) → 0 < t.num_asteroids_alive) ∧
    untouched t = untouched s ∧ t.bullets = s.bullets := by
  unfold move_asteroids at h
  refine ⟨fun h0 => ?_, fun hex => ?_, ?_, ?_⟩
  · have h1 : move_asteroids_from r fuel kNumAsteroids 0 { s with num_asteroids_alive := 0 }
        = some { s with num_asteroids_alive := 0 } :=
      move_asteroids_from_none_alive (fun k _ hk => h0 k (by omega))
    rw [h1] at h
    exact (Option.some.inj h).symm
  · obtain ⟨k, hk, ha⟩ := hex
    exact move_asteroids_from_counts h ⟨k, Nat.zero_le _, by omega, ha⟩
  · exact (move_asteroids_from_keeps h).1
  · exact (move_asteroids_from_keeps h).2.1

/-! ## Every frame returns on a fair stream -/

theorem bullet_scan_mono {r : Nat → Nat} {fuel i n j : Nat} {s t : Game} (d : Nat)
    (h : bullet_scan r fuel i n j s = some t) : bullet_scan r (fuel + d) i n j s = some t := by
  induction n generalizing j s with
  | zero => exact h
  | succ n ih =>
    simp only [bullet_scan] at h ⊢
    split at h
    · rename_i hc
      rw [if_pos hc]
      split at h
      · rename_i hh
        rw [if_pos hh]
        split at h
        · cases h
        · rename_i s2 h2
          rw [hurt_asteroid_mono d h2]
          exact ih h
      · rename_i hh
        rw [if_neg hh]
        exact ih h
    · rename_i hc
      rw [if_neg hc]
      exact ih h

theorem bullet_scan_terminates {r : Nat → Nat} (hr : Fair r) (i n j : Nat) (s : Game) :
    ∃ fuel t, bullet_scan r fuel i n j s = some t := by
  induction n generalizing j s with
  | zero => exact ⟨0, s, rfl⟩
  | succ n ih =>
    by_cases hc : (decide ((s.bullets i).timer > 0) && truthy (s.asteroids j).alive) = true
    · by_cases hh : bullet_hits s i j = true
      · obtain ⟨f1, s2, h2⟩ := hurt_asteroid_terminates hr j
          (({ s with bullets := Function.update s.bullets i { s.bullets i with timer := 0 } } :
            Game).bullets i).xm
          (({ s with bullets := Function.update s.bullets i { s.bullets i with timer := 0 } } :
            Game).bullets i).ym
          (to_size_t ((s.asteroids j).size * 3))
          { s with bullets := Function.update s.bullets i { s.bullets i with timer := 0 } }
        obtain ⟨f2, t, h3⟩ := ih (j + 1) s2
        refine ⟨f1 + f2, t, ?_⟩
        simp only [bullet_scan]
        rw [if_pos hc, if_pos hh]
        have h2m := hurt_asteroid_mono f2 h2
        dsimp only at h2m ⊢
        rw [h2m]
        have := bullet_scan_mono f1 h3
        rw [Nat.add_comm] at this
        exact this
      · obtain ⟨f, t, h⟩ := ih (j + 1) s
        refine ⟨f, t, ?_⟩
        simp only [bullet_scan]
        rw [if_pos hc, if_neg hh]
        exact h
    · obtain ⟨f, t, h⟩ := ih (j + 1) s
      refine ⟨f, t, ?_⟩
      simp only [bullet_scan]
      rw [if_neg hc]
      exact h

theorem move_bullet_mono {r : Nat → Nat} {fuel i : Nat} {s t : Game} (d : Nat)
    (h : move_bullet r fuel i s = some t) : move_bullet r (fuel + d) i s = some t := by
  unfold move_bullet at h ⊢
  split at h
  · rename_i hc
    rw [if_pos hc]
    exact bullet_scan_mono d h
  · rename_i hc
    rw [if_neg hc]
    exact h

theorem move_bullet_terminates {r : Nat → Nat} (hr : Fair r) (i : Nat) (s : Game) :
    ∃ fuel t, move_bullet r fuel i s = some t := by
  unfold move_bullet
  split
  · exact bullet_scan_terminates hr i kNumAsteroids 0 _
  · exact ⟨0, s, rfl⟩

theorem move_bullets_from_mono {r : Nat → Nat} {fuel n i : Nat} {s t : Game} (d : Nat)
    (h : move_bullets_from r fuel n i s = some t) :
    move_bullets_from r (fuel + d) n i s = some t := by
  induction n generalizing i s with
  | zero => exact h
  | succ n ih =>
    simp only [move_bullets_from] at h ⊢
    split at h
    · cases h
    · rename_i s1 h1
      rw [move_bullet_mono d h1]
      exact ih h

theorem move_bullets_from_terminates {r : Nat → Nat} (hr : Fair r) (n i : Nat) (s : Game) :
    ∃ fuel t, move_bullets_from r fuel n i s = some t := by
  induction n generalizing i s with
  | zero => exact ⟨0, s, rfl⟩
  | succ n ih =>
    obtain ⟨f1, s1, h1⟩ := move_bullet_terminates hr i s
    obtain ⟨f2, t, h2⟩ := ih (i + 1) s1
    refine ⟨f1 + f2, t, ?_⟩
    simp only [move_bullets_from]
    rw [move_bullet_mono f2 h1]
    have := move_bullets_from_mono f1 h2
    rw [Nat.add_comm] at this
    exact this

theorem move_asteroid_mono {r : Nat → Nat} {fuel i : Nat} {s t : Game} (d : Nat)
    (h : move_asteroid r fuel i s = some t) : move_asteroid r (fuel + d) i s = some t := by
  unfold move_asteroid at h ⊢
  split at h
  · rename_i ha
    rw [if_pos ha]
    dsimp only at h ⊢
    split at h
    · rename_i hh
      rw [if_pos hh]
      split at h
      · cases h
      · rename_i s2 h2
        rw [hurt_asteroid_mono d h2]
        exact h
    · rename_i hh
      rw [if_neg hh]
      exact h
  · rename_i ha
    rw [if_neg ha]
    exact h

theorem move_asteroid_terminates {r : Nat → Nat} (hr : Fair r) (i : Nat) (s : Game) :
    ∃ fuel t, move_asteroid r fuel i s = some t := by
  unfold move_asteroid
  split
  · dsimp only
    split
    · obtain ⟨f, s2, h2⟩ := hurt_asteroid_terminates hr i (sar s.player_xm 4) (sar s.player_ym 4)
        kNumBits
        { s with
          num_asteroids_alive := s.num_asteroids_alive + 1,
          asteroids := Function.update s.asteroids i (asteroid_moved s.counter (s.asteroids i)) }
      refine ⟨f, ship_dies s2, ?_⟩
      rw [h2]
    · exact ⟨0, _, rfl⟩
  · exact ⟨0, s, rfl⟩

theorem move_asteroids_from_mono {r : Nat → Nat} {fuel n i : Nat} {s t : Game} (d : Nat)
    (h : move_asteroids_from r fuel n i s = some t) :
    move_asteroids_from r (fuel + d) n i s = some t := by
  induction n generalizing i s with
  | zero => exact h
  | succ n ih =>
    simp only [move_asteroids_from] at h ⊢
    split at h
    · cases h
    · rename_i s1 h1
      rw [move_asteroid_mono d h1]
      exact ih h

theorem move_asteroids_from_terminates {r : Nat → Nat} (hr : Fair r) (n i : Nat) (s : Game) :
    ∃ fuel t, move_asteroids_from r fuel n i s = some t := by
  induction n generalizing i s with
  | zero => exact ⟨0, s, rfl⟩
  | succ n ih =>
    obtain ⟨f1, s1, h1⟩ := move_asteroid_terminates hr i s
    obtain ⟨f2, t, h2⟩ := ih (i + 1) s1
    refine ⟨f1 + f2, t, ?_⟩
    simp only [move_asteroids_from]
    rw [move_asteroid_mono f2 h1]
    have := move_asteroids_from_mono f1 h2
    rw [Nat.add_comm] at this
    exact this

theorem reset_level_mono {r : Nat → Nat} {fuel : Nat} {s t : Game} (d : Nat)
    (h : reset_level r fuel s = some t) : reset_level r (fuel + d) s = some t := by
  unfold reset_level at h ⊢
  dsimp only at h ⊢
  split at h
  · cases h
  · rename_i s2 h2
    rw [reset_level_spawn_mono d h2]
    exact h

theorem next_level_mono {r : Nat → Nat} {fuel : Nat} {s t : Game} (d : Nat)
    (h : next_level r fuel s = some t) : next_level r (fuel + d) s = some t := by
  unfold next_level at h ⊢
  split at h
  · rename_i hc
    rw [if_pos hc]
    exact reset_level_mono d h
  · rename_i hc
    rw [if_neg hc]
    exact h

theorem next_level_terminates {r : Nat → Nat} (hr : Fair r) (s : Game) :
    ∃ fuel t, next_level r fuel s = some t := by
  unfold next_level
  split
  · exact reset_level_terminates hr _
  · exact ⟨0, s, rfl⟩

theorem step_tail_mono {r : Nat → Nat} {fuel : Nat} {s t : Game} (d : Nat)
    (h : step_tail r fuel s = some t) : step_tail r (fuel + d) s = some t := by
  unfold step_tail at h ⊢
  split at h
  · cases h
  · rename_i s1 h1
    have h1m : move_asteroids r (fuel + d) s = some s1 := move_asteroids_from_mono d h1
    rw [h1m]
    exact next_level_mono d h

theorem step_tail_terminates {r : Nat → Nat} (hr : Fair r) (s : Game) :
    ∃ fuel t, step_tail r fuel s = some t := by
  obtain ⟨f1, s1, h1⟩ := move_asteroids_from_terminates hr kNumAsteroids 0
    { s with num_asteroids_alive := 0 }
  obtain ⟨f2, t, h2⟩ := next_level_terminates hr (draw_frame (move_bits s1))
  refine ⟨f1 + f2, t, ?_⟩
  unfold step_tail
  have h1m : move_asteroids r (f1 + f2) s = some s1 := move_asteroids_from_mono f2 h1
  rw [h1m]
  have := next_level_mono f1 h2
  rw [Nat.add_comm] at this
  exact this

theorem step_terminates {r : Nat → Nat} (hr : Fair r) (events : List Event) (s : Game) :
    ∃ fuel t, step r fuel events s = some t := by
  obtain ⟨f1, s1, h1⟩ := move_bullets_from_terminates hr kNumBullets 0
    (move_ship (handle_death (thrust_ship (rotate_ship
      (handle_events events { s with counter := s.counter + 1 })))))
  obtain ⟨f2, t, h2⟩ := step_tail_terminates hr s1
  refine ⟨f1 + f2, t, ?_⟩
  unfold step
  have h1m : step_head r (f1 + f2) events s = some s1 := move_bullets_from_mono f2 h1
  rw [h1m]
  have := step_tail_mono f1 h2
  rw [Nat.add_comm] at this
  exact this

theorem untouched_level {s t : Game} (h : untouched t = untouched s) : t.level = s.level :=
  congrArg (fun p => p.2.2.2.2.2.1) h

theorem untouched_ship {s t : Game} (h : untouched t = untouched s) :
    t.player_x = s.player_x ∧ t.player_y = s.player_y ∧
    t.player_xm = s.player_xm ∧ t.player_ym = s.player_ym :=
  ⟨congrArg (fun p => p.1) h, congrArg (fun p => p.2.1) h, congrArg (fun p => p.2.2.1) h,
    congrArg (fun p => p.2.2.2.1) h⟩

theorem reset_level_keeps {r : Nat → Nat} {fuel : Nat} {s t : Game}
    (h : reset_level r fuel s = some t) : untouched t = untouched s := by
  unfold reset_level at h
  dsimp only at h
  split at h
  · cases h
  · rename_i s2 h2
    have hz : live_count (fun i =>
        if i < kNumAsteroids then { s.asteroids i with alive := 0 } else s.asteroids i)
        kNumAsteroids = 0 := by
      apply live_count_zero
      intro i hi
      simp only [hi, if_true]
    obtain ⟨_, a, c, e⟩ := reset_level_spawn_some h2 (by
      show live_count _ kNumAsteroids + _ ≤ _
      rw [hz]
      have : min ((s.level + 1) % SIZE_T_MOD) 10 ≤ 10 := Nat.min_le_right _ _
      unfold kNumAsteroids
      omega)
    simp only [Option.some.injEq] at h
    subst h
    rw [e]
    rfl

/-- The second half of a frame when no asteroid is alive at its start. -/
theorem step_tail_advance {r : Nat → Nat} {fuel : Nat} {s t : Game}
    (h : step_tail r fuel s = some t)
    (h0 : ∀ k, k < kNumAsteroids → (s.asteroids k).alive = 0) :
    reset_level r fuel
      { draw_frame (move_bits { s with num_asteroids_alive := 0 }) with
        level := (s.level + 1) % SIZE_T_MOD } = some t := by
  unfold step_tail at h
  split at h
  · cases h
  · rename_i s1 h1
    have e := (move_asteroids_count h1).1 h0
    subst e
    unfold next_level at h
    rw [if_pos (by rfl)] at h
    exact h

/-- The second half of a frame when some asteroid is alive at its start. -/
theorem step_tail_stay {r : Nat → Nat} {fuel : Nat} {s t : Game}
    (h : step_tail r fuel s = some t)
    (hex : ∃ k, k < kNumAsteroids ∧ (s.asteroids k).alive ≠ 0) :
    ∃ s1, move_asteroids r fuel s = some s1 ∧ t = draw_frame (move_bits s1) ∧
      t.level = s.level := by
  unfold step_tail at h
  split at h
  · cases h
  · rename_i s1 h1
    obtain ⟨_, hpos, u, _⟩ := move_asteroids_count h1
    have hp := hpos hex
    unfold next_level at h
    rw [if_neg (by
      show ¬ s1.num_asteroids_alive = 0
      omega)] at h
    simp only [Option.some.injEq] at h
    subst h
    exact ⟨s1, h1, rfl, untouched_level u⟩

/-! ## The ship's position -/

theorem trig_at_bounds (i : Int) : 0 ≤ trig_at i ∧ trig_at i ≤ 1024 := by
  have h : ∀ n : Nat, 0 ≤ trig.getD n 0 ∧ trig.getD n 0 ≤ 1024 := by
    intro n
    rcases n with _|_|_|_|_|_|_|_|_|_|_|_|n <;> simp [trig]
  unfold trig_at
  split
  · exact h _
  · exact ⟨le_refl _, by decide⟩

theorem fast_cos_bounds (a : Int) : -1024 ≤ fast_cos a ∧ fast_cos a ≤ 1024 := by
  unfold fast_cos
  dsimp only
  split
  · have := trig_at_bounds (Int.tmod a 45)
    omega
  · split
    · have := trig_at_bounds (10 - (Int.tmod a 45 - 12))
      omega
    · split
      · have := trig_at_bounds (Int.tmod a 45 - 22)
        omega
      · have := trig_at_bounds (45 - Int.tmod a 45)
        omega

theorem fast_sin_bounds (a : Int) : -1024 ≤ fast_sin a ∧ fast_sin a ≤ 1024 := by
  unfold fast_sin
  have := fast_cos_bounds (Int.tmod (a + 11) 45)
  omega

theorem sar_thrust_bounds {v : Int} (h : -1024 ≤ v ∧ v ≤ 1024) :
    -3 ≤ sar (v * 3) 10 ∧ sar (v * 3) 10 ≤ 3 := by
  unfold sar
  have e : (2 : Int) ^ 10 = 1024 := by norm_num
  rw [e]
  omega

theorem tdiv_drag_bounds (x : Int) : |Int.tdiv (x * 7) 8| ≤ |x| := by
  rcases le_total 0 x with h | h
  · rw [Int.tdiv_eq_ediv (by omega) (by decide), abs_of_nonneg h, abs_of_nonneg (by omega)]
    omega
  · have e : x * 7 = -((-x) * 7) := by ring
    rw [e, Int.neg_tdiv, Int.tdiv_eq_ediv (by omega) (by decide), abs_neg, abs_of_nonpos h,
      abs_of_nonneg (by omega)]
    omega

theorem add_bullet_frame (x y a xm ym : Int) (s : Game) :
    ∃ b c l, add_bullet x y a xm ym s = { s with bullets := b, rng := c, sound_log := l } ∧
      ∀ k, b k = s.bullets k ∨ ((s.bullets k).timer ≤ 0 ∧ (b k).timer = 50) := by
  unfold add_bullet
  split
  · exact ⟨s.bullets, s.rng, s.sound_log, rfl, fun k => Or.inl rfl⟩
  · rename_i found hf
    obtain ⟨_, _, hfree, _⟩ := first_free_some hf
    obtain ⟨c, l, e⟩ := playsound_frame SND_BULLET
      { s with bullets := Function.update s.bullets found (bullet_type.mk 50 x y
          (sar (fast_cos (sar a 3) * 5) 10 + sar xm 4)
          (-(sar (fast_sin (sar a 3) * 5) 10) + sar ym 4)) }
    refine ⟨Function.update s.bullets found (bullet_type.mk 50 x y
          (sar (fast_cos (sar a 3) * 5) 10 + sar xm 4)
          (-(sar (fast_sin (sar a 3) * 5) 10) + sar ym 4)), c, l, e, fun k => ?_⟩
    by_cases hk : k = found
    · subst hk
      right
      rw [Function.update_same]
      exact ⟨of_decide_eq_true hfree, rfl⟩
    · left
      exact Function.update_noteq hk _ _

theorem handle_event_keeps (e : Event) (s : Game) :
    ship_motion (handle_event e s) = ship_motion s ∧
    (∀ k, (handle_event e s).bullets k = s.bullets k ∨
      ((s.bullets k).timer ≤ 0 ∧ ((handle_event e s).bullets k).timer = 50)) := by
  have hb : ship_motion (add_bullet (sar s.player_x 4) (sar s.player_y 4) s.player_angle
        s.player_xm s.player_ym s) = ship_motion s ∧
      (∀ k, (add_bullet (sar s.player_x 4) (sar s.player_y 4) s.player_angle
        s.player_xm s.player_ym s).bullets k = s.bullets k ∨
        ((s.bullets k).timer ≤ 0 ∧ ((add_bullet (sar s.player_x 4) (sar s.player_y 4)
          s.player_angle s.player_xm s.player_ym s).bullets k).timer = 50)) := by
    obtain ⟨b, c, l, e, hk⟩ := add_bullet_frame (sar s.player_x 4) (sar s.player_y 4)
      s.player_angle s.player_xm s.player_ym s
    rw [e]
    exact ⟨rfl, hk⟩
  cases e with
  | quit_event => exact ⟨rfl, fun _ => Or.inl rfl⟩
  | other => exact ⟨rfl, fun _ => Or.inl rfl⟩
  | key_up k => cases k <;> exact ⟨rfl, fun _ => Or.inl rfl⟩
  | key_down k =>
    cases k with
    | space =>
      show ship_motion (if truthy s.player_alive then _ else s) = _ ∧
        ∀ k, (if truthy s.player_alive then _ else s : Game).bullets k = _ ∨ _ ∧
          ((if truthy s.player_alive then _ else s : Game).bullets k).timer = 50
      split
      · exact hb
      · exact ⟨rfl, fun _ => Or.inl rfl⟩
    | escape => exact ⟨rfl, fun _ => Or.inl rfl⟩
    | right => exact ⟨rfl, fun _ => Or.inl rfl⟩
    | left => exact ⟨rfl, fun _ => Or.inl rfl⟩
    | up => exact ⟨rfl, fun _ => Or.inl rfl⟩
    | shift => exact ⟨rfl, fun _ => Or.inl rfl⟩
    | other => exact ⟨rfl, fun _ => Or.inl rfl⟩

theorem handle_events_keeps (es : List Event) (s : Game) :
    ship_motion (handle_events es s) = ship_motion s ∧
    (∀ k, (-1 ≤ (s.bullets k).timer ∧ (s.bullets k).timer ≤ 50) →
      (-1 ≤ ((handle_events es s).bullets k).timer ∧
        ((handle_events es s).bullets k).timer ≤ 50)) := by
  induction es generalizing s with
  | nil => exact ⟨rfl, fun _ h => h⟩
  | cons e es ih =>
    obtain ⟨m1, b1⟩ := handle_event_keeps e s
    obtain ⟨m, b⟩ := ih (handle_event e s)
    refine ⟨m.trans m1, fun k hk => b k ?_⟩
    rcases b1 k with e1 | ⟨_, e1⟩
    · rw [e1]
      exact hk
    · rw [e1]
      omega

theorem rotate_ship_keeps (s : Game) :
    (rotate_ship s).player_x = s.player_x ∧ (rotate_ship s).player_y = s.player_y ∧
    (rotate_ship s).player_xm = s.player_xm ∧ (rotate_ship s).player_ym = s.player_ym ∧
    (rotate_ship s).bullets = s.bullets ∧
    ((0 ≤ s.player_angle ∧ s.player_angle < 360) →
      (0 ≤ (rotate_ship s).player_angle ∧ (rotate_ship s).player_angle < 360)) := by
  unfold rotate_ship
  split
  · refine ⟨rfl, rfl, rfl, rfl, rfl, fun h => ?_⟩
    dsimp only
    split <;> omega
  · split
    · refine ⟨rfl, rfl, rfl, rfl, rfl, fun h => ?_⟩
      dsimp only
      split <;> omega
    · exact ⟨rfl, rfl, rfl, rfl, rfl, fun h => h⟩

theorem thrust_ship_keeps (s : Game) :
    (thrust_ship s).player_x = s.player_x ∧ (thrust_ship s).player_y = s.player_y ∧
    (thrust_ship s).player_angle = s.player_angle ∧ (thrust_ship s).bullets = s.bullets ∧
    |(thrust_ship s).player_xm| ≤ |s.player_xm| + 3 ∧
    |(thrust_ship s).player_ym| ≤ |s.player_ym| + 3 := by
  unfold thrust_ship
  split
  · refine ⟨rfl, rfl, rfl, rfl, ?_, ?_⟩
    · have h := sar_thrust_bounds (fast_cos_bounds (sar s.player_angle 3))
      show |s.player_xm + sar (fast_cos (sar s.player_angle 3) * 3) 10| ≤ _
      rw [abs_le]
      have := neg_abs_le s.player_xm
      have := le_abs_self s.player_xm
      constructor <;> omega
    · have h := sar_thrust_bounds (fast_sin_bounds (sar s.player_angle 3))
      show |s.player_ym - sar (fast_sin (sar s.player_angle 3) * 3) 10| ≤ _
      rw [abs_le]
      have := neg_abs_le s.player_ym
      have := le_abs_self s.player_ym
      constructor <;> omega
  · split
    · refine ⟨rfl, rfl, rfl, rfl, ?_, ?_⟩
      · have := tdiv_drag_bounds s.player_xm
        show |Int.tdiv (s.player_xm * 7) 8| ≤ _
        omega
      · have := tdiv_drag_bounds s.player_ym
        show |Int.tdiv (s.player_ym * 7) 8| ≤ _
        omega
    · exact ⟨rfl, rfl, rfl, rfl, by omega, by omega⟩

theorem respawn_scan_frame (n lo : Nat) (s : Game) :
    ∃ a, respawn_scan n lo s = { s with player_alive := a } := by
  induction n generalizing lo s with
  | zero => exact ⟨s.player_alive, rfl⟩
  | succ n ih =>
    simp only [respawn_scan]
    split
    · split
      · obtain ⟨a, e⟩ := ih (lo + 1) { s with player_alive := 0 }
        exact ⟨a, by rw [e]⟩
      · exact ih (lo + 1) s
    · exact ⟨s.player_alive, rfl⟩

/-- The death handling either leaves the ship where it is or puts it at rest in
the centre of the screen, heading up. -/
theorem handle_death_keeps (s : Game) :
    (handle_death s).bullets = s.bullets ∧
    (ship_motion (handle_death s) = ship_motion s ∨
      ship_motion (handle_death s) = (3840, 3840, 0, 0, 90)) := by
  have hc : ((Int.tdiv kScreenWidth 2 * 2 ^ 4, Int.tdiv kScreenHeight 2 * 2 ^ 4, 0, 0, 90) :
      Int × Int × Int × Int × Int) = (3840, 3840, 0, 0, 90) := by decide
  unfold handle_death
  dsimp only
  split
  · split
    · split
      · split
        · obtain ⟨a, e⟩ := respawn_scan_frame kNumAsteroids 0
            (respawn_reset { s with player_die_timer := s.player_die_timer - 1 })
          rw [e]
          exact ⟨rfl, Or.inr hc⟩
        · exact ⟨rfl, Or.inr hc⟩
      · exact ⟨rfl, Or.inl rfl⟩
    · exact ⟨rfl, Or.inl rfl⟩
  · exact ⟨rfl, Or.inl rfl⟩

theorem step_tail_keeps {r : Nat → Nat} {fuel : Nat} {s t : Game}
    (h : step_tail r fuel s = some t) : ship_motion t = ship_motion s := by
  unfold step_tail at h
  split at h
  · cases h
  · rename_i s1 h1
    have u1 := (move_asteroids_from_keeps h1).1
    have e1 : ship_motion s1 = ship_motion s :=
      congrArg (fun p => (p.1, p.2.1, p.2.2.1, p.2.2.2.1, p.2.2.2.2.1)) u1
    unfold next_level at h
    split at h
    · have u2 := reset_level_keeps h
      have e2 : ship_motion t = ship_motion s1 :=
        congrArg (fun p => (p.1, p.2.1, p.2.2.1, p.2.2.2.1, p.2.2.2.2.1)) u2
      exact e2.trans e1
    · simp only [Option.some.injEq] at h
      subst h
      exact e1

theorem step_head_keeps {r : Nat → Nat} {fuel : Nat} {events : List Event} {s t : Game}
    (h : step_head r fuel events s = some t) :
    ship_motion t = ship_motion (move_ship (handle_death (thrust_ship (rotate_ship
      (handle_events events { s with counter := s.counter + 1 }))))) := by
  have u := (move_bullets_from_keeps h).1
  exact congrArg (fun p => (p.1, p.2.1, p.2.2.1, p.2.2.2.1, p.2.2.2.2.1)) u

/-- The ship after a frame, for a ship on the field with a heading in
`[0, 360)` and a velocity of at most 7677 in each direction. -/
theorem step_ship {r : Nat → Nat} {fuel : Nat} {events : List Event} {s t : Game}
    (h : step r fuel events s = some t)
    (hx : 0 ≤ s.player_x ∧ s.player_x < 7680) (hy : 0 ≤ s.player_y ∧ s.player_y < 7680)
    (hxm : |s.player_xm| ≤ 7677) (hym : |s.player_ym| ≤ 7677)
    (ha : 0 ≤ s.player_angle ∧ s.player_angle < 360) :
    (0 ≤ t.player_x ∧ t.player_x < 7680) ∧ (0 ≤ t.player_y ∧ t.player_y < 7680) ∧
    (0 ≤ t.player_angle ∧ t.player_angle < 360) ∧
    |t.player_xm| ≤ |s.player_xm| + 3 ∧ |t.player_ym| ≤ |s.player_ym| + 3 := by
  unfold step at h
  split at h
  · cases h
  · rename_i s6 h6
    have e7 := step_tail_keeps h
    have e6 := step_head_keeps h6
    obtain ⟨m1, _⟩ := handle_events_keeps events { s with counter := s.counter + 1 }
    generalize handle_events events { s with counter := s.counter + 1 } = s1 at m1 e6
    obtain ⟨rx, ry, rxm, rym, _, ra⟩ := rotate_ship_keeps s1
    obtain ⟨tx, ty, ta, _, txm, tym⟩ := thrust_ship_keeps (rotate_ship s1)
    obtain ⟨_, hd⟩ := handle_death_keeps (thrust_ship (rotate_ship s1))
    generalize thrust_ship (rotate_ship s1) = s3 at tx ty ta txm tym hd e6
    generalize rotate_ship s1 = s2 at rx ry rxm rym ra tx ty ta txm tym
    have e : ship_motion t = ship_motion (move_ship (handle_death s3)) := e7.trans e6
    generalize handle_death s3 = s4 at hd e
    simp only [ship_motion, move_ship, Prod.mk.injEq] at m1 hd e
    obtain ⟨e1, e2, e3, e4, e5⟩ := e
    obtain ⟨m1x, m1y, m1xm, m1ym, m1a⟩ := m1
    have hk : (7680 : Int) = kScreenWidth * 2 ^ 4 := by decide
    have hk2 : (7680 : Int) = kScreenHeight * 2 ^ 4 := by decide
    rw [rxm, m1xm] at txm
    rw [rym, m1ym] at tym
    have hxm2 := hxm
    have hym2 := hym
    rw [abs_le] at hxm hym
    have ra2 := ra (by omega)
    have a1 := neg_abs_le s.player_xm
    have a2 := le_abs_self s.player_xm
    have a3 := neg_abs_le s.player_ym
    have a4 := le_abs_self s.player_ym
    rcases hd with ⟨d1, d2, d3, d4, d5⟩ | ⟨d1, d2, d3, d4, d5⟩
    · rw [abs_le] at txm tym
      have b1 : 0 ≤ s4.player_x ∧ s4.player_x < 7680 := by omega
      have b2 : 0 ≤ s4.player_y ∧ s4.player_y < 7680 := by omega
      have b3 : -7680 ≤ s4.player_xm ∧ s4.player_xm ≤ 7680 := by omega
      have b4 : -7680 ≤ s4.player_ym ∧ s4.player_ym ≤ 7680 := by omega
      have w1 := wrap_step b1 b3
      have w2 := wrap_step b2 b4
      rw [hk] at w1
      rw [hk2] at w2
      rw [e1, e2, e3, e4, e5]
      refine ⟨w1, w2, by omega, ?_, ?_⟩
      · rw [d3, abs_le]
        omega
      · rw [d4, abs_le]
        omega
    · have b1 : 0 ≤ s4.player_x ∧ s4.player_x < 7680 := by omega
      have b2 : 0 ≤ s4.player_y ∧ s4.player_y < 7680 := by omega
      have b3 : -7680 ≤ s4.player_xm ∧ s4.player_xm ≤ 7680 := by omega
      have b4 : -7680 ≤ s4.player_ym ∧ s4.player_ym ≤ 7680 := by omega
      have w1 := wrap_step b1 b3
      have w2 := wrap_step b2 b4
      rw [hk] at w1
      rw [hk2] at w2
      rw [e1, e2, e3, e4, e5]
      refine ⟨w1, w2, by omega, ?_, ?_⟩
      · rw [d3, abs_le]
        omega
      · rw [d4, abs_le]
        omega

/-! ## The bullet timers -/

/-- A scan in which the bullet overlaps no live asteroid changes nothing. -/
theorem bullet_scan_miss {r : Nat → Nat} {fuel i : Nat} {s : Game} (n lo : Nat)
    (h : ∀ j, lo ≤ j → j < lo + n → ¬ ((s.asteroids j).alive ≠ 0 ∧ bullet_hits s i j = true)) :
    bullet_scan r fuel i n lo s = some s := by
  induction n generalizing lo with
  | zero => rfl
  | succ n ih =>
    simp only [bullet_scan]
    have hlo := h lo (le_refl _) (by omega)
    split
    · rename_i hc
      simp only [Bool.and_eq_true, decide_eq_true_eq, truthy] at hc
      rw [if_neg (fun hh => hlo ⟨hc.2, hh⟩)]
      exact ih (lo + 1) (fun j h1 h2 => h j (by omega) (by omega))
    · exact ih (lo + 1) (fun j h1 h2 => h j (by omega) (by omega))

theorem bullet_moved_iterate (b : bullet_type) (n : Nat) :
    (bullet_moved^[n] b).timer = b.timer - n := by
  induction n generalizing b with
  | zero => simp
  | succ n ih =>
    rw [Function.iterate_succ_apply, ih]
    show b.timer - 1 - (n : Int) = b.timer - ((n + 1 : Nat) : Int)
    push_cast
    ring

/-- One frame keeps every bullet timer between -1 and 50. -/
theorem step_bullets {r : Nat → Nat} {fuel : Nat} {events : List Event} {s t : Game}
    (h : step r fuel events s = some t) (k : Nat) (hk : k < kNumBullets)
    (hok : -1 ≤ (s.bullets k).timer ∧ (s.bullets k).timer ≤ 50) :
    -1 ≤ (t.bullets k).timer ∧ (t.bullets k).timer ≤ 50 := by
  unfold step at h
  split at h
  · cases h
  · rename_i s6 h6
    have h1 := (handle_events_keeps events { s with counter := s.counter + 1 }).2 k hok
    unfold step_head move_bullets at h6
    generalize handle_events events { s with counter := s.counter + 1 } = s1 at h1 h6
    have h2 : (move_ship (handle_death (thrust_ship (rotate_ship s1)))).bullets = s1.bullets := by
      show (handle_death (thrust_ship (rotate_ship s1))).bullets = s1.bullets
      rw [(handle_death_keeps _).1, (thrust_ship_keeps _).2.2.2.1, (rotate_ship_keeps _).2.2.2.2.1]
    have h5 : -1 ≤ (s6.bullets k).timer ∧ (s6.bullets k).timer ≤ 50 := by
      apply (move_bullets_from_keeps h6).2.2.2 k
      rw [h2]
      exact h1
    unfold step_tail at h
    split at h
    · cases h
    · rename_i s7 h7
      have b7 : s7.bullets = s6.bullets := (move_asteroids_from_keeps h7).2.1
      unfold next_level at h
      split at h
      · have hz := (reset_level_some h).2.1 k hk
        rw [hz]
        omega
      · simp only [Option.some.injEq] at h
        subst h
        show -1 ≤ (s7.bullets k).timer ∧ (s7.bullets k).timer ≤ 50
        rw [b7]
        exact h5

theorem reachable_bullets {r : Nat → Nat} {s : Game} (h : Reachable r s) (k : Nat)
    (hk : k < kNumBullets) : -1 ≤ (s.bullets k).timer ∧ (s.bullets k).timer ≤ 50 := by
  induction h with
  | new_game fuel s0 s hp hs =>
    obtain ⟨t1, h1, e⟩ := game_start_new (show (game_locals s0).game_pending = false from hp) hs
    have hz := (reset_level_some h1).2.1 k hk
    rw [e]
    show -1 ≤ (t1.bullets k).timer ∧ (t1.bullets k).timer ≤ 50
    rw [hz]
    omega
  | frame fuel events s t _ hstep ih => exact step_bullets hstep k hk ih

/-! ## Clipping -/

theorem screen_width_cast : ((kScreenWidth : Int) : ℚ) = 480 := by
  unfold kScreenWidth
  norm_num

theorem screen_height_cast : ((kScreenHeight : Int) : ℚ) = 480 := by
  unfold kScreenHeight
  norm_num

/-- The value of `encode` in each of the nine regions of the plane. -/
theorem encode_eq (x y : ℚ) :
    encode x y =
      (if x < 0 then 1 else if 480 ≤ x then 2 else 0) +
      (if y < 0 then 4 else if 480 ≤ y then 8 else 0) := by
  unfold encode
  simp only [screen_width_cast, screen_height_cast, LEFT_EDGE, RIGHT_EDGE, TOP_EDGE, BOTTOM_EDGE,
    ge_iff_le]
  split_ifs <;> rfl

theorem encode_zero_iff (x y : ℚ) : encode x y = 0 ↔ on_screen x y := by
  rw [encode_eq]
  unfold on_screen
  constructor
  · intro h
    split_ifs at h <;> first
      | omega
      | exact ⟨by linarith, by linarith, by linarith, by linarith⟩
  · rintro ⟨h1, h2, h3, h4⟩
    rw [if_neg (by linarith), if_neg (by linarith), if_neg (by linarith), if_neg (by linarith)]

theorem encode_left (x y : ℚ) : encode x y &&& LEFT_EDGE ≠ 0 ↔ x < 0 := by
  rw [encode_eq]
  unfold LEFT_EDGE
  split_ifs <;> constructor <;> intro h <;> first
    | assumption
    | decide
    | linarith
    | exact absurd (by decide) h

theorem encode_right (x y : ℚ) : encode x y &&& RIGHT_EDGE ≠ 0 ↔ 480 ≤ x := by
  rw [encode_eq]
  unfold RIGHT_EDGE
  split_ifs <;> constructor <;> intro h <;> first
    | assumption
    | decide
    | linarith
    | exact absurd (by decide) h

theorem encode_top (x y : ℚ) : encode x y &&& TOP_EDGE ≠ 0 ↔ y < 0 := by
  rw [encode_eq]
  unfold TOP_EDGE
  split_ifs <;> constructor <;> intro h <;> first
    | assumption
    | decide
    | linarith
    | exact absurd (by decide) h

theorem encode_bottom (x y : ℚ) : encode x y &&& BOTTOM_EDGE ≠ 0 ↔ 480 ≤ y := by
  rw [encode_eq]
  unfold BOTTOM_EDGE
  split_ifs <;> constructor <;> intro h <;> first
    | assumption
    | decide
    | linarith
    | exact absurd (by decide) h

/-- Two codes share a bit exactly when both points are beyond the same edge. -/
theorem encode_share (a b c d : ℚ) :
    encode a b &&& encode c d ≠ 0 ↔
      ((a < 0 ∧ c < 0) ∨ (480 ≤ a ∧ 480 ≤ c) ∨ (b < 0 ∧ d < 0) ∨ (480 ≤ b ∧ 480 ≤ d)) := by
  rw [encode_eq, encode_eq]
  split_ifs <;> constructor <;> intro h <;> first
    | decide
    | exact absurd (by decide) h
    | exact Or.inl ⟨by assumption, by assumption⟩
    | exact Or.inr (Or.inl ⟨by assumption, by assumption⟩)
    | exact Or.inr (Or.inr (Or.inl ⟨by assumption, by assumption⟩))
    | exact Or.inr (Or.inr (Or.inr ⟨by assumption, by assumption⟩))
    | (exfalso; rcases h with h | h | h | h <;> linarith [h.1, h.2])

theorem encode_join (a b c d : ℚ) :
    encode a b ||| encode c d = 0 ↔ (encode a b = 0 ∧ encode c d = 0) := by
  rw [encode_eq, encode_eq]
  split_ifs <;> decide

theorem trunc_int (n : Int) : trunc (n : ℚ) = n := by
  unfold trunc
  split <;> simp

theorem trunc_on_screen {q : ℚ} (h0 : 0 ≤ q) (h1 : q < 480) : 0 ≤ trunc q ∧ trunc q < 480 := by
  unfold trunc
  rw [if_pos h0]
  refine ⟨Int.floor_nonneg.mpr h0, ?_⟩
  rw [Int.floor_lt]
  exact_mod_cast h1

/-- The loop of `clip` ends with `draw` set only when both points are on the
screen. -/
theorem clip_loop_accept {fuel : Nat} {a b c d : ℚ} {sw : Bool} {a1 b1 c1 d1 : ℚ} {sw1 : Bool}
    (h : clip_loop fuel a b c d sw = some (a1, b1, c1, d1, sw1, true)) :
    on_screen a1 b1 ∧ on_screen c1 d1 := by
  induction fuel generalizing a b c d sw with
  | zero => simp [clip_loop] at h
  | succ n ih =>
    rw [clip_loop] at h
    split at h
    · rename_i hc
      simp only [Option.some.injEq, Prod.mk.injEq] at h
      obtain ⟨rfl, rfl, rfl, rfl, _, _⟩ := h
      obtain ⟨h1, h2⟩ := (encode_join _ _ _ _).mp hc
      exact ⟨(encode_zero_iff _ _).mp h1, (encode_zero_iff _ _).mp h2⟩
    · split at h
      · simp at h
      · split at h
        · exact ih h
        · exact ih h

theorem clip_loop_inside {a b c d : ℚ} (h1 : on_screen a b) (h2 : on_screen c d) (fuel : Nat)
    (sw : Bool) : clip_loop (fuel + 1) a b c d sw = some (a, b, c, d, sw, true) := by
  rw [clip_loop]
  rw [if_pos ((encode_join _ _ _ _).mpr ⟨(encode_zero_iff _ _).mpr h1, (encode_zero_iff _ _).mpr h2⟩)]

theorem misses_screen_sub {ax ay bx b_y u : ℚ} (h : misses_screen ax ay bx b_y)
    (hu0 : 0 ≤ u) (hu1 : u ≤ 1) :
    misses_screen (ax + u * (bx - ax)) (ay + u * (b_y - ay)) bx b_y := by
  intro t ht0 ht1 hon
  apply h (u + t * (1 - u)) (by nlinarith) (by nlinarith)
  have e1 : ax + (u + t * (1 - u)) * (bx - ax)
      = ax + u * (bx - ax) + t * (bx - (ax + u * (bx - ax))) := by ring
  have e2 : ay + (u + t * (1 - u)) * (b_y - ay)
      = ay + u * (b_y - ay) + t * (b_y - (ay + u * (b_y - ay))) := by ring
  rw [e1, e2]
  exact hon

theorem between_cases {p b u : ℚ} (hu0 : 0 ≤ u) (hu1 : u ≤ 1) :
    (p + u * (b - p) < 0 → p < 0 ∨ b < 0) ∧ (480 ≤ p + u * (b - p) → 480 ≤ p ∨ 480 ≤ b) := by
  constructor
  · intro h
    by_contra hc
    push_neg at hc
    nlinarith [mul_nonneg (sub_nonneg.mpr hu1) hc.1, mul_nonneg hu0 hc.2]
  · intro h
    by_contra hc
    push_neg at hc
    rcases eq_or_lt_of_le hu1 with e | hlt
    · subst e
      linarith
    · nlinarith [mul_pos (sub_pos.mpr hlt) (sub_pos.mpr hc.1),
        mul_nonneg hu0 (sub_nonneg.mpr hc.2.le)]

theorem edges_beyond_le (x y : ℚ) : edges_beyond x y ≤ 2 := by
  unfold edges_beyond
  split_ifs <;> first | omega | (exfalso; linarith)

theorem edges_beyond_zero {x y : ℚ} (h : edges_beyond x y = 0) : on_screen x y := by
  unfold edges_beyond at h
  unfold on_screen
  split_ifs at h <;> first
    | omega
    | exact ⟨by linarith, by linarith, by linarith, by linarith⟩

/-- The move of `clip_edge`, for a first point beyond an edge that the integer
second point is not beyond: the new point lies on the segment between the two
and is no longer beyond that edge. -/
theorem clip_edge_progress {fx1 fy1 : ℚ} {ex ey : Int}
    (hP : ¬ on_screen fx1 fy1)
    (hns : ¬ (encode fx1 fy1 &&& encode (ex : ℚ) (ey : ℚ) ≠ 0)) :
    ∃ u : ℚ, 0 ≤ u ∧ u ≤ 1 ∧
      (clip_edge fx1 fy1 ex ey (encode fx1 fy1)).1 = fx1 + u * ((ex : ℚ) - fx1) ∧
      (clip_edge fx1 fy1 ex ey (encode fx1 fy1)).2 = fy1 + u * ((ey : ℚ) - fy1) ∧
      ((fx1 < 0 ∧ ¬ (clip_edge fx1 fy1 ex ey (encode fx1 fy1)).1 < 0) ∨
        (480 ≤ fx1 ∧ ¬ 480 ≤ (clip_edge fx1 fy1 ex ey (encode fx1 fy1)).1) ∨
        (fy1 < 0 ∧ ¬ (clip_edge fx1 fy1 ex ey (encode fx1 fy1)).2 < 0) ∨
        (480 ≤ fy1 ∧ ¬ 480 ≤ (clip_edge fx1 fy1 ex ey (encode fx1 fy1)).2)) := by
  have hsh := (not_congr (encode_share fx1 fy1 ex ey)).mp hns
  push_neg at hsh
  obtain ⟨s1, s2, s3, s4⟩ := hsh
  have hw : ((kScreenWidth : Int) : ℚ) - 1 = 479 := by
    rw [screen_width_cast]
    norm_num
  have hh : ((kScreenHeight : Int) : ℚ) - 1 = 479 := by
    rw [screen_height_cast]
    norm_num
  unfold clip_edge
  simp only [hw, hh]
  by_cases hL : fx1 < 0
  · have hex : (0 : ℚ) ≤ ex := s1 hL
    have hne : (ex : ℚ) ≠ fx1 := by
      intro e
      linarith
    have hd : (0 : ℚ) < ex - fx1 := by linarith
    rw [if_pos ((encode_left fx1 fy1).mpr hL), if_pos hne]
    refine ⟨(0 - fx1) / (ex - fx1), div_nonneg (by linarith) hd.le,
      (div_le_one hd).mpr (by linarith), ?_, ?_, Or.inl ⟨hL, lt_irrefl 0⟩⟩
    · show (0 : ℚ) = _
      field_simp
    · show fy1 + (0 - fx1) * ((ey - fy1) / (ex - fx1)) = _
      field_simp
  · rw [if_neg (fun h => hL ((encode_left fx1 fy1).mp h))]
    by_cases hR : 480 ≤ fx1
    · have hex : (ex : ℚ) < 480 := s2 hR
      have hex2 : (ex : ℚ) ≤ 479 := by
        have : ex < 480 := by exact_mod_cast hex
        have : ex ≤ 479 := by omega
        exact_mod_cast this
      have hne : (ex : ℚ) ≠ fx1 := by
        intro e
        linarith
      have hd : (0 : ℚ) < fx1 - ex := by linarith
      rw [if_pos ((encode_right fx1 fy1).mpr hR), if_pos hne]
      refine ⟨(fx1 - 479) / (fx1 - ex), div_nonneg (by linarith) hd.le,
        (div_le_one hd).mpr (by linarith), ?_, ?_, Or.inr (Or.inl ⟨hR, by norm_num⟩)⟩
      · show (479 : ℚ) = _
        have hd2 : fx1 - (ex : ℚ) ≠ 0 := ne_of_gt hd
        field_simp
        ring
      · show fy1 + (479 - fx1) * ((ey - fy1) / (ex - fx1)) = _
        have hd2 : fx1 - (ex : ℚ) ≠ 0 := ne_of_gt hd
        have hd3 : (ex : ℚ) - fx1 ≠ 0 := by
          intro e
          apply hd2
          linarith
        field_simp
        ring
    · rw [if_neg (fun h => hR ((encode_right fx1 fy1).mp h))]
      by_cases hT : fy1 < 0
      · have hey : (0 : ℚ) ≤ ey := s3 hT
        have hd : (0 : ℚ) < ey - fy1 := by linarith
        have hd2 : (ey : ℚ) - fy1 ≠ 0 := ne_of_gt hd
        rw [if_pos ((encode_top fx1 fy1).mpr hT)]
        refine ⟨(0 - fy1) / (ey - fy1), div_nonneg (by linarith) hd.le,
          (div_le_one hd).mpr (by linarith), ?_, ?_, Or.inr (Or.inr (Or.inl ⟨hT, lt_irrefl 0⟩))⟩
        · by_cases hne : (ex : ℚ) ≠ fx1
          · have hd3 : (ex : ℚ) - fx1 ≠ 0 := sub_ne_zero.mpr hne
            simp only [if_pos hne]
            field_simp
          · have e : (ex : ℚ) = fx1 := not_not.mp hne
            simp only [if_neg hne]
            rw [e]
            ring
        · show (0 : ℚ) = _
          field_simp
      · rw [if_neg (fun h => hT ((encode_top fx1 fy1).mp h))]
        by_cases hB : 480 ≤ fy1
        · have hey : (ey : ℚ) < 480 := s4 hB
          have hey2 : (ey : ℚ) ≤ 479 := by
            have : ey < 480 := by exact_mod_cast hey
            have : ey ≤ 479 := by omega
            exact_mod_cast this
          have hd : (0 : ℚ) < fy1 - ey := by linarith
          have hd2 : fy1 - (ey : ℚ) ≠ 0 := ne_of_gt hd
          have hd4 : (ey : ℚ) - fy1 ≠ 0 := by
            intro e
            apply hd2
            linarith
          rw [if_pos ((encode_bottom fx1 fy1).mpr hB)]
          refine ⟨(fy1 - 479) / (fy1 - ey), div_nonneg (by linarith) hd.le,
            (div_le_one hd).mpr (by linarith), ?_, ?_,
            Or.inr (Or.inr (Or.inr ⟨hB, by norm_num⟩))⟩
          · by_cases hne : (ex : ℚ) ≠ fx1
            · have hd3 : (ex : ℚ) - fx1 ≠ 0 := sub_ne_zero.mpr hne
              simp only [if_pos hne]
              field_simp
              ring
            · have e : (ex : ℚ) = fx1 := not_not.mp hne
              simp only [if_neg hne]
              rw [e]
              ring
          · show (479 : ℚ) = _
            field_simp
            ring
        · exfalso
          apply hP
          exact ⟨by linarith, by linarith, by linarith, by linarith⟩

theorem indicator_le {p q : Prop} [Decidable p] [Decidable q] (h : q → p) :
    (if q then 1 else 0 : Nat) ≤ (if p then 1 else 0) := by
  by_cases hq : q
  · rw [if_pos hq, if_pos (h hq)]
  · rw [if_neg hq]
    exact Nat.zero_le _

theorem indicator_lt {p q : Prop} [Decidable p] [Decidable q] (hp : p) (hq : ¬ q) :
    (if q then 1 else 0 : Nat) < (if p then 1 else 0) := by
  rw [if_pos hp, if_neg hq]
  exact Nat.one_pos

/-- A point that is beyond no new edge and has left one edge is beyond fewer
edges. -/
theorem edges_beyond_drop {px py qx qy : ℚ}
    (i1 : qx < 0 → px < 0) (i2 : 480 ≤ qx → 480 ≤ px)
    (i3 : qy < 0 → py < 0) (i4 : 480 ≤ qy → 480 ≤ py)
    (hclip : (px < 0 ∧ ¬ qx < 0) ∨ (480 ≤ px ∧ ¬ 480 ≤ qx) ∨
      (py < 0 ∧ ¬ qy < 0) ∨ (480 ≤ py ∧ ¬ 480 ≤ qy)) :
    edges_beyond qx qy < edges_beyond px py := by
  unfold edges_beyond
  have l1 := indicator_le i1
  have l2 := indicator_le i2
  have l3 := indicator_le i3
  have l4 := indicator_le i4
  rcases hclip with ⟨hp, hq⟩ | ⟨hp, hq⟩ | ⟨hp, hq⟩ | ⟨hp, hq⟩
  · have := indicator_lt hp hq
    simp only [ge_iff_le] at *
    omega
  · have := indicator_lt hp hq
    simp only [ge_iff_le] at *
    omega
  · have := indicator_lt hp hq
    simp only [ge_iff_le] at *
    omega
  · have := indicator_lt hp hq
    simp only [ge_iff_le] at *
    omega

/-- The loop of `clip` on a segment that misses the screen, with an integer
second point: it ends without `draw` within one iteration more than the number
of edges the first point is beyond, and it never swaps. -/
theorem clip_loop_rejects {ex ey : Int} (n : Nat) :
    ∀ (fx1 fy1 : ℚ), edges_beyond fx1 fy1 ≤ n → misses_screen fx1 fy1 ex ey →
      ∀ fuel, n + 1 ≤ fuel →
        ∃ a b, clip_loop fuel fx1 fy1 ex ey false = some (a, b, (ex : ℚ), (ey : ℚ), false, false) := by
  induction n with
  | zero =>
    intro fx1 fy1 hn hmiss
    exfalso
    have h0 := hmiss 0 (le_refl _) zero_le_one
    simp only [zero_mul, add_zero] at h0
    exact h0 (edges_beyond_zero (by omega))
  | succ n ih =>
    intro fx1 fy1 hn hmiss fuel hfuel
    obtain ⟨f, rfl⟩ : ∃ f, fuel = f + 1 := ⟨fuel - 1, by omega⟩
    have hP : ¬ on_screen fx1 fy1 := by
      have h0 := hmiss 0 (le_refl _) zero_le_one
      simp only [zero_mul, add_zero] at h0
      exact h0
    have hc1 : encode fx1 fy1 ≠ 0 := fun h => hP ((encode_zero_iff _ _).mp h)
    rw [clip_loop]
    rw [if_neg (fun h => hc1 ((encode_join _ _ _ _).mp h).1)]
    by_cases hsh : encode fx1 fy1 &&& encode (ex : ℚ) (ey : ℚ) ≠ 0
    · rw [if_pos hsh]
      exact ⟨fx1, fy1, rfl⟩
    · rw [if_neg hsh, if_neg hc1]
      obtain ⟨u, hu0, hu1, e1, e2, hclip⟩ := clip_edge_progress hP hsh
      have hmiss2 := misses_screen_sub hmiss hu0 hu1
      rw [← e1, ← e2] at hmiss2
      have bx := between_cases (p := fx1) (b := (ex : ℚ)) hu0 hu1
      have b_y := between_cases (p := fy1) (b := (ey : ℚ)) hu0 hu1
      rw [← e1] at bx
      rw [← e2] at b_y
      generalize (clip_edge fx1 fy1 ex ey (encode fx1 fy1)).1 = qx at *
      generalize (clip_edge fx1 fy1 ex ey (encode fx1 fy1)).2 = qy at *
      by_cases hsh2 : encode qx qy &&& encode (ex : ℚ) (ey : ℚ) ≠ 0
      · obtain ⟨g, rfl⟩ : ∃ g, f = g + 1 := ⟨f - 1, by omega⟩
        have hQ : ¬ on_screen qx qy := by
          have h0 := hmiss2 0 (le_refl _) zero_le_one
          simp only [zero_mul, add_zero] at h0
          exact h0
        rw [clip_loop]
        rw [if_neg (fun h => hQ ((encode_zero_iff _ _).mp ((encode_join _ _ _ _).mp h).1)),
          if_pos hsh2]
        exact ⟨qx, qy, rfl⟩
      · have hs := (not_congr (encode_share qx qy ex ey)).mp hsh2
        push_neg at hs
        obtain ⟨s1, s2, s3, s4⟩ := hs
        have hdrop : edges_beyond qx qy < edges_beyond fx1 fy1 := by
          apply edges_beyond_drop _ _ _ _ hclip
          · intro h
            rcases bx.1 h with h1 | h1
            · exact h1
            · exact absurd h1 (not_lt.mpr (s1 h))
          · intro h
            rcases bx.2 h with h1 | h1
            · exact h1
            · exact absurd h1 (not_le.mpr (s2 h))
          · intro h
            rcases b_y.1 h with h1 | h1
            · exact h1
            · exact absurd h1 (not_lt.mpr (s3 h))
          · intro h
            rcases b_y.2 h with h1 | h1
            · exact h1
            · exact absurd h1 (not_le.mpr (s4 h))
        exact ih qx qy (by omega) hmiss2 f (by omega)

/-! ## Rasterising -/

theorem trunc_nat (n : Nat) : trunc (n : ℚ) = n := by
  unfold trunc
  rw [if_pos (Nat.cast_nonneg n)]
  exact Int.floor_natCast n

theorem to_uint8_nat {n : Nat} (h : n < 256) : to_uint8 (n : Int) = n := by
  unfold to_uint8
  omega

theorem mkcolor_self {c : color_type} (h : c.r < 256 ∧ c.g < 256 ∧ c.b < 256) :
    mkcolor (trunc (c.r : ℚ)) (trunc (c.g : ℚ)) (trunc (c.b : ℚ)) = c := by
  obtain ⟨h1, h2, h3⟩ := h
  unfold mkcolor
  simp only [trunc_nat]
  rw [if_neg (by omega), if_neg (by omega), if_neg (by omega), to_uint8_nat h1, to_uint8_nat h2,
    to_uint8_nat h3]

theorem putpixel_on_screen {x y : Int} (c : color_type)
    (h : 0 ≤ x ∧ x < 480 ∧ 0 ≤ y ∧ y < 480) : putpixel x y c = [{ x := x, y := y, c := c }] := by
  unfold putpixel kScreenWidth kScreenHeight
  rw [if_pos ⟨h.1, h.2.2.1, h.2.1, h.2.2.2⟩]

/-- The coloured pixel of iteration `k` of the loop of `drawvertline`. -/
theorem drawvertline_loop_mem (x : Int) (rd gd bd : ℚ) (n : Nat) :
    ∀ (dy : Int) (cr cg cb : ℚ) (k : Nat), k < n →
      ∀ p ∈ putpixel x (dy + k)
          { r := to_uint8 (trunc (cr + k * rd)), g := to_uint8 (trunc (cg + k * gd)),
            b := to_uint8 (trunc (cb + k * bd)) },
        p ∈ drawvertline_loop x rd gd bd n dy cr cg cb := by
  induction n with
  | zero => intro dy cr cg cb k hk; omega
  | succ n ih =>
    intro dy cr cg cb k hk p hp
    rw [drawvertline_loop]
    rcases k with _ | k
    · simp only [Nat.cast_zero, add_zero, zero_mul, CharP.cast_eq_zero] at hp
      exact List.mem_append_left _ (List.mem_append_right _ hp)
    · apply List.mem_append_right
      apply ih (dy + 1) (cr + rd) (cg + gd) (cb + bd) k (by omega)
      have e1 : dy + 1 + (k : Int) = dy + ((k + 1 : Nat) : Int) := by
        push_cast
        ring
      have e2 : cr + rd + (k : ℚ) * rd = cr + ((k + 1 : Nat) : ℚ) * rd := by
        push_cast
        ring
      have e3 : cg + gd + (k : ℚ) * gd = cg + ((k + 1 : Nat) : ℚ) * gd := by
        push_cast
        ring
      have e4 : cb + bd + (k : ℚ) * bd = cb + ((k + 1 : Nat) : ℚ) * bd := by
        push_cast
        ring
      rw [e1, e2, e3, e4]
      exact hp

theorem gradient_end (a b : Nat) {n : Int} (hn : 0 < n) :
    (a : ℚ) + (n.toNat : ℚ) * ((((b : Int) - (a : Int) : Int) : ℚ) / ((n : Int) : ℚ)) = b := by
  have e : ((n.toNat : Nat) : ℚ) = ((n : Int) : ℚ) := by
    have : ((n.toNat : Nat) : Int) = n := Int.toNat_of_nonneg hn.le
    exact_mod_cast this
  have hne : ((n : Int) : ℚ) ≠ 0 := by
    have : n ≠ 0 := ne_of_gt hn
    exact_mod_cast this
  rw [e]
  push_cast
  field_simp

/-- A run of `drawvertline` writes its first end, when that is on the screen,
in the first colour. -/
theorem drawvertline_first {x y1 y2 : Int} {c1 : color_type} (c2 : color_type)
    (hs : 0 ≤ x ∧ x < 480 ∧ 0 ≤ y1 ∧ y1 < 480) (hc : c1.r < 256 ∧ c1.g < 256 ∧ c1.b < 256) :
    ({ x := x, y := y1, c := c1 } : pixel) ∈ drawvertline x y1 c1 y2 c2 := by
  unfold drawvertline
  by_cases h : y1 > y2
  · simp only [if_pos h]
    have hk : (y1 - y2).toNat < (y1 - y2 + 1).toNat := by omega
    apply drawvertline_loop_mem x _ _ _ _ y2 c2.r c2.g c2.b (y1 - y2).toNat hk
    have hne : y2 ≠ y1 := by omega
    have hpos : 0 < y1 - y2 := by omega
    have ey : y2 + ((y1 - y2).toNat : Int) = y1 := by omega
    rw [ey, if_pos hne, if_pos hne, if_pos hne, gradient_end c2.r c1.r hpos,
      gradient_end c2.g c1.g hpos, gradient_end c2.b c1.b hpos]
    simp only [trunc_nat, to_uint8_nat hc.1, to_uint8_nat hc.2.1, to_uint8_nat hc.2.2]
    rw [putpixel_on_screen _ hs]
    exact List.mem_singleton.mpr rfl
  · simp only [if_neg h]
    have hk : 0 < (y2 - y1 + 1).toNat := by omega
    apply drawvertline_loop_mem x _ _ _ _ y1 c1.r c1.g c1.b 0 hk
    simp only [Nat.cast_zero, add_zero, zero_mul, CharP.cast_eq_zero, trunc_nat,
      to_uint8_nat hc.1, to_uint8_nat hc.2.1, to_uint8_nat hc.2.2]
    rw [putpixel_on_screen _ hs]
    exact List.mem_singleton.mpr rfl

/-- Both endpoints that an accepting `clip` returns are on the screen. -/
theorem clip_draw_on_screen {fuel : Nat} {x1 y1 x2 y2 a b c d : Int}
    (h : clip fuel x1 y1 x2 y2 = some (a, b, c, d, true)) :
    (0 ≤ a ∧ a < 480 ∧ 0 ≤ b ∧ b < 480) ∧ (0 ≤ c ∧ c < 480 ∧ 0 ≤ d ∧ d < 480) := by
  unfold clip at h
  split at h
  · cases h
  · rename_i fx1 fy1 fx2 fy2 swapped draw hl
    split at h
    · simp only [Option.some.injEq, Prod.mk.injEq] at h
      obtain ⟨rfl, rfl, rfl, rfl, rfl⟩ := h
      obtain ⟨⟨p1, p2, p3, p4⟩, ⟨q1, q2, q3, q4⟩⟩ := clip_loop_accept hl
      have t1 := trunc_on_screen p1 p2
      have t2 := trunc_on_screen p3 p4
      have t3 := trunc_on_screen q1 q2
      have t4 := trunc_on_screen q3 q4
      exact ⟨⟨t3.1, t3.2, t4.1, t4.2⟩, ⟨t1.1, t1.2, t2.1, t2.2⟩⟩
    · simp only [Option.some.injEq, Prod.mk.injEq] at h
      obtain ⟨rfl, rfl, rfl, rfl, rfl⟩ := h
      obtain ⟨⟨p1, p2, p3, p4⟩, ⟨q1, q2, q3, q4⟩⟩ := clip_loop_accept hl
      have t1 := trunc_on_screen p1 p2
      have t2 := trunc_on_screen p3 p4
      have t3 := trunc_on_screen q1 q2
      have t4 := trunc_on_screen q3 q4
      exact ⟨⟨t1.1, t1.2, t2.1, t2.2⟩, ⟨t3.1, t3.2, t4.1, t4.2⟩⟩

/-- The loop of `sdl_drawline` ends after `|x2 - x1|` iterations, and its first
iteration draws the run of column `x1`. -/
theorem sdl_drawline_loop_some (m b : ℚ) {dx : Int} (rd gd bd : ℚ) (x2 : Int) (n : Nat) :
    ∀ (fuel : Nat) (x1 : Int) (cr cg cb : ℚ), x2 - x1 = n * dx → dx ≠ 0 → n ≤ fuel →
      ∃ l, sdl_drawline_loop m b dx rd gd bd x2 fuel x1 cr cg cb = some l ∧
        (0 < n → ∃ rest, l =
          drawvertline x1 (trunc (m * x1 + b)) (mkcolor (trunc cr) (trunc cg) (trunc cb))
            (trunc (m * ((x1 + dx : Int) : ℚ) + b))
            (mkcolor (trunc (cr + rd)) (trunc (cg + gd)) (trunc (cb + bd))) ++ rest) := by
  induction n with
  | zero =>
    intro fuel x1 cr cg cb hx hdx hf
    have e : x1 = x2 := by
      simp only [Nat.cast_zero, zero_mul] at hx
      omega
    refine ⟨[], ?_, fun h => absurd h (lt_irrefl 0)⟩
    cases fuel with
    | zero =>
      rw [sdl_drawline_loop, if_neg (not_not.mpr e)]
    | succ f =>
      rw [sdl_drawline_loop, if_neg (not_not.mpr e)]
  | succ n ih =>
    intro fuel x1 cr cg cb hx hdx hf
    obtain ⟨f, rfl⟩ : ∃ f, fuel = f + 1 := ⟨fuel - 1, by omega⟩
    have hne : x1 ≠ x2 := by
      intro e
      rw [e, sub_self] at hx
      have : ((n + 1 : Nat) : Int) * dx ≠ 0 := mul_ne_zero (by omega) hdx
      exact this hx.symm
    obtain ⟨rest, hrest, _⟩ := ih f (x1 + dx) (cr + rd) (cg + gd) (cb + bd)
      (by
        push_cast at hx ⊢
        linarith) hdx (by omega)
    rw [sdl_drawline_loop, if_pos hne]
    dsimp only
    rw [hrest]
    exact ⟨_, rfl, fun _ => ⟨rest, rfl⟩⟩

/-- When `clip` accepts, `sdl_drawline` returns and writes the pixel of the
returned first endpoint in the first colour passed. -/
theorem sdl_drawline_first {fuel : Nat} {x1 y1 x2 y2 a b c d : Int} {c1 : color_type}
    (c2 : color_type) (h : clip fuel x1 y1 x2 y2 = some (a, b, c, d, true)) (hf : 480 ≤ fuel)
    (hc : c1.r < 256 ∧ c1.g < 256 ∧ c1.b < 256) :
    ∃ l, sdl_drawline fuel x1 y1 c1 x2 y2 c2 = some l ∧
      ({ x := a, y := b, c := c1 } : pixel) ∈ l := by
  obtain ⟨hab, hcd⟩ := clip_draw_on_screen h
  unfold sdl_drawline
  rw [h]
  simp only [if_true]
  by_cases hdx : c - a ≠ 0
  · rw [if_pos hdx]
    have hsign : (if c ≥ a then (1 : Int) else -1) ≠ 0 := by
      split <;> decide
    have hn : c - a = ((c - a).natAbs : Int) * (if c ≥ a then (1 : Int) else -1) := by
      split <;> omega
    have key := fun (m b : ℚ) (rd gd bd cr cg cb : ℚ) =>
      sdl_drawline_loop_some m b rd gd bd c (c - a).natAbs fuel a cr cg cb hn hsign (by omega)
    refine Exists.elim (key _ _ _ _ _ _ _ _) (fun l hl => ⟨l, hl.1, ?_⟩)
    obtain ⟨rest, hrest⟩ := hl.2 (by omega)
    rw [hrest]
    apply List.mem_append_left
    have e : ((d - b : Int) : ℚ) / ((c - a : Int) : ℚ) * (a : ℚ)
        + ((b : ℚ) - ((d - b : Int) : ℚ) / ((c - a : Int) : ℚ) * (a : ℚ)) = (b : ℚ) := by ring
    rw [e, trunc_int, mkcolor_self hc]
    exact drawvertline_first _ hab hc
  · rw [if_neg hdx]
    exact ⟨_, rfl, drawvertline_first c2 hab hc⟩

theorem edges_beyond_one {x y : ℚ} (h : edges_beyond x y = 1) :
    ¬ on_screen x y ∧ (y < 0 → 0 ≤ x ∧ x < 480) ∧ (480 ≤ y → 0 ≤ x ∧ x < 480) := by
  unfold edges_beyond at h
  unfold on_screen
  split_ifs at h <;> first
    | omega
    | (refine ⟨fun hs => ?_, fun h1 => ?_, fun h2 => ?_⟩ <;> first
        | (exfalso; linarith [hs.1, hs.2.1, hs.2.2.1, hs.2.2.2])
        | (exfalso; linarith)
        | exact ⟨by linarith, by linarith⟩)

/-- The edge onto which `clip_edge` moves the point. -/
theorem clip_edge_coord (fx1 fy1 fx2 fy2 : ℚ) :
    (fx1 < 0 → (clip_edge fx1 fy1 fx2 fy2 (encode fx1 fy1)).1 = 0) ∧
    (480 ≤ fx1 → (clip_edge fx1 fy1 fx2 fy2 (encode fx1 fy1)).1 = 479) ∧
    (0 ≤ fx1 → fx1 < 480 → fy1 < 0 → (clip_edge fx1 fy1 fx2 fy2 (encode fx1 fy1)).2 = 0) ∧
    (0 ≤ fx1 → fx1 < 480 → 480 ≤ fy1 →
      (clip_edge fx1 fy1 fx2 fy2 (encode fx1 fy1)).2 = 479) := by
  have hw : ((kScreenWidth : Int) : ℚ) - 1 = 479 := by
    rw [screen_width_cast]
    norm_num
  have hh : ((kScreenHeight : Int) : ℚ) - 1 = 479 := by
    rw [screen_height_cast]
    norm_num
  unfold clip_edge
  simp only [hw, hh]
  refine ⟨fun h => ?_, fun h => ?_, fun h0 h1 h => ?_, fun h0 h1 h => ?_⟩
  · rw [if_pos ((encode_left fx1 fy1).mpr h)]
  · rw [if_neg (fun hl => absurd ((encode_left fx1 fy1).mp hl) (by linarith)),
      if_pos ((encode_right fx1 fy1).mpr h)]
  · rw [if_neg (fun hl => absurd ((encode_left fx1 fy1).mp hl) (by linarith)),
      if_neg (fun hl => absurd ((encode_right fx1 fy1).mp hl) (by linarith)),
      if_pos ((encode_top fx1 fy1).mpr h)]
  · rw [if_neg (fun hl => absurd ((encode_left fx1 fy1).mp hl) (by linarith)),
      if_neg (fun hl => absurd ((encode_right fx1 fy1).mp hl) (by linarith)),
      if_neg (fun hl => absurd ((encode_top fx1 fy1).mp hl) (by linarith)),
      if_pos ((encode_bottom fx1 fy1).mpr h)]

/-- A point beyond exactly one edge, joined to an integer point on the screen,
is moved by `clip_edge` to a point of the segment that is on the screen. -/
theorem clip_edge_one {fx1 fy1 : ℚ} {ex ey : Int} (h1 : edges_beyond fx1 fy1 = 1)
    (h2 : on_screen (ex : ℚ) (ey : ℚ)) :
    on_screen (clip_edge fx1 fy1 ex ey (encode fx1 fy1)).1
      (clip_edge fx1 fy1 ex ey (encode fx1 fy1)).2 ∧
    ∃ u : ℚ, 0 ≤ u ∧ u ≤ 1 ∧
      (clip_edge fx1 fy1 ex ey (encode fx1 fy1)).1 = fx1 + u * ((ex : ℚ) - fx1) ∧
      (clip_edge fx1 fy1 ex ey (encode fx1 fy1)).2 = fy1 + u * ((ey : ℚ) - fy1) := by
  obtain ⟨hP, _, _⟩ := edges_beyond_one h1
  obtain ⟨b1, b2, b3, b4⟩ := h2
  have hns : ¬ (encode fx1 fy1 &&& encode (ex : ℚ) (ey : ℚ) ≠ 0) := by
    rw [encode_share]
    rintro (⟨_, h⟩ | ⟨_, h⟩ | ⟨_, h⟩ | ⟨_, h⟩) <;> linarith
  obtain ⟨u, hu0, hu1, e1, e2, hclip⟩ := clip_edge_progress hP hns
  refine ⟨?_, u, hu0, hu1, e1, e2⟩
  have bx := between_cases (p := fx1) (b := (ex : ℚ)) hu0 hu1
  have b_y := between_cases (p := fy1) (b := (ey : ℚ)) hu0 hu1
  rw [← e1] at bx
  rw [← e2] at b_y
  apply edges_beyond_zero
  have hdrop := edges_beyond_drop
    (fun h => (bx.1 h).resolve_right (by linarith))
    (fun h => (bx.2 h).resolve_right (by linarith))
    (fun h => (b_y.1 h).resolve_right (by linarith))
    (fun h => (b_y.2 h).resolve_right (by linarith)) hclip
  omega

/-- The loop of `clip` for a first point beyond exactly one edge and a second
point on the screen: one move, then acceptance. -/
theorem clip_loop_one_edge {fx1 fy1 : ℚ} {ex ey : Int} (h1 : edges_beyond fx1 fy1 = 1)
    (h2 : on_screen (ex : ℚ) (ey : ℚ)) (fuel : Nat) (sw : Bool) :
    clip_loop (fuel + 2) fx1 fy1 ex ey sw
      = some ((clip_edge fx1 fy1 ex ey (encode fx1 fy1)).1,
          (clip_edge fx1 fy1 ex ey (encode fx1 fy1)).2, (ex : ℚ), (ey : ℚ), sw, true) := by
  obtain ⟨hP, _, _⟩ := edges_beyond_one h1
  have hc1 : encode fx1 fy1 ≠ 0 := fun h => hP ((encode_zero_iff _ _).mp h)
  have hc2 : encode (ex : ℚ) (ey : ℚ) = 0 := (encode_zero_iff _ _).mpr h2
  rw [clip_loop, if_neg (fun h => hc1 ((encode_join _ _ _ _).mp h).1), hc2,
    if_neg (by simp), if_neg hc1]
  exact clip_loop_inside (clip_edge_one h1 h2).1 h2 fuel sw

/-- The same with the two points in the other order: the loop swaps them. -/
theorem clip_loop_one_edge_swapped {fx2 fy2 : ℚ} {ex ey : Int} (h1 : on_screen (ex : ℚ) (ey : ℚ))
    (h2 : edges_beyond fx2 fy2 = 1) (fuel : Nat) (sw : Bool) :
    clip_loop (fuel + 2) ex ey fx2 fy2 sw
      = some ((clip_edge fx2 fy2 ex ey (encode fx2 fy2)).1,
          (clip_edge fx2 fy2 ex ey (encode fx2 fy2)).2, (ex : ℚ), (ey : ℚ), true, true) := by
  obtain ⟨hP, _, _⟩ := edges_beyond_one h2
  have hc2 : encode fx2 fy2 ≠ 0 := fun h => hP ((encode_zero_iff _ _).mp h)
  have hc1 : encode (ex : ℚ) (ey : ℚ) = 0 := (encode_zero_iff _ _).mpr h1
  rw [clip_loop, if_neg (fun h => hc2 ((encode_join _ _ _ _).mp h).2), hc1,
    if_neg (by simp), if_pos rfl]
  exact clip_loop_inside (clip_edge_one h2 h1).1 h1 fuel true

/-- The truncated endpoint of a segment that leaves the screen over one edge. -/
theorem clip_edge_one_coord {fx1 fy1 : ℚ} {ex ey : Int} (h1 : edges_beyond fx1 fy1 = 1)
    (h2 : on_screen (ex : ℚ) (ey : ℚ)) :
    ∃ qx qy u : ℚ, qx = (clip_edge fx1 fy1 ex ey (encode fx1 fy1)).1 ∧
      qy = (clip_edge fx1 fy1 ex ey (encode fx1 fy1)).2 ∧
      0 ≤ u ∧ u ≤ 1 ∧ qx = fx1 + u * ((ex : ℚ) - fx1) ∧ qy = fy1 + u * ((ey : ℚ) - fy1) ∧
      on_screen qx qy ∧
      (fx1 < 0 → qx = 0) ∧ (480 ≤ fx1 → qx = 479) ∧ (fy1 < 0 → qy = 0) ∧ (480 ≤ fy1 → qy = 479) := by
  obtain ⟨hon, u, hu0, hu1, e1, e2⟩ := clip_edge_one h1 h2
  obtain ⟨_, hy1, hy2⟩ := edges_beyond_one h1
  obtain ⟨k1, k2, k3, k4⟩ := clip_edge_coord fx1 fy1 ex ey
  exact ⟨_, _, u, rfl, rfl, hu0, hu1, e1, e2, hon, k1, k2,
    fun h => k3 (hy1 h).1 (hy1 h).2 h, fun h => k4 (hy2 h).1 (hy2 h).2 h⟩

/-! ## The state file -/

theorem rd32_le32 {x : Int} (h : int32_ok x) : rd32 (le32 x) = x := by
  obtain ⟨h1, h2⟩ := h
  unfold rd32 le32
  simp only [List.getD_cons_zero, List.getD_cons_succ]
  norm_num at h1 h2
  split <;> push_cast at * <;> omega

theorem fread_int_le32 {x : Int} (h : int32_ok x) (old : Int) (rest : List Nat) :
    fread_int old (le32 x ++ rest) = (x, rest) := by
  have e : fread_bytes 4 (le32 old) (le32 x ++ rest) = (le32 x, rest) := by
    unfold fread_bytes le32
    simp
  unfold fread_int
  rw [e, rd32_le32 h]

theorem fread_size_t_fresh (x : Nat) (rest : List Nat) :
    fread_size_t 0 (fwrite_size_t x ++ rest) = (x % 2 ^ 32, rest) := by
  have e : fread_bytes 4 (le64 0) (fwrite_size_t x ++ rest)
      = ([x % 256, x / 2 ^ 8 % 256, x / 2 ^ 16 % 256, x / 2 ^ 24 % 256, 0, 0, 0, 0], rest) := by
    unfold fread_bytes fwrite_size_t le64
    simp
  unfold fread_size_t
  rw [e]
  unfold rd64
  simp only [List.getD_cons_zero, List.getD_cons_succ]
  congr 1
  omega

theorem fgetc_fputc (x : Int) (rest : List Nat) : fgetc (fputc x ++ rest) = (x % 256, rest) := by
  unfold fgetc fputc
  simp only [List.singleton_append]
  congr 1
  omega

theorem load_bullet_save {b : bullet_type} (h : bullet_ok b) (old : bullet_type)
    (rest : List Nat) : load_bullet old (save_bullet b ++ rest) = (b, rest) := by
  obtain ⟨h1, h2, h3, h4, h5⟩ := h
  unfold load_bullet save_bullet
  simp only [List.append_assoc, fread_int_le32 h1, fread_int_le32 h2, fread_int_le32 h3,
    fread_int_le32 h4, fread_int_le32 h5]

theorem load_bit_save {b : bit_type} (h : bit_ok b) (old : bit_type) (rest : List Nat) :
    load_bit old (save_bit b ++ rest) = (b, rest) := by
  obtain ⟨h1, h2, h3, h4, h5⟩ := h
  unfold load_bit save_bit
  simp only [List.append_assoc, fread_int_le32 h1, fread_int_le32 h2, fread_int_le32 h3,
    fread_int_le32 h4, fread_int_le32 h5]

theorem load_shapes_save (n : Nat) :
    ∀ (sh old : List shape_type) (rest : List Nat), sh.length = n → shapes_ok sh →
      load_shapes n old (save_shapes n sh ++ rest) = (sh, rest) := by
  induction n with
  | zero =>
    intro sh old rest hl _
    have : sh = [] := List.length_eq_zero.mp hl
    subst this
    rfl
  | succ n ih =>
    intro sh old rest hl hok
    match sh, hl with
    | p :: t, hl =>
      have hp := hok p (List.mem_cons_self p t)
      have ht : shapes_ok t := fun q hq => hok q (List.mem_cons_of_mem p hq)
      simp only [load_shapes, save_shapes, List.headD_cons, List.tail_cons, List.append_assoc,
        fread_int_le32 hp.1, fread_int_le32 hp.2]
      rw [ih t old.tail rest (by simpa using hl) ht]

theorem load_asteroid_save {a : asteroid_type} (h : asteroid_ok a) (old : asteroid_type)
    (rest : List Nat) : load_asteroid old (save_asteroid a ++ rest) = (a, rest) := by
  obtain ⟨h1, h2, h3, h4, h5, h6, h7, h8, hl, hs⟩ := h
  unfold load_asteroid save_asteroid
  simp only [List.append_assoc, fread_int_le32 h1, fread_int_le32 h2, fread_int_le32 h3,
    fread_int_le32 h4, fread_int_le32 h5, fread_int_le32 h6, fread_int_le32 h7,
    fread_int_le32 h8, load_shapes_save kAsteroidsSides a.shape old.shape rest hl hs]

/-- Reading back the slots of a pool: the slots written replace those of the
pool read into. -/
theorem load_pool_save {α : Type} {save : α → List Nat} {load : α → List Nat → α × List Nat}
    {ok : α → Prop}
    (hrt : ∀ (a old : α) (rest : List Nat), ok a → load old (save a ++ rest) = (a, rest))
    (n : Nat) :
    ∀ (i : Nat) (f g : Nat → α) (rest : List Nat), (∀ k, i ≤ k → k < i + n → ok (f k)) →
      load_pool load n i g (save_pool save n i f ++ rest)
        = (fun k => if i ≤ k ∧ k < i + n then f k else g k, rest) := by
  induction n with
  | zero =>
    intro i f g rest _
    simp only [load_pool, save_pool, List.nil_append]
    congr 1
    funext k
    rw [if_neg (by omega)]
  | succ n ih =>
    intro i f g rest hok
    simp only [load_pool, save_pool, List.append_assoc]
    rw [hrt (f i) (g i) _ (hok i (le_refl _) (by omega))]
    rw [ih (i + 1) f _ rest (fun k h1 h2 => hok k (by omega) (by omega))]
    congr 1
    funext k
    by_cases hk : k = i
    · subst hk
      rw [if_neg (by omega), if_pos (by omega), Function.update_same]
    · rw [Function.update_noteq hk]
      by_cases hr : i + 1 ≤ k ∧ k < i + 1 + n
      · rw [if_pos hr, if_pos (by omega)]
      · rw [if_neg hr, if_neg (by omega)]

theorem fgets_go_line (n : Nat) :
    ∀ (l rest : List Nat), (∀ b ∈ l, b ≠ 10) → l.length < n →
      fgets_go n (l ++ 10 :: rest) = (l ++ [10], rest) := by
  induction n with
  | zero => intro l rest _ h; omega
  | succ n ih =>
    intro l rest hl hn
    match l with
    | [] => simp [fgets_go]
    | b :: t =>
      have hb : b ≠ 10 := hl b (List.mem_cons_self b t)
      have e := ih t rest (fun c hc => hl c (List.mem_cons_of_mem b hc)) (by simpa using hn)
      show fgets_go (n + 1) (b :: (t ++ 10 :: rest)) = (b :: (t ++ [10]), rest)
      rw [fgets_go, if_neg hb, e]

theorem fgets_line {l : List Nat} (rest : List Nat) (hl : ∀ b ∈ l, b ≠ 10) (hn : l.length < 255) :
    fgets 256 (l ++ 10 :: rest) = some (l ++ [10], rest) := by
  unfold fgets
  rw [if_neg (by simp)]
  rw [show 256 - 1 = 255 from rfl, fgets_go_line 255 l rest hl hn]

theorem header_line1 : str_bytes (kGameName ++ " State File\n")
    = str_bytes "Vectoroids State File" ++ [10] := by decide

theorem header_line2 : str_bytes (kGameDate ++ "\n") = str_bytes kGameDate ++ [10] := by decide

theorem header_version :
    strncmp (c_string (str_bytes kGameDate ++ [10])).dropLast (str_bytes kGameDate) 10 = false := by
  decide

theorem to_size_t_byte (n : Nat) : to_size_t ((n : Int) % 256) = n % 256 := by
  unfold to_size_t SIZE_T_MOD
  omega

theorem pending_byte (b : Bool) :
    decide ((if b then (1 : Int) else 0) % 256 ≠ 0) = b := by
  cases b <;> decide

/-- What the load code reads from the file that the save code wrote, into the
globals as they are when the program starts. -/
theorem load_save_state {s : Game} (h : c_state s) :
    load_state (some (save_state s)) fresh_game = some { fresh_game with
      game_pending := s.game_pending,
      lives := s.lives % 256, level := s.level % 256,
      player_alive := s.player_alive % 256, player_die_timer := s.player_die_timer % 256,
      score := s.score % 2 ^ 32, high := s.high % 2 ^ 32,
      player_x := s.player_x, player_y := s.player_y,
      player_xm := s.player_xm, player_ym := s.player_ym, player_angle := s.player_angle,
      bullets := fun k => if 0 ≤ k ∧ k < 0 + kNumBullets then s.bullets k else default,
      asteroids := fun k => if 0 ≤ k ∧ k < 0 + kNumAsteroids then s.asteroids k else default,
      bits := fun k => if 0 ≤ k ∧ k < 0 + kNumBits then s.bits k else default } := by
  obtain ⟨hx, hy, hxm, hym, ha, _, _, _, _, _, _, hbul, hast, hbit⟩ := h
  have l1 : ∀ rest, fgets 256 (str_bytes "Vectoroids State File" ++ 10 :: rest)
      = some (str_bytes "Vectoroids State File" ++ [10], rest) :=
    fun rest => fgets_line rest (by decide) (by decide)
  have l2 : ∀ rest, fgets 256 (str_bytes kGameDate ++ 10 :: rest)
      = some (str_bytes kGameDate ++ [10], rest) :=
    fun rest => fgets_line rest (by decide) (by decide)
  have pb := load_pool_save (fun a old rest (hk : bullet_ok a) => load_bullet_save hk old rest)
    kNumBullets 0 s.bullets (fun _ => default)
  have pa := load_pool_save (fun a old rest (hk : asteroid_ok a) => load_asteroid_save hk old rest)
    kNumAsteroids 0 s.asteroids (fun _ => default)
  have pi := load_pool_save (fun a old rest (hk : bit_ok a) => load_bit_save hk old rest)
    kNumBits 0 s.bits (fun _ => default)
  unfold load_state save_state
  simp only [header_line1, header_line2, List.append_assoc, List.singleton_append,
    List.cons_append, List.nil_append, l1, l2, header_version, Bool.false_eq_true, if_false]
  unfold load_fields
  have f1 : fresh_game.score = 0 := rfl
  have f2 : fresh_game.high = 0 := rfl
  have f3 : fresh_game.bullets = fun _ => default := rfl
  have f4 : fresh_game.asteroids = fun _ => default := rfl
  have f5 : fresh_game.bits = fun _ => default := rfl
  simp only [fgetc_fputc, f1, f2, f3, f4, f5, fread_size_t_fresh, fread_int_le32 hx,
    fread_int_le32 hy, fread_int_le32 hxm, fread_int_le32 hym, fread_int_le32 ha]
  rw [pb _ (fun k _ hk => hbul k (by omega))]
  dsimp only
  rw [pa _ (fun k _ hk => hast k (by omega))]
  dsimp only
  have hlast := pi [] (fun k _ hk => hbit k (by omega))
  rw [List.append_nil] at hlast
  rw [hlast, to_size_t_byte, to_size_t_byte, pending_byte]

/-! ## The outcomes of loading -/

theorem fgets_none_iff (bs : List Nat) : fgets 256 bs = none ↔ bs = [] := by
  unfold fgets
  split <;> simp_all

theorem fgets_some {bs : List Nat} (h : bs ≠ []) : fgets 256 bs = some (fgets_go 255 bs) := by
  unfold fgets
  rw [if_neg h]

/-- The program exits exactly when the file is empty or ends with what the
first `fgets` reads. -/
theorem load_state_none_iff (bs : List Nat) (s : Game) :
    load_state (some bs) s = none ↔ (bs = [] ∨ (fgets_go 255 bs).2 = []) := by
  unfold load_state
  dsimp only
  by_cases h : bs = []
  · subst h
    simp [fgets]
  · rw [fgets_some h]
    dsimp only
    by_cases h2 : (fgets_go 255 bs).2 = []
    · rw [(fgets_none_iff _).mpr h2]
      simp [h2]
    · rw [fgets_some h2]
      dsimp only
      constructor
      · intro hc
        split at hc <;> cases hc
      · rintro (h1 | h1)
        · exact absurd h1 h
        · exact absurd h1 h2

theorem load_state_some {bs : List Nat} {l1 l2 : List Nat × List Nat} (s : Game)
    (h1 : fgets 256 bs = some l1) (h2 : fgets 256 l1.2 = some l2) :
    load_state (some bs) s =
      (if strncmp (c_string l2.1).dropLast (str_bytes kGameDate) 10 then some s
       else some (load_fields s l2.2)) := by
  unfold load_state
  dsimp only
  rw [h1]
  dsimp only
  rw [h2]

/-! ## The vector font -/

theorem char_vectors_grid :
    ∀ v, v < 36 → ∀ i, i < 5 → char_vector v i 0 ≠ -1 →
      (char_vector v i 0 = 0 ∨ char_vector v i 0 = 1) ∧
      (char_vector v i 1 = 0 ∨ char_vector v i 1 = 1 ∨ char_vector v i 1 = 2) ∧
      (char_vector v i 2 = 0 ∨ char_vector v i 2 = 1) ∧
      (char_vector v i 3 = 0 ∨ char_vector v i 3 = 1 ∨ char_vector v i 3 = 2) := by
  intro v hv i hi
  interval_cases v <;> interval_cases i <;> decide

theorem char_vectors_count :
    ∀ v, v < 36 →
      1 ≤ ((List.range 5).filter (fun i => decide (char_vector v i 0 ≠ -1))).length ∧
      ((List.range 5).filter (fun i => decide (char_vector v i 0 ≠ -1))).length ≤ 5 := by
  decide

theorem char_index_cases (c : Int) :
    (((48 ≤ c ∧ c ≤ 57) ∨ (65 ≤ c ∧ c ≤ 90)) →
      char_index c ≠ -1 ∧ (char_index c).toNat < 36) ∧
    (¬ ((48 ≤ c ∧ c ≤ 57) ∨ (65 ≤ c ∧ c ≤ 90)) → char_index c = -1) := by
  unfold char_index
  constructor
  · intro h
    split
    · omega
    · split
      · omega
      · omega
  · intro h
    rw [if_neg (by omega), if_neg (by omega)]

/-! ## Debris -/

theorem active_bits_update_ge {b : Nat → bit_type} {n k : Nat} (v : bit_type) (h : n ≤ k) :
    active_bits (Function.update b k v) n = active_bits b n := by
  induction n with
  | zero => rfl
  | succ n ih =>
    have hne : n ≠ k := by omega
    simp only [active_bits, ih (by omega), Function.update_noteq hne]

theorem active_bits_update_lt {b : Nat → bit_type} {n k : Nat} (v : bit_type) (h : k < n) :
    active_bits (Function.update b k v) n + (if (b k).timer > 0 then 1 else 0)
      = active_bits b n + (if v.timer > 0 then 1 else 0) := by
  induction n with
  | zero => omega
  | succ n ih =>
    by_cases e : n = k
    · subst e
      simp only [active_bits, active_bits_update_ge v (le_refl _), Function.update_same]
      omega
    · have := ih (by omega)
      simp only [active_bits, Function.update_noteq e]
      omega

theorem active_bits_le (b : Nat → bit_type) (n : Nat) : active_bits b n ≤ n := by
  induction n with
  | zero => exact Nat.le_refl _
  | succ n ih =>
    simp only [active_bits]
    split <;> omega

theorem active_bits_free {b : Nat → bit_type} {n : Nat} (h : active_bits b n < n) :
    ∃ i, i < n ∧ (b i).timer ≤ 0 := by
  induction n with
  | zero => omega
  | succ n ih =>
    by_cases hn : (b n).timer > 0
    · simp only [active_bits] at h
      rw [if_pos hn] at h
      obtain ⟨i, hi, h0⟩ := ih (by omega)
      exact ⟨i, by omega, h0⟩
    · exact ⟨n, by omega, by omega⟩

theorem active_bits_full {b : Nat → bit_type} {n : Nat} (h : active_bits b n = n) :
    ∀ i, i < n → (b i).timer > 0 := by
  induction n with
  | zero => intro i hi; omega
  | succ n ih =>
    simp only [active_bits] at h
    have hle := active_bits_le b n
    by_cases hn : (b n).timer > 0
    · rw [if_pos hn] at h
      intro i hi
      by_cases e : i = n
      · subst e
        exact hn
      · exact ih (by omega) i (by omega)
    · rw [if_neg hn] at h
      omega

/-- One `add_bit` call: with a free slot it starts one bit with timer 16 in the
lowest free slot, otherwise it changes nothing. -/
theorem add_bit_count (x y xm ym : Int) (s : Game) :
    active_bits (add_bit x y xm ym s).bits kNumBits
      = active_bits s.bits kNumBits
        + (if active_bits s.bits kNumBits < kNumBits then 1 else 0) ∧
    (∀ i, ((s.bits i).timer > 0 ∨ kNumBits ≤ i) → (add_bit x y xm ym s).bits i = s.bits i) ∧
    (∀ i, (add_bit x y xm ym s).bits i ≠ s.bits i → ((add_bit x y xm ym s).bits i).timer = 16) ∧
    (∃ c, add_bit x y xm ym s = { s with bits := c }) := by
  unfold add_bit
  split
  · rename_i hn
    have hall : ∀ i, i < kNumBits → (s.bits i).timer > 0 := by
      intro i hi
      have := first_free_none.mp hn i (Nat.zero_le _) (by omega)
      simpa using this
    have hfull : ¬ active_bits s.bits kNumBits < kNumBits := by
      intro hlt
      obtain ⟨i, hi, h0⟩ := active_bits_free hlt
      have := hall i hi
      omega
    rw [if_neg hfull]
    exact ⟨rfl, fun _ _ => rfl, fun i hne => absurd rfl hne, s.bits, rfl⟩
  · rename_i f hf
    obtain ⟨_, hlt, hfree, _⟩ := first_free_some hf
    have hfree : (s.bits f).timer ≤ 0 := by simpa using hfree
    have hf50 : f < kNumBits := by omega
    have c1 := active_bits_update_lt (b := s.bits)
      ({ timer := 16, x := x, y := y, xm := xm, ym := ym } : bit_type) hf50
    rw [if_neg (by omega), if_pos (show (16 : Int) > 0 by decide)] at c1
    have hle := active_bits_le (Function.update s.bits f
      ({ timer := 16, x := x, y := y, xm := xm, ym := ym } : bit_type)) kNumBits
    refine ⟨?_, ?_, ?_, _, rfl⟩
    · show active_bits (Function.update s.bits f _) kNumBits = _
      rw [if_pos (by omega)]
      omega
    · intro i hi
      show Function.update s.bits f _ i = s.bits i
      apply Function.update_noteq
      intro e
      subst e
      omega
    · intro i hne
      have e : i = f := by
        by_contra hc
        exact hne (Function.update_noteq hc _ _)
      subst e
      show (Function.update s.bits i _ i).timer = 16
      rw [Function.update_same]

/-- The explosion loop: `n` calls start `min n free` bits. -/
theorem hurt_asteroid_bits_count (r : Nat → Nat) (j : Nat) (xm ym : Int) (n : Nat) :
    ∀ s : Game,
      active_bits (hurt_asteroid_bits r j xm ym n s).bits kNumBits
        = active_bits s.bits kNumBits + min n (kNumBits - active_bits s.bits kNumBits) ∧
      (∀ i, ((s.bits i).timer > 0 ∨ kNumBits ≤ i) →
        (hurt_asteroid_bits r j xm ym n s).bits i = s.bits i) ∧
      (∀ i, (hurt_asteroid_bits r j xm ym n s).bits i ≠ s.bits i →
        ((hurt_asteroid_bits r j xm ym n s).bits i).timer = 16) := by
  induction n with
  | zero =>
    intro s
    exact ⟨by simp [hurt_asteroid_bits], fun _ _ => rfl, fun i hne => absurd rfl hne⟩
  | succ n ih =>
    intro s
    simp only [hurt_asteroid_bits]
    generalize ((s.asteroids j).x - (s.asteroids j).size * kAsteroidsRadius
      + Int.tmod (r s.rng) (kAsteroidsRadius * 2)) = a1
    generalize ((s.asteroids j).y - (s.asteroids j).size * kAsteroidsRadius
      + Int.tmod (r (s.rng + 1)) (kAsteroidsRadius * 2)) = a2
    generalize (Int.tmod (r (s.rng + 2)) ((s.asteroids j).size * 3) - (s.asteroids j).size
      + Int.tdiv (xm + (s.asteroids j).xm) 3) = a3
    generalize (Int.tmod (r (s.rng + 3)) ((s.asteroids j).size * 3) - (s.asteroids j).size
      + Int.tdiv (ym + (s.asteroids j).ym) 3) = a4
    obtain ⟨k1, k2, k3, _⟩ := add_bit_count a1 a2 a3 a4 { s with rng := s.rng + 4 }
    obtain ⟨i1, i2, i3⟩ := ih (add_bit a1 a2 a3 a4 { s with rng := s.rng + 4 })
    have hle := active_bits_le s.bits kNumBits
    have k1b : active_bits (add_bit a1 a2 a3 a4 { s with rng := s.rng + 4 }).bits kNumBits
        = active_bits s.bits kNumBits
          + (if active_bits s.bits kNumBits < kNumBits then 1 else 0) := k1
    refine ⟨?_, ?_, ?_⟩
    · rw [i1, k1b]
      split <;> omega
    · intro i hi
      have e1 : (add_bit a1 a2 a3 a4 { s with rng := s.rng + 4 }).bits i = s.bits i := k2 i hi
      rw [i2 i (by rw [e1]; exact hi), e1]
    · intro i hne
      by_cases e : (hurt_asteroid_bits r j xm ym n
          (add_bit a1 a2 a3 a4 { s with rng := s.rng + 4 })).bits i
          = (add_bit a1 a2 a3 a4 { s with rng := s.rng + 4 }).bits i
      · rw [e]
        apply k3
        intro e2
        apply hne
        rw [e]
        exact e2
      · exact i3 i e

/-- The debris of `hurt_asteroid`. -/
theorem hurt_asteroid_bits_of_some {r : Nat → Nat} {fuel j : Nat} {xm ym : Int} {n : Nat}
    {s t : Game} (h : hurt_asteroid r fuel j xm ym n s = some t) :
    active_bits t.bits kNumBits
      = active_bits s.bits kNumBits + min n (kNumBits - active_bits s.bits kNumBits) ∧
    (∀ i, ((s.bits i).timer > 0 ∨ kNumBits ≤ i) → t.bits i = s.bits i) ∧
    (∀ i, t.bits i ≠ s.bits i → (t.bits i).timer = 16) := by
  obtain ⟨s2, h2, e⟩ := hurt_asteroid_some h
  obtain ⟨a2, c2, e2⟩ := hurt_asteroid_split_frame h2
  obtain ⟨l1, z, tz, c1, sl, sc, e1⟩ := add_score_frame (Int.tdiv 100 ((s.asteroids j).size + 1)) s
  obtain ⟨c3, l3, e3⟩ := playsound_frame (SND_AST1 + (s2.asteroids j).size - 1)
    { s2 with asteroids := Function.update s2.asteroids j { s2.asteroids j with alive := 0 } }
  have hb : (playsound (SND_AST1 + (s2.asteroids j).size - 1)
      { s2 with asteroids := Function.update s2.asteroids j { s2.asteroids j with alive := 0 } }).bits
      = s.bits := by
    rw [e3, e2, e1]
  have k := hurt_asteroid_bits_count r j xm ym n (playsound (SND_AST1 + (s2.asteroids j).size - 1)
      { s2 with asteroids := Function.update s2.asteroids j { s2.asteroids j with alive := 0 } })
  rw [← e, hb] at k
  exact k

/-! ## Live rocks -/

theorem add_asteroid_rock {r : Nat → Nat} {fuel : Nat} {x y xm ym size : Int} {s t : Game}
    (h : add_asteroid r fuel x y xm ym size s = some t) :
    t.asteroids = s.asteroids ∨
    ∃ f a, (s.asteroids f).alive = 0 ∧ t.asteroids = Function.update s.asteroids f a ∧
      a.alive = 1 ∧ a.size = size ∧ (0 ≤ a.angle ∧ a.angle < 360) ∧
      (-3 ≤ a.angle_m ∧ a.angle_m ≤ 2) := by
  unfold add_asteroid at h
  cases hres : resample_xm r fuel s.rng xm with
  | none => simp [hres] at h
  | some v =>
    obtain ⟨xm1, c⟩ := v
    simp only [hres] at h
    cases hf : first_free (fun i => decide ((s.asteroids i).alive = 0)) 0 kNumAsteroids with
    | none =>
      simp only [hf, Option.some.injEq] at h
      left
      rw [← h]
    | some f =>
      simp only [hf, Option.some.injEq] at h
      have hfree : (s.asteroids f).alive = 0 := by simpa using (first_free_some hf).2.2.1
      right
      refine ⟨f, _, hfree, by rw [← h], rfl, rfl, ?_, ?_⟩
      · show 0 ≤ ((r c % 360 : Nat) : Int) ∧ ((r c % 360 : Nat) : Int) < 360
        omega
      · show -3 ≤ ((r (c + 1) % 6 : Nat) : Int) - 3 ∧ ((r (c + 1) % 6 : Nat) : Int) - 3 ≤ 2
        omega

theorem add_asteroid_rocks_ok {r : Nat → Nat} {fuel : Nat} {x y xm ym size : Int} {s t : Game}
    (h : add_asteroid r fuel x y xm ym size s = some t) (hs : rocks_ok s)
    (hsz : 1 ≤ size ∧ size ≤ 4) :
    rocks_ok t ∧ ∀ j, (s.asteroids j).alive ≠ 0 → t.asteroids j = s.asteroids j := by
  rcases add_asteroid_rock h with e | ⟨f, a, hfree, e, _, hsize, hang, hm⟩
  · refine ⟨fun i hi hl => ?_, fun j _ => by rw [e]⟩
    rw [e] at hl ⊢
    exact hs i hi hl
  · refine ⟨fun i hi hl => ?_, fun j hl => ?_⟩
    · rw [e] at hl ⊢
      by_cases hif : i = f
      · subst hif
        rw [Function.update_same]
        exact ⟨hang, hm, by rw [hsize]; exact hsz⟩
      · rw [Function.update_noteq hif] at hl ⊢
        exact hs i hi hl
    · rw [e]
      apply Function.update_noteq
      intro hjf
      rw [hjf] at hl
      exact hl hfree

theorem hurt_asteroid_split_rocks_ok {r : Nat → Nat} {fuel j : Nat} {xm ym : Int} {s t : Game}
    (h : hurt_asteroid_split r fuel j xm ym s = some t) (hs : rocks_ok s)
    (hl : (s.asteroids j).alive ≠ 0) (hj : rock_ok (s.asteroids j)) : rocks_ok t := by
  unfold hurt_asteroid_split at h
  split at h
  · rename_i hbig
    split at h
    · cases h
    · rename_i s1 h1
      obtain ⟨_, _, hsz⟩ := hj
      obtain ⟨k1, same1⟩ := add_asteroid_rocks_ok h1 hs (by omega)
      have e1 := same1 j hl
      refine (add_asteroid_rocks_ok h k1 ?_).1
      rw [e1]
      omega
  · simp only [Option.some.injEq] at h
    subst h
    exact hs

theorem hurt_asteroid_rocks_ok {r : Nat → Nat} {fuel j : Nat} {xm ym : Int} {n : Nat} {s t : Game}
    (h : hurt_asteroid r fuel j xm ym n s = some t) (hs : rocks_ok s)
    (hl : (s.asteroids j).alive ≠ 0) (hj : rock_ok (s.asteroids j)) : rocks_ok t := by
  obtain ⟨s2, h2, e⟩ := hurt_asteroid_asteroids h
  have ea := add_score_asteroids (Int.tdiv 100 ((s.asteroids j).size + 1)) s
  have k2 : rocks_ok s2 := by
    refine hurt_asteroid_split_rocks_ok h2 ?_ ?_ ?_
    · intro i hi hli
      rw [ea] at hli ⊢
      exact hs i hi hli
    · rw [ea]
      exact hl
    · rw [ea]
      exact hj
  intro i hi hli
  rw [e] at hli ⊢
  by_cases hij : i = j
  · subst hij
    rw [Function.update_same] at hli
    exact absurd rfl hli
  · rw [Function.update_noteq hij] at hli ⊢
    exact k2 i hi hli

theorem bullet_scan_rocks_ok {r : Nat → Nat} {fuel i n j : Nat} {s t : Game}
    (h : bullet_scan r fuel i n j s = some t) (hn : j + n ≤ kNumAsteroids) (hs : rocks_ok s) :
    rocks_ok t := by
  induction n generalizing j s with
  | zero =>
    simp only [bullet_scan, Option.some.injEq] at h
    subst h
    exact hs
  | succ n ih =>
    simp only [bullet_scan] at h
    split at h
    · rename_i hc
      simp only [Bool.and_eq_true, decide_eq_true_eq, truthy] at hc
      split at h
      · split at h
        · cases h
        · rename_i s2 h2
          exact ih h (by omega) (hurt_asteroid_rocks_ok h2 hs hc.2 (hs j (by omega) hc.2))
      · exact ih h (by omega) hs
    · exact ih h (by omega) hs

theorem move_bullets_from_rocks_ok {r : Nat → Nat} {fuel n i : Nat} {s t : Game}
    (h : move_bullets_from r fuel n i s = some t) (hs : rocks_ok s) : rocks_ok t := by
  induction n generalizing i s with
  | zero =>
    simp only [move_bullets_from, Option.some.injEq] at h
    subst h
    exact hs
  | succ n ih =>
    simp only [move_bullets_from] at h
    split at h
    · cases h
    · rename_i s1 h1
      apply ih h
      unfold move_bullet at h1
      split at h1
      · exact bullet_scan_rocks_ok h1 (le_refl _) hs
      · simp only [Option.some.injEq] at h1
        subst h1
        exact hs

theorem asteroid_moved_rock_ok (c : Int) {a : asteroid_type} (ha : rock_ok a) :
    rock_ok (asteroid_moved c a) ∧ (asteroid_moved c a).alive = a.alive ∧
    (asteroid_moved c a).angle = (a.angle + a.angle_m) % 360 := by
  obtain ⟨h1, h2, h3⟩ := ha
  unfold asteroid_moved rock_ok
  by_cases hc : Int.tmod c 4 = 0
  · simp only [hc, if_true]
    split_ifs <;> refine ⟨⟨?_, ?_, ?_⟩, trivial, ?_⟩ <;> omega
  · simp only [hc, if_false]
    split_ifs <;> refine ⟨⟨?_, ?_, ?_⟩, trivial, ?_⟩ <;> omega

theorem move_asteroid_rocks_ok {r : Nat → Nat} {fuel i : Nat} {s t : Game}
    (h : move_asteroid r fuel i s = some t) (hi : i < kNumAsteroids) (hs : rocks_ok s) :
    rocks_ok t := by
  unfold move_asteroid at h
  split at h
  · rename_i ha
    have hl : (s.asteroids i).alive ≠ 0 := by simpa [truthy] using ha
    obtain ⟨m1, m2, _⟩ := asteroid_moved_rock_ok s.counter (hs i hi hl)
    have k1 : rocks_ok { s with
        num_asteroids_alive := s.num_asteroids_alive + 1,
        asteroids := Function.update s.asteroids i (asteroid_moved s.counter (s.asteroids i)) } := by
      intro k hk hkl
      by_cases hki : k = i
      · subst hki
        simp only [Function.update_same] at hkl ⊢
        exact m1
      · simp only [Function.update_noteq hki] at hkl ⊢
        exact hs k hk hkl
    dsimp only at h
    split at h
    · split at h
      · cases h
      · rename_i s2 h2
        simp only [Option.some.injEq] at h
        subst h
        have k2 := hurt_asteroid_rocks_ok h2 k1
          (by simp only [Function.update_same]; rw [m2]; exact hl)
          (by simp only [Function.update_same]; exact m1)
        intro k hk hkl
        rw [(ship_dies_keeps s2).2.2.1] at hkl ⊢
        exact k2 k hk hkl
    · simp only [Option.some.injEq] at h
      subst h
      exact k1
  · simp only [Option.some.injEq] at h
    subst h
    exact hs

theorem move_asteroids_from_rocks_ok {r : Nat → Nat} {fuel n i : Nat} {s t : Game}
    (h : move_asteroids_from r fuel n i s = some t) (hn : i + n ≤ kNumAsteroids)
    (hs : rocks_ok s) : rocks_ok t := by
  induction n generalizing i s with
  | zero =>
    simp only [move_asteroids_from, Option.some.injEq] at h
    subst h
    exact hs
  | succ n ih =>
    simp only [move_asteroids_from] at h
    split at h
    · cases h
    · rename_i s1 h1
      exact ih h (by omega) (move_asteroid_rocks_ok h1 (by omega) hs)

theorem reset_level_spawn_rocks_ok {r : Nat → Nat} {fuel n : Nat} {s t : Game}
    (h : reset_level_spawn r fuel n s = some t) (hs : rocks_ok s) : rocks_ok t := by
  induction n generalizing s with
  | zero =>
    simp only [reset_level_spawn, Option.some.injEq] at h
    subst h
    exact hs
  | succ n ih =>
    simp only [reset_level_spawn] at h
    split at h
    · cases h
    · rename_i s1 h1
      exact ih h (add_asteroid_rocks_ok h1 hs (by omega)).1

theorem reset_level_rocks_ok {r : Nat → Nat} {fuel : Nat} {s t : Game}
    (h : reset_level r fuel s = some t) : rocks_ok t := by
  unfold reset_level at h
  dsimp only at h
  split at h
  · cases h
  · rename_i s2 h2
    simp only [Option.some.injEq] at h
    subst h
    have k := reset_level_spawn_rocks_ok h2 (fun j hj hjl => by
      simp only [hj, if_true] at hjl
      exact absurd rfl hjl)
    exact fun i hi hl => k i hi hl

theorem step_tail_rocks_ok {r : Nat → Nat} {fuel : Nat} {s t : Game}
    (h : step_tail r fuel s = some t) (hs : rocks_ok s) : rocks_ok t := by
  unfold step_tail at h
  split at h
  · cases h
  · rename_i s1 h1
    unfold next_level at h
    split at h
    · exact reset_level_rocks_ok h
    · simp only [Option.some.injEq] at h
      subst h
      unfold move_asteroids at h1
      have k := move_asteroids_from_rocks_ok h1 (le_refl _) (fun i hi hl => hs i hi hl)
      exact fun i hi hl => k i hi hl

/-- The phases of a frame before the loop "Move bullets" leave the asteroid
pool, the lives and the frame counter alone, and they bring the ship back to
life only when a life is left. -/
theorem handle_event_pool (e : Event) (s : Game) :
    (handle_event e s).asteroids = s.asteroids ∧ (handle_event e s).lives = s.lives ∧
    (handle_event e s).counter = s.counter ∧ (handle_event e s).player_alive = s.player_alive := by
  have hb : ∀ x y a xm ym, (add_bullet x y a xm ym s).asteroids = s.asteroids ∧
      (add_bullet x y a xm ym s).lives = s.lives ∧
      (add_bullet x y a xm ym s).counter = s.counter ∧
      (add_bullet x y a xm ym s).player_alive = s.player_alive := by
    intro x y a xm ym
    obtain ⟨b, c, l, e, _⟩ := add_bullet_frame x y a xm ym s
    rw [e]
    exact ⟨rfl, rfl, rfl, rfl⟩
  cases e with
  | quit_event => exact ⟨rfl, rfl, rfl, rfl⟩
  | other => exact ⟨rfl, rfl, rfl, rfl⟩
  | key_up k => cases k <;> exact ⟨rfl, rfl, rfl, rfl⟩
  | key_down k =>
    cases k with
    | space =>
      simp only [handle_event]
      split
      · exact hb _ _ _ _ _
      · exact ⟨rfl, rfl, rfl, rfl⟩
    | escape => exact ⟨rfl, rfl, rfl, rfl⟩
    | right => exact ⟨rfl, rfl, rfl, rfl⟩
    | left => exact ⟨rfl, rfl, rfl, rfl⟩
    | up => exact ⟨rfl, rfl, rfl, rfl⟩
    | shift => exact ⟨rfl, rfl, rfl, rfl⟩
    | other => exact ⟨rfl, rfl, rfl, rfl⟩

theorem handle_events_pool (es : List Event) (s : Game) :
    (handle_events es s).asteroids = s.asteroids ∧ (handle_events es s).lives = s.lives ∧
    (handle_events es s).counter = s.counter ∧
    (handle_events es s).player_alive = s.player_alive := by
  induction es generalizing s with
  | nil => exact ⟨rfl, rfl, rfl, rfl⟩
  | cons e es ih =>
    obtain ⟨a1, b1, c1, d1⟩ := handle_event_pool e s
    obtain ⟨a, b, c, d⟩ := ih (handle_event e s)
    exact ⟨a.trans a1, b.trans b1, c.trans c1, d.trans d1⟩

theorem rotate_ship_pool (s : Game) :
    (rotate_ship s).asteroids = s.asteroids ∧ (rotate_ship s).lives = s.lives ∧
    (rotate_ship s).counter = s.counter ∧ (rotate_ship s).player_alive = s.player_alive := by
  unfold rotate_ship
  split
  · exact ⟨rfl, rfl, rfl, rfl⟩
  · split <;> exact ⟨rfl, rfl, rfl, rfl⟩

theorem thrust_ship_pool (s : Game) :
    (thrust_ship s).asteroids = s.asteroids ∧ (thrust_ship s).lives = s.lives ∧
    (thrust_ship s).counter = s.counter ∧ (thrust_ship s).player_alive = s.player_alive := by
  unfold thrust_ship
  split
  · exact ⟨rfl, rfl, rfl, rfl⟩
  · split <;> exact ⟨rfl, rfl, rfl, rfl⟩

theorem handle_death_pool (s : Game) :
    (handle_death s).asteroids = s.asteroids ∧ (handle_death s).lives = s.lives ∧
    (handle_death s).counter = s.counter ∧
    ((handle_death s).player_alive ≠ 0 → s.player_alive ≠ 0 ∨ 0 < s.lives) := by
  unfold handle_death
  dsimp only
  split
  · split
    · split
      · rename_i hl
        split
        · obtain ⟨a, e⟩ := respawn_scan_frame kNumAsteroids 0
            (respawn_reset { s with player_die_timer := s.player_die_timer - 1 })
          rw [e]
          exact ⟨rfl, rfl, rfl, fun _ => Or.inr hl⟩
        · exact ⟨rfl, rfl, rfl, fun _ => Or.inr hl⟩
      · exact ⟨rfl, rfl, rfl, fun h => Or.inl h⟩
    · exact ⟨rfl, rfl, rfl, fun h => Or.inl h⟩
  · exact ⟨rfl, rfl, rfl, fun h => Or.inl h⟩

/-- The state at the loop "Move bullets", seen from the start of the frame. -/
theorem before_bullets_pool (events : List Event) (s : Game) :
    (move_ship (handle_death (thrust_ship (rotate_ship
      (handle_events events { s with counter := s.counter + 1 }))))).asteroids = s.asteroids ∧
    (move_ship (handle_death (thrust_ship (rotate_ship
      (handle_events events { s with counter := s.counter + 1 }))))).lives = s.lives ∧
    (move_ship (handle_death (thrust_ship (rotate_ship
      (handle_events events { s with counter := s.counter + 1 }))))).counter = s.counter + 1 ∧
    ((move_ship (handle_death (thrust_ship (rotate_ship
      (handle_events events { s with counter := s.counter + 1 }))))).player_alive ≠ 0 →
      s.player_alive ≠ 0 ∨ 0 < s.lives) := by
  obtain ⟨a1, b1, c1, d1⟩ := handle_events_pool events { s with counter := s.counter + 1 }
  generalize handle_events events { s with counter := s.counter + 1 } = s1 at a1 b1 c1 d1
  obtain ⟨a2, b2, c2, d2⟩ := rotate_ship_pool s1
  obtain ⟨a3, b3, c3, d3⟩ := thrust_ship_pool (rotate_ship s1)
  obtain ⟨a4, b4, c4, d4⟩ := handle_death_pool (thrust_ship (rotate_ship s1))
  refine ⟨?_, ?_, ?_, ?_⟩
  · show (handle_death (thrust_ship (rotate_ship s1))).asteroids = s.asteroids
    rw [a4, a3, a2, a1]
  · show (handle_death (thrust_ship (rotate_ship s1))).lives = s.lives
    rw [b4, b3, b2, b1]
  · show (handle_death (thrust_ship (rotate_ship s1))).counter = s.counter + 1
    rw [c4, c3, c2, c1]
  · intro h
    have h4 := d4 h
    rw [d3, d2, d1, b3, b2, b1] at h4
    exact h4

theorem step_head_rocks_ok {r : Nat → Nat} {fuel : Nat} {events : List Event} {s t : Game}
    (h : step_head r fuel events s = some t) (hs : rocks_ok s) : rocks_ok t := by
  unfold step_head move_bullets at h
  refine move_bullets_from_rocks_ok h ?_
  intro i hi hl
  rw [(before_bullets_pool events s).1] at hl ⊢
  exact hs i hi hl

theorem step_rocks_ok {r : Nat → Nat} {fuel : Nat} {events : List Event} {s t : Game}
    (h : step r fuel events s = some t) (hs : rocks_ok s) : rocks_ok t := by
  unfold step at h
  split at h
  · cases h
  · rename_i s1 h1
    exact step_tail_rocks_ok h (step_head_rocks_ok h1 hs)

theorem reachable_rocks_ok {r : Nat → Nat} {s : Game} (h : Reachable r s) : rocks_ok s := by
  induction h with
  | new_game fuel s0 s hp hs =>
    obtain ⟨t1, h1, e⟩ := game_start_new (show (game_locals s0).game_pending = false from hp) hs
    rw [e]
    have k := reset_level_rocks_ok h1
    exact fun i hi hl => k i hi hl
  | frame fuel events s t _ hstep ih => exact step_rocks_ok hstep ih

theorem step_angle {r : Nat → Nat} {fuel : Nat} {events : List Event} {s t : Game}
    (h : step r fuel events s = some t) (ha : 0 ≤ s.player_angle ∧ s.player_angle < 360) :
    0 ≤ t.player_angle ∧ t.player_angle < 360 := by
  unfold step at h
  split at h
  · cases h
  · rename_i s6 h6
    have e7 := step_tail_keeps h
    have e6 := step_head_keeps h6
    obtain ⟨m1, _⟩ := handle_events_keeps events { s with counter := s.counter + 1 }
    generalize handle_events events { s with counter := s.counter + 1 } = s1 at m1 e6
    obtain ⟨_, _, _, _, _, ra⟩ := rotate_ship_keeps s1
    obtain ⟨_, _, ta, _, _, _⟩ := thrust_ship_keeps (rotate_ship s1)
    obtain ⟨_, hd⟩ := handle_death_keeps (thrust_ship (rotate_ship s1))
    generalize thrust_ship (rotate_ship s1) = s3 at ta hd e6
    generalize rotate_ship s1 = s2 at ra ta
    have e : ship_motion t = ship_motion (move_ship (handle_death s3)) := e7.trans e6
    generalize handle_death s3 = s4 at hd e
    simp only [ship_motion, move_ship, Prod.mk.injEq] at m1 hd e
    obtain ⟨_, _, _, _, e5⟩ := e
    obtain ⟨_, _, _, _, m1a⟩ := m1
    have ra2 := ra (by omega)
    rcases hd with ⟨_, _, _, _, d5⟩ | ⟨_, _, _, _, d5⟩ <;> omega

theorem reachable_angle {r : Nat → Nat} {s : Game} (h : Reachable r s) :
    0 ≤ s.player_angle ∧ s.player_angle < 360 := by
  induction h with
  | new_game fuel s0 s hp hs =>
    obtain ⟨t1, h1, e⟩ := game_start_new (show (game_locals s0).game_pending = false from hp) hs
    have u := reset_level_keeps h1
    have e2 : t1.player_angle = 90 := congrArg (fun p => p.2.2.2.2.1) u
    rw [e]
    show 0 ≤ t1.player_angle ∧ t1.player_angle < 360
    omega
  | frame fuel events s t _ hstep ih => exact step_angle hstep ih

/-! ## Lives -/

theorem hurt_asteroid_lives {r : Nat → Nat} {fuel j : Nat} {xm ym : Int} {n : Nat} {s t : Game}
    (h : hurt_asteroid r fuel j xm ym n s = some t) :
    t.player_alive = s.player_alive ∧
    (t.lives = s.lives ∨ t.lives = (s.lives + 1) % SIZE_T_MOD) := by
  obtain ⟨a, b, c, l, e⟩ := hurt_asteroid_frame h
  refine ⟨(hurt_asteroid_keeps h).2.2.2.1, ?_⟩
  have e1 : t.lives = (add_score (Int.tdiv 100 ((s.asteroids j).size + 1)) s).lives := by rw [e]
  rw [e1, add_score_lives]
  split
  · exact Or.inr rfl
  · exact Or.inl rfl

theorem bullet_scan_lives {r : Nat → Nat} {fuel i n j : Nat} {s t : Game}
    (h : bullet_scan r fuel i n j s = some t) :
    t.player_alive = s.player_alive ∧
    (t.lives = s.lives ∨ t.lives = (s.lives + 1) % SIZE_T_MOD) := by
  induction n generalizing j s with
  | zero =>
    simp only [bullet_scan, Option.some.injEq] at h
    subst h
    exact ⟨rfl, Or.inl rfl⟩
  | succ n ih =>
    simp only [bullet_scan] at h
    split at h
    · split at h
      · split at h
        · cases h
        · rename_i s2 h2
          have hb := hurt_asteroid_bullets h2
          have hz : ¬ 0 < (s2.bullets i).timer := by
            rw [hb]
            show ¬ 0 < ((Function.update s.bullets i { s.bullets i with timer := 0 }) i).timer
            rw [Function.update_same]
            show ¬ (0 : Int) < 0
            omega
          have hsp : bullet_scan r fuel i n (j + 1) s2 = some s2 := bullet_scan_spent hz n (j + 1)
          rw [hsp, Option.some.injEq] at h
          subst h
          obtain ⟨a, b⟩ := hurt_asteroid_lives h2
          exact ⟨a, b⟩
      · exact ih h
    · exact ih h

theorem move_bullets_from_lives {r : Nat → Nat} {fuel n i : Nat} {s t : Game}
    (h : move_bullets_from r fuel n i s = some t) :
    t.player_alive = s.player_alive ∧
    (s.lives + n < SIZE_T_MOD → s.lives ≤ t.lives ∧ t.lives ≤ s.lives + n) := by
  induction n generalizing i s with
  | zero =>
    simp only [move_bullets_from, Option.some.injEq] at h
    subst h
    exact ⟨rfl, fun _ => ⟨le_refl _, le_refl _⟩⟩
  | succ n ih =>
    simp only [move_bullets_from] at h
    split at h
    · cases h
    · rename_i s1 h1
      have k1 : s1.player_alive = s.player_alive ∧
          (s1.lives = s.lives ∨ s1.lives = (s.lives + 1) % SIZE_T_MOD) := by
        unfold move_bullet at h1
        split at h1
        · obtain ⟨a, b⟩ := bullet_scan_lives h1
          exact ⟨a, b⟩
        · simp only [Option.some.injEq] at h1
          subst h1
          exact ⟨rfl, Or.inl rfl⟩
      obtain ⟨a, hl⟩ := ih h
      refine ⟨a.trans k1.1, fun hlt => ?_⟩
      have e1 : (s.lives + 1) % SIZE_T_MOD = s.lives + 1 := Nat.mod_eq_of_lt (by omega)
      rw [e1] at k1
      have := hl (by omega)
      omega

theorem move_asteroid_lives {r : Nat → Nat} {fuel i : Nat} {s t : Game}
    (h : move_asteroid r fuel i s = some t) :
    (t.lives = s.lives ∧ t.player_alive = s.player_alive) ∨
    (s.player_alive ≠ 0 ∧ t.player_alive = 0 ∧
      ∃ L, (L = s.lives ∨ L = (s.lives + 1) % SIZE_T_MOD) ∧
        t.lives = (L + (SIZE_T_MOD - 1)) % SIZE_T_MOD) := by
  unfold move_asteroid at h
  split at h
  · dsimp only at h
    split at h
    · rename_i hhit
      split at h
      · cases h
      · rename_i s2 h2
        simp only [Option.some.injEq] at h
        subst h
        obtain ⟨a2, l2⟩ := hurt_asteroid_lives h2
        obtain ⟨c, l, e⟩ := ship_dies_frame s2
        right
        refine ⟨?_, by rw [e], s2.lives, l2, by rw [e]⟩
        simp only [ship_hit, Bool.and_eq_true, truthy, decide_eq_true_eq] at hhit
        exact hhit.2
    · simp only [Option.some.injEq] at h
      subst h
      exact Or.inl ⟨rfl, rfl⟩
  · simp only [Option.some.injEq] at h
    subst h
    exact Or.inl ⟨rfl, rfl⟩

theorem move_asteroids_from_lives {r : Nat → Nat} {fuel n i : Nat} {s t : Game}
    (h : move_asteroids_from r fuel n i s = some t) :
    (t.lives = s.lives ∧ t.player_alive = s.player_alive) ∨
    (s.player_alive ≠ 0 ∧ t.player_alive = 0 ∧
      ∃ L, (L = s.lives ∨ L = (s.lives + 1) % SIZE_T_MOD) ∧
        t.lives = (L + (SIZE_T_MOD - 1)) % SIZE_T_MOD) := by
  induction n generalizing i s with
  | zero =>
    simp only [move_asteroids_from, Option.some.injEq] at h
    subst h
    exact Or.inl ⟨rfl, rfl⟩
  | succ n ih =>
    simp only [move_asteroids_from] at h
    split at h
    · cases h
    · rename_i s1 h1
      rcases move_asteroid_lives h1 with ⟨l1, a1⟩ | ⟨a0, a1, L, hL, l1⟩
      · rcases ih h with ⟨l2, a2⟩ | ⟨b0, b1, L, hL, l2⟩
        · exact Or.inl ⟨l2.trans l1, a2.trans a1⟩
        · rw [l1] at hL
          rw [a1] at b0
          exact Or.inr ⟨b0, b1, L, hL, l2⟩
      · rcases ih h with ⟨l2, a2⟩ | ⟨b0, _⟩
        · exact Or.inr ⟨a0, a2.trans a1, L, hL, l2.trans l1⟩
        · exact absurd a1 b0

theorem step_head_lives {r : Nat → Nat} {fuel : Nat} {events : List Event} {s u : Game}
    (h : step_head r fuel events s = some u) :
    u.counter = s.counter + 1 ∧
    (s.lives + 2 < SIZE_T_MOD → lives_ok s →
      s.lives ≤ u.lives ∧ u.lives ≤ s.lives + 2 ∧ lives_ok u) := by
  unfold step_head move_bullets at h
  obtain ⟨a1, l1, c1, d1⟩ := before_bullets_pool events s
  obtain ⟨a2, l2⟩ := move_bullets_from_lives h
  have uc := (move_bullets_from_keeps h).1
  have ec : u.counter = _ := congrArg (fun p => p.2.2.2.2.2.2.2.1) uc
  refine ⟨ec.trans c1, fun hlt hok => ?_⟩
  rw [l1] at l2
  have hb := l2 (by unfold kNumBullets; omega)
  unfold kNumBullets at hb
  refine ⟨hb.1, hb.2, fun hal => ?_⟩
  rw [a2] at hal
  rcases d1 hal with h0 | h0
  · have := hok h0
    omega
  · omega

theorem step_tail_lives {r : Nat → Nat} {fuel : Nat} {u t : Game}
    (h : step_tail r fuel u = some t) :
    t.counter = u.counter ∧
    ((t.lives = u.lives ∧ t.player_alive = u.player_alive) ∨
     (u.player_alive ≠ 0 ∧ t.player_alive = 0 ∧
       ∃ L, (L = u.lives ∨ L = (u.lives + 1) % SIZE_T_MOD) ∧
         t.lives = (L + (SIZE_T_MOD - 1)) % SIZE_T_MOD)) := by
  unfold step_tail at h
  split at h
  · cases h
  · rename_i s1 h1
    unfold move_asteroids at h1
    have k1 := move_asteroids_from_lives h1
    have u1 := (move_asteroids_from_keeps h1).1
    have c1 : s1.counter = u.counter := congrArg (fun p => p.2.2.2.2.2.2.2.1) u1
    have k2 : t.counter = s1.counter ∧ t.lives = s1.lives ∧ t.player_alive = s1.player_alive := by
      unfold next_level at h
      split at h
      · have u2 := reset_level_keeps h
        have c2 : t.counter = s1.counter := congrArg (fun p => p.2.2.2.2.2.2.2.1) u2
        obtain ⟨_, _, _, _, _, _, e1, _, e2, _⟩ := reset_level_some h
        exact ⟨c2, e1, e2⟩
      · simp only [Option.some.injEq] at h
        subst h
        exact ⟨rfl, rfl, rfl⟩
    obtain ⟨c2, l2, a2⟩ := k2
    refine ⟨c2.trans c1, ?_⟩
    rw [l2, a2]
    exact k1

/-- One frame from a state without a wrap of `lives` in reach. -/
theorem step_lives {r : Nat → Nat} {fuel : Nat} {events : List Event} {s t : Game}
    (h : step r fuel events s = some t) :
    t.counter = s.counter + 1 ∧
    (s.lives + 3 < SIZE_T_MOD → lives_ok s →
      lives_ok t ∧ s.lives ≤ t.lives + 1 ∧ t.lives ≤ s.lives + 3) := by
  unfold step at h
  split at h
  · cases h
  · rename_i u hu
    obtain ⟨c1, k1⟩ := step_head_lives hu
    obtain ⟨c2, k2⟩ := step_tail_lives h
    refine ⟨by rw [c2, c1], fun hlt hok => ?_⟩
    obtain ⟨b1, b2, b3⟩ := k1 (by omega) hok
    rcases k2 with ⟨l2, a2⟩ | ⟨a0, a2, L, hL, l2⟩
    · refine ⟨fun hal => ?_, by omega, by omega⟩
      rw [a2] at hal
      have := b3 hal
      omega
    · have h1 := b3 a0
      have e1 : (u.lives + 1) % SIZE_T_MOD = u.lives + 1 := Nat.mod_eq_of_lt (by omega)
      rw [e1] at hL
      have e2 : (L + (SIZE_T_MOD - 1)) % SIZE_T_MOD = L - 1 := by
        have hL1 : 1 ≤ L := by omega
        have hL2 : L < SIZE_T_MOD := by omega
        unfold SIZE_T_MOD at hL2 ⊢
        omega
      rw [e2] at l2
      refine ⟨fun hal => absurd a2 hal, by omega, by omega⟩

theorem reachable_lives {r : Nat → Nat} {s : Game} (h : Reachable r s) :
    0 ≤ s.counter ∧
    (3 * s.counter + 3 < (SIZE_T_MOD : Int) →
      (s.lives : Int) ≤ 3 * s.counter + 3 ∧ lives_ok s) := by
  induction h with
  | new_game fuel s0 s hp hs =>
    obtain ⟨t1, h1, e⟩ := game_start_new (show (game_locals s0).game_pending = false from hp) hs
    have u := reset_level_keeps h1
    have c1 : t1.counter = 0 := congrArg (fun p => p.2.2.2.2.2.2.2.1) u
    obtain ⟨_, _, _, _, _, _, e1, _, e2, _⟩ := reset_level_some h1
    have e1 : t1.lives = 3 := e1
    rw [e]
    show 0 ≤ t1.counter ∧ (3 * t1.counter + 3 < (SIZE_T_MOD : Int) →
      (t1.lives : Int) ≤ 3 * t1.counter + 3 ∧ lives_ok t1)
    refine ⟨by omega, fun _ => ⟨by omega, fun _ => by omega⟩⟩
  | frame fuel events s t _ hstep ih =>
    obtain ⟨c, k⟩ := step_lives hstep
    obtain ⟨c0, ih⟩ := ih
    refine ⟨by omega, fun hlt => ?_⟩
    obtain ⟨b, ok⟩ := ih (by omega)
    have hM : ((SIZE_T_MOD : Nat) : Int) = 2 ^ 64 := by decide
    have hlt2 : s.lives + 3 < SIZE_T_MOD := by
      have : ((s.lives + 3 : Nat) : Int) < ((SIZE_T_MOD : Nat) : Int) := by
        push_cast
        omega
      exact_mod_cast this
    obtain ⟨ok2, _, b2⟩ := k hlt2 ok
    exact ⟨by omega, ok2⟩

/-- The state in which the asteroid loop takes a life: it is reached only with
a live ship, and `hurt_asteroid` does not lower `lives`. -/
theorem ship_dies_call {r : Nat → Nat} {fuel k i : Nat} {x y : Int} {n : Nat} {u v w : Game}
    (hok : lives_ok u) (hlt : u.lives + 1 < SIZE_T_MOD)
    (hv : move_asteroids_from r fuel k i u = some v)
    (hhit : ship_hit { v with
      num_asteroids_alive := v.num_asteroids_alive + 1,
      asteroids := Function.update v.asteroids (i + k) (asteroid_moved v.counter (v.asteroids (i + k))) }
      (i + k) = true)
    (hw : hurt_asteroid r fuel (i + k) x y n { v with
      num_asteroids_alive := v.num_asteroids_alive + 1,
      asteroids := Function.update v.asteroids (i + k) (asteroid_moved v.counter (v.asteroids (i + k))) }
      = some w) :
    1 ≤ w.lives ∧ (ship_dies w).lives + 1 = w.lives := by
  simp only [ship_hit, Bool.and_eq_true, truthy, decide_eq_true_eq] at hhit
  have hal : v.player_alive ≠ 0 := hhit.2
  obtain ⟨_, l2⟩ := hurt_asteroid_lives hw
  have l2 : w.lives = v.lives ∨ w.lives = (v.lives + 1) % SIZE_T_MOD := l2
  obtain ⟨c, l, e⟩ := ship_dies_frame w
  have e3 : (ship_dies w).lives = (w.lives + (SIZE_T_MOD - 1)) % SIZE_T_MOD := by rw [e]
  rcases move_asteroids_from_lives hv with ⟨l1, a1⟩ | ⟨_, a1, _⟩
  · rw [a1] at hal
    have h1 := hok hal
    rw [l1, Nat.mod_eq_of_lt hlt] at l2
    have hw1 : 1 ≤ w.lives := by omega
    have hw2 : w.lives < SIZE_T_MOD := by omega
    refine ⟨hw1, ?_⟩
    rw [e3]
    unfold SIZE_T_MOD at hw2 ⊢
    omega
  · exact absurd a1 hal

/-! ## Rasterised columns -/

theorem sdl_drawline_loop_runs (m b : ℚ) {dx : Int} (rd gd bd : ℚ) (x2 : Int) (n : Nat) :
    ∀ (fuel : Nat) (x1 : Int) (cr cg cb : ℚ), x2 - x1 = n * dx → dx ≠ 0 → n ≤ fuel →
      sdl_drawline_loop m b dx rd gd bd x2 fuel x1 cr cg cb
        = some ((List.range n).map (column_run m b dx rd gd bd x1 cr cg cb)).flatten := by
  induction n with
  | zero =>
    intro fuel x1 cr cg cb hx hdx hf
    have e : x1 = x2 := by
      simp only [Nat.cast_zero, zero_mul] at hx
      omega
    cases fuel with
    | zero =>
      rw [sdl_drawline_loop, if_neg (not_not.mpr e)]
      rfl
    | succ f =>
      rw [sdl_drawline_loop, if_neg (not_not.mpr e)]
      rfl
  | succ n ih =>
    intro fuel x1 cr cg cb hx hdx hf
    obtain ⟨f, rfl⟩ : ∃ f, fuel = f + 1 := ⟨fuel - 1, by omega⟩
    have hne : x1 ≠ x2 := by
      intro e
      rw [e, sub_self] at hx
      have : ((n + 1 : Nat) : Int) * dx ≠ 0 := mul_ne_zero (by omega) hdx
      exact this hx.symm
    have hrest := ih f (x1 + dx) (cr + rd) (cg + gd) (cb + bd)
      (by
        push_cast at hx ⊢
        linarith) hdx (by omega)
    rw [sdl_drawline_loop, if_pos hne]
    dsimp only
    rw [hrest]
    dsimp only
    rw [List.range_succ_eq_map, List.map_cons, List.flatten_cons, List.map_map]
    have e0 : column_run m b dx rd gd bd x1 cr cg cb 0
        = drawvertline x1 (trunc (m * x1 + b)) (mkcolor (trunc cr) (trunc cg) (trunc cb))
            (trunc (m * ((x1 + dx : Int) : ℚ) + b))
            (mkcolor (trunc (cr + rd)) (trunc (cg + gd)) (trunc (cb + bd))) := by
      unfold column_run
      simp only [Nat.cast_zero, zero_mul, add_zero]
    have ef : column_run m b dx rd gd bd (x1 + dx) (cr + rd) (cg + gd) (cb + bd)
        = column_run m b dx rd gd bd x1 cr cg cb ∘ Nat.succ := by
      funext k
      unfold column_run
      simp only [Function.comp, Nat.succ_eq_add_one]
      have a1 : x1 + dx + (k : Int) * dx = x1 + ((k + 1 : Nat) : Int) * dx := by
        push_cast
        ring
      have a2 : cr + rd + (k : ℚ) * rd = cr + ((k + 1 : Nat) : ℚ) * rd := by
        push_cast
        ring
      have a3 : cg + gd + (k : ℚ) * gd = cg + ((k + 1 : Nat) : ℚ) * gd := by
        push_cast
        ring
      have a4 : cb + bd + (k : ℚ) * bd = cb + ((k + 1 : Nat) : ℚ) * bd := by
        push_cast
        ring
      rw [a1, a2, a3, a4]
    rw [e0, ef]

theorem putpixel_mem {x y : Int} {c : color_type} {p : pixel} (h : p ∈ putpixel x y c) :
    p.x = x ∧ p.y = y ∧ p.c = c := by
  unfold putpixel at h
  split at h
  · rw [List.mem_singleton] at h
    rw [h]
    exact ⟨rfl, rfl, rfl⟩
  · simp at h

theorem drawvertline_loop_columns (x : Int) (rd gd bd : ℚ) (n : Nat) :
    ∀ (dy : Int) (cr cg cb : ℚ), ∀ p ∈ drawvertline_loop x rd gd bd n dy cr cg cb,
      p.x = x ∨ (p.x = x + 1 ∧ p.c = shadow_colour) := by
  induction n with
  | zero =>
    intro dy cr cg cb p hp
    simp [drawvertline_loop] at hp
  | succ n ih =>
    intro dy cr cg cb p hp
    rw [drawvertline_loop, List.mem_append, List.mem_append] at hp
    rcases hp with (hp | hp) | hp
    · obtain ⟨a, _, c⟩ := putpixel_mem hp
      exact Or.inr ⟨a, c⟩
    · exact Or.inl (putpixel_mem hp).1
    · exact ih _ _ _ _ p hp

theorem drawvertline_columns {x y1 y2 : Int} {c1 c2 : color_type} {p : pixel}
    (h : p ∈ drawvertline x y1 c1 y2 c2) : p.x = x ∨ (p.x = x + 1 ∧ p.c = shadow_colour) := by
  unfold drawvertline at h
  exact drawvertline_loop_columns _ _ _ _ _ _ _ _ _ p h

/-- The loop of `drawvertline` row by row, for a column and rows on the screen. -/
theorem drawvertline_loop_rows (x : Int) (rd gd bd : ℚ) (hx : 0 ≤ x ∧ x < 480) (n : Nat) :
    ∀ (dy : Int) (cr cg cb : ℚ), 0 ≤ dy → dy + n ≤ 480 →
      drawvertline_loop x rd gd bd n dy cr cg cb
        = ((List.range n).map
            (fun (j : Nat) => shadowed_pixel x (dy + j) (row_colour cr cg cb rd gd bd j))).flatten := by
  induction n with
  | zero =>
    intro dy cr cg cb _ _
    rfl
  | succ n ih =>
    intro dy cr cg cb h0 h1
    rw [drawvertline_loop, ih (dy + 1) (cr + rd) (cg + gd) (cb + bd) (by omega)
      (by push_cast at h1 ⊢; omega), List.range_succ_eq_map, List.map_cons, List.flatten_cons,
      List.map_map]
    have e0 : shadowed_pixel x (dy + ((0 : Nat) : Int)) (row_colour cr cg cb rd gd bd 0)
        = putpixel (x + 1) (dy + 1) { r := 0, g := 0, b := 0 } ++
          putpixel x dy { r := to_uint8 (trunc cr), g := to_uint8 (trunc cg),
                          b := to_uint8 (trunc cb) } := by
      unfold shadowed_pixel row_colour putpixel shadow_colour kScreenWidth kScreenHeight
      simp only [Nat.cast_zero, zero_mul, add_zero]
      have c1 : (x + 1 ≥ 0 ∧ dy + 1 ≥ 0 ∧ x + 1 < 480 ∧ dy + 1 < 480)
          ↔ (x + 1 < 480 ∧ dy + 1 < 480) := by
        constructor
        · exact fun h => ⟨h.2.2.1, h.2.2.2⟩
        · exact fun h => ⟨by omega, by omega, h.1, h.2⟩
      have c2 : x ≥ 0 ∧ dy ≥ 0 ∧ x < 480 ∧ dy < 480 := ⟨hx.1, h0, hx.2, by push_cast at h1; omega⟩
      rw [if_pos c2]
      by_cases hc : x + 1 < 480 ∧ dy + 1 < 480
      · rw [if_pos hc, if_pos (c1.mpr hc)]
      · rw [if_neg hc, if_neg (fun h => hc (c1.mp h))]
    have ef : (fun j : Nat => shadowed_pixel x (dy + 1 + (j : Int))
          (row_colour (cr + rd) (cg + gd) (cb + bd) rd gd bd j))
        = (fun j : Nat => shadowed_pixel x (dy + (j : Int)) (row_colour cr cg cb rd gd bd j))
            ∘ Nat.succ := by
      funext k
      unfold row_colour
      simp only [Function.comp, Nat.succ_eq_add_one]
      have a1 : dy + 1 + (k : Int) = dy + ((k + 1 : Nat) : Int) := by
        push_cast
        ring
      have a2 : cr + rd + (k : ℚ) * rd = cr + ((k + 1 : Nat) : ℚ) * rd := by
        push_cast
        ring
      have a3 : cg + gd + (k : ℚ) * gd = cg + ((k + 1 : Nat) : ℚ) * gd := by
        push_cast
        ring
      have a4 : cb + bd + (k : ℚ) * bd = cb + ((k + 1 : Nat) : ℚ) * bd := by
        push_cast
        ring
      rw [a1, a2, a3, a4]
    rw [e0, ef, List.append_assoc]

theorem drawvertline_rows {x y1 y2 : Int} (c1 c2 : color_type) (hx : 0 ≤ x ∧ x < 480)
    (h1 : 0 ≤ y1 ∧ y1 < 480) (h2 : 0 ≤ y2 ∧ y2 < 480) :
    drawvertline x y1 c1 y2 c2 = vertical_run x y1 c1 y2 c2 := by
  unfold drawvertline vertical_run
  by_cases h : y1 > y2
  · have e1 : min y1 y2 = y2 := min_eq_right (by omega)
    have e2 : max y1 y2 = y1 := max_eq_left (by omega)
    have e3 : (y1 - y2 + 1).toNat = (y2 - y1).natAbs + 1 := by omega
    simp only [if_pos h, e1, e2]
    rw [drawvertline_loop_rows x _ _ _ hx _ y2 _ _ _ h2.1 (by rw [e3]; omega), e3]
  · have e1 : min y1 y2 = y1 := min_eq_left (by omega)
    have e2 : max y1 y2 = y2 := max_eq_right (by omega)
    have e3 : (y2 - y1 + 1).toNat = (y2 - y1).natAbs + 1 := by omega
    simp only [if_neg h, e1, e2]
    rw [drawvertline_loop_rows x _ _ _ hx _ y1 _ _ _ h1.1 (by rw [e3]; omega), e3]

theorem clip_on_screen {fuel : Nat} {x1 y1 x2 y2 : Int} (h1 : 0 ≤ x1 ∧ x1 < 480 ∧ 0 ≤ y1 ∧ y1 < 480)
    (h2 : 0 ≤ x2 ∧ x2 < 480 ∧ 0 ≤ y2 ∧ y2 < 480) (hf : 1 ≤ fuel) :
    clip fuel x1 y1 x2 y2 = some (x1, y1, x2, y2, true) := by
  obtain ⟨f, rfl⟩ : ∃ f, fuel = f + 1 := ⟨fuel - 1, by omega⟩
  have k1 : on_screen (x1 : ℚ) (y1 : ℚ) := by
    unfold on_screen
    exact_mod_cast h1
  have k2 : on_screen (x2 : ℚ) (y2 : ℚ) := by
    unfold on_screen
    exact_mod_cast h2
  unfold clip
  rw [clip_loop_inside k1 k2 f false]
  simp only [Bool.false_eq_true, if_false, trunc_int]

/-- What `sdl_drawline` writes for a segment with both endpoints on the screen. -/
theorem sdl_drawline_on_screen {fuel : Nat} {x1 y1 x2 y2 : Int} (c1 c2 : color_type)
    (h1 : 0 ≤ x1 ∧ x1 < 480 ∧ 0 ≤ y1 ∧ y1 < 480) (h2 : 0 ≤ x2 ∧ x2 < 480 ∧ 0 ≤ y2 ∧ y2 < 480)
    (hf : (x2 - x1).natAbs + 1 ≤ fuel) :
    sdl_drawline fuel x1 y1 c1 x2 y2 c2 = some
      (if x2 - x1 ≠ 0 then
        ((List.range (x2 - x1).natAbs).map (segment_run x1 y1 c1 x2 y2 c2)).flatten
       else drawvertline x1 y1 c1 y2 c2) := by
  unfold sdl_drawline
  rw [clip_on_screen h1 h2 (by omega)]
  simp only [if_true]
  by_cases hdx : x2 - x1 ≠ 0
  · rw [if_pos hdx, if_pos hdx]
    have hsign : (if x2 ≥ x1 then (1 : Int) else -1) ≠ 0 := by
      split <;> decide
    have hn : x2 - x1 = ((x2 - x1).natAbs : Int) * (if x2 ≥ x1 then (1 : Int) else -1) := by
      split <;> omega
    have key := fun (m b : ℚ) (rd gd bd cr cg cb : ℚ) =>
      sdl_drawline_loop_runs m b rd gd bd x2 (x2 - x1).natAbs fuel x1 cr cg cb hn hsign (by omega)
    rw [key]
    rfl
  · rw [if_neg hdx, if_neg hdx]

theorem segment_run_columns {x1 y1 x2 y2 : Int} {c1 c2 : color_type} {k : Nat} {p : pixel}
    (h : p ∈ segment_run x1 y1 c1 x2 y2 c2 k) :
    p.x = x1 + k * (if x2 ≥ x1 then 1 else -1) ∨
    (p.x = x1 + k * (if x2 ≥ x1 then 1 else -1) + 1 ∧ p.c = shadow_colour) := by
  unfold segment_run column_run at h
  exact drawvertline_columns h

/-- Every row of a run has one pixel in the column of the run. -/
theorem shadowed_rows_count (x lo : Int) (f : Nat → color_type) (l : List Nat) :
    (((l.map (fun (j : Nat) => shadowed_pixel x (lo + j) (f j))).flatten).filter
      (fun p => decide (p.x = x))).length = l.length := by
  induction l with
  | nil => rfl
  | cons a l ih =>
    rw [List.map_cons, List.flatten_cons, List.filter_append, List.length_append, ih,
      List.length_cons]
    have e : ((shadowed_pixel x (lo + a) (f a)).filter (fun p => decide (p.x = x))).length = 1 := by
      unfold shadowed_pixel
      split <;> simp
    omega

/-! ## Termination of clip -/

/-- The move of `clip_edge` for a first point beyond an edge that the second
point is not beyond, when the line of the edge that is clipped to, 479 at the
right and at the bottom, does not lie beyond the second point: the new point
lies on the segment between the two and is no longer beyond that edge. -/
theorem clip_edge_between {fx1 fy1 ex ey : ℚ}
    (hP : ¬ on_screen fx1 fy1)
    (hns : ¬ (encode fx1 fy1 &&& encode ex ey ≠ 0))
    (hx : 480 ≤ fx1 → ex ≤ 479) (hy : 0 ≤ fx1 → fx1 < 480 → 480 ≤ fy1 → ey ≤ 479) :
    ∃ u : ℚ, 0 ≤ u ∧ u ≤ 1 ∧
      (clip_edge fx1 fy1 ex ey (encode fx1 fy1)).1 = fx1 + u * (ex - fx1) ∧
      (clip_edge fx1 fy1 ex ey (encode fx1 fy1)).2 = fy1 + u * (ey - fy1) ∧
      ((fx1 < 0 ∧ ¬ (clip_edge fx1 fy1 ex ey (encode fx1 fy1)).1 < 0) ∨
        (480 ≤ fx1 ∧ ¬ 480 ≤ (clip_edge fx1 fy1 ex ey (encode fx1 fy1)).1) ∨
        (fy1 < 0 ∧ ¬ (clip_edge fx1 fy1 ex ey (encode fx1 fy1)).2 < 0) ∨
        (480 ≤ fy1 ∧ ¬ 480 ≤ (clip_edge fx1 fy1 ex ey (encode fx1 fy1)).2)) := by
  have hsh := (not_congr (encode_share fx1 fy1 ex ey)).mp hns
  push_neg at hsh
  obtain ⟨s1, s2, s3, s4⟩ := hsh
  have hw : ((kScreenWidth : Int) : ℚ) - 1 = 479 := by
    rw [screen_width_cast]
    norm_num
  have hh : ((kScreenHeight : Int) : ℚ) - 1 = 479 := by
    rw [screen_height_cast]
    norm_num
  unfold clip_edge
  simp only [hw, hh]
  by_cases hL : fx1 < 0
  · have hex : (0 : ℚ) ≤ ex := s1 hL
    have hne : (ex : ℚ) ≠ fx1 := by
      intro e
      linarith
    have hd : (0 : ℚ) < ex - fx1 := by linarith
    rw [if_pos ((encode_left fx1 fy1).mpr hL), if_pos hne]
    refine ⟨(0 - fx1) / (ex - fx1), div_nonneg (by linarith) hd.le,
      (div_le_one hd).mpr (by linarith), ?_, ?_, Or.inl ⟨hL, lt_irrefl 0⟩⟩
    · show (0 : ℚ) = _
      field_simp
    · show fy1 + (0 - fx1) * ((ey - fy1) / (ex - fx1)) = _
      field_simp
  · rw [if_neg (fun h => hL ((encode_left fx1 fy1).mp h))]
    by_cases hR : 480 ≤ fx1
    · have hex : (ex : ℚ) < 480 := s2 hR
      have hex2 : (ex : ℚ) ≤ 479 := hx hR
      have hne : (ex : ℚ) ≠ fx1 := by
        intro e
        linarith
      have hd : (0 : ℚ) < fx1 - ex := by linarith
      rw [if_pos ((encode_right fx1 fy1).mpr hR), if_pos hne]
      refine ⟨(fx1 - 479) / (fx1 - ex), div_nonneg (by linarith) hd.le,
        (div_le_one hd).mpr (by linarith), ?_, ?_, Or.inr (Or.inl ⟨hR, by norm_num⟩)⟩
      · show (479 : ℚ) = _
        have hd2 : fx1 - (ex : ℚ) ≠ 0 := ne_of_gt hd
        field_simp
        ring
      · show fy1 + (479 - fx1) * ((ey - fy1) / (ex - fx1)) = _
        have hd2 : fx1 - (ex : ℚ) ≠ 0 := ne_of_gt hd
        have hd3 : (ex : ℚ) - fx1 ≠ 0 := by
          intro e
          apply hd2
          linarith
        field_simp
        ring
    · rw [if_neg (fun h => hR ((encode_right fx1 fy1).mp h))]
      by_cases hT : fy1 < 0
      · have hey : (0 : ℚ) ≤ ey := s3 hT
        have hd : (0 : ℚ) < ey - fy1 := by linarith
        have hd2 : (ey : ℚ) - fy1 ≠ 0 := ne_of_gt hd
        rw [if_pos ((encode_top fx1 fy1).mpr hT)]
        refine ⟨(0 - fy1) / (ey - fy1), div_nonneg (by linarith) hd.le,
          (div_le_one hd).mpr (by linarith), ?_, ?_, Or.inr (Or.inr (Or.inl ⟨hT, lt_irrefl 0⟩))⟩
        · by_cases hne : (ex : ℚ) ≠ fx1
          · have hd3 : (ex : ℚ) - fx1 ≠ 0 := sub_ne_zero.mpr hne
            simp only [if_pos hne]
            field_simp
          · have e : (ex : ℚ) = fx1 := not_not.mp hne
            simp only [if_neg hne]
            rw [e]
            ring
        · show (0 : ℚ) = _
          field_simp
      · rw [if_neg (fun h => hT ((encode_top fx1 fy1).mp h))]
        by_cases hB : 480 ≤ fy1
        · have hey : (ey : ℚ) < 480 := s4 hB
          have hey2 : (ey : ℚ) ≤ 479 := hy (not_lt.mp hL) (not_le.mp hR) hB
          have hd : (0 : ℚ) < fy1 - ey := by linarith
          have hd2 : fy1 - (ey : ℚ) ≠ 0 := ne_of_gt hd
          have hd4 : (ey : ℚ) - fy1 ≠ 0 := by
            intro e
            apply hd2
            linarith
          rw [if_pos ((encode_bottom fx1 fy1).mpr hB)]
          refine ⟨(fy1 - 479) / (fy1 - ey), div_nonneg (by linarith) hd.le,
            (div_le_one hd).mpr (by linarith), ?_, ?_,
            Or.inr (Or.inr (Or.inr ⟨hB, by norm_num⟩))⟩
          · by_cases hne : (ex : ℚ) ≠ fx1
            · have hd3 : (ex : ℚ) - fx1 ≠ 0 := sub_ne_zero.mpr hne
              simp only [if_pos hne]
              field_simp
              ring
            · have e : (ex : ℚ) = fx1 := not_not.mp hne
              simp only [if_neg hne]
              rw [e]
              ring
          · show (479 : ℚ) = _
            field_simp
            ring
        · exfalso
          apply hP
          exact ⟨by linarith, by linarith, by linarith, by linarith⟩

theorem clip_edge_on_edge {px py : ℚ} (ox oy : ℚ) (hP : ¬ on_screen px py) :
    (clip_edge px py ox oy (encode px py)).1 = 0 ∨ (clip_edge px py ox oy (encode px py)).1 = 479 ∨
    (clip_edge px py ox oy (encode px py)).2 = 0 ∨ (clip_edge px py ox oy (encode px py)).2 = 479 := by
  obtain ⟨c1, c2, c3, c4⟩ := clip_edge_coord px py ox oy
  by_cases hL : px < 0
  · exact Or.inl (c1 hL)
  · by_cases hR : 480 ≤ px
    · exact Or.inr (Or.inl (c2 hR))
    · by_cases hT : py < 0
      · exact Or.inr (Or.inr (Or.inl (c3 (not_lt.mp hL) (not_le.mp hR) hT)))
      · by_cases hB : 480 ≤ py
        · exact Or.inr (Or.inr (Or.inr (c4 (not_lt.mp hL) (not_le.mp hR) hB)))
        · exact absurd ⟨not_lt.mp hL, not_le.mp hR, not_lt.mp hT, not_le.mp hB⟩ hP

theorem grid_point_of_edge {x y : ℚ} (h : x = 0 ∨ x = 479 ∨ y = 0 ∨ y = 479) : grid_point x y := by
  unfold grid_point
  rcases h with h | h | h | h
  · exact ⟨fun hc => by linarith [hc.1], fun _ => Or.inl h⟩
  · exact ⟨fun hc => by linarith [hc.1], fun _ => Or.inr h⟩
  · exact ⟨fun _ => Or.inl h, fun hc => by linarith [hc.1]⟩
  · exact ⟨fun _ => Or.inr h, fun hc => by linarith [hc.1]⟩

theorem grid_point_int (x y : Int) : grid_point (x : ℚ) (y : ℚ) := by
  unfold grid_point
  constructor
  · rintro ⟨h1, h2⟩
    exfalso
    have a : 479 < x := by exact_mod_cast h1
    have b : x < 480 := by exact_mod_cast h2
    omega
  · rintro ⟨h1, h2⟩
    exfalso
    have a : 479 < y := by exact_mod_cast h1
    have b : y < 480 := by exact_mod_cast h2
    omega

theorem hazard_le_one (ax ay bx b_y : ℚ) : hazard ax ay bx b_y ≤ 1 := by
  unfold hazard
  split <;> omega

theorem hazard_int (x1 y1 x2 y2 : Int) : hazard (x1 : ℚ) (y1 : ℚ) (x2 : ℚ) (y2 : ℚ) = 0 := by
  unfold hazard
  rw [if_neg]
  rintro (⟨h1, h2, _⟩ | ⟨h1, h2, _⟩ | ⟨h1, h2, _⟩ | ⟨h1, h2, _⟩)
  · have a : 479 < x1 := by exact_mod_cast h1
    have b : x1 < 480 := by exact_mod_cast h2
    omega
  · have a : 479 < x2 := by exact_mod_cast h1
    have b : x2 < 480 := by exact_mod_cast h2
    omega
  · have a : 479 < y1 := by exact_mod_cast h1
    have b : y1 < 480 := by exact_mod_cast h2
    omega
  · have a : 479 < y2 := by exact_mod_cast h1
    have b : y2 < 480 := by exact_mod_cast h2
    omega

theorem clip_measure_comm (ax ay bx b_y : ℚ) :
    clip_measure ax ay bx b_y = clip_measure bx b_y ax ay := by
  have e : hazard ax ay bx b_y = hazard bx b_y ax ay := by
    unfold hazard
    apply if_congr _ rfl rfl
    constructor
    · rintro (h | h | h | h)
      · exact Or.inr (Or.inl h)
      · exact Or.inl h
      · exact Or.inr (Or.inr (Or.inr h))
      · exact Or.inr (Or.inr (Or.inl h))
    · rintro (h | h | h | h)
      · exact Or.inr (Or.inl h)
      · exact Or.inl h
      · exact Or.inr (Or.inr (Or.inr h))
      · exact Or.inr (Or.inr (Or.inl h))
  unfold clip_measure
  rw [e]
  omega

theorem edges_beyond_on_screen {x y : ℚ} (h : on_screen x y) : edges_beyond x y = 0 := by
  obtain ⟨h1, h2, h3, h4⟩ := h
  unfold edges_beyond
  rw [if_neg (by linarith), if_neg (by linarith), if_neg (by linarith), if_neg (by linarith)]

theorem edges_beyond_pos {x y : ℚ} (h : ¬ on_screen x y) : 1 ≤ edges_beyond x y := by
  by_contra hc
  exact h (edges_beyond_zero (by omega))

/-- A point on the line `x = 479` or `y = 479` is beyond at most one edge. -/
theorem edges_beyond_on_line {x y : ℚ} (h : x = 479 ∨ y = 479) : edges_beyond x y ≤ 1 := by
  unfold edges_beyond
  rcases h with h | h
  · rw [h]
    split_ifs <;> first | omega | (exfalso; linarith)
  · rw [h]
    split_ifs <;> first | omega | (exfalso; linarith)

/-- One iteration of the loop of `clip` that moves a point: the moved point is
a grid point, and either the loop ends in the next iteration or the measure
has gone down. -/
theorem clip_edge_step {px py ox oy : ℚ} (gO : grid_point ox oy)
    (hP : ¬ on_screen px py) (hns : ¬ (encode px py &&& encode ox oy ≠ 0)) :
    grid_point (clip_edge px py ox oy (encode px py)).1 (clip_edge px py ox oy (encode px py)).2 ∧
    (encode (clip_edge px py ox oy (encode px py)).1 (clip_edge px py ox oy (encode px py)).2
        ||| encode ox oy = 0 ∨
      encode (clip_edge px py ox oy (encode px py)).1 (clip_edge px py ox oy (encode px py)).2
        &&& encode ox oy ≠ 0 ∨
      clip_measure (clip_edge px py ox oy (encode px py)).1
        (clip_edge px py ox oy (encode px py)).2 ox oy < clip_measure px py ox oy) := by
  refine ⟨grid_point_of_edge (clip_edge_on_edge ox oy hP), ?_⟩
  have hsh := (not_congr (encode_share px py ox oy)).mp hns
  push_neg at hsh
  obtain ⟨s1, s2, s3, s4⟩ := hsh
  obtain ⟨c1, c2, c3, c4⟩ := clip_edge_coord px py ox oy
  by_cases hzx : 480 ≤ px ∧ 479 < ox
  · -- the move to the right line passes the other point
    obtain ⟨hpx, hox⟩ := hzx
    have hox2 : ox < 480 := s2 hpx
    have hq1 := c2 hpx
    have hoy : oy = 0 ∨ oy = 479 := gO.1 ⟨hox, hox2⟩
    have hO : on_screen ox oy := by
      rcases hoy with e | e <;> rw [e] <;> exact ⟨by linarith, hox2, by norm_num, by norm_num⟩
    generalize (clip_edge px py ox oy (encode px py)).1 = qx at *
    generalize (clip_edge px py ox oy (encode px py)).2 = qy at *
    by_cases hQ : on_screen qx qy
    · left
      exact (encode_join _ _ _ _).mpr ⟨(encode_zero_iff _ _).mpr hQ, (encode_zero_iff _ _).mpr hO⟩
    · right
      right
      have e1 : hazard px py ox oy = 1 := by
        unfold hazard
        rw [if_pos (Or.inr (Or.inl ⟨hox, hox2, hpx⟩))]
      have e2 : hazard qx qy ox oy = 0 := by
        unfold hazard
        rw [if_neg]
        rintro (⟨h1, _, _⟩ | ⟨_, _, h3⟩ | ⟨_, _, h3⟩ | ⟨h1, h2, _⟩)
        · linarith
        · linarith
        · rcases hoy with e | e <;> linarith
        · rcases hoy with e | e <;> linarith
      have e3 := edges_beyond_on_screen hO
      have e4 : edges_beyond qx qy ≤ 1 := edges_beyond_on_line (Or.inl hq1)
      have e5 := edges_beyond_pos hP
      unfold clip_measure
      omega
  · by_cases hzy : (0 ≤ px ∧ px < 480) ∧ 480 ≤ py ∧ 479 < oy
    · -- the move to the bottom line passes the other point
      obtain ⟨⟨hp0, hp1⟩, hpy, hoy⟩ := hzy
      have hoy2 : oy < 480 := s4 hpy
      have hq2 := c4 hp0 hp1 hpy
      have hox : ox = 0 ∨ ox = 479 := gO.2 ⟨hoy, hoy2⟩
      have hO : on_screen ox oy := by
        rcases hox with e | e <;> rw [e] <;> exact ⟨by norm_num, by norm_num, by linarith, hoy2⟩
      generalize (clip_edge px py ox oy (encode px py)).1 = qx at *
      generalize (clip_edge px py ox oy (encode px py)).2 = qy at *
      by_cases hQ : on_screen qx qy
      · left
        exact (encode_join _ _ _ _).mpr ⟨(encode_zero_iff _ _).mpr hQ, (encode_zero_iff _ _).mpr hO⟩
      · right
        right
        have e1 : hazard px py ox oy = 1 := by
          unfold hazard
          rw [if_pos (Or.inr (Or.inr (Or.inr ⟨hoy, hoy2, hpy⟩)))]
        have e2 : hazard qx qy ox oy = 0 := by
          unfold hazard
          rw [if_neg]
          rintro (⟨_, _, h3⟩ | ⟨h1, h2, _⟩ | ⟨h1, _, _⟩ | ⟨_, _, h3⟩)
          · rcases hox with e | e <;> linarith
          · rcases hox with e | e <;> linarith
          · linarith
          · linarith
        have e3 := edges_beyond_on_screen hO
        have e4 : edges_beyond qx qy ≤ 1 := edges_beyond_on_line (Or.inr hq2)
        have e5 := edges_beyond_pos hP
        unfold clip_measure
        omega
    · -- the new point lies between the two points
      obtain ⟨u, hu0, hu1, e1, e2, hclip⟩ := clip_edge_between hP hns
        (fun h => by
          by_contra hc
          exact hzx ⟨h, not_le.mp hc⟩)
        (fun h0 h1 h => by
          by_contra hc
          exact hzy ⟨⟨h0, h1⟩, h, not_le.mp hc⟩)
      have bx := between_cases (p := px) (b := ox) hu0 hu1
      have b_y := between_cases (p := py) (b := oy) hu0 hu1
      rw [← e1] at bx
      rw [← e2] at b_y
      generalize (clip_edge px py ox oy (encode px py)).1 = qx at *
      generalize (clip_edge px py ox oy (encode px py)).2 = qy at *
      by_cases hsh2 : encode qx qy &&& encode ox oy ≠ 0
      · exact Or.inr (Or.inl hsh2)
      · right
        right
        have hs := (not_congr (encode_share qx qy ox oy)).mp hsh2
        push_neg at hs
        obtain ⟨t1, t2, t3, t4⟩ := hs
        have hdrop : edges_beyond qx qy < edges_beyond px py := by
          apply edges_beyond_drop _ _ _ _ hclip
          · intro h
            rcases bx.1 h with h1 | h1
            · exact h1
            · exact absurd h1 (not_lt.mpr (t1 h))
          · intro h
            rcases bx.2 h with h1 | h1
            · exact h1
            · exact absurd h1 (not_le.mpr (t2 h))
          · intro h
            rcases b_y.1 h with h1 | h1
            · exact h1
            · exact absurd h1 (not_lt.mpr (t3 h))
          · intro h
            rcases b_y.2 h with h1 | h1
            · exact h1
            · exact absurd h1 (not_le.mpr (t4 h))
        have l1 := hazard_le_one qx qy ox oy
        unfold clip_measure
        omega

theorem clip_loop_terminal {a b c d : ℚ}
    (h : encode a b ||| encode c d = 0 ∨ encode a b &&& encode c d ≠ 0) (fuel : Nat) (sw : Bool) :
    ∃ res, clip_loop (fuel + 1) a b c d sw = some res := by
  rw [clip_loop]
  by_cases h0 : encode a b ||| encode c d = 0
  · rw [if_pos h0]
    exact ⟨_, rfl⟩
  · rw [if_neg h0]
    rcases h with h | h
    · exact absurd h h0
    · rw [if_pos h]
      exact ⟨_, rfl⟩

theorem clip_loop_mono {fuel : Nat} {a b c d : ℚ} {sw : Bool}
    {res : ℚ × ℚ × ℚ × ℚ × Bool × Bool} (k : Nat)
    (h : clip_loop fuel a b c d sw = some res) : clip_loop (fuel + k) a b c d sw = some res := by
  induction fuel generalizing a b c d sw with
  | zero => simp [clip_loop] at h
  | succ n ih =>
    rw [clip_loop] at h
    rw [show n + 1 + k = (n + k) + 1 by omega, clip_loop]
    split at h
    · rename_i h0
      rw [if_pos h0]
      exact h
    · rename_i h0
      rw [if_neg h0]
      split at h
      · rename_i h1
        rw [if_pos h1]
        exact h
      · rename_i h1
        rw [if_neg h1]
        split at h
        · rename_i h2
          rw [if_pos h2]
          exact ih h
        · rename_i h2
          rw [if_neg h2]
          exact ih h

/-- The loop of `clip` on two grid points ends within as many iterations as
the measure says, and within one iteration when the measure is zero. -/
theorem clip_loop_terminates (n : Nat) :
    ∀ (px py ox oy : ℚ) (sw : Bool), grid_point px py → grid_point ox oy →
      clip_measure px py ox oy ≤ n → ∀ fuel, n ≤ fuel → 1 ≤ fuel →
        ∃ res, clip_loop fuel px py ox oy sw = some res := by
  induction n with
  | zero =>
    intro px py ox oy sw _ _ hm fuel _ hf
    obtain ⟨f, rfl⟩ : ∃ f, fuel = f + 1 := ⟨fuel - 1, by omega⟩
    apply clip_loop_terminal
    left
    unfold clip_measure at hm
    exact (encode_join _ _ _ _).mpr
      ⟨(encode_zero_iff _ _).mpr (edges_beyond_zero (by omega)),
        (encode_zero_iff _ _).mpr (edges_beyond_zero (by omega))⟩
  | succ n ih =>
    intro px py ox oy sw gP gO hm fuel hfuel _
    obtain ⟨f, rfl⟩ : ∃ f, fuel = f + 1 := ⟨fuel - 1, by omega⟩
    by_cases h0 : encode px py ||| encode ox oy = 0
    · exact clip_loop_terminal (Or.inl h0) f sw
    · by_cases h1 : encode px py &&& encode ox oy ≠ 0
      · exact clip_loop_terminal (Or.inr h1) f sw
      · -- a point is moved: the measure is at least 2
        have hnz : ¬ (on_screen px py ∧ on_screen ox oy) := fun h =>
          h0 ((encode_join _ _ _ _).mpr
            ⟨(encode_zero_iff _ _).mpr h.1, (encode_zero_iff _ _).mpr h.2⟩)
        have hm2 : 2 ≤ clip_measure px py ox oy := by
          unfold clip_measure
          by_cases hp : on_screen px py
          · have := edges_beyond_pos (fun ho => hnz ⟨hp, ho⟩)
            omega
          · have := edges_beyond_pos hp
            omega
        obtain ⟨g, rfl⟩ : ∃ g, f = g + 1 := ⟨f - 1, by omega⟩
        rw [clip_loop, if_neg h0, if_neg h1]
        by_cases h2 : encode px py = 0
        · rw [if_pos h2]
          have hO : ¬ on_screen ox oy := fun ho => hnz ⟨(encode_zero_iff _ _).mp h2, ho⟩
          have hns : ¬ (encode ox oy &&& encode px py ≠ 0) := by
            rw [Nat.land_comm]
            exact h1
          obtain ⟨gq, hq⟩ := clip_edge_step gP hO hns
          rcases hq with hq | hq | hq
          · exact clip_loop_terminal (Or.inl hq) g true
          · exact clip_loop_terminal (Or.inr hq) g true
          · rw [clip_measure_comm px py ox oy] at hm
            exact ih _ _ _ _ true gq gP (by omega) (g + 1) (by omega) (by omega)
        · rw [if_neg h2]
          have hP : ¬ on_screen px py := fun hp => h2 ((encode_zero_iff _ _).mpr hp)
          obtain ⟨gq, hq⟩ := clip_edge_step gO hP h1
          rcases hq with hq | hq | hq
          · exact clip_loop_terminal (Or.inl hq) g sw
          · exact clip_loop_terminal (Or.inr hq) g sw
          · exact ih _ _ _ _ sw gq gO (by omega) (g + 1) (by omega) (by omega)

/-- The slope that the top and bottom branches of `clip` divide by is not zero. -/
theorem clip_slope_ne_zero {fx1 fy1 fx2 fy2 : ℚ}
    (hns : ¬ (encode fx1 fy1 &&& encode fx2 fy2 ≠ 0)) (hy : fy1 < 0 ∨ 480 ≤ fy1)
    (hne : fx2 ≠ fx1) : (fy2 - fy1) / (fx2 - fx1) ≠ 0 := by
  have hsh := (not_congr (encode_share fx1 fy1 fx2 fy2)).mp hns
  push_neg at hsh
  obtain ⟨_, _, s3, s4⟩ := hsh
  apply div_ne_zero
  · rcases hy with h | h
    · have := s3 h
      intro e
      linarith
    · have := s4 h
      intro e
      linarith
  · exact sub_ne_zero.mpr hne

/-! ## Double arithmetic -/

theorem round_even_of_near {q : ℚ} {m : Int} (h : |q - m| < 1 / 2) : round_even q = m := by
  rw [abs_lt] at h
  obtain ⟨h1, h2⟩ := h
  unfold round_even
  by_cases hm : (m : ℚ) ≤ q
  · have hf : ⌊q⌋ = m := by
      rw [Int.floor_eq_iff]
      constructor <;> linarith
    rw [hf, if_pos (by linarith)]
  · have hf : ⌊q⌋ = m - 1 := by
      rw [Int.floor_eq_iff]
      push_cast
      constructor <;> linarith
    rw [hf]
    push_cast
    rw [if_neg (by linarith), if_pos (by linarith)]
    ring

/-- The value of `fl` at a rational of known binade that is nearer to
`m * 2 ^ e` than half a unit in the last place. -/
theorem fl_of_bounds {q : ℚ} (e m : Int) (h1 : (2 : ℚ) ^ (e + 52) ≤ |q|)
    (h2 : |q| < (2 : ℚ) ^ (e + 53)) (h3 : |q / 2 ^ e - m| < 1 / 2) : fl q = m * 2 ^ e := by
  have hpos : 0 < |q| := lt_of_lt_of_le (by positivity) h1
  have hq : q ≠ 0 := abs_pos.mp hpos
  have hlog : Int.log 2 |q| = e + 52 := by
    have a : e + 52 ≤ Int.log 2 |q| := (Int.zpow_le_iff_le_log (by decide) hpos).mp (by exact_mod_cast h1)
    have b : Int.log 2 |q| < e + 53 := (Int.lt_zpow_iff_log_lt (by decide) hpos).mp (by exact_mod_cast h2)
    omega
  unfold fl
  rw [if_neg hq, hlog, show e + 52 - 52 = e by ring, round_even_of_near h3]

theorem fl_zero : fl 0 = 0 := by
  unfold fl
  rw [if_pos rfl]

/-- An integer below `2 ^ 53` in size is a `double`. -/
theorem fl_int (n : Int) (h : |n| < 2 ^ 53) : fl (n : ℚ) = n := by
  by_cases h0 : n = 0
  · subst h0
    simp [fl_zero]
  have hq0 : (n : ℚ) ≠ 0 := by exact_mod_cast h0
  have hpos : 0 < |(n : ℚ)| := abs_pos.mpr hq0
  have hone : (1 : ℚ) ≤ |(n : ℚ)| := by
    have : (1 : Int) ≤ |n| := Int.one_le_abs h0
    exact_mod_cast this
  have hlt : |(n : ℚ)| < (2 : ℚ) ^ (53 : Int) := by
    rw [show (2 : ℚ) ^ (53 : Int) = ((2 ^ 53 : Int) : ℚ) by norm_num]
    exact_mod_cast h
  have hb0 : 0 ≤ Int.log 2 |(n : ℚ)| :=
    (Int.zpow_le_iff_le_log (by decide) hpos).mp (by simpa using hone)
  have hb1 : Int.log 2 |(n : ℚ)| < 53 :=
    (Int.lt_zpow_iff_log_lt (by decide) hpos).mp (by exact_mod_cast hlt)
  have hlo : ((2 : Nat) : ℚ) ^ Int.log 2 |(n : ℚ)| ≤ |(n : ℚ)| :=
    Int.zpow_log_le_self (by decide) hpos
  have hhi : |(n : ℚ)| < ((2 : Nat) : ℚ) ^ (Int.log 2 |(n : ℚ)| + 1) :=
    Int.lt_zpow_succ_log_self (by decide) _
  generalize Int.log 2 |(n : ℚ)| = b at hb0 hb1 hlo hhi
  obtain ⟨k, hk⟩ : ∃ k : Nat, b = 52 - (k : Int) := ⟨(52 - b).toNat, by omega⟩
  have hpow : (2 : ℚ) ^ (b - 52) = ((2 : ℚ) ^ k)⁻¹ := by
    rw [show b - 52 = -(k : Int) by omega, zpow_neg, zpow_natCast]
  have hk0 : (2 : ℚ) ^ k ≠ 0 := pow_ne_zero _ (by norm_num)
  have key := fl_of_bounds (q := (n : ℚ)) (b - 52) (n * 2 ^ k)
    (by
      rw [show b - 52 + 52 = b by ring]
      exact_mod_cast hlo)
    (by
      rw [show b - 52 + 53 = b + 1 by ring]
      exact_mod_cast hhi)
    (by
      rw [hpow]
      push_cast
      rw [div_inv_eq_mul, sub_self, abs_zero]
      norm_num)
  rw [key, hpow]
  push_cast
  field_simp

theorem fl_one : fl 1 = 1 := by
  have h := fl_int 1 (by decide)
  simpa using h

theorem fl_ofNat (n : Nat) [n.AtLeastTwo] (h : n < 9007199254740992) :
    fl (no_index (OfNat.ofNat n) : ℚ) = OfNat.ofNat n := by
  have h1 := fl_int (n : Int) (by
    rw [abs_of_nonneg (by omega)]
    have : (2 : Int) ^ 53 = 9007199254740992 := by norm_num
    omega)
  simpa using h1

theorem fl_neg_ofNat (n : Nat) [n.AtLeastTwo] (h : n < 9007199254740992) :
    fl (-(no_index (OfNat.ofNat n) : ℚ)) = -(OfNat.ofNat n : ℚ) := by
  have h1 := fl_int (-(n : Int)) (by
    rw [abs_neg, abs_of_nonneg (by omega)]
    have : (2 : Int) ^ 53 = 9007199254740992 := by norm_num
    omega)
  simpa using h1

theorem fl_neg_one : fl (-1) = -1 := by
  have h := fl_int (-1) (by decide)
  simpa using h

/-! ## Clipping in double arithmetic -/

/-- The function `clip` in `double` arithmetic in terms of the result of its
loop. -/
theorem clip_d_of_loop {fuel : Nat} {x1 y1 x2 y2 : Int} {a b c d : ℚ} {sw dr : Bool}
    (h : clip_loop_d fuel x1 y1 x2 y2 false = some (a, b, c, d, sw, dr)) :
    clip_d fuel x1 y1 x2 y2 =
      if sw then some (trunc c, trunc d, trunc a, trunc b, dr)
      else some (trunc a, trunc b, trunc c, trunc d, dr) := by
  unfold clip_d
  rw [h]

/-- The loop of `clip` in `double` arithmetic ends with `draw` set only when
both points are on the screen. -/
theorem clip_loop_d_accept {fuel : Nat} {a b c d : ℚ} {sw : Bool} {a1 b1 c1 d1 : ℚ} {sw1 : Bool}
    (h : clip_loop_d fuel a b c d sw = some (a1, b1, c1, d1, sw1, true)) :
    on_screen a1 b1 ∧ on_screen c1 d1 := by
  induction fuel generalizing a b c d sw with
  | zero => simp [clip_loop_d] at h
  | succ n ih =>
    rw [clip_loop_d] at h
    split at h
    · rename_i hc
      simp only [Option.some.injEq, Prod.mk.injEq] at h
      obtain ⟨rfl, rfl, rfl, rfl, _, _⟩ := h
      obtain ⟨h1, h2⟩ := (encode_join _ _ _ _).mp hc
      exact ⟨(encode_zero_iff _ _).mp h1, (encode_zero_iff _ _).mp h2⟩
    · split at h
      · simp at h
      · split at h
        · exact ih h
        · exact ih h

/-- Two points on the screen are accepted by the first iteration. -/
theorem clip_loop_d_inside {a b c d : ℚ} (h1 : on_screen a b) (h2 : on_screen c d) (fuel : Nat)
    (sw : Bool) : clip_loop_d (fuel + 1) a b c d sw = some (a, b, c, d, sw, true) := by
  rw [clip_loop_d]
  rw [if_pos ((encode_join _ _ _ _).mpr ⟨(encode_zero_iff _ _).mpr h1, (encode_zero_iff _ _).mpr h2⟩)]

/-- An iteration on a first point off the screen and a second point on it moves
the first point. -/
theorem clip_loop_d_step {a b c d : ℚ} (h1 : ¬ on_screen a b) (h2 : on_screen c d) (fuel : Nat)
    (sw : Bool) :
    clip_loop_d (fuel + 1) a b c d sw
      = clip_loop_d fuel (clip_edge_d a b c d (encode a b)).1 (clip_edge_d a b c d (encode a b)).2
          c d sw := by
  have hc1 : encode a b ≠ 0 := fun h => h1 ((encode_zero_iff _ _).mp h)
  have hc2 : encode c d = 0 := (encode_zero_iff _ _).mpr h2
  rw [clip_loop_d, if_neg (fun h => hc1 ((encode_join _ _ _ _).mp h).1), hc2,
    if_neg (by simp), if_neg hc1]

/-- An iteration on a first point on the screen and a second point off it swaps
the points and moves the one off the screen. -/
theorem clip_loop_d_step_swapped {a b c d : ℚ} (h1 : on_screen a b) (h2 : ¬ on_screen c d)
    (fuel : Nat) (sw : Bool) :
    clip_loop_d (fuel + 1) a b c d sw
      = clip_loop_d fuel (clip_edge_d c d a b (encode c d)).1 (clip_edge_d c d a b (encode c d)).2
          a b true := by
  have hc2 : encode c d ≠ 0 := fun h => h2 ((encode_zero_iff _ _).mp h)
  have hc1 : encode a b = 0 := (encode_zero_iff _ _).mpr h1
  rw [clip_loop_d, if_neg (fun h => hc2 ((encode_join _ _ _ _).mp h).2), hc1,
    if_neg (by simp), if_pos rfl]

/-- While the second point is on the screen the loop moves the first point
only, does not swap, and can end only by accepting. -/
theorem clip_loop_d_keeps {fuel : Nat} {a b c d : ℚ} {sw : Bool} (h2 : on_screen c d)
    {a1 b1 c1 d1 : ℚ} {sw1 dr : Bool}
    (h : clip_loop_d fuel a b c d sw = some (a1, b1, c1, d1, sw1, dr)) :
    c1 = c ∧ d1 = d ∧ sw1 = sw ∧ dr = true ∧ on_screen a1 b1 := by
  induction fuel generalizing a b with
  | zero => simp [clip_loop_d] at h
  | succ n ih =>
    by_cases h1 : on_screen a b
    · rw [clip_loop_d_inside h1 h2] at h
      simp only [Option.some.injEq, Prod.mk.injEq] at h
      obtain ⟨rfl, rfl, rfl, rfl, rfl, rfl⟩ := h
      exact ⟨rfl, rfl, rfl, rfl, h1⟩
    · rw [clip_loop_d_step h1 h2] at h
      exact ih h

/-- The edge line onto which `clip_edge` moves the point, in `double`
arithmetic. -/
theorem clip_edge_d_coord (fx1 fy1 fx2 fy2 : ℚ) :
    (fx1 < 0 → (clip_edge_d fx1 fy1 fx2 fy2 (encode fx1 fy1)).1 = 0) ∧
    (480 ≤ fx1 → (clip_edge_d fx1 fy1 fx2 fy2 (encode fx1 fy1)).1 = 479) ∧
    (0 ≤ fx1 → fx1 < 480 → fy1 < 0 → (clip_edge_d fx1 fy1 fx2 fy2 (encode fx1 fy1)).2 = 0) ∧
    (0 ≤ fx1 → fx1 < 480 → 480 ≤ fy1 →
      (clip_edge_d fx1 fy1 fx2 fy2 (encode fx1 fy1)).2 = 479) := by
  have hw : ((kScreenWidth : Int) : ℚ) - 1 = 479 := by
    rw [screen_width_cast]
    norm_num
  have hh : ((kScreenHeight : Int) : ℚ) - 1 = 479 := by
    rw [screen_height_cast]
    norm_num
  unfold clip_edge_d
  simp only [hw, hh]
  refine ⟨fun h => ?_, fun h => ?_, fun h0 h1 h => ?_, fun h0 h1 h => ?_⟩
  · rw [if_pos ((encode_left fx1 fy1).mpr h)]
  · rw [if_neg (fun hl => absurd ((encode_left fx1 fy1).mp hl) (by linarith)),
      if_pos ((encode_right fx1 fy1).mpr h)]
  · rw [if_neg (fun hl => absurd ((encode_left fx1 fy1).mp hl) (by linarith)),
      if_neg (fun hl => absurd ((encode_right fx1 fy1).mp hl) (by linarith)),
      if_pos ((encode_top fx1 fy1).mpr h)]
  · rw [if_neg (fun hl => absurd ((encode_left fx1 fy1).mp hl) (by linarith)),
      if_neg (fun hl => absurd ((encode_right fx1 fy1).mp hl) (by linarith)),
      if_neg (fun hl => absurd ((encode_top fx1 fy1).mp hl) (by linarith)),
      if_pos ((encode_bottom fx1 fy1).mpr h)]

/-- Both endpoints that an accepting `clip` returns are on the screen, in
`double` arithmetic. -/
theorem clip_d_draw_on_screen {fuel : Nat} {x1 y1 x2 y2 a b c d : Int}
    (h : clip_d fuel x1 y1 x2 y2 = some (a, b, c, d, true)) :
    (0 ≤ a ∧ a < 480 ∧ 0 ≤ b ∧ b < 480) ∧ (0 ≤ c ∧ c < 480 ∧ 0 ≤ d ∧ d < 480) := by
  unfold clip_d at h
  split at h
  · cases h
  · rename_i fx1 fy1 fx2 fy2 swapped draw hl
    split at h
    · simp only [Option.some.injEq, Prod.mk.injEq] at h
      obtain ⟨rfl, rfl, rfl, rfl, rfl⟩ := h
      obtain ⟨⟨p1, p2, p3, p4⟩, ⟨q1, q2, q3, q4⟩⟩ := clip_loop_d_accept hl
      have t1 := trunc_on_screen p1 p2
      have t2 := trunc_on_screen p3 p4
      have t3 := trunc_on_screen q1 q2
      have t4 := trunc_on_screen q3 q4
      exact ⟨⟨t3.1, t3.2, t4.1, t4.2⟩, ⟨t1.1, t1.2, t2.1, t2.2⟩⟩
    · simp only [Option.some.injEq, Prod.mk.injEq] at h
      obtain ⟨rfl, rfl, rfl, rfl, rfl⟩ := h
      obtain ⟨⟨p1, p2, p3, p4⟩, ⟨q1, q2, q3, q4⟩⟩ := clip_loop_d_accept hl
      have t1 := trunc_on_screen p1 p2
      have t2 := trunc_on_screen p3 p4
      have t3 := trunc_on_screen q1 q2
      have t4 := trunc_on_screen q3 q4
      exact ⟨⟨t1.1, t1.2, t2.1, t2.2⟩, ⟨t3.1, t3.2, t4.1, t4.2⟩⟩

/-- In `double` arithmetic too, `clip` returns two endpoints on the screen as
passed. -/
theorem clip_d_inside {x1 y1 x2 y2 : Int} (h1 : on_screen (x1 : ℚ) (y1 : ℚ))
    (h2 : on_screen (x2 : ℚ) (y2 : ℚ)) (fuel : Nat) :
    clip_d (fuel + 1) x1 y1 x2 y2 = some (x1, y1, x2, y2, true) := by
  rw [clip_d_of_loop (clip_loop_d_inside h1 h2 fuel false)]
  simp only [Bool.false_eq_true, if_false, trunc_int]

/-- A segment whose first endpoint is off the screen and whose second endpoint
is on it: whatever `clip` returns in `double` arithmetic, it accepts, keeps the
second endpoint and returns a first endpoint on the screen. -/
theorem clip_d_keeps_second {x1 y1 x2 y2 : Int} (h2 : on_screen (x2 : ℚ) (y2 : ℚ))
    {fuel : Nat} {a b c d : Int} {dr : Bool}
    (h : clip_d fuel x1 y1 x2 y2 = some (a, b, c, d, dr)) :
    dr = true ∧ c = x2 ∧ d = y2 ∧ 0 ≤ a ∧ a < 480 ∧ 0 ≤ b ∧ b < 480 := by
  unfold clip_d at h
  split at h
  · cases h
  · rename_i fx1 fy1 fx2 fy2 swapped draw hl
    obtain ⟨rfl, rfl, rfl, rfl, p1, p2, p3, p4⟩ := clip_loop_d_keeps h2 hl
    simp only [Bool.false_eq_true, if_false, Option.some.injEq, Prod.mk.injEq, trunc_int] at h
    obtain ⟨rfl, rfl, rfl, rfl, rfl⟩ := h
    have t1 := trunc_on_screen p1 p2
    have t2 := trunc_on_screen p3 p4
    exact ⟨rfl, rfl, rfl, t1.1, t1.2, t2.1, t2.2⟩

/-- The same with the endpoints in the other order: the first endpoint is
kept. -/
theorem clip_d_keeps_first {x1 y1 x2 y2 : Int} (h1 : on_screen (x1 : ℚ) (y1 : ℚ))
    (h2 : ¬ on_screen (x2 : ℚ) (y2 : ℚ)) {fuel : Nat} {a b c d : Int} {dr : Bool}
    (h : clip_d fuel x1 y1 x2 y2 = some (a, b, c, d, dr)) :
    dr = true ∧ a = x1 ∧ b = y1 ∧ 0 ≤ c ∧ c < 480 ∧ 0 ≤ d ∧ d < 480 := by
  unfold clip_d at h
  split at h
  · cases h
  · rename_i fx1 fy1 fx2 fy2 swapped draw hl
    cases fuel with
    | zero => simp [clip_loop_d] at hl
    | succ n =>
      rw [clip_loop_d_step_swapped h1 h2] at hl
      obtain ⟨rfl, rfl, rfl, rfl, p1, p2, p3, p4⟩ := clip_loop_d_keeps h1 hl
      simp only [if_true, Option.some.injEq, Prod.mk.injEq, trunc_int] at h
      obtain ⟨rfl, rfl, rfl, rfl, rfl⟩ := h
      have t1 := trunc_on_screen p1 p2
      have t2 := trunc_on_screen p3 p4
      exact ⟨rfl, rfl, rfl, t1.1, t1.2, t2.1, t2.2⟩

/-- One move suffices when it lands on the screen. -/
theorem clip_d_one_move {x1 y1 x2 y2 : Int} (h1 : ¬ on_screen (x1 : ℚ) (y1 : ℚ))
    (h2 : on_screen (x2 : ℚ) (y2 : ℚ))
    (hq : on_screen (clip_edge_d x1 y1 x2 y2 (encode x1 y1)).1
      (clip_edge_d x1 y1 x2 y2 (encode x1 y1)).2) (fuel : Nat) :
    clip_d (fuel + 2) x1 y1 x2 y2
      = some (trunc (clip_edge_d x1 y1 x2 y2 (encode x1 y1)).1,
          trunc (clip_edge_d x1 y1 x2 y2 (encode x1 y1)).2, x2, y2, true) := by
  have hl : clip_loop_d (fuel + 2) x1 y1 x2 y2 false
      = some ((clip_edge_d x1 y1 x2 y2 (encode x1 y1)).1,
          (clip_edge_d x1 y1 x2 y2 (encode x1 y1)).2, (x2 : ℚ), (y2 : ℚ), false, true) := by
    rw [clip_loop_d_step h1 h2, clip_loop_d_inside hq h2]
  rw [clip_d_of_loop hl]
  simp only [Bool.false_eq_true, if_false, trunc_int]

/-- One move suffices when it lands on the screen, second endpoint moved. -/
theorem clip_d_one_move_swapped {x1 y1 x2 y2 : Int} (h1 : on_screen (x1 : ℚ) (y1 : ℚ))
    (h2 : ¬ on_screen (x2 : ℚ) (y2 : ℚ))
    (hq : on_screen (clip_edge_d x2 y2 x1 y1 (encode x2 y2)).1
      (clip_edge_d x2 y2 x1 y1 (encode x2 y2)).2) (fuel : Nat) :
    clip_d (fuel + 2) x1 y1 x2 y2
      = some (x1, y1, trunc (clip_edge_d x2 y2 x1 y1 (encode x2 y2)).1,
          trunc (clip_edge_d x2 y2 x1 y1 (encode x2 y2)).2, true) := by
  have hl : clip_loop_d (fuel + 2) x1 y1 x2 y2 false
      = some ((clip_edge_d x2 y2 x1 y1 (encode x2 y2)).1,
          (clip_edge_d x2 y2 x1 y1 (encode x2 y2)).2, (x1 : ℚ), (y1 : ℚ), true, true) := by
    rw [clip_loop_d_step_swapped h1 h2, clip_loop_d_inside hq h1]
  rw [clip_d_of_loop hl]
  simp only [if_true, trunc_int]

/-! ## Rasterising in double arithmetic -/

/-- The loop of `sdl_drawline` in `double` arithmetic ends after `|x2 - x1|`
iterations, and its first iteration draws the run of column `x1`. -/
theorem sdl_drawline_loop_d_some (m b : ℚ) {dx : Int} (rd gd bd : ℚ) (x2 : Int) (n : Nat) :
    ∀ (fuel : Nat) (x1 : Int) (cr cg cb : ℚ), x2 - x1 = n * dx → dx ≠ 0 → n ≤ fuel →
      ∃ l, sdl_drawline_loop_d m b dx rd gd bd x2 fuel x1 cr cg cb = some l ∧
        (0 < n → ∃ rest, l =
          drawvertline_d x1 (trunc (fl (fl (m * x1) + b)))
            (mkcolor (trunc cr) (trunc cg) (trunc cb))
            (trunc (fl (fl (m * ((x1 + dx : Int) : ℚ)) + b)))
            (mkcolor (trunc (fl (cr + rd))) (trunc (fl (cg + gd))) (trunc (fl (cb + bd))))
            ++ rest) := by
  induction n with
  | zero =>
    intro fuel x1 cr cg cb hx hdx hf
    have e : x1 = x2 := by
      simp only [Nat.cast_zero, zero_mul] at hx
      omega
    refine ⟨[], ?_, fun h => absurd h (lt_irrefl 0)⟩
    cases fuel with
    | zero =>
      rw [sdl_drawline_loop_d, if_neg (not_not.mpr e)]
    | succ f =>
      rw [sdl_drawline_loop_d, if_neg (not_not.mpr e)]
  | succ n ih =>
    intro fuel x1 cr cg cb hx hdx hf
    obtain ⟨f, rfl⟩ : ∃ f, fuel = f + 1 := ⟨fuel - 1, by omega⟩
    have hne : x1 ≠ x2 := by
      intro e
      rw [e, sub_self] at hx
      have : ((n + 1 : Nat) : Int) * dx ≠ 0 := mul_ne_zero (by omega) hdx
      exact this hx.symm
    obtain ⟨rest, hrest, _⟩ := ih f (x1 + dx) (fl (cr + rd)) (fl (cg + gd)) (fl (cb + bd))
      (by
        push_cast at hx ⊢
        linarith) hdx (by omega)
    rw [sdl_drawline_loop_d, if_pos hne]
    dsimp only
    rw [hrest]
    exact ⟨_, rfl, fun _ => ⟨rest, rfl⟩⟩

/-- When `clip` accepts in `double` arithmetic, `sdl_drawline` returns; for a
result that is not vertical the first thing it draws is the run of the column
of the returned first endpoint, and that run is called with the first colour
passed. -/
theorem sdl_drawline_d_first {fuel : Nat} {x1 y1 x2 y2 a b c d : Int} {c1 : color_type}
    (c2 : color_type) (h : clip_d fuel x1 y1 x2 y2 = some (a, b, c, d, true)) (hf : 480 ≤ fuel)
    (hc : c1.r < 256 ∧ c1.g < 256 ∧ c1.b < 256) :
    ∃ l, sdl_drawline_d fuel x1 y1 c1 x2 y2 c2 = some l ∧
      (c - a ≠ 0 → ∃ ya yb cn rest, l = drawvertline_d a ya c1 yb cn ++ rest) ∧
      (c - a = 0 → l = drawvertline_d a b c1 d c2) := by
  obtain ⟨hab, hcd⟩ := clip_d_draw_on_screen h
  unfold sdl_drawline_d
  rw [h]
  simp only [if_true]
  by_cases hdx : c - a ≠ 0
  · rw [if_pos hdx]
    have hsign : (if c ≥ a then (1 : Int) else -1) ≠ 0 := by
      split <;> decide
    have hn : c - a = ((c - a).natAbs : Int) * (if c ≥ a then (1 : Int) else -1) := by
      split <;> omega
    have key := fun (m b : ℚ) (rd gd bd cr cg cb : ℚ) =>
      sdl_drawline_loop_d_some m b rd gd bd c (c - a).natAbs fuel a cr cg cb hn hsign (by omega)
    refine Exists.elim (key _ _ _ _ _ _ _ _) (fun l hl => ⟨l, hl.1, fun _ => ?_, fun h0 => absurd h0 hdx⟩)
    obtain ⟨rest, hrest⟩ := hl.2 (by omega)
    rw [hrest, mkcolor_self hc]
    exact ⟨_, _, _, rest, rfl⟩
  · rw [if_neg hdx]
    exact ⟨_, rfl, fun h0 => absurd h0 hdx, fun _ => rfl⟩

/-- The function `sdl_drawline` in `double` arithmetic after an accepting `clip`:
the loop over the columns is started with the components of the first colour
passed, and a vertical result is one run between the two colours passed. -/
theorem sdl_drawline_d_of_clip {fuel : Nat} {x1 y1 x2 y2 a b c d : Int} (c1 c2 : color_type)
    (h : clip_d fuel x1 y1 x2 y2 = some (a, b, c, d, true)) :
    sdl_drawline_d fuel x1 y1 c1 x2 y2 c2 =
      if c - a ≠ 0 then
        sdl_drawline_loop_d (fl (((d - b : Int) : ℚ) / ((c - a : Int) : ℚ)))
          (fl ((b : ℚ) - fl (fl (((d - b : Int) : ℚ) / ((c - a : Int) : ℚ)) * (a : ℚ))))
          (if c ≥ a then 1 else -1)
          (fl (fl ((((c2.r : Int) - (c1.r : Int) : Int) : ℚ) / ((c - a : Int) : ℚ))
            * (((if c ≥ a then 1 else -1 : Int)) : ℚ)))
          (fl (fl ((((c2.g : Int) - (c1.g : Int) : Int) : ℚ) / ((c - a : Int) : ℚ))
            * (((if c ≥ a then 1 else -1 : Int)) : ℚ)))
          (fl (fl ((((c2.b : Int) - (c1.b : Int) : Int) : ℚ) / ((c - a : Int) : ℚ))
            * (((if c ≥ a then 1 else -1 : Int)) : ℚ)))
          c fuel a c1.r c1.g c1.b
      else some (drawvertline_d a b c1 d c2) := by
  unfold sdl_drawline_d
  rw [h]
  simp only [if_true]

/-- No pixel is drawn when `clip` rejects. -/
theorem sdl_drawline_d_of_reject {fuel : Nat} {x1 y1 x2 y2 a b c d : Int} (c1 c2 : color_type)
    (h : clip_d fuel x1 y1 x2 y2 = some (a, b, c, d, false)) :
    sdl_drawline_d fuel x1 y1 c1 x2 y2 c2 = some [] := by
  unfold sdl_drawline_d
  rw [h]
  simp only [Bool.false_eq_true, if_false]

/-! ## Two segments in double arithmetic -/

theorem fl_slope_23_480 : fl (23 / 480) = 6905519428634761 / 144115188075855872 := by
  have h := fl_of_bounds (q := (23 : ℚ) / 480) (-57) 6905519428634761
    (by rw [abs_of_pos (by norm_num)]; norm_num) (by rw [abs_of_pos (by norm_num)]; norm_num)
    (by
      rw [abs_lt]
      norm_num)
  rw [h]
  norm_num

theorem fl_cross_23_480 :
    fl (3314649325744685056 / 6905519428634761) = 8444249301319679 / 17592186044416 := by
  have h := fl_of_bounds (q := (3314649325744685056 : ℚ) / 6905519428634761) (-44)
    8444249301319679
    (by rw [abs_of_pos (by norm_num)]; norm_num) (by rw [abs_of_pos (by norm_num)]; norm_num)
    (by
      rw [abs_lt]
      norm_num)
  rw [h]
  norm_num

theorem fl_23 : fl 23 = 23 := by
  have h := fl_int 23 (by decide)
  simpa using h

theorem fl_480 : fl 480 = 480 := by
  have h := fl_int 480 (by decide)
  simpa using h

theorem fl_near_480 : fl (8444249301319679 / 17592186044416) = 8444249301319679 / 17592186044416 := by
  have h := fl_of_bounds (q := (8444249301319679 : ℚ) / 17592186044416) (-44)
    8444249301319679
    (by rw [abs_of_pos (by norm_num)]; norm_num) (by rw [abs_of_pos (by norm_num)]; norm_num)
    (by
      rw [abs_lt]
      norm_num)
  rw [h]
  norm_num

theorem clip_edge_d_near_480 :
    clip_edge_d 0 (-23) 480 0 4 = (8444249301319679 / 17592186044416, 0) := by
  have a1 : (4 : Nat) &&& 1 = 0 := by decide
  have a2 : (4 : Nat) &&& 2 = 0 := by decide
  have a4 : (4 : Nat) &&& 4 = 4 := by decide
  simp only [clip_edge_d, LEFT_EDGE, RIGHT_EDGE, TOP_EDGE, BOTTOM_EDGE, a1, a2, a4]
  norm_num only [fl_zero, fl_23, fl_480, if_true, if_false, ne_eq, not_true_eq_false,
    not_false_eq_true, fl_slope_23_480, fl_cross_23_480, fl_near_480]

theorem trunc_near_480 : trunc (8444249301319679 / 17592186044416) = 479 := by
  unfold trunc
  rw [if_pos (by norm_num), Int.floor_eq_iff]
  constructor <;> norm_num

theorem encode_near_480 : encode (8444249301319679 / 17592186044416) 0 = 0 := by
  rw [encode_zero_iff]
  unfold on_screen
  norm_num

theorem clip_loop_d_near_480 :
    clip_loop_d 3 0 (-23) 480 0 false
      = some (479, 0, 8444249301319679 / 17592186044416, 0, true, true) := by
  have a1 : (2 : Nat) &&& 1 = 0 := by decide
  have a2 : (2 : Nat) &&& 2 = 2 := by decide
  have a6 : (4 : Nat) ||| 2 = 6 := by decide
  have a0 : (4 : Nat) &&& 2 = 0 := by decide
  have n6 : ¬ ((6 : Nat) = 0) := by decide
  have n4 : ¬ ((4 : Nat) = 0) := by decide
  have n2 : ¬ ((2 : Nat) = 0) := by decide
  have n0 : ¬ ((0 : Nat) ≠ 0) := by decide
  have e1 : encode 0 (-23) = 4 := by
    rw [encode_eq]
    norm_num
  have e2 : encode 480 0 = 2 := by
    rw [encode_eq]
    norm_num
  have e4 : encode 479 0 = 0 := by
    rw [encode_eq]
    norm_num
  have m1 := clip_edge_d_near_480
  have m2 : clip_edge_d 480 0 (8444249301319679 / 17592186044416) 0 2 = (479, 0) := by
    simp only [clip_edge_d, LEFT_EDGE, RIGHT_EDGE, TOP_EDGE, BOTTOM_EDGE, a1, a2, kScreenWidth]
    norm_num only [fl_zero, if_true, if_false, ne_eq, not_true_eq_false, not_false_eq_true,
      zero_div, mul_zero, Int.cast_ofNat]
  rw [clip_loop_d]
  simp only [e1, e2, a6, a0, if_neg n6, if_neg n0, if_neg n4, m1]
  rw [clip_loop_d]
  simp only [encode_near_480, e2, Nat.zero_or, Nat.zero_and, if_neg n2, if_neg n0, if_true, m2]
  rw [clip_loop_d]
  simp only [encode_near_480, e4, Nat.zero_or, if_true]

theorem clip_d_near_480 : clip_d 3 0 (-23) 480 0 = some (479, 0, 479, 0, true) := by
  have h : clip_loop_d 3 ((0 : Int) : ℚ) ((-23 : Int) : ℚ) ((480 : Int) : ℚ) ((0 : Int) : ℚ) false
      = some (479, 0, 8444249301319679 / 17592186044416, 0, true, true) := by
    rw [Int.cast_zero, Int.cast_neg, Int.cast_ofNat, Int.cast_ofNat]
    exact clip_loop_d_near_480
  have t0 : trunc 0 = 0 := by
    unfold trunc
    norm_num
  have t479 : trunc 479 = 479 := by
    unfold trunc
    norm_num
  have k := clip_d_of_loop h
  rw [if_pos rfl, trunc_near_480, t0, t479] at k
  exact k

theorem drawvertline_d_point :
    drawvertline_d 479 0 { r := 255, g := 255, b := 255 } 0 { r := 255, g := 255, b := 255 }
      = [{ x := 479, y := 0, c := { r := 255, g := 255, b := 255 } }] := by
  norm_num [drawvertline_d, drawvertline_loop_d, putpixel, to_uint8, trunc, kScreenWidth,
    kScreenHeight]
  decide

theorem sdl_drawline_d_near_480 :
    sdl_drawline_d 3 0 (-23) { r := 255, g := 255, b := 255 } 480 0 { r := 255, g := 255, b := 255 }
      = some [{ x := 479, y := 0, c := { r := 255, g := 255, b := 255 } }] := by
  have k := sdl_drawline_d_of_clip { r := 255, g := 255, b := 255 } { r := 255, g := 255, b := 255 }
    clip_d_near_480
  rw [if_neg (by decide), drawvertline_d_point] at k
  exact k

theorem clip_d_left_half : clip_d 3 (-2) 100 2 100 = some (0, 100, 2, 100, true) := by
  norm_num [clip_d, clip_loop_d, clip_edge_d, encode, trunc, kScreenWidth, kScreenHeight,
    LEFT_EDGE, RIGHT_EDGE, TOP_EDGE, BOTTOM_EDGE, fl_zero, fl_one, fl_ofNat, fl_neg_ofNat]

theorem sdl_drawline_d_left_half :
    sdl_drawline_d 3 (-2) 100 { r := 200, g := 0, b := 0 } 2 100 { r := 0, g := 0, b := 0 }
      = some [{ x := 1, y := 101, c := { r := 0, g := 0, b := 0 } },
              { x := 0, y := 100, c := { r := 200, g := 0, b := 0 } },
              { x := 2, y := 101, c := { r := 0, g := 0, b := 0 } },
              { x := 1, y := 100, c := { r := 100, g := 0, b := 0 } }] := by
  rw [sdl_drawline_d_of_clip _ _ clip_d_left_half]
  norm_num [sdl_drawline_loop_d, drawvertline_d, drawvertline_loop_d, putpixel, mkcolor,
    to_uint8, trunc, kScreenWidth, kScreenHeight, fl_zero, fl_one, fl_ofNat, fl_neg_ofNat]
  decide

/-! ## The rotation flags -/

theorem untouched_flags {s t : Game} (h : untouched t = untouched s) :
    t.left_pressed = s.left_pressed ∧ t.right_pressed = s.right_pressed :=
  ⟨congrArg (fun p => p.2.2.2.2.2.2.2.2.2.2.2.2.1) h,
    congrArg (fun p => p.2.2.2.2.2.2.2.2.2.2.2.2.2.1) h⟩

theorem rotate_ship_flags (s : Game) :
    (rotate_ship s).left_pressed = s.left_pressed ∧
    (rotate_ship s).right_pressed = s.right_pressed := by
  unfold rotate_ship
  split
  · exact ⟨rfl, rfl⟩
  · split <;> exact ⟨rfl, rfl⟩

theorem thrust_ship_flags (s : Game) :
    (thrust_ship s).left_pressed = s.left_pressed ∧
    (thrust_ship s).right_pressed = s.right_pressed := by
  unfold thrust_ship
  split_ifs <;> exact ⟨rfl, rfl⟩

theorem handle_death_flags (s : Game) :
    (handle_death s).left_pressed = s.left_pressed ∧
    (handle_death s).right_pressed = s.right_pressed := by
  unfold handle_death
  dsimp only
  split
  · split
    · split
      · split
        · obtain ⟨a, e⟩ := respawn_scan_frame kNumAsteroids 0
            (respawn_reset { s with player_die_timer := s.player_die_timer - 1 })
          rw [e]
          exact ⟨rfl, rfl⟩
        · exact ⟨rfl, rfl⟩
      · exact ⟨rfl, rfl⟩
    · exact ⟨rfl, rfl⟩
  · exact ⟨rfl, rfl⟩

/-- After the events of a frame nothing writes the rotation flags: at the end
of the frame they are as the event loop left them. -/
theorem step_flags {r : Nat → Nat} {fuel : Nat} {events : List Event} {s t : Game}
    (h : step r fuel events s = some t) :
    t.left_pressed = (handle_events events { s with counter := s.counter + 1 }).left_pressed ∧
    t.right_pressed
      = (handle_events events { s with counter := s.counter + 1 }).right_pressed := by
  unfold step at h
  split at h
  · cases h
  · rename_i s6 h6
    have u6 := untouched_flags (move_bullets_from_keeps h6).1
    have e6 : s6.left_pressed
          = (handle_events events { s with counter := s.counter + 1 }).left_pressed ∧
        s6.right_pressed
          = (handle_events events { s with counter := s.counter + 1 }).right_pressed := by
      generalize handle_events events { s with counter := s.counter + 1 } = s1 at u6
      obtain ⟨r1, r2⟩ := rotate_ship_flags s1
      obtain ⟨t1, t2⟩ := thrust_ship_flags (rotate_ship s1)
      obtain ⟨d1, d2⟩ := handle_death_flags (thrust_ship (rotate_ship s1))
      have m1 : (move_ship (handle_death (thrust_ship (rotate_ship s1)))).left_pressed
          = (handle_death (thrust_ship (rotate_ship s1))).left_pressed := rfl
      have m2 : (move_ship (handle_death (thrust_ship (rotate_ship s1)))).right_pressed
          = (handle_death (thrust_ship (rotate_ship s1))).right_pressed := rfl
      exact ⟨u6.1.trans (m1.trans (d1.trans (t1.trans r1))),
        u6.2.trans (m2.trans (d2.trans (t2.trans r2)))⟩
    have e7 : t.left_pressed = s6.left_pressed ∧ t.right_pressed = s6.right_pressed := by
      unfold step_tail at h
      split at h
      · cases h
      · rename_i s1 h1
        have u1 := untouched_flags (move_asteroids_from_keeps h1).1
        unfold next_level at h
        split at h
        · have u2 := untouched_flags (reset_level_keeps h)
          exact ⟨u2.1.trans u1.1, u2.2.trans u1.2⟩
        · simp only [Option.some.injEq] at h
          subst h
          exact u1
    exact ⟨e7.1.trans e6.1, e7.2.trans e6.2⟩

/-- In a round the two rotation flags are never both set. -/
theorem reachable_flags {r : Nat → Nat} {s : Game} (h : Reachable r s) :
    ¬ (s.left_pressed = true ∧ s.right_pressed = true) := by
  induction h with
  | new_game fuel s0 s hp hs =>
    obtain ⟨t1, h1, e⟩ := game_start_new (show (game_locals s0).game_pending = false from hp) hs
    have u := untouched_flags (reset_level_keeps h1)
    have e2 : s.left_pressed = false := by
      rw [e]
      exact u.1
    rw [e2]
    simp
  | frame fuel events s t _ hstep ih =>
    obtain ⟨e1, e2⟩ := step_flags hstep
    rw [e1, e2]
    exact handle_events_flags events _ ih

theorem handle_events_append (l : List Event) (e : Event) (u : Game) :
    handle_events (l ++ [e]) u = handle_event e (handle_events l u) := by
  induction l generalizing u with
  | nil => rfl
  | cons x l ih => exact ih (handle_event x u)

theorem rotate_ship_right {t : Game} (h : t.right_pressed = true) :
    (rotate_ship t).player_angle
      = (if t.player_angle - 8 < 0 then t.player_angle - 8 + 360 else t.player_angle - 8) := by
  unfold rotate_ship
  rw [if_pos h]

theorem rotate_ship_left {t : Game} (h1 : t.right_pressed = false) (h2 : t.left_pressed = true) :
    (rotate_ship t).player_angle
      = (if t.player_angle + 8 ≥ 360 then t.player_angle + 8 - 360 else t.player_angle + 8) := by
  unfold rotate_ship
  rw [if_neg (by simp [h1]), if_pos h2]

theorem rotate_ship_neither {t : Game} (h1 : t.left_pressed = false)
    (h2 : t.right_pressed = false) : (rotate_ship t).player_angle = t.player_angle := by
  unfold rotate_ship
  rw [if_neg (by simp [h2]), if_neg (by simp [h1])]

/-- A press of the right key as the last event of a frame: the right flag is
set, the left flag is clear, and the rotation phase turns the ship right. -/
theorem rotate_after_right (es : List Event) (s : Game) :
    (handle_events (es ++ [Event.key_down Key.right]) s).left_pressed = false ∧
    (handle_events (es ++ [Event.key_down Key.right]) s).right_pressed = true ∧
    (rotate_ship (handle_events (es ++ [Event.key_down Key.right]) s)).player_angle
      = (if s.player_angle - 8 < 0 then s.player_angle - 8 + 360 else s.player_angle - 8) := by
  have ha : (handle_events es s).player_angle = s.player_angle :=
    congrArg (fun p => p.2.2.2.2) (handle_events_keeps es s).1
  rw [handle_events_append]
  refine ⟨rfl, rfl, ?_⟩
  have hb : (handle_event (Event.key_down Key.right) (handle_events es s)).player_angle
      = s.player_angle := ha
  rw [rotate_ship_right rfl, hb]

/-- A press of the left key as the last event of a frame: the left flag is set,
the right flag is clear, and the rotation phase turns the ship left. -/
theorem rotate_after_left (es : List Event) (s : Game) :
    (handle_events (es ++ [Event.key_down Key.left]) s).left_pressed = true ∧
    (handle_events (es ++ [Event.key_down Key.left]) s).right_pressed = false ∧
    (rotate_ship (handle_events (es ++ [Event.key_down Key.left]) s)).player_angle
      = (if s.player_angle + 8 ≥ 360 then s.player_angle + 8 - 360 else s.player_angle + 8) := by
  have ha : (handle_events es s).player_angle = s.player_angle :=
    congrArg (fun p => p.2.2.2.2) (handle_events_keeps es s).1
  rw [handle_events_append]
  refine ⟨rfl, rfl, ?_⟩
  have hb : (handle_event (Event.key_down Key.left) (handle_events es s)).player_angle
      = s.player_angle := ha
  rw [rotate_ship_left rfl rfl, hb]

/-! ## Segments that miss the screen -/

/-- With exact arithmetic `clip` returns 0 for every segment with integer
endpoints that has no point in the screen rectangle, within three iterations
of its loop and leaving the second endpoint as passed, and `sdl_drawline`
writes no pixel. -/
theorem clip_exact_rejects_outside (x1 y1 x2 y2 : Int) (c1 c2 : color_type)
    (hmiss : misses_screen x1 y1 x2 y2) (fuel : Nat) (hfuel : 3 ≤ fuel) :
    (∃ a b, clip fuel x1 y1 x2 y2 = some (a, b, x2, y2, false)) ∧
    sdl_drawline fuel x1 y1 c1 x2 y2 c2 = some [] := by
  obtain ⟨a, b, h⟩ := clip_loop_rejects 2 (x1 : ℚ) (y1 : ℚ) (edges_beyond_le _ _) hmiss fuel
    (by omega)
  have hc : clip fuel x1 y1 x2 y2 = some (trunc a, trunc b, x2, y2, false) := by
    unfold clip
    rw [h]
    simp only [Bool.false_eq_true, if_false, trunc_int]
  refine ⟨⟨trunc a, trunc b, hc⟩, ?_⟩
  unfold sdl_drawline
  rw [hc]
  simp only [Bool.false_eq_true, if_false]

/-- The segment from (0, -23) to (480, 0) has no point in the screen
rectangle: it reaches the row 0 only at its end, in column 480. -/
theorem misses_screen_near_480 :
    misses_screen ((0 : Int) : ℚ) ((-23 : Int) : ℚ) ((480 : Int) : ℚ) ((0 : Int) : ℚ) := by
  intro t h0 h1 hon
  obtain ⟨a, b, c, d⟩ := hon
  push_cast at a b c d
  linarith

/-- The move of the endpoint (-2, 100) towards (2, 100) in `double` arithmetic. -/
theorem clip_edge_d_left_half :
    clip_edge_d ((-2 : Int) : ℚ) ((100 : Int) : ℚ) ((2 : Int) : ℚ) ((100 : Int) : ℚ)
      (encode ((-2 : Int) : ℚ) ((100 : Int) : ℚ)) = (0, 100) := by
  norm_num [clip_edge_d, encode, kScreenWidth, kScreenHeight,
    LEFT_EDGE, RIGHT_EDGE, TOP_EDGE, BOTTOM_EDGE, fl_zero, fl_one, fl_ofNat, fl_neg_ofNat]

/-! ## The error of one rounding -/

theorem round_even_err (q : ℚ) : |(round_even q : ℚ) - q| ≤ 1 / 2 := by
  have h1 := Int.floor_le q
  have h2 := Int.lt_floor_add_one q
  unfold round_even
  split_ifs with a b c
  · rw [abs_le]
    constructor <;> linarith
  · rw [abs_le]
    push_cast
    constructor <;> linarith
  · rw [abs_le]
    constructor <;> linarith
  · rw [abs_le]
    push_cast
    constructor <;> linarith

/-- The absolute error of one rounding. -/
theorem fl_err (q : ℚ) : |fl q - q| ≤ |q| * unit_roundoff := by
  by_cases hq : q = 0
  · subst hq
    rw [fl_zero]
    simp
  have hpos : 0 < |q| := abs_pos.mpr hq
  have hlo : ((2 : Nat) : ℚ) ^ Int.log 2 |q| ≤ |q| := Int.zpow_log_le_self (by decide) hpos
  unfold fl
  rw [if_neg hq]
  generalize Int.log 2 |q| = e at hlo
  have hs : (0 : ℚ) < 2 ^ (e - 52) := by positivity
  have h := round_even_err (q / 2 ^ (e - 52))
  have e1 : (round_even (q / 2 ^ (e - 52)) : ℚ) * 2 ^ (e - 52) - q
      = ((round_even (q / 2 ^ (e - 52)) : ℚ) - q / 2 ^ (e - 52)) * 2 ^ (e - 52) := by
    field_simp
  rw [e1, abs_mul, abs_of_pos hs]
  have e2 : (2 : ℚ) ^ (e - 52) = 2 ^ e / 2 ^ 52 := by
    rw [zpow_sub₀ (by norm_num)]
    norm_num
  have hlo2 : (2 : ℚ) ^ e ≤ |q| := by exact_mod_cast hlo
  have hu : (0 : ℚ) ≤ unit_roundoff := by
    unfold unit_roundoff
    positivity
  calc |(round_even (q / 2 ^ (e - 52)) : ℚ) - q / 2 ^ (e - 52)| * 2 ^ (e - 52)
      ≤ 1 / 2 * 2 ^ (e - 52) := mul_le_mul_of_nonneg_right h hs.le
    _ = 2 ^ e * unit_roundoff := by
      rw [e2]
      unfold unit_roundoff
      ring
    _ ≤ |q| * unit_roundoff := mul_le_mul_of_nonneg_right hlo2 hu

/-- The standard model of one rounding: the result is the exact value times
`1 + δ` with `|δ|` at most the unit roundoff. -/
theorem fl_rel (q : ℚ) : ∃ δ : ℚ, |δ| ≤ unit_roundoff ∧ fl q = q * (1 + δ) := by
  by_cases hq : q = 0
  · subst hq
    refine ⟨0, ?_, ?_⟩
    · rw [abs_zero]
      unfold unit_roundoff
      positivity
    · rw [fl_zero]
      ring
  · refine ⟨(fl q - q) / q, ?_, ?_⟩
    · rw [abs_div, div_le_iff₀ (abs_pos.mpr hq), mul_comm]
      exact fl_err q
    · field_simp

theorem unit_roundoff_bounds {δ : ℚ} (h : |δ| ≤ unit_roundoff) :
    1 - 1 / 2 ^ 53 ≤ 1 + δ ∧ 1 + δ ≤ 1 + 1 / 2 ^ 53 ∧ 0 < 1 + δ := by
  unfold unit_roundoff at h
  rw [abs_le] at h
  obtain ⟨h1, h2⟩ := h
  refine ⟨by linarith, by linarith, ?_⟩
  have : (1 : ℚ) / 2 ^ 53 < 1 := by norm_num
  linarith

/-- The rounded value of a point `p + (e - p) * g` between two coordinates of
the screen, `g` being a factor in `(0, 1 + 2 ^ (-48)]`: it is below 480, it is
not negative when `p ≤ e`, and it is negative only when `e < 1`. -/
theorem interp_bound {p e g : ℚ} (hp0 : 0 ≤ p) (hp1 : p ≤ 479) (he1 : e ≤ 479)
    (hg0 : 0 < g) (hg1 : g ≤ 1 + 1 / 2 ^ 48) :
    fl (p + (e - p) * g) < 480 ∧ (p ≤ e → 0 ≤ fl (p + (e - p) * g)) ∧
    (fl (p + (e - p) * g) < 0 → e < 1) := by
  obtain ⟨δ, hδ, hfl⟩ := fl_rel (p + (e - p) * g)
  obtain ⟨d1, d2, dpos⟩ := unit_roundoff_bounds hδ
  rw [hfl]
  generalize hw : p + (e - p) * g = w
  have wub : w ≤ 479 * (1 + 1 / 2 ^ 48) := by
    rw [← hw]
    rcases le_total p e with h | h
    · have h1 : (e - p) * g ≤ (e - p) * (1 + 1 / 2 ^ 48) :=
        mul_le_mul_of_nonneg_left hg1 (by linarith)
      have h2 : p ≤ p * (1 + 1 / 2 ^ 48) := by
        have : (0 : ℚ) ≤ p * (1 / 2 ^ 48) := mul_nonneg hp0 (by positivity)
        linarith
      have h3 : e * (1 + 1 / 2 ^ 48) ≤ 479 * (1 + 1 / 2 ^ 48) :=
        mul_le_mul_of_nonneg_right he1 (by positivity)
      linarith
    · have h1 : (e - p) * g ≤ 0 := mul_nonpos_of_nonpos_of_nonneg (by linarith) hg0.le
      have h3 : (479 : ℚ) ≤ 479 * (1 + 1 / 2 ^ 48) := by norm_num
      linarith
  have wlo : p ≤ e → 0 ≤ w := by
    intro h
    rw [← hw]
    have h1 : 0 ≤ (e - p) * g := mul_nonneg (by linarith) hg0.le
    linarith
  have wneg : w < 0 → e < 1 := by
    intro h
    by_contra hc
    rw [not_lt] at hc
    rcases le_total p e with hpe | hpe
    · exact absurd (wlo hpe) (not_le.mpr h)
    · have h1 : (p - e) * g ≤ (p - e) * (1 + 1 / 2 ^ 48) :=
        mul_le_mul_of_nonneg_left hg1 (by linarith)
      have h2 : (p - e) * (1 / 2 ^ 48) ≤ 479 * (1 / 2 ^ 48) :=
        mul_le_mul_of_nonneg_right (by linarith) (by positivity)
      have h3 : (479 : ℚ) * (1 / 2 ^ 48) < 1 := by norm_num
      have h4 : w = p - (p - e) * g := by
        rw [← hw]
        ring
      have h5 : (p - e) * (1 + 1 / 2 ^ 48) = (p - e) + (p - e) * (1 / 2 ^ 48) := by ring
      linarith
  refine ⟨?_, fun h => mul_nonneg (wlo h) dpos.le, fun h => ?_⟩
  · rcases le_total w 0 with h | h
    · have : w * (1 + δ) ≤ 0 := mul_nonpos_of_nonpos_of_nonneg h dpos.le
      linarith
    · have h1 : w * (1 + δ) ≤ 479 * (1 + 1 / 2 ^ 48) * (1 + 1 / 2 ^ 53) :=
        mul_le_mul wub d2 dpos.le (by positivity)
      have h2 : (479 : ℚ) * (1 + 1 / 2 ^ 48) * (1 + 1 / 2 ^ 53) < 480 := by norm_num
      linarith
  · apply wneg
    by_contra hc
    rw [not_lt] at hc
    exact absurd (mul_nonneg hc dpos.le) (not_le.mpr h)

/-- The quotient of two rounded values whose exact quotient is in `(0, 1]`. -/
theorem fl_ratio {x y : ℚ} (h0 : 0 < x / y) (h1 : x / y ≤ 1) :
    0 < fl x / fl y ∧ fl x / fl y ≤ 1 + 1 / 2 ^ 50 := by
  obtain ⟨δ, hδ, hx⟩ := fl_rel x
  obtain ⟨ε, hε, hy⟩ := fl_rel y
  obtain ⟨a1, a2, apos⟩ := unit_roundoff_bounds hδ
  obtain ⟨b1, b2, bpos⟩ := unit_roundoff_bounds hε
  have hy0 : y ≠ 0 := by
    intro h
    rw [h, div_zero] at h0
    exact lt_irrefl _ h0
  have e : fl x / fl y = x / y * ((1 + δ) / (1 + ε)) := by
    rw [hx, hy]
    field_simp
  have q0 : 0 < (1 + δ) / (1 + ε) := div_pos apos bpos
  have q1 : (1 + δ) / (1 + ε) ≤ 1 + 1 / 2 ^ 50 := by
    rw [div_le_iff₀ bpos]
    have : (1 + 1 / 2 ^ 50 : ℚ) * (1 - 1 / 2 ^ 53) ≤ (1 + 1 / 2 ^ 50) * (1 + ε) :=
      mul_le_mul_of_nonneg_left b1 (by positivity)
    have h2 : (1 + 1 / 2 ^ 53 : ℚ) ≤ (1 + 1 / 2 ^ 50) * (1 - 1 / 2 ^ 53) := by norm_num
    linarith
  rw [e]
  refine ⟨mul_pos h0 q0, ?_⟩
  calc x / y * ((1 + δ) / (1 + ε)) ≤ 1 * (1 + 1 / 2 ^ 50) :=
        mul_le_mul h1 q1 q0.le (by norm_num)
    _ = 1 + 1 / 2 ^ 50 := one_mul _

/-- The term `(fx - fx1) * m` of a move onto the left or right edge, `K` being
the rounded distance to the edge and `Dn` the rounded distance to the other
point: the difference `x` of the other coordinate times a factor near one. -/
theorem fl_mul_move {K Dn : ℚ} (x : ℚ) (hK0 : 0 < K / Dn) (hK1 : K / Dn ≤ 1 + 1 / 2 ^ 50) :
    ∃ g : ℚ, 0 < g ∧ g ≤ 1 + 1 / 2 ^ 48 ∧ fl (K * fl (fl x / Dn)) = x * g := by
  obtain ⟨δ0, h0, e0⟩ := fl_rel x
  obtain ⟨δ1, h1, e1⟩ := fl_rel (fl x / Dn)
  obtain ⟨δ2, h2, e2⟩ := fl_rel (K * fl (fl x / Dn))
  obtain ⟨a1, a2, apos⟩ := unit_roundoff_bounds h0
  obtain ⟨b1, b2, bpos⟩ := unit_roundoff_bounds h1
  obtain ⟨c1, c2, cpos⟩ := unit_roundoff_bounds h2
  have hDn : Dn ≠ 0 := by
    intro h
    rw [h, div_zero] at hK0
    exact lt_irrefl _ hK0
  refine ⟨K / Dn * (1 + δ0) * (1 + δ1) * (1 + δ2),
    mul_pos (mul_pos (mul_pos hK0 apos) bpos) cpos, ?_, ?_⟩
  · have s1 : K / Dn * (1 + δ0) ≤ (1 + 1 / 2 ^ 50) * (1 + 1 / 2 ^ 53) :=
      mul_le_mul hK1 a2 apos.le (by positivity)
    have s2 : K / Dn * (1 + δ0) * (1 + δ1) ≤ (1 + 1 / 2 ^ 50) * (1 + 1 / 2 ^ 53) * (1 + 1 / 2 ^ 53) :=
      mul_le_mul s1 b2 bpos.le (by positivity)
    have s3 : K / Dn * (1 + δ0) * (1 + δ1) * (1 + δ2)
        ≤ (1 + 1 / 2 ^ 50) * (1 + 1 / 2 ^ 53) * (1 + 1 / 2 ^ 53) * (1 + 1 / 2 ^ 53) :=
      mul_le_mul s2 c2 cpos.le (by positivity)
    have s4 : (1 + 1 / 2 ^ 50 : ℚ) * (1 + 1 / 2 ^ 53) * (1 + 1 / 2 ^ 53) * (1 + 1 / 2 ^ 53)
        ≤ 1 + 1 / 2 ^ 48 := by norm_num
    exact le_trans s3 s4
  · rw [e2, e1, e0]
    field_simp
    ring

/-- The term `(fy - fy1) / m` of a move onto the top or bottom edge, `K` being
the rounded distance to the edge and `N` the rounded distance to the other
point: the difference `x` of the other coordinate times a factor near one. -/
theorem fl_div_move {K N : ℚ} (x : ℚ) (hK0 : 0 < K / N)
    (hK1 : K / N ≤ 1 + 1 / 2 ^ 50) :
    ∃ g : ℚ, 0 < g ∧ g ≤ 1 + 1 / 2 ^ 48 ∧ fl (K / fl (N / fl x)) = x * g := by
  obtain ⟨δ0, h0, e0⟩ := fl_rel x
  obtain ⟨δ1, h1, e1⟩ := fl_rel (N / fl x)
  obtain ⟨δ2, h2, e2⟩ := fl_rel (K / fl (N / fl x))
  obtain ⟨a1, a2, apos⟩ := unit_roundoff_bounds h0
  obtain ⟨b1, b2, bpos⟩ := unit_roundoff_bounds h1
  obtain ⟨c1, c2, cpos⟩ := unit_roundoff_bounds h2
  have hN : N ≠ 0 := by
    intro h
    rw [h, div_zero] at hK0
    exact lt_irrefl _ hK0
  refine ⟨K / N * (1 + δ0) * (1 + δ2) / (1 + δ1),
    div_pos (mul_pos (mul_pos hK0 apos) cpos) bpos, ?_, ?_⟩
  · rw [div_le_iff₀ bpos]
    have s1 : K / N * (1 + δ0) ≤ (1 + 1 / 2 ^ 50) * (1 + 1 / 2 ^ 53) :=
      mul_le_mul hK1 a2 apos.le (by positivity)
    have s2 : K / N * (1 + δ0) * (1 + δ2) ≤ (1 + 1 / 2 ^ 50) * (1 + 1 / 2 ^ 53) * (1 + 1 / 2 ^ 53) :=
      mul_le_mul s1 c2 cpos.le (by positivity)
    have s3 : (1 + 1 / 2 ^ 48 : ℚ) * (1 - 1 / 2 ^ 53) ≤ (1 + 1 / 2 ^ 48) * (1 + δ1) :=
      mul_le_mul_of_nonneg_left b1 (by positivity)
    have s4 : (1 + 1 / 2 ^ 50 : ℚ) * (1 + 1 / 2 ^ 53) * (1 + 1 / 2 ^ 53)
        ≤ (1 + 1 / 2 ^ 48) * (1 - 1 / 2 ^ 53) := by norm_num
    linarith
  · have ne0 : (1 + δ0) ≠ 0 := ne_of_gt apos
    have ne1 : (1 + δ1) ≠ 0 := ne_of_gt bpos
    rw [e2, e1, e0]
    field_simp
    ring

theorem int_on_screen {ex ey : Int} (h : on_screen (ex : ℚ) (ey : ℚ)) :
    (0 ≤ (ex : ℚ) ∧ (ex : ℚ) ≤ 479) ∧ (0 ≤ (ey : ℚ) ∧ (ey : ℚ) ≤ 479) := by
  obtain ⟨a, b, c, d⟩ := h
  have b1 : ex < 480 := by exact_mod_cast b
  have d1 : ey < 480 := by exact_mod_cast d
  have b2 : ex ≤ 479 := by omega
  have d2 : ey ≤ 479 := by omega
  exact ⟨⟨a, by exact_mod_cast b2⟩, ⟨c, by exact_mod_cast d2⟩⟩

theorem int_lt_one {e : Int} (h0 : 0 ≤ (e : ℚ)) (h1 : (e : ℚ) < 1) : e = 0 := by
  have a : 0 ≤ e := by exact_mod_cast h0
  have b : e < 1 := by exact_mod_cast h1
  omega

/-- A move onto the left or right edge in `double` arithmetic, from a point whose
`y` is in `[0, 479]` towards an integer point on the screen: the new `y` is
below 480, it is not negative when the point was not below the other one, and
it is negative only when the other point is in row 0. -/
theorem clip_edge_d_move_x {a b : ℚ} {ex ey : Int} (ha : a < 0 ∨ 480 ≤ a) (hb0 : 0 ≤ b)
    (hb1 : b ≤ 479) (h2 : on_screen (ex : ℚ) (ey : ℚ)) :
    (a < 0 → (clip_edge_d a b ex ey (encode a b)).1 = 0) ∧
    (480 ≤ a → (clip_edge_d a b ex ey (encode a b)).1 = 479) ∧
    (clip_edge_d a b ex ey (encode a b)).2 < 480 ∧
    (b ≤ ey → 0 ≤ (clip_edge_d a b ex ey (encode a b)).2) ∧
    ((clip_edge_d a b ex ey (encode a b)).2 < 0 → ey = 0) := by
  obtain ⟨⟨x0, x1⟩, ⟨y0, y1⟩⟩ := int_on_screen h2
  obtain ⟨k1, k2, _, _⟩ := clip_edge_d_coord a b ex ey
  have hw : ((kScreenWidth : Int) : ℚ) - 1 = 479 := by
    rw [screen_width_cast]
    norm_num
  have hh : ((kScreenHeight : Int) : ℚ) - 1 = 479 := by
    rw [screen_height_cast]
    norm_num
  have hne : (ex : ℚ) ≠ a := by
    rcases ha with h | h
    · exact fun e => absurd x0 (not_le.mpr (e ▸ h))
    · intro e
      rw [e] at x1
      linarith
  have key : ∃ g : ℚ, 0 < g ∧ g ≤ 1 + 1 / 2 ^ 48 ∧
      (clip_edge_d a b ex ey (encode a b)).2 = fl (b + ((ey : ℚ) - b) * g) := by
    rcases ha with h | h
    · have r := fl_ratio (x := 0 - a) (y := (ex : ℚ) - a) (div_pos (by linarith) (by linarith))
        ((div_le_one (by linarith)).mpr (by linarith))
      obtain ⟨g, g0, g1, eg⟩ := fl_mul_move ((ey : ℚ) - b) r.1 r.2
      refine ⟨g, g0, g1, ?_⟩
      unfold clip_edge_d
      simp only [hw, hh]
      rw [if_pos ((encode_left a b).mpr h), if_pos hne, eg]
    · have r := fl_ratio (x := 479 - a) (y := (ex : ℚ) - a)
        (div_pos_of_neg_of_neg (by linarith) (by linarith))
        ((div_le_one_of_neg (by linarith)).mpr (by linarith))
      obtain ⟨g, g0, g1, eg⟩ := fl_mul_move ((ey : ℚ) - b) r.1 r.2
      refine ⟨g, g0, g1, ?_⟩
      unfold clip_edge_d
      simp only [hw, hh]
      rw [if_neg (fun hl => absurd ((encode_left a b).mp hl) (by linarith)),
        if_pos ((encode_right a b).mpr h), if_pos hne, eg]
  obtain ⟨g, g0, g1, eg⟩ := key
  obtain ⟨i1, i2, i3⟩ := interp_bound (e := (ey : ℚ)) hb0 hb1 y1 g0 g1
  rw [eg]
  exact ⟨k1, k2, i1, i2, fun h => int_lt_one y0 (i3 h)⟩

/-- A move onto the top or bottom edge in `double` arithmetic, from a point whose
`x` is in `[0, 479]` towards an integer point on the screen: the new `x` is
below 480, it is not negative when the point was not to the right of the other
one, and it is negative only when the other point is in column 0. -/
theorem clip_edge_d_move_y {a b : ℚ} {ex ey : Int} (hb : b < 0 ∨ 480 ≤ b) (ha0 : 0 ≤ a)
    (ha1 : a ≤ 479) (h2 : on_screen (ex : ℚ) (ey : ℚ)) :
    (b < 0 → (clip_edge_d a b ex ey (encode a b)).2 = 0) ∧
    (480 ≤ b → (clip_edge_d a b ex ey (encode a b)).2 = 479) ∧
    (clip_edge_d a b ex ey (encode a b)).1 < 480 ∧
    (a ≤ ex → 0 ≤ (clip_edge_d a b ex ey (encode a b)).1) ∧
    ((clip_edge_d a b ex ey (encode a b)).1 < 0 → ex = 0) := by
  obtain ⟨⟨x0, x1⟩, ⟨y0, y1⟩⟩ := int_on_screen h2
  obtain ⟨_, _, k3, k4⟩ := clip_edge_d_coord a b ex ey
  have ha2 : a < 480 := by linarith
  have hw : ((kScreenWidth : Int) : ℚ) - 1 = 479 := by
    rw [screen_width_cast]
    norm_num
  have hh : ((kScreenHeight : Int) : ℚ) - 1 = 479 := by
    rw [screen_height_cast]
    norm_num
  have nl : ¬ (encode a b &&& LEFT_EDGE ≠ 0) :=
    fun hl => absurd ((encode_left a b).mp hl) (by linarith)
  have nr : ¬ (encode a b &&& RIGHT_EDGE ≠ 0) :=
    fun hl => absurd ((encode_right a b).mp hl) (by linarith)
  by_cases hne : (ex : ℚ) ≠ a
  · have key : ∃ g : ℚ, 0 < g ∧ g ≤ 1 + 1 / 2 ^ 48 ∧
        (clip_edge_d a b ex ey (encode a b)).1 = fl (a + ((ex : ℚ) - a) * g) := by
      rcases hb with h | h
      · have r := fl_ratio (x := 0 - b) (y := (ey : ℚ) - b)
          (div_pos (by linarith) (by linarith)) ((div_le_one (by linarith)).mpr (by linarith))
        obtain ⟨g, g0, g1, eg⟩ := fl_div_move ((ex : ℚ) - a) r.1 r.2
        refine ⟨g, g0, g1, ?_⟩
        unfold clip_edge_d
        simp only [hw, hh]
        rw [if_neg nl, if_neg nr, if_pos ((encode_top a b).mpr h), if_pos hne, if_pos hne, eg]
      · have r := fl_ratio (x := 479 - b) (y := (ey : ℚ) - b)
          (div_pos_of_neg_of_neg (by linarith) (by linarith))
          ((div_le_one_of_neg (by linarith)).mpr (by linarith))
        obtain ⟨g, g0, g1, eg⟩ := fl_div_move ((ex : ℚ) - a) r.1 r.2
        refine ⟨g, g0, g1, ?_⟩
        unfold clip_edge_d
        simp only [hw, hh]
        rw [if_neg nl, if_neg nr,
          if_neg (fun hl => absurd ((encode_top a b).mp hl) (by linarith)),
          if_pos ((encode_bottom a b).mpr h), if_pos hne, if_pos hne, eg]
    obtain ⟨g, g0, g1, eg⟩ := key
    obtain ⟨i1, i2, i3⟩ := interp_bound (e := (ex : ℚ)) ha0 ha1 x1 g0 g1
    rw [eg]
    exact ⟨fun h => k3 ha0 ha2 h, fun h => k4 ha0 ha2 h, i1, i2, fun h => int_lt_one x0 (i3 h)⟩
  · have ev : (clip_edge_d a b ex ey (encode a b)).1 = a := by
      rcases hb with h | h
      · unfold clip_edge_d
        simp only [hw, hh]
        rw [if_neg nl, if_neg nr, if_pos ((encode_top a b).mpr h)]
        simp only [if_neg hne]
      · unfold clip_edge_d
        simp only [hw, hh]
        rw [if_neg nl, if_neg nr,
          if_neg (fun hl => absurd ((encode_top a b).mp hl) (by linarith)),
          if_pos ((encode_bottom a b).mpr h)]
        simp only [if_neg hne]
    rw [ev]
    exact ⟨fun h => k3 ha0 ha2 h, fun h => k4 ha0 ha2 h, ha2, fun _ => ha0,
      fun h => absurd ha0 (not_le.mpr h)⟩

/-- In `double` arithmetic the loop of `clip` ends within four iterations, by
accepting, when the first point is beyond one edge only, with its other
coordinate in `[0, 479]`, and the second point is an integer point on the
screen: at most three moves bring the first point onto the screen. -/
theorem clip_loop_d_returns {a b : ℚ} {ex ey : Int} (h2 : on_screen (ex : ℚ) (ey : ℚ))
    (h1 : ((a < 0 ∨ 480 ≤ a) ∧ 0 ≤ b ∧ b ≤ 479) ∨ ((b < 0 ∨ 480 ≤ b) ∧ 0 ≤ a ∧ a ≤ 479))
    (fuel : Nat) (sw : Bool) :
    ∃ a1 b1, clip_loop_d (fuel + 4) a b ex ey sw = some (a1, b1, (ex : ℚ), (ey : ℚ), sw, true) := by
  show ∃ a1 b1, clip_loop_d (fuel + 1 + 1 + 1 + 1) a b ex ey sw = _
  have edge : ∀ v : ℚ, (v = 0 ∨ v = 479) → 0 ≤ v ∧ v ≤ 479 ∧ v < 480 := by
    rintro v (h | h) <;> rw [h] <;> norm_num
  rcases h1 with ⟨ha, hb0, hb1⟩ | ⟨hb, ha0, ha1⟩
  · have hP : ¬ on_screen a b := by
      rintro ⟨p1, p2, _, _⟩
      rcases ha with h | h <;> linarith
    obtain ⟨m1, m2, m3, _, m5⟩ := clip_edge_d_move_x ha hb0 hb1 h2
    have mx : (clip_edge_d a b ex ey (encode a b)).1 = 0 ∨
        (clip_edge_d a b ex ey (encode a b)).1 = 479 := ha.imp m1 m2
    rw [clip_loop_d_step hP h2]
    generalize clip_edge_d a b ex ey (encode a b) = q1 at m3 m5 mx
    obtain ⟨e0, e1, e2⟩ := edge _ mx
    by_cases hy : 0 ≤ q1.2
    · exact ⟨_, _, clip_loop_d_inside ⟨e0, e2, hy, m3⟩ h2 (fuel + 1 + 1) sw⟩
    · rw [not_le] at hy
      have hey : ey = 0 := m5 hy
      have hP1 : ¬ on_screen q1.1 q1.2 := fun h => absurd h.2.2.1 (not_le.mpr hy)
      obtain ⟨n1, _, n3, _, n5⟩ := clip_edge_d_move_y (Or.inl hy) e0 e1 h2
      have ny := n1 hy
      rw [clip_loop_d_step hP1 h2]
      generalize clip_edge_d q1.1 q1.2 ex ey (encode q1.1 q1.2) = q2 at n3 n5 ny
      by_cases hx : 0 ≤ q2.1
      · exact ⟨_, _, clip_loop_d_inside ⟨hx, n3, by rw [ny], by rw [ny]; norm_num⟩ h2
          (fuel + 1) sw⟩
      · rw [not_le] at hx
        have hP2 : ¬ on_screen q2.1 q2.2 := fun h => absurd h.1 (not_le.mpr hx)
        have b0 : 0 ≤ q2.2 := by rw [ny]
        have b1 : q2.2 ≤ 479 := by
          rw [ny]
          norm_num
        have b2 : q2.2 ≤ (ey : ℚ) := by
          rw [ny, hey]
          norm_num
        obtain ⟨o1, _, o3, o4, _⟩ := clip_edge_d_move_x (Or.inl hx) b0 b1 h2
        have ox := o1 hx
        have oy := o4 b2
        rw [clip_loop_d_step hP2 h2]
        generalize clip_edge_d q2.1 q2.2 ex ey (encode q2.1 q2.2) = q3 at o3 ox oy
        exact ⟨_, _, clip_loop_d_inside ⟨by rw [ox], by rw [ox]; norm_num, oy, o3⟩ h2 fuel sw⟩
  · have hP : ¬ on_screen a b := by
      rintro ⟨_, _, p3, p4⟩
      rcases hb with h | h <;> linarith
    obtain ⟨m1, m2, m3, _, m5⟩ := clip_edge_d_move_y hb ha0 ha1 h2
    have my : (clip_edge_d a b ex ey (encode a b)).2 = 0 ∨
        (clip_edge_d a b ex ey (encode a b)).2 = 479 := hb.imp m1 m2
    rw [clip_loop_d_step hP h2]
    generalize clip_edge_d a b ex ey (encode a b) = q1 at m3 m5 my
    obtain ⟨e0, e1, e2⟩ := edge _ my
    by_cases hx : 0 ≤ q1.1
    · exact ⟨_, _, clip_loop_d_inside ⟨hx, m3, e0, e2⟩ h2 (fuel + 1 + 1) sw⟩
    · rw [not_le] at hx
      have hex : ex = 0 := m5 hx
      have hP1 : ¬ on_screen q1.1 q1.2 := fun h => absurd h.1 (not_le.mpr hx)
      obtain ⟨n1, _, n3, _, n5⟩ := clip_edge_d_move_x (Or.inl hx) e0 e1 h2
      have nx := n1 hx
      rw [clip_loop_d_step hP1 h2]
      generalize clip_edge_d q1.1 q1.2 ex ey (encode q1.1 q1.2) = q2 at n3 n5 nx
      by_cases hy : 0 ≤ q2.2
      · exact ⟨_, _, clip_loop_d_inside ⟨by rw [nx], by rw [nx]; norm_num, hy, n3⟩ h2
          (fuel + 1) sw⟩
      · rw [not_le] at hy
        have hP2 : ¬ on_screen q2.1 q2.2 := fun h => absurd h.2.2.1 (not_le.mpr hy)
        have b0 : 0 ≤ q2.1 := by rw [nx]
        have b1 : q2.1 ≤ 479 := by
          rw [nx]
          norm_num
        have b2 : q2.1 ≤ (ex : ℚ) := by
          rw [nx, hex]
          norm_num
        obtain ⟨o1, _, o3, o4, _⟩ := clip_edge_d_move_y (Or.inl hy) b0 b1 h2
        have oy := o1 hy
        have ox := o4 b2
        rw [clip_loop_d_step hP2 h2]
        generalize clip_edge_d q2.1 q2.2 ex ey (encode q2.1 q2.2) = q3 at o3 ox oy
        exact ⟨_, _, clip_loop_d_inside ⟨ox, o3, by rw [oy], by rw [oy]; norm_num⟩ h2 fuel sw⟩

theorem edges_beyond_one_int {x y : Int} (h : edges_beyond (x : ℚ) (y : ℚ) = 1) :
    (((x : ℚ) < 0 ∨ 480 ≤ (x : ℚ)) ∧ 0 ≤ (y : ℚ) ∧ (y : ℚ) ≤ 479) ∨
    (((y : ℚ) < 0 ∨ 480 ≤ (y : ℚ)) ∧ 0 ≤ (x : ℚ) ∧ (x : ℚ) ≤ 479) := by
  have up : ∀ v : Int, ¬ (480 ≤ (v : ℚ)) → (v : ℚ) ≤ 479 := by
    intro v hv
    have a : v < 480 := by exact_mod_cast not_le.mp hv
    have b : v ≤ 479 := by omega
    exact_mod_cast b
  unfold edges_beyond at h
  simp only [ge_iff_le] at h
  by_cases c1 : (x : ℚ) < 0
  · by_cases c3 : (y : ℚ) < 0
    · rw [if_pos c1, if_pos c3] at h
      omega
    · by_cases c4 : 480 ≤ (y : ℚ)
      · rw [if_pos c1, if_pos c4] at h
        omega
      · exact Or.inl ⟨Or.inl c1, not_lt.mp c3, up y c4⟩
  · by_cases c2 : 480 ≤ (x : ℚ)
    · by_cases c3 : (y : ℚ) < 0
      · rw [if_pos c2, if_pos c3] at h
        omega
      · by_cases c4 : 480 ≤ (y : ℚ)
        · rw [if_pos c2, if_pos c4] at h
          omega
        · exact Or.inl ⟨Or.inr c2, not_lt.mp c3, up y c4⟩
    · by_cases c3 : (y : ℚ) < 0
      · exact Or.inr ⟨Or.inl c3, not_lt.mp c1, up x c2⟩
      · by_cases c4 : 480 ≤ (y : ℚ)
        · exact Or.inr ⟨Or.inr c4, not_lt.mp c1, up x c2⟩
        · rw [if_neg c1, if_neg c2, if_neg c3, if_neg c4] at h
          omega

/-- In `double` arithmetic `clip` returns 1 within four iterations for a
segment whose first endpoint is beyond exactly one edge and whose second
endpoint is on the screen; the second endpoint is returned as passed and the
first endpoint is returned on the screen. -/
theorem clip_d_one_edge_returns {x1 y1 x2 y2 : Int} (h1 : edges_beyond (x1 : ℚ) (y1 : ℚ) = 1)
    (h2 : on_screen (x2 : ℚ) (y2 : ℚ)) (fuel : Nat) :
    ∃ a b, clip_d (fuel + 4) x1 y1 x2 y2 = some (a, b, x2, y2, true) ∧
      0 ≤ a ∧ a < 480 ∧ 0 ≤ b ∧ b < 480 := by
  obtain ⟨a1, b1, hl⟩ := clip_loop_d_returns h2 (edges_beyond_one_int h1) fuel false
  have hc := clip_d_of_loop hl
  simp only [Bool.false_eq_true, if_false, trunc_int] at hc
  obtain ⟨_, _, _, k⟩ := clip_d_keeps_second h2 hc
  exact ⟨_, _, hc, k⟩

/-- The same with the endpoints in the other order. -/
theorem clip_d_one_edge_returns_swapped {x1 y1 x2 y2 : Int} (h1 : on_screen (x1 : ℚ) (y1 : ℚ))
    (h2 : edges_beyond (x2 : ℚ) (y2 : ℚ) = 1) (fuel : Nat) :
    ∃ c d, clip_d (fuel + 4) x1 y1 x2 y2 = some (x1, y1, c, d, true) ∧
      0 ≤ c ∧ c < 480 ∧ 0 ≤ d ∧ d < 480 := by
  obtain ⟨hP, _, _⟩ := edges_beyond_one h2
  obtain ⟨a1, b1, hl⟩ := clip_loop_d_returns h1 (edges_beyond_one_int h2) fuel true
  have hl2 : clip_loop_d (fuel + 4) x1 y1 x2 y2 false
      = some (a1, b1, (x1 : ℚ), (y1 : ℚ), true, true) := by
    rw [← hl]
    show clip_loop_d (fuel + 3 + 1) x1 y1 x2 y2 false = clip_loop_d (fuel + 3 + 1) x2 y2 x1 y1 true
    rw [clip_loop_d_step_swapped h1 hP, clip_loop_d_step hP h1]
  have hc := clip_d_of_loop hl2
  simp only [if_true, trunc_int] at hc
  obtain ⟨_, _, _, k⟩ := clip_d_keeps_first h1 hP hc
  exact ⟨_, _, hc, k⟩

/-! ## The claims -/

/-! ### C1 -/

/-- C1, asteroid split conservation.  Let slot `j` hold a live asteroid.  On a
fair stream `hurt_asteroid` returns, and whenever it returns: if the size `S` is
above 1 and two slots are free, then slot `j` is dead, the two lowest free slots
`f1 < f2` (both different from `j`) are live with size `S - 1` at the parent's
position, every other slot is as before and the number of live asteroids has
grown by exactly 1; if `S = 1` no other slot changes, slot `j` is dead and the
number of live asteroids has dropped by exactly 1. -/
theorem hurt_asteroid_split_conservation (r : Nat → Nat) (j : Nat) (xm ym : Int) (exp_size : Nat)
    (s : Game) (hj : j < kNumAsteroids) (hlive : (s.asteroids j).alive ≠ 0) :
    (Fair r → ∃ fuel t, hurt_asteroid r fuel j xm ym exp_size s = some t) ∧
    ∀ fuel t, hurt_asteroid r fuel j xm ym exp_size s = some t →
      (1 < (s.asteroids j).size →
        (∃ p q, p < q ∧ q < kNumAsteroids ∧ (s.asteroids p).alive = 0 ∧ (s.asteroids q).alive = 0) →
        ∃ f1 f2, f1 < f2 ∧ f2 < kNumAsteroids ∧ f1 ≠ j ∧ f2 ≠ j ∧
          (s.asteroids f1).alive = 0 ∧ (s.asteroids f2).alive = 0 ∧
          (∀ i, i < f2 → i ≠ f1 → (s.asteroids i).alive ≠ 0) ∧
          t.asteroids j = { s.asteroids j with alive := 0 } ∧
          (t.asteroids f1).alive ≠ 0 ∧ (t.asteroids f1).size = (s.asteroids j).size - 1 ∧
          (t.asteroids f1).x = (s.asteroids j).x ∧ (t.asteroids f1).y = (s.asteroids j).y ∧
          (t.asteroids f2).alive ≠ 0 ∧ (t.asteroids f2).size = (s.asteroids j).size - 1 ∧
          (t.asteroids f2).x = (s.asteroids j).x ∧ (t.asteroids f2).y = (s.asteroids j).y ∧
          (∀ i, i ≠ j → i ≠ f1 → i ≠ f2 → t.asteroids i = s.asteroids i) ∧
          live_count t.asteroids kNumAsteroids = live_count s.asteroids kNumAsteroids + 1) ∧
      ((s.asteroids j).size = 1 →
        t.asteroids j = { s.asteroids j with alive := 0 } ∧
        (∀ i, i ≠ j → t.asteroids i = s.asteroids i) ∧
        live_count t.asteroids kNumAsteroids + 1 = live_count s.asteroids kNumAsteroids) := by
  refine ⟨fun hr => hurt_asteroid_terminates hr j xm ym exp_size s, ?_⟩
  intro fuel t h
  obtain ⟨s2, h2, e⟩ := hurt_asteroid_asteroids h
  have hsc := add_score_asteroids (Int.tdiv 100 ((s.asteroids j).size + 1)) s
  constructor
  · intro hS hfree
    rw [← hsc] at hlive hS hfree
    obtain ⟨f1, f2, a1, a2, h12, hf2, hf1j, hf2j, hf1, hf2z, hlow, ea, ha1, hs1, hx1, hy1,
      ha2, hs2, hx2, hy2⟩ := hurt_asteroid_split_big hlive hS hfree h2
    rw [hsc] at hf1 hf2z hlow hs1 hx1 hy1 hs2 hx2 hy2 ea hlive
    have h21 : f2 ≠ f1 := by omega
    have ej : s2.asteroids j = s.asteroids j := by
      rw [ea, Function.update_noteq (Ne.symm hf2j), Function.update_noteq (Ne.symm hf1j)]
    have e1 : t.asteroids f1 = a1 := by
      rw [e, Function.update_noteq hf1j, ea, Function.update_noteq (Ne.symm h21),
        Function.update_same]
    have e2 : t.asteroids f2 = a2 := by
      rw [e, Function.update_noteq hf2j, ea, Function.update_same]
    refine ⟨f1, f2, h12, hf2, hf1j, hf2j, hf1, hf2z, hlow, ?_, ?_, ?_, ?_, ?_, ?_, ?_, ?_, ?_, ?_, ?_⟩
    · rw [e, Function.update_same, ej]
    · rw [e1, ha1]; decide
    · rw [e1, hs1]
    · rw [e1, hx1]
    · rw [e1, hy1]
    · rw [e2, ha2]; decide
    · rw [e2, hs2]
    · rw [e2, hx2]
    · rw [e2, hy2]
    · intro i hij hi1 hi2
      rw [e, Function.update_noteq hij, ea, Function.update_noteq hi2, Function.update_noteq hi1]
    · have c1 := live_count_update_lt (a := s.asteroids) a1 (show f1 < kNumAsteroids by omega)
      have c2 := live_count_update_lt (a := Function.update s.asteroids f1 a1) a2 hf2
      have c3 := live_count_update_lt (a := s2.asteroids) { s2.asteroids j with alive := 0 } hj
      rw [Function.update_noteq h21] at c2
      rw [← ea] at c2
      rw [← e, ej] at c3
      rw [if_neg (by simp [hf1]), if_pos (by simp [ha1])] at c1
      rw [if_neg (by simp [hf2z]), if_pos (by simp [ha2])] at c2
      rw [if_pos hlive, if_neg (by simp)] at c3
      omega
  · intro hS
    have hns : ¬ 1 < ((add_score (Int.tdiv 100 ((s.asteroids j).size + 1)) s).asteroids j).size := by
      rw [hsc, hS]; decide
    rw [hurt_asteroid_split_small hns] at h2
    simp only [Option.some.injEq] at h2
    subst h2
    rw [hsc] at e
    refine ⟨?_, ?_, ?_⟩
    · rw [e, Function.update_same]
    · intro i hij
      rw [e, Function.update_noteq hij]
    · have c3 := live_count_update_lt (a := s.asteroids) { s.asteroids j with alive := 0 } hj
      rw [← e] at c3
      rw [if_pos hlive, if_neg (by simp)] at c3
      omega

theorem hurt_asteroid_split_conservation_witness :
    (one_rock 3).asteroids 0 = rock 3 100 100 0 0 ∧
    (∃ fuel t, hurt_asteroid zero_stream fuel 0 0 0 9 (one_rock 3) = some t) ∧
    hurt_asteroid zero_stream 1 0 0 0 9 (one_rock 3) = some one_rock_3_hit ∧
    live_count one_rock_3_hit.asteroids kNumAsteroids = 2 ∧
    hurt_asteroid zero_stream 1 0 0 0 3 (one_rock 1) = some one_rock_1_hit ∧
    live_count one_rock_1_hit.asteroids kNumAsteroids = 0 := by
  have h3 := (hurt_asteroid_split_conservation zero_stream 0 0 0 9 (one_rock 3)
    (by decide) (by decide)).2 1 one_rock_3_hit rfl
  have h1 := (hurt_asteroid_split_conservation zero_stream 0 0 0 3 (one_rock 1)
    (by decide) (by decide)).2 1 one_rock_1_hit rfl
  obtain ⟨f1, f2, _, _, _, _, _, _, _, _, _, _, _, _, _, _, _, _, _, hc⟩ :=
    h3.1 (by decide) ⟨1, 2, by decide, by decide, by decide, by decide⟩
  have hc1 := (h1.2 (by decide)).2.2
  have e3 : live_count (one_rock 3).asteroids kNumAsteroids = 1 := by decide
  have e1 : live_count (one_rock 1).asteroids kNumAsteroids = 1 := by decide
  refine ⟨rfl, (hurt_asteroid_split_conservation zero_stream 0 0 0 9 (one_rock 3)
    (by decide) (by decide)).1 zero_stream_fair, rfl, ?_, rfl, ?_⟩
  · rw [hc, e3]
  · omega

/-! ### C2 -/

/-- C2, the score of a hit.  Let slot `j` hold an asteroid of size `S ≥ 1`.  On
a fair stream `hurt_asteroid` returns, and whenever it returns the score has
grown by exactly `100 / (S + 1)` (truncating division; `size_t` addition, so
modulo `2 ^ 64`, and the plain sum when that fits).  The award is 50, 33, 25, 20
for the sizes 1, 2, 3, 4, and a smaller rock is worth at least as much as a
larger one. -/
theorem hurt_asteroid_score (r : Nat → Nat) (j : Nat) (xm ym : Int) (exp_size : Nat) (s : Game)
    (hS : 1 ≤ (s.asteroids j).size) :
    (Fair r → ∃ fuel t, hurt_asteroid r fuel j xm ym exp_size s = some t) ∧
    (∀ fuel t, hurt_asteroid r fuel j xm ym exp_size s = some t →
      t.score = (s.score + (Int.tdiv 100 ((s.asteroids j).size + 1)).toNat) % SIZE_T_MOD ∧
      (s.score + (Int.tdiv 100 ((s.asteroids j).size + 1)).toNat < SIZE_T_MOD →
        (t.score : Int) = s.score + Int.tdiv 100 ((s.asteroids j).size + 1))) ∧
    (Int.tdiv 100 (1 + 1) = 50 ∧ Int.tdiv 100 (2 + 1) = 33 ∧
      Int.tdiv 100 (3 + 1) = 25 ∧ Int.tdiv 100 (4 + 1) = 20) ∧
    (∀ S1 S2 : Int, 1 ≤ S1 → S1 < S2 → Int.tdiv 100 (S2 + 1) ≤ Int.tdiv 100 (S1 + 1)) := by
  refine ⟨fun hr => hurt_asteroid_terminates hr j xm ym exp_size s, ?_, by decide, ?_⟩
  · intro fuel t h
    obtain ⟨a, b, c, l, e⟩ := hurt_asteroid_frame h
    obtain ⟨h0, h50⟩ := tdiv_100_bounds hS
    have hsz : to_size_t (Int.tdiv 100 ((s.asteroids j).size + 1))
        = (Int.tdiv 100 ((s.asteroids j).size + 1)).toNat :=
      to_size_t_of_nonneg h0 (by unfold SIZE_T_MOD; omega)
    have hsc : t.score = (s.score + (Int.tdiv 100 ((s.asteroids j).size + 1)).toNat) % SIZE_T_MOD := by
      rw [e]
      show (add_score _ s).score = _
      rw [add_score_score, hsz]
    refine ⟨hsc, fun hfit => ?_⟩
    rw [hsc, Nat.mod_eq_of_lt hfit]
    push_cast
    rw [Int.toNat_of_nonneg h0]
  · intro S1 S2 h1 h12
    rw [Int.tdiv_eq_ediv (by decide) (by omega), Int.tdiv_eq_ediv (by decide) (by omega)]
    apply Int.le_ediv_of_mul_le (by omega)
    have h0 : 0 ≤ 100 / (S2 + 1) := Int.ediv_nonneg (by decide) (by omega)
    have h2 : 100 / (S2 + 1) * (S2 + 1) ≤ 100 := Int.ediv_mul_le _ (by omega)
    nlinarith

theorem hurt_asteroid_score_witness :
    1 ≤ ((one_rock 3).asteroids 0).size ∧
    hurt_asteroid zero_stream 1 0 0 0 9 (one_rock 3) = some one_rock_3_hit ∧
    one_rock_3_hit.score = 25 := by
  have h := ((hurt_asteroid_score zero_stream 0 0 0 9 (one_rock 3) (by decide)).2.1
    1 one_rock_3_hit rfl).1
  refine ⟨by decide, rfl, ?_⟩
  rw [h]
  decide

/-! ### C3 -/

/-- C3, bullet against asteroid.  When the loop "Move bullets" reaches bullet
`i`, let the bullet, after its countdown and its move-and-wrap, have `timer > 0`
and let `j` be the lowest slot of a live asteroid with
`|bullet.x - a.x| ≤ 10 * a.size + 5` and `|bullet.y - a.y| ≤ 10 * a.size + 5`.
Then the body of the loop is exactly one call of `hurt_asteroid`, on slot `j`,
with the bullet's velocity and explosion size `3 * a.size`, made after the
bullet's timer was set to 0.  It returns on a fair stream, and whenever it
returns the bullet's timer is 0 and asteroid `j` is dead; a rock of size 3 with
two free slots leaves two new live rocks of size 2 and the score raised by 25
(`size_t` addition). -/
theorem move_bullet_collision (r : Nat → Nat) (i j : Nat) (s : Game)
    (htimer : 0 < (bullet_moved (s.bullets i)).timer)
    (hlive : (s.asteroids j).alive ≠ 0)
    (hx : |(bullet_moved (s.bullets i)).x - (s.asteroids j).x| ≤ 10 * (s.asteroids j).size + 5)
    (hy : |(bullet_moved (s.bullets i)).y - (s.asteroids j).y| ≤ 10 * (s.asteroids j).size + 5)
    (hj : j < kNumAsteroids)
    (hlow : ∀ k, k < j → ¬ ((s.asteroids k).alive ≠ 0 ∧
      |(bullet_moved (s.bullets i)).x - (s.asteroids k).x| ≤ 10 * (s.asteroids k).size + 5 ∧
      |(bullet_moved (s.bullets i)).y - (s.asteroids k).y| ≤ 10 * (s.asteroids k).size + 5)) :
    (∀ fuel, move_bullet r fuel i s =
      hurt_asteroid r fuel j (s.bullets i).xm (s.bullets i).ym (to_size_t (3 * (s.asteroids j).size))
        { s with bullets := Function.update s.bullets i { bullet_moved (s.bullets i) with timer := 0 } }) ∧
    ((s.asteroids j).size < 2 ^ 31 →
      to_size_t (3 * (s.asteroids j).size) = (3 * (s.asteroids j).size).toNat) ∧
    (Fair r → ∃ fuel t, move_bullet r fuel i s = some t) ∧
    (∀ fuel t, move_bullet r fuel i s = some t →
      t.bullets i = { bullet_moved (s.bullets i) with timer := 0 } ∧
      (t.asteroids j).alive = 0 ∧
      ((s.asteroids j).size = 3 →
        (∃ p q, p < q ∧ q < kNumAsteroids ∧ (s.asteroids p).alive = 0 ∧ (s.asteroids q).alive = 0) →
        t.score = (s.score + 25) % SIZE_T_MOD ∧
        ∃ f1 f2, f1 < f2 ∧ f2 < kNumAsteroids ∧
          (s.asteroids f1).alive = 0 ∧ (s.asteroids f2).alive = 0 ∧
          (t.asteroids f1).alive ≠ 0 ∧ (t.asteroids f1).size = 2 ∧
          (t.asteroids f2).alive ≠ 0 ∧ (t.asteroids f2).size = 2)) := by
  have hsize : 0 ≤ (s.asteroids j).size := by
    have := abs_nonneg ((bullet_moved (s.bullets i)).x - (s.asteroids j).x)
    omega
  -- the body as one `hurt_asteroid` call
  have hbody : ∀ fuel, move_bullet r fuel i s =
      hurt_asteroid r fuel j (s.bullets i).xm (s.bullets i).ym (to_size_t (3 * (s.asteroids j).size))
        { s with bullets := Function.update s.bullets i { bullet_moved (s.bullets i) with timer := 0 } } := by
    intro fuel
    have ht0 : (s.bullets i).timer ≥ 0 := by
      have : (bullet_moved (s.bullets i)).timer = (s.bullets i).timer - 1 := rfl
      omega
    unfold move_bullet
    rw [if_pos ht0]
    have hscan := bullet_scan_first r fuel (i := i) (j := j)
      (s := { s with bullets := Function.update s.bullets i (bullet_moved (s.bullets i)) })
      (by simpa only [Function.update_same] using htimer) hlive
      ((bullet_hits_iff _ i j).mpr (by simpa only [Function.update_same] using ⟨hx, hy⟩))
      (fun k hk hc => hlow k hk ⟨hc.1, by
        simpa only [Function.update_same] using (bullet_hits_iff _ i k).mp hc.2⟩)
      kNumAsteroids 0 (Nat.zero_le _) (by omega)
    rw [hscan]
    simp only [Function.update_same, Function.update_idem, mul_comm]
    rfl
  refine ⟨hbody, ?_, ?_, ?_⟩
  · intro h31
    exact to_size_t_of_nonneg (by omega) (by unfold SIZE_T_MOD; omega)
  · intro hr
    obtain ⟨fuel, t, h⟩ := hurt_asteroid_terminates hr j (s.bullets i).xm (s.bullets i).ym
      (to_size_t (3 * (s.asteroids j).size))
      { s with bullets := Function.update s.bullets i { bullet_moved (s.bullets i) with timer := 0 } }
    exact ⟨fuel, t, by rw [hbody, h]⟩
  · intro fuel t h
    rw [hbody] at h
    refine ⟨?_, ?_, ?_⟩
    · rw [hurt_asteroid_bullets h]
      simp only [Function.update_same]
    · obtain ⟨s2, _, e⟩ := hurt_asteroid_asteroids h
      rw [e, Function.update_same]
    · intro h3 hfree
      constructor
      · obtain ⟨a, b, c, l, e⟩ := hurt_asteroid_frame h
        rw [e]
        show (add_score _ _).score = _
        rw [add_score_score]
        show (s.score + to_size_t (Int.tdiv 100 ((s.asteroids j).size + 1))) % SIZE_T_MOD = _
        rw [h3]
        rfl
      · obtain ⟨f1, f2, a1, a2, h12, hf2, hf1j, hf2j, hf1, hf2z, ea, ha1, hs1, ha2, hs2⟩ :=
          hurt_asteroid_big (s := { s with bullets := Function.update s.bullets i { bullet_moved (s.bullets i) with timer := 0 } })
            hlive (by show 1 < (s.asteroids j).size; omega) hfree h
        have h21 : f2 ≠ f1 := by omega
        have e1 : t.asteroids f1 = a1 := by
          rw [ea, Function.update_noteq hf1j, Function.update_noteq (Ne.symm h21),
            Function.update_same]
        have e2 : t.asteroids f2 = a2 := by
          rw [ea, Function.update_noteq hf2j, Function.update_same]
        have hs1b : a1.size = (s.asteroids j).size - 1 := hs1
        have hs2b : a2.size = (s.asteroids j).size - 1 := hs2
        refine ⟨f1, f2, h12, hf2, hf1, hf2z, ?_, ?_, ?_, ?_⟩
        · rw [e1, ha1]; decide
        · rw [e1, hs1b, h3]; rfl
        · rw [e2, ha2]; decide
        · rw [e2, hs2b, h3]; rfl

theorem move_bullet_collision_witness :
    move_bullet zero_stream 0 0 shot_game = some shot_game_after ∧
    shot_game_after.bullets 0 = { timer := 0, x := 95, y := 100, xm := 5, ym := 0 } ∧
    (shot_game_after.asteroids 0).alive = 0 ∧
    shot_game_after.score = 25 := by
  have h := (move_bullet_collision zero_stream 0 0 shot_game (by decide) (by decide) (by decide)
    (by decide) (by decide) (fun k hk => absurd hk (Nat.not_lt_zero k))).2.2.2
    0 shot_game_after rfl
  have hs := (h.2.2 rfl ⟨1, 2, by decide, by decide, rfl, rfl⟩).1
  refine ⟨rfl, ?_, h.2.1, ?_⟩
  · rw [h.1]
    decide
  · rw [hs]
    decide

/-! ### C4 -/

/-- C4, asteroid against ship.  Let asteroid `i` be alive and, after its
move-and-wrap, have its centre within 20 pixels of `(player_x >> 4, player_y >> 4)`
on both axes.
(1) If the ship is alive when the loop "Move asteroids" reaches `i`, the body of
the loop is `hurt_asteroid` on slot `i` with velocity
`(player_xm >> 4, player_ym >> 4)` and explosion size 50, followed by the death
of the ship; the rest of the loop returns on a fair stream, and when it has
returned the ship is dead, lives has gone down by exactly 1 if the award crossed
no multiple of 10000 (`size_t` subtraction: `lives - 1` from a positive
`lives`), and `player_die_timer` is 100 if lives is now 0 and 30 otherwise.
(2) If the ship is dead, the body only moves the asteroid.
(3) The same outcome holds for the whole loop when `i` is the first live
asteroid within reach of a live ship. -/
theorem move_asteroids_ship_collision (r : Nat → Nat) (i : Nat) (s : Game)
    (hi : i < kNumAsteroids) (hlive : (s.asteroids i).alive ≠ 0)
    (hx : |(asteroid_moved s.counter (s.asteroids i)).x - sar s.player_x 4| ≤ 20)
    (hy : |(asteroid_moved s.counter (s.asteroids i)).y - sar s.player_y 4| ≤ 20) :
    (s.player_alive ≠ 0 →
      (∀ fuel, move_asteroid r fuel i s = Option.map ship_dies
        (hurt_asteroid r fuel i (sar s.player_xm 4) (sar s.player_ym 4) 50
          { s with
            num_asteroids_alive := s.num_asteroids_alive + 1,
            asteroids := Function.update s.asteroids i (asteroid_moved s.counter (s.asteroids i)) })) ∧
      (Fair r → ∃ fuel t, move_asteroids_from r fuel (kNumAsteroids - i) i s = some t) ∧
      (∀ fuel t, move_asteroids_from r fuel (kNumAsteroids - i) i s = some t →
        t.player_alive = 0 ∧
        (¬ s.score / kOneUpScore < ((s.score + to_size_t (Int.tdiv 100 ((s.asteroids i).size + 1)))
            % SIZE_T_MOD) / kOneUpScore →
          t.lives = (s.lives + (SIZE_T_MOD - 1)) % SIZE_T_MOD ∧
          (0 < s.lives → s.lives < SIZE_T_MOD → t.lives + 1 = s.lives)) ∧
        t.player_die_timer = (if t.lives = 0 then 100 else 30))) ∧
    (s.player_alive = 0 →
      ∀ fuel, move_asteroid r fuel i s = some
        { s with
          num_asteroids_alive := s.num_asteroids_alive + 1,
          asteroids := Function.update s.asteroids i (asteroid_moved s.counter (s.asteroids i)) }) ∧
    (s.player_alive ≠ 0 →
      (∀ k, k < i → (s.asteroids k).alive ≠ 0 →
        ¬ (|(asteroid_moved s.counter (s.asteroids k)).x - sar s.player_x 4| ≤ 20 ∧
           |(asteroid_moved s.counter (s.asteroids k)).y - sar s.player_y 4| ≤ 20)) →
      (Fair r → ∃ fuel t, move_asteroids r fuel s = some t) ∧
      (∀ fuel t, move_asteroids r fuel s = some t →
        t.player_alive = 0 ∧
        (¬ s.score / kOneUpScore < ((s.score + to_size_t (Int.tdiv 100 ((s.asteroids i).size + 1)))
            % SIZE_T_MOD) / kOneUpScore →
          t.lives = (s.lives + (SIZE_T_MOD - 1)) % SIZE_T_MOD ∧
          (0 < s.lives → s.lives < SIZE_T_MOD → t.lives + 1 = s.lives)) ∧
        t.player_die_timer = (if t.lives = 0 then 100 else 30))) := by
  obtain ⟨n, hn⟩ : ∃ n, kNumAsteroids - i = n + 1 := ⟨kNumAsteroids - i - 1, by omega⟩
  refine ⟨fun halive => ?_, fun hdead fuel => ?_, fun halive hfirst => ?_⟩
  · have hhit : ship_hit { s with
        num_asteroids_alive := s.num_asteroids_alive + 1,
        asteroids := Function.update s.asteroids i (asteroid_moved s.counter (s.asteroids i)) } i
        = true :=
      (ship_hit_iff _ i).mpr ⟨by simpa only [Function.update_same] using hx,
        by simpa only [Function.update_same] using hy, halive⟩
    refine ⟨fun fuel => move_asteroid_hit hlive hhit, fun hr => ?_, fun fuel t h => ?_⟩
    · rw [hn]
      exact move_asteroids_from_collision_terminates hr n hlive hhit
    · rw [hn] at h
      obtain ⟨h1, h2, h3⟩ := move_asteroids_from_collision hlive hhit h
      exact ⟨h1, fun hc => lives_after_hit h2 hc, h3⟩
  · unfold move_asteroid
    rw [if_pos (by simp [truthy, hlive])]
    dsimp only
    have hm : ship_hit { s with
        num_asteroids_alive := s.num_asteroids_alive + 1,
        asteroids := Function.update s.asteroids i (asteroid_moved s.counter (s.asteroids i)) } i
        = false := by
      simp [ship_hit, truthy, hdead]
    rw [hm]
    rfl
  · -- the stretch before `i` only moves asteroids
    obtain ⟨a, cnt, e, hf⟩ := move_asteroids_from_miss (r := r) i 0
      (s := { s with num_asteroids_alive := 0 })
      (fun k _ hk hl => hfirst k (by omega) hl)
    have hai : a i = s.asteroids i := hf i (by omega)
    have hlive2 : (a i).alive ≠ 0 := by rw [hai]; exact hlive
    have hhit : ship_hit { s with
        num_asteroids_alive := cnt + 1,
        asteroids := Function.update a i (asteroid_moved s.counter (a i)) } i = true :=
      (ship_hit_iff _ i).mpr ⟨by simpa only [Function.update_same, hai] using hx,
        by simpa only [Function.update_same, hai] using hy, halive⟩
    have hsplit : ∀ fuel, move_asteroids r fuel s = move_asteroids_from r fuel (n + 1) i
        { s with asteroids := a, num_asteroids_alive := cnt } := by
      intro fuel
      unfold move_asteroids
      have e20 : kNumAsteroids = i + (n + 1) := by omega
      rw [e20, move_asteroids_from_add, e fuel]
      simp only [Option.some_bind, Nat.zero_add]
    refine ⟨fun hr => ?_, fun fuel t h => ?_⟩
    · obtain ⟨fuel, t, h⟩ := move_asteroids_from_collision_terminates hr n
        (s := { s with asteroids := a, num_asteroids_alive := cnt }) hlive2 hhit
      exact ⟨fuel, t, by rw [hsplit, h]⟩
    · rw [hsplit] at h
      obtain ⟨h1, h2, h3⟩ := move_asteroids_from_collision
        (s := { s with asteroids := a, num_asteroids_alive := cnt }) hlive2 hhit h
      have h2b : t.lives = ((add_score (Int.tdiv 100 ((s.asteroids i).size + 1)) s).lives
          + (SIZE_T_MOD - 1)) % SIZE_T_MOD := by
        rw [h2, add_score_lives, add_score_lives]
        dsimp only
        rw [hai]
      exact ⟨h1, fun hc => lives_after_hit h2b hc, h3⟩

set_option maxRecDepth 8000 in
theorem move_asteroids_ship_collision_witness :
    move_asteroids zero_stream 1 crash_game = some crash_game_after ∧
    crash_game_after.player_alive = 0 ∧
    crash_game_after.lives = 2 ∧
    crash_game_after.player_die_timer = 30 := by
  have h := ((move_asteroids_ship_collision zero_stream 0 crash_game (by decide) (by decide)
    (by decide) (by decide)).2.2 (by decide) (fun k hk => absurd hk (Nat.not_lt_zero k))).2
    1 crash_game_after rfl
  have hl : crash_game_after.lives + 1 = crash_game.lives := (h.2.1 (by decide)).2 (by decide) (by decide)
  have hl2 : crash_game_after.lives = 2 := by
    have e : crash_game.lives = 3 := rfl
    omega
  refine ⟨rfl, h.1, hl2, ?_⟩
  rw [h.2.2, hl2]
  rfl

/-! ### C5 -/

/-- C5, the respawn rule.  Let the ship be dead with a death timer that reaches
`≤ 0` when decremented, and `lives > 0`.  After the death-handling phase the
ship is alive if and only if the respawn-hold flag is set or no live asteroid
among the 20 slots has its centre in `144 ≤ x ≤ 336`, `144 ≤ y ≤ 336`.  In both
outcomes lives is unchanged, and when the ship is alive it is at (3840, 3840)
with velocity 0 and angle 90. -/
theorem handle_death_respawn (s : Game) (hdead : s.player_alive = 0)
    (ht : s.player_die_timer - 1 ≤ 0) (hl : 0 < s.lives) :
    ((handle_death s).player_alive ≠ 0 ↔
      (s.shift_pressed = true ∨
        ¬ ∃ i, i < kNumAsteroids ∧ (s.asteroids i).alive ≠ 0 ∧
          144 ≤ (s.asteroids i).x ∧ (s.asteroids i).x ≤ 336 ∧
          144 ≤ (s.asteroids i).y ∧ (s.asteroids i).y ≤ 336)) ∧
    (handle_death s).lives = s.lives ∧
    ((handle_death s).player_alive ≠ 0 →
      (handle_death s).player_x = 3840 ∧ (handle_death s).player_y = 3840 ∧
      (handle_death s).player_xm = 0 ∧ (handle_death s).player_ym = 0 ∧
      (handle_death s).player_angle = 90) := by
  obtain ⟨hlive, hrest⟩ := handle_death_respawn_cases hdead ht hl
  have hclose := respawn_reset_too_close s
  have halive : (respawn_reset s).player_alive ≠ 0 := respawn_reset_alive s
  have hpos : (respawn_reset s).player_x = 3840 ∧ (respawn_reset s).player_y = 3840 ∧
      (respawn_reset s).player_xm = 0 ∧ (respawn_reset s).player_ym = 0 ∧
      (respawn_reset s).player_angle = 90 :=
    ⟨show Int.tdiv kScreenWidth 2 * 2 ^ 4 = 3840 by decide,
      show Int.tdiv kScreenHeight 2 * 2 ^ 4 = 3840 by decide, rfl, rfl, rfl⟩
  by_cases hok : s.shift_pressed = true ∨
        ¬ ∃ i, i < kNumAsteroids ∧ (s.asteroids i).alive ≠ 0 ∧
          144 ≤ (s.asteroids i).x ∧ (s.asteroids i).x ≤ 336 ∧
          144 ≤ (s.asteroids i).y ∧ (s.asteroids i).y ≤ 336
  · have e := hlive hok
    rw [e]
    exact ⟨⟨fun _ => hok, fun _ => halive⟩, rfl, fun _ => hpos⟩
  · have e := hrest hok
    rw [e]
    exact ⟨⟨fun h => absurd rfl h, fun h => absurd h hok⟩, rfl, fun h => absurd rfl h⟩

theorem handle_death_respawn_witness :
    (handle_death (dead_ship_game 2 false 10 10)).player_alive = 1 ∧
    (handle_death (dead_ship_game 2 false 10 10)).player_x = 3840 ∧
    (handle_death (dead_ship_game 2 false 200 300)).player_alive = 0 ∧
    (handle_death (dead_ship_game 2 true 200 300)).player_alive = 1 ∧
    (handle_death (dead_ship_game 2 false 200 300)).lives = 2 := by
  have h := handle_death_respawn (dead_ship_game 2 false 200 300) (by decide) (by decide) (by decide)
  exact ⟨by decide, by decide, by decide, by decide, h.2.1⟩

/-! ### C6 -/

/-- C6, round over.  The death-handling phase sets `done` exactly when the ship
is dead, its decremented death timer is `≤ 0` and `lives = 0`; then
`game_pending` is cleared and the ship stays dead.  In every other case `done`
and `game_pending` are left as they were. -/
theorem handle_death_round_over (s : Game) :
    ((s.player_alive = 0 ∧ s.player_die_timer - 1 ≤ 0 ∧ s.lives = 0) →
      (handle_death s).done = true ∧ (handle_death s).game_pending = false ∧
      (handle_death s).player_alive = 0) ∧
    (¬ (s.player_alive = 0 ∧ s.player_die_timer - 1 ≤ 0 ∧ s.lives = 0) →
      (handle_death s).done = s.done ∧ (handle_death s).game_pending = s.game_pending) := by
  constructor
  · rintro ⟨hdead, ht, hl⟩
    have e : handle_death s =
        { s with player_die_timer := s.player_die_timer - 1, done := true, game_pending := false } := by
      unfold handle_death
      rw [if_pos hdead]
      dsimp only
      rw [if_pos ht, if_neg (by omega)]
    rw [e]
    exact ⟨rfl, rfl, hdead⟩
  · intro hn
    by_cases hdead : s.player_alive = 0
    · by_cases ht : s.player_die_timer - 1 ≤ 0
      · have hl : 0 < s.lives := by
          rcases Nat.eq_zero_or_pos s.lives with h | h
          · exact absurd ⟨hdead, ht, h⟩ hn
          · exact h
        obtain ⟨hlive, hrest⟩ := handle_death_respawn_cases hdead ht hl
        by_cases hok : s.shift_pressed = true ∨
            ¬ ∃ i, i < kNumAsteroids ∧ (s.asteroids i).alive ≠ 0 ∧
              144 ≤ (s.asteroids i).x ∧ (s.asteroids i).x ≤ 336 ∧
              144 ≤ (s.asteroids i).y ∧ (s.asteroids i).y ≤ 336
        · rw [hlive hok]
          exact ⟨rfl, rfl⟩
        · rw [hrest hok]
          exact ⟨rfl, rfl⟩
      · have e : handle_death s = { s with player_die_timer := s.player_die_timer - 1 } := by
          unfold handle_death
          rw [if_pos hdead]
          dsimp only
          rw [if_neg ht]
        rw [e]
        exact ⟨rfl, rfl⟩
    · have e : handle_death s = s := by
        unfold handle_death
        rw [if_neg hdead]
      rw [e]
      exact ⟨rfl, rfl⟩

theorem handle_death_round_over_witness :
    (handle_death (dead_ship_game 0 false 10 10)).done = true ∧
    (handle_death (dead_ship_game 0 false 10 10)).game_pending = false ∧
    (handle_death (dead_ship_game 0 false 10 10)).player_alive = 0 ∧
    (handle_death (dead_ship_game 2 false 10 10)).done = false ∧
    (handle_death (dead_ship_game 2 false 10 10)).game_pending = true := by
  have h1 := (handle_death_round_over (dead_ship_game 0 false 10 10)).1
    ⟨by decide, by decide, by decide⟩
  have h2 := (handle_death_round_over (dead_ship_game 2 false 10 10)).2 (by decide)
  exact ⟨h1.1, h1.2.1, h1.2.2, h2.1, h2.2⟩

/-! ### C7 -/

/-- C7, counterexample.  An award of 20000 at score 0 crosses two multiples of
10000, and `add_score` grants one life, not two.  (The `size_t` arithmetic also
shows: at the largest score an award of 10000 wraps the sum and grants nothing,
and at the largest lives count the extra life wraps lives to 0.) -/
theorem add_score_extra_life_counterexample :
    ((add_score 20000 empty_game).lives = empty_game.lives + 1 ∧
      (empty_game.score + 20000) / kOneUpScore - empty_game.score / kOneUpScore = 2 ∧
      ¬ ((add_score 20000 empty_game).lives
          = empty_game.lives
            + ((empty_game.score + 20000) / kOneUpScore - empty_game.score / kOneUpScore))) ∧
    ((add_score 10000 max_score_game).lives = max_score_game.lives ∧
      (max_score_game.score + 10000) / kOneUpScore - max_score_game.score / kOneUpScore = 1) ∧
    ((add_score 100 max_lives_game).lives = 0 ∧
      (max_lives_game.score + 100) / kOneUpScore - max_lives_game.score / kOneUpScore = 1) := by
  decide

/-- C7, amended.  For every score and every amount `≥ 0` (with `score + amount`
and `lives + 1` below `2 ^ 64`), `add_score` grants one extra life when the award
crosses at least one multiple of 10000 and none otherwise: lives grows by
`min 1 ((score + amount) / 10000 - score / 10000)`.  For an amount of at most
10000 that is `(score + amount) / 10000 - score / 10000`; score 9950 and amount
100 give one life. -/
theorem add_score_extra_life (s : Game) (amount : Int) (h0 : 0 ≤ amount)
    (hfit : s.score + amount.toNat < SIZE_T_MOD) (hl : s.lives + 1 < SIZE_T_MOD) :
    (add_score amount s).lives
      = s.lives + min 1 ((s.score + amount.toNat) / kOneUpScore - s.score / kOneUpScore) ∧
    (amount ≤ 10000 → (add_score amount s).lives
      = s.lives + ((s.score + amount.toNat) / kOneUpScore - s.score / kOneUpScore)) ∧
    (s.score = 9950 → amount = 100 → (add_score amount s).lives = s.lives + 1) := by
  have hsz : to_size_t amount = amount.toNat :=
    to_size_t_of_nonneg h0 (by unfold SIZE_T_MOD at hfit ⊢; omega)
  have key : (add_score amount s).lives
      = s.lives + min 1 ((s.score + amount.toNat) / kOneUpScore - s.score / kOneUpScore) := by
    by_cases hc : s.score / kOneUpScore < (s.score + amount.toNat) / kOneUpScore
    · have hc2 : s.score / kOneUpScore
          < ((s.score + to_size_t amount) % SIZE_T_MOD) / kOneUpScore := by
        rw [hsz, Nat.mod_eq_of_lt hfit]
        exact hc
      rw [(add_score_cross hc2).1, Nat.mod_eq_of_lt hl]
      omega
    · have hc2 : ¬ s.score / kOneUpScore
          < ((s.score + to_size_t amount) % SIZE_T_MOD) / kOneUpScore := by
        rw [hsz, Nat.mod_eq_of_lt hfit]
        exact hc
      rw [(add_score_no_cross hc2).1]
      omega
  refine ⟨key, ?_, ?_⟩
  · intro hle
    rw [key]
    unfold kOneUpScore
    omega
  · intro h1 h2
    rw [key, h1, h2]
    have e : min 1 ((9950 + (100 : Int).toNat) / kOneUpScore - 9950 / kOneUpScore) = 1 := by decide
    rw [e]

theorem add_score_extra_life_witness :
    (0 : Int) ≤ 100 ∧ ({ empty_game with score := 9950 } : Game).score + (100 : Int).toNat < SIZE_T_MOD ∧
    (add_score 100 { empty_game with score := 9950 }).lives = 3 + 1 := by
  refine ⟨by decide, by decide, ?_⟩
  exact (add_score_extra_life { empty_game with score := 9950 } 100 (by decide) (by decide)
    (by decide)).2.2 rfl rfl

/-! ### C8 -/

/-- C8, counterexample.  At the largest `size_t` score an award of 1 wraps the
score around to 0, below the prior score. -/
theorem add_score_monotone_counterexample :
    max_score_game.score = 18446744073709551615 ∧
    (add_score 1 max_score_game).score = 0 ∧
    ¬ (max_score_game.score ≤ (add_score 1 max_score_game).score) := by
  decide

/-- C8, amended.  For every prior score and every amount `≥ 0` whose sum is below
`2 ^ 64`, the score after `add_score` is `score + amount` and is at least the
prior score; when no multiple of 10000 is crossed, lives, `zoom_str` and
`text_zoom` are unchanged, and when one is crossed `zoom_str` is "EXTRA LIFE"
and `text_zoom` is 40. -/
theorem add_score_monotone (s : Game) (amount : Int) (h0 : 0 ≤ amount)
    (hfit : s.score + amount.toNat < SIZE_T_MOD) :
    (add_score amount s).score = s.score + amount.toNat ∧
    s.score ≤ (add_score amount s).score ∧
    ((s.score + amount.toNat) / kOneUpScore = s.score / kOneUpScore →
      (add_score amount s).lives = s.lives ∧
      (add_score amount s).zoom_str = s.zoom_str ∧
      (add_score amount s).text_zoom = s.text_zoom) ∧
    (s.score / kOneUpScore < (s.score + amount.toNat) / kOneUpScore →
      (add_score amount s).zoom_str = "EXTRA LIFE" ∧
      (add_score amount s).text_zoom = 40) := by
  have hsz : to_size_t amount = amount.toNat :=
    to_size_t_of_nonneg h0 (by unfold SIZE_T_MOD at hfit ⊢; omega)
  have hsc : (add_score amount s).score = s.score + amount.toNat := by
    rw [add_score_score, hsz, Nat.mod_eq_of_lt hfit]
  refine ⟨hsc, by omega, ?_, ?_⟩
  · intro he
    apply add_score_no_cross
    rw [hsz, Nat.mod_eq_of_lt hfit]
    omega
  · intro hc
    have hc2 : s.score / kOneUpScore
        < ((s.score + to_size_t amount) % SIZE_T_MOD) / kOneUpScore := by
      rw [hsz, Nat.mod_eq_of_lt hfit]
      exact hc
    exact ⟨(add_score_cross hc2).2.1, (add_score_cross hc2).2.2⟩

theorem add_score_monotone_witness :
    (0 : Int) ≤ 100 ∧ ({ empty_game with score := 9950 } : Game).score + (100 : Int).toNat < SIZE_T_MOD ∧
    (add_score 100 { empty_game with score := 9950 }).score = 10050 ∧
    (add_score 100 { empty_game with score := 9950 }).zoom_str = "EXTRA LIFE" ∧
    (add_score 100 { empty_game with score := 9950 }).text_zoom = 40 := by
  have h := add_score_monotone { empty_game with score := 9950 } 100 (by decide) (by decide)
  exact ⟨by decide, by decide, h.1, h.2.2.2 (by decide)⟩

/-! ### C9 -/

/-- C9, pool capacity safety.  With every bullet slot occupied `add_bullet`
leaves the bullet pool unchanged; with every asteroid slot alive `add_asteroid`
returns on a fair stream and, whenever it returns, leaves the asteroid pool
unchanged; with every bit slot occupied `add_bit` leaves the bit pool unchanged;
each for all arguments. -/
theorem pool_capacity_safety (s : Game) :
    ((∀ i, i < kNumBullets → 0 < (s.bullets i).timer) →
      ∀ x y a xm ym : Int, (add_bullet x y a xm ym s).bullets = s.bullets) ∧
    ((∀ i, i < kNumAsteroids → (s.asteroids i).alive ≠ 0) →
      ∀ (r : Nat → Nat) (x y xm ym size : Int),
        (Fair r → ∃ fuel t, add_asteroid r fuel x y xm ym size s = some t) ∧
        ∀ fuel t, add_asteroid r fuel x y xm ym size s = some t → t.asteroids = s.asteroids) ∧
    ((∀ i, i < kNumBits → 0 < (s.bits i).timer) →
      ∀ x y xm ym : Int, (add_bit x y xm ym s).bits = s.bits) := by
  refine ⟨?_, ?_, ?_⟩
  · intro hfull x y a xm ym
    have hn : first_free (fun i => decide ((s.bullets i).timer ≤ 0)) 0 kNumBullets = none := by
      rw [first_free_none]
      intro i _ hi
      have := hfull i (by omega)
      simp only [decide_eq_false_iff_not]
      omega
    unfold add_bullet
    rw [hn]
  · intro hfull r x y xm ym size
    refine ⟨fun hr => add_asteroid_terminates hr x y xm ym size s, ?_⟩
    intro fuel t h
    rcases add_asteroid_some h with ⟨_, c, e⟩ | ⟨f, a, c, hf, _⟩
    · rw [e]
    · obtain ⟨_, hlt, hfree, _⟩ := first_free_some hf
      have := hfull f (by omega)
      simp only [decide_eq_true_eq] at hfree
      exact absurd hfree this
  · intro hfull x y xm ym
    have hn : first_free (fun i => decide ((s.bits i).timer ≤ 0)) 0 kNumBits = none := by
      rw [first_free_none]
      intro i _ hi
      have := hfull i (by omega)
      simp only [decide_eq_false_iff_not]
      omega
    unfold add_bit
    rw [hn]

theorem pool_capacity_safety_witness :
    (add_bullet 1 2 90 3 4 full_game).bullets = full_game.bullets ∧
    (∃ fuel t, add_asteroid zero_stream fuel 1 2 0 4 3 full_game = some t) ∧
    ((add_asteroid zero_stream 1 1 2 0 4 3 full_game).getD empty_game).asteroids = full_game.asteroids ∧
    (add_bit 1 2 3 4 full_game).bits = full_game.bits := by
  have h := pool_capacity_safety full_game
  have hb : ∀ i, i < kNumBullets → 0 < (full_game.bullets i).timer :=
    fun _ _ => show (0 : Int) < 50 by decide
  have ha : ∀ i, i < kNumAsteroids → (full_game.asteroids i).alive ≠ 0 :=
    fun _ _ => show (1 : Int) ≠ 0 by decide
  have hc : ∀ i, i < kNumBits → 0 < (full_game.bits i).timer :=
    fun _ _ => show (0 : Int) < 16 by decide
  have hz : Fair zero_stream := zero_stream_fair
  exact ⟨h.1 hb 1 2 90 3 4, (h.2.1 ha zero_stream 1 2 0 4 3).1 hz,
    (h.2.1 ha zero_stream 1 2 0 4 3).2 1 _ rfl, h.2.2 hc 1 2 3 4⟩

/-! ### C10 -/

/-- C10, counterexample.  At the largest `size_t` level the bound `level + 1` of
the spawning loop wraps to 0: `reset_level` returns with no asteroid alive, where
`min (level + 1) 10` is 10, and the banner reads "LEVEL -1". -/
theorem reset_level_population_counterexample :
    reset_level zero_stream 0 max_level_game = some max_level_reset ∧
    live_count max_level_reset.asteroids kNumAsteroids = 0 ∧
    min (max_level_game.level + 1) 10 = 10 ∧
    max_level_reset.zoom_str = "LEVEL -1" := by
  refine ⟨rfl, ?_, by decide, ?_⟩
  · have h := (reset_level_some (show reset_level zero_stream 0 max_level_game
      = some max_level_reset from rfl)).1
    rw [h]
    decide
  · have h := (reset_level_some (show reset_level zero_stream 0 max_level_game
      = some max_level_reset from rfl)).2.2.2.2.1
    rw [h]
    decide

/-- C10, amended.  For every level below the largest `size_t` value:
`reset_level` returns on every fair stream, and whenever it returns exactly
`min (level + 1) 10` asteroids are alive, every bullet timer and every bit timer
is 0 and `text_zoom` is 40; `zoom_str` is "LEVEL " followed by the level number
for every level that fits the 24 bytes of `zoom_str` (below `10 ^ 17`).  A new
game starts at level 1 with exactly 2 asteroids. -/
theorem reset_level_population (r : Nat → Nat) (s : Game) (hlevel : s.level + 1 < SIZE_T_MOD) :
    (Fair r → ∃ fuel t, reset_level r fuel s = some t) ∧
    (∀ fuel t, reset_level r fuel s = some t →
      live_count t.asteroids kNumAsteroids = min (s.level + 1) 10 ∧
      (∀ i, i < kNumBullets → (t.bullets i).timer = 0) ∧
      (∀ i, i < kNumBits → (t.bits i).timer = 0) ∧
      t.text_zoom = 40 ∧
      (s.level < 10 ^ 17 → t.zoom_str = "LEVEL " ++ toString s.level)) ∧
    (s.game_pending = false →
      (Fair r → ∃ fuel t, game_start r fuel s = some t) ∧
      ∀ fuel t, game_start r fuel s = some t →
        t.level = 1 ∧ live_count t.asteroids kNumAsteroids = 2) := by
  refine ⟨fun hr => reset_level_terminates hr s, ?_, ?_⟩
  · intro fuel t h
    obtain ⟨hc, hb, hbits, hz, hstr, _⟩ := reset_level_some h
    rw [Nat.mod_eq_of_lt hlevel] at hc
    refine ⟨hc, hb, hbits, hz, fun h17 => ?_⟩
    rw [hstr]
    unfold fmt_ld
    rw [if_pos (by omega)]
  · intro hp
    constructor
    · intro hr
      obtain ⟨fuel, t1, h1⟩ := reset_level_terminates hr
        { s with lives := 3, score := 0, player_alive := 1, player_die_timer := 0, player_angle := 90,
                 player_x := Int.tdiv kScreenWidth 2 * 2 ^ 4,
                 player_y := Int.tdiv kScreenHeight 2 * 2 ^ 4,
                 player_xm := 0, player_ym := 0, level := 1 }
      refine ⟨fuel, { t1 with game_pending := true }, ?_⟩
      unfold game_start
      rw [if_pos (by simp [hp]), h1]
    · intro fuel t h
      obtain ⟨t1, h1, e⟩ := game_start_new hp h
      obtain ⟨hc, _, _, _, _, hl, _⟩ := reset_level_some h1
      rw [e]
      exact ⟨hl, hc⟩

theorem reset_level_population_witness :
    empty_game.level + 1 < SIZE_T_MOD ∧
    (∃ fuel t, reset_level zero_stream fuel empty_game = some t) ∧
    reset_level zero_stream 1 empty_game
      = some ((reset_level zero_stream 1 empty_game).getD empty_game) ∧
    live_count ((reset_level zero_stream 1 empty_game).getD empty_game).asteroids kNumAsteroids = 2 ∧
    ((reset_level zero_stream 1 empty_game).getD empty_game).zoom_str = "LEVEL 1" ∧
    live_count ((game_start zero_stream 1 title_game).getD empty_game).asteroids kNumAsteroids = 2 := by
  have h := reset_level_population zero_stream empty_game (by decide)
  have h1 := h.2.1 1 _ (show reset_level zero_stream 1 empty_game
    = some ((reset_level zero_stream 1 empty_game).getD empty_game) from rfl)
  have h2 := ((reset_level_population zero_stream title_game (by decide)).2.2 rfl).2 1 _
    (show game_start zero_stream 1 title_game
      = some ((game_start zero_stream 1 title_game).getD empty_game) from rfl)
  refine ⟨by decide, h.1 zero_stream_fair, rfl, ?_, ?_, h2.2⟩
  · rw [h1.1]
    decide
  · rw [h1.2.2.2.2 (by decide)]
    decide

/-! ### C11 -/

/-- C11, the rocks of a new level.  `reset_level` returns on every fair stream,
and whenever it returns every live asteroid among the 20 slots has `x` in
`[0, 40)` or `[440, 480)`, `y` in `[0, 480)`, a non-zero `xm` with `|xm| ≤ 4`
and a size of 2, 3 or 4.  Every record that `add_asteroid` writes has `xm ≠ 0`,
whatever `xm` was passed: it is the `xm` passed, or 1 or -1 when that was 0. -/
theorem reset_level_rock_properties (r : Nat → Nat) (s : Game) :
    (Fair r → ∃ fuel t, reset_level r fuel s = some t) ∧
    (∀ fuel t, reset_level r fuel s = some t →
      ∀ i, i < kNumAsteroids → (t.asteroids i).alive ≠ 0 →
        ((0 ≤ (t.asteroids i).x ∧ (t.asteroids i).x < 40) ∨
          (440 ≤ (t.asteroids i).x ∧ (t.asteroids i).x < 480)) ∧
        (0 ≤ (t.asteroids i).y ∧ (t.asteroids i).y < 480) ∧
        (t.asteroids i).xm ≠ 0 ∧ |(t.asteroids i).xm| ≤ 4 ∧
        ((t.asteroids i).size = 2 ∨ (t.asteroids i).size = 3 ∨ (t.asteroids i).size = 4)) ∧
    (∀ (x y xm ym size : Int) (fuel : Nat) (t : Game),
      add_asteroid r fuel x y xm ym size s = some t →
      ∀ i, t.asteroids i ≠ s.asteroids i →
        (t.asteroids i).xm ≠ 0 ∧ (xm ≠ 0 → (t.asteroids i).xm = xm) ∧
        (t.asteroids i).alive = 1 ∧ (t.asteroids i).x = x ∧ (t.asteroids i).y = y ∧
        (t.asteroids i).size = size) := by
  refine ⟨fun hr => reset_level_terminates hr s, fun fuel t h i hi hl => ?_, ?_⟩
  · exact reset_level_rocks h i hi hl
  · intro x y xm ym size fuel t h i hne
    rcases add_asteroid_written h with e | ⟨f, a, _, e, ha, hx, hy, hsz, _, hnz, _, hxm⟩
    · rw [e] at hne
      exact absurd rfl hne
    · have hif : i = f := by
        by_contra hc
        rw [e, Function.update_noteq hc] at hne
        exact hne rfl
      subst hif
      rw [e, Function.update_same]
      exact ⟨hnz, hxm, ha, hx, hy, hsz⟩

theorem reset_level_rock_properties_witness :
    reset_level zero_stream 1 empty_game = some level_one_game ∧
    (level_one_game.asteroids 0).alive ≠ 0 ∧
    (level_one_game.asteroids 0).x = 0 ∧ (level_one_game.asteroids 0).xm = -4 ∧
    |(level_one_game.asteroids 0).xm| ≤ 4 ∧
    (add_asteroid zero_stream 1 7 8 0 5 3 empty_game).isSome = true ∧
    (((add_asteroid zero_stream 1 7 8 0 5 3 empty_game).getD empty_game).asteroids 0).xm ≠ 0 := by
  have h := (reset_level_rock_properties zero_stream empty_game).2.1 1 level_one_game rfl 0
    (by decide) (by decide)
  have h2 := (reset_level_rock_properties zero_stream empty_game).2.2 7 8 0 5 3 1
    ((add_asteroid zero_stream 1 7 8 0 5 3 empty_game).getD empty_game) rfl 0 (by decide)
  exact ⟨rfl, by decide, by decide, by decide, h.2.2.2.1, rfl, h2.1⟩

/-! ### C12 -/

set_option maxRecDepth 20000 in
/-- C12, counterexample.  A live ship sits on the last rock of the level, a rock
of size 1.  The frame counts the rock as alive when the loop "Move asteroids"
reaches it, the collision with the ship then destroys it without children, and
the frame ends with no live asteroid and with the level counter unchanged. -/
theorem level_advance_counterexample :
    step zero_stream 0 [] last_rock_game = some last_rock_game_after ∧
    live_count last_rock_game.asteroids kNumAsteroids = 1 ∧
    live_count last_rock_game_after.asteroids kNumAsteroids = 0 ∧
    (∀ k, k < kNumAsteroids → (last_rock_game_after.asteroids k).alive = 0) ∧
    last_rock_game_after.level = last_rock_game.level ∧
    last_rock_game_after.num_asteroids_alive = 1 := by
  refine ⟨rfl, by decide, by decide, by decide, by decide, by decide⟩

/-- C12, amended.  The second half of a frame (from the loop "Move asteroids"
on) returns on every fair stream.  It increments the level counter by 1 in
`size_t` arithmetic and runs `reset_level` exactly when no asteroid is alive when
the loop "Move asteroids" starts, that is when none survives the frame's
bullet-asteroid collisions; if some asteroid is alive at that point the level
is kept and `reset_level` is not run, also when the collision with the ship
destroys that asteroid later in the loop.  A whole frame is its first half
followed by this second half. -/
theorem level_advance (r : Nat → Nat) (s : Game) :
    (Fair r → ∃ fuel t, step_tail r fuel s = some t) ∧
    (∀ fuel t, step_tail r fuel s = some t →
      ((∀ k, k < kNumAsteroids → (s.asteroids k).alive = 0) →
        t.level = (s.level + 1) % SIZE_T_MOD ∧
        reset_level r fuel
          { draw_frame (move_bits { s with num_asteroids_alive := 0 }) with
            level := (s.level + 1) % SIZE_T_MOD } = some t ∧
        live_count t.asteroids kNumAsteroids = min ((t.level + 1) % SIZE_T_MOD) 10) ∧
      ((∃ k, k < kNumAsteroids ∧ (s.asteroids k).alive ≠ 0) →
        t.level = s.level ∧
        ∃ s1, move_asteroids r fuel s = some s1 ∧ t = draw_frame (move_bits s1))) ∧
    (∀ fuel events s0 t, step r fuel events s0 = some t →
      ∃ s1, step_head r fuel events s0 = some s1 ∧ step_tail r fuel s1 = some t) := by
  refine ⟨fun hr => step_tail_terminates hr s, fun fuel t h => ⟨fun h0 => ?_, fun hex => ?_⟩, ?_⟩
  · have hreset := step_tail_advance h h0
    have hs := reset_level_some hreset
    have hl : t.level = (s.level + 1) % SIZE_T_MOD := hs.2.2.2.2.2.1
    refine ⟨hl, hreset, ?_⟩
    rw [hl]
    exact hs.1
  · obtain ⟨s1, h1, e, hl⟩ := step_tail_stay h hex
    exact ⟨hl, s1, h1, e⟩
  · intro fuel events s0 t h
    unfold step at h
    split at h
    · cases h
    · rename_i s1 h1
      exact ⟨s1, h1, h⟩

set_option maxRecDepth 20000 in
theorem level_advance_witness :
    step_tail zero_stream 1 empty_game = some empty_game_after ∧
    (∀ k, k < kNumAsteroids → (empty_game.asteroids k).alive = 0) ∧
    empty_game.level = 1 ∧ empty_game_after.level = 2 ∧
    live_count empty_game_after.asteroids kNumAsteroids = 3 ∧
    (∃ k, k < kNumAsteroids ∧ (crash_game.asteroids k).alive ≠ 0) ∧
    ((step_tail zero_stream 1 crash_game).getD empty_game).level = crash_game.level := by
  have h := ((level_advance zero_stream empty_game).2.1 1 empty_game_after rfl).1 (by decide)
  have h2 := ((level_advance zero_stream crash_game).2.1 1
    ((step_tail zero_stream 1 crash_game).getD empty_game) rfl).2 ⟨0, by decide, by decide⟩
  exact ⟨rfl, by decide, rfl, h.1, by decide, ⟨0, by decide, by decide⟩, h2.1⟩

/-! ### C13 -/

/-- C13, counterexample.  From position 100 a velocity of 1000 leaves the
coordinate at 620 after the wrap rule with bound 480, for the rule itself and
for a bullet. -/
theorem wrap_all_inputs_counterexample :
    wrap 480 (100 + 1000) = 620 ∧ ¬ (wrap 480 (100 + 1000) < 480) ∧
    (bullet_moved { timer := 10, x := 100, y := 0, xm := 1000, ym := 0 }).x = 620 := by
  decide

/-- C13, amended.  For a position `0 ≤ x < bound` and a velocity
`-bound ≤ v ≤ bound`, advancing by `v` and applying the wrap rule gives a
coordinate in `0 ≤ x < bound`; in general the wrapped coordinate is in range
exactly when `-bound ≤ x + v < 2 * bound`.  The range is kept by any number of
advance-and-wrap steps with such velocities.  The rule is the one of the ship
(bound 7680), the bullets, the asteroids and the bits (bound 480). -/
theorem wrap_in_range (bound : Int) (hb : 0 < bound) :
    (∀ x v, 0 ≤ x ∧ x < bound → -bound ≤ v ∧ v ≤ bound →
      0 ≤ wrap bound (x + v) ∧ wrap bound (x + v) < bound) ∧
    (∀ x v, (0 ≤ wrap bound (x + v) ∧ wrap bound (x + v) < bound) ↔
      (-bound ≤ x + v ∧ x + v < 2 * bound)) ∧
    (∀ (vs : List Int) (x : Int), 0 ≤ x ∧ x < bound → (∀ v ∈ vs, -bound ≤ v ∧ v ≤ bound) →
      0 ≤ advance bound vs x ∧ advance bound vs x < bound) ∧
    (∀ s : Game, (move_ship s).player_x = wrap 7680 (s.player_x + s.player_xm) ∧
      (move_ship s).player_y = wrap 7680 (s.player_y + s.player_ym)) ∧
    (∀ b : bullet_type, (bullet_moved b).x = wrap 480 (b.x + b.xm) ∧
      (bullet_moved b).y = wrap 480 (b.y + b.ym)) ∧
    (∀ b : bit_type, (bit_moved b).x = wrap 480 (b.x + b.xm) ∧
      (bit_moved b).y = wrap 480 (b.y + b.ym)) ∧
    (∀ (c : Int) (a : asteroid_type), Int.tmod c 4 = 0 →
      (asteroid_moved c a).x = wrap 480 (a.x + a.xm) ∧
      (asteroid_moved c a).y = wrap 480 (a.y + a.ym)) := by
  refine ⟨fun x v hx hv => wrap_step hx hv, fun x v => wrap_range_iff hb (x + v), ?_,
    fun s => ⟨rfl, rfl⟩, fun b => ⟨rfl, rfl⟩, fun b => ⟨rfl, rfl⟩, ?_⟩
  · intro vs
    induction vs with
    | nil => exact fun x hx _ => hx
    | cons v vs ih =>
      intro x hx hv
      exact ih (wrap bound (x + v)) (wrap_step hx (hv v (List.mem_cons_self v vs)))
        (fun w hw => hv w (List.mem_cons_of_mem v hw))
  · intro c a hc
    unfold asteroid_moved
    dsimp only
    rw [if_pos hc]
    exact ⟨rfl, rfl⟩

theorem wrap_in_range_witness :
    (0 : Int) < 480 ∧ wrap 480 (470 + 30) = 20 ∧
    0 ≤ advance 480 [30, -480, 480] 470 ∧ advance 480 [30, -480, 480] 470 < 480 := by
  have h := (wrap_in_range 480 (by decide)).2.2.1 [30, -480, 480] 470 (by decide) (by decide)
  exact ⟨by decide, by decide, h.1, h.2⟩

/-! ### C14 -/

set_option maxRecDepth 20000 in
/-- C14, counterexample.  The ship's velocity has no cap.  A ship at the left
edge with a velocity of 20000 is moved to 20000 and wrapped once, which leaves
it at 12320, outside the field. -/
theorem ship_position_counterexample :
    (0 ≤ fast_ship_game.player_x ∧ fast_ship_game.player_x < 7680) ∧
    (0 ≤ fast_ship_game.player_y ∧ fast_ship_game.player_y < 7680) ∧
    step zero_stream 0 [] fast_ship_game = some fast_ship_game_after ∧
    fast_ship_game_after.player_x = 12320 ∧ ¬ (fast_ship_game_after.player_x < 7680) := by
  refine ⟨by decide, by decide, rfl, by decide, by decide⟩

/-- C14, amended.  For every state whose ship is on the field, heads in
`[0, 360)` and has a velocity of at most 7677 in each direction, every frame,
with any events, returns on every fair stream and leaves the ship on the field:
`0 ≤ player_x < 7680` and `0 ≤ player_y < 7680`.  The heading stays in
`[0, 360)` and a frame adds at most 3 to the size of each velocity component. -/
theorem ship_position_invariant (r : Nat → Nat) (events : List Event) (s : Game)
    (hx : 0 ≤ s.player_x ∧ s.player_x < 7680) (hy : 0 ≤ s.player_y ∧ s.player_y < 7680)
    (hxm : |s.player_xm| ≤ 7677) (hym : |s.player_ym| ≤ 7677)
    (ha : 0 ≤ s.player_angle ∧ s.player_angle < 360) :
    (Fair r → ∃ fuel t, step r fuel events s = some t) ∧
    (∀ fuel t, step r fuel events s = some t →
      (0 ≤ t.player_x ∧ t.player_x < 7680) ∧ (0 ≤ t.player_y ∧ t.player_y < 7680) ∧
      (0 ≤ t.player_angle ∧ t.player_angle < 360) ∧
      |t.player_xm| ≤ |s.player_xm| + 3 ∧ |t.player_ym| ≤ |s.player_ym| + 3) :=
  ⟨fun hr => step_terminates hr events s, fun _ _ h => step_ship h hx hy hxm hym ha⟩

set_option maxRecDepth 20000 in
theorem ship_position_invariant_witness :
    edge_ship_game.player_x = 7679 ∧ edge_ship_game.player_xm = 7677 ∧
    step zero_stream 0 [] edge_ship_game = some edge_ship_game_after ∧
    edge_ship_game_after.player_xm = 7680 ∧ edge_ship_game_after.player_x = 7679 ∧
    (0 ≤ edge_ship_game_after.player_x ∧ edge_ship_game_after.player_x < 7680) := by
  have h := (ship_position_invariant zero_stream [] edge_ship_game (by decide) (by decide)
    (by decide) (by decide) (by decide)).2 0 edge_ship_game_after rfl
  exact ⟨rfl, rfl, rfl, by decide, by decide, h.1⟩

/-! ### C15 -/

set_option maxRecDepth 20000 in
/-- C15, counterexample.  The loop "Move bullets" takes every slot with
`timer >= 0`.  One frame after the start of a new game, with no input, the
timer of the never-fired slot 0 is -1; and a slot whose timer has run out (0)
is moved once more, from 100 to 105, while its timer goes to -1. -/
theorem bullet_timer_counterexample :
    Reachable zero_stream new_game_frame ∧
    (new_game_state.bullets 0).timer = 0 ∧ (new_game_frame.bullets 0).timer = -1 ∧
    ¬ (0 ≤ (new_game_frame.bullets 0).timer) ∧
    (expired_bullet_game.bullets 0).timer = 0 ∧
    (move_bullet zero_stream 0 0 expired_bullet_game).isSome = true ∧
    ((((move_bullet zero_stream 0 0 expired_bullet_game).getD empty_game).bullets 0).timer = -1 ∧
      (((move_bullet zero_stream 0 0 expired_bullet_game).getD empty_game).bullets 0).x = 105) := by
  refine ⟨?_, by decide, by decide, by decide, by decide, rfl, by decide, by decide⟩
  exact Reachable.frame 1 [] new_game_state new_game_frame
    (Reachable.new_game 1 title_game new_game_state rfl rfl) rfl

/-- C15, amended.  In every state reachable from a new game by frames with any
events, every bullet slot has `-1 ≤ timer ≤ 50`.  `add_bullet` only takes a
slot with `timer ≤ 0` and sets its timer to 50; a bullet with `timer ≤ 0`
collides with nothing.  The per-frame update leaves a slot with `timer < 0`
alone; a slot with `timer ≥ 0`, 0 included, is counted down by one and moved,
and a hit sets its timer to 0.  A bullet that overlaps no live asteroid loses
exactly 1 per frame, so a timer of 50 is at 0 after 50 such frames. -/
theorem bullet_timer_invariant (r : Nat → Nat) :
    (∀ s, Reachable r s → ∀ k, k < kNumBullets →
      -1 ≤ (s.bullets k).timer ∧ (s.bullets k).timer ≤ 50) ∧
    (∀ (x y a xm ym : Int) (s : Game) (k : Nat),
      (add_bullet x y a xm ym s).bullets k = s.bullets k ∨
      ((s.bullets k).timer ≤ 0 ∧ ((add_bullet x y a xm ym s).bullets k).timer = 50)) ∧
    (∀ (fuel i n j : Nat) (s : Game), (s.bullets i).timer ≤ 0 →
      bullet_scan r fuel i n j s = some s) ∧
    (∀ (fuel i : Nat) (s t : Game), move_bullet r fuel i s = some t →
      ((s.bullets i).timer < 0 → t = s) ∧
      ((s.bullets i).timer ≥ 0 →
        t.bullets i = bullet_moved (s.bullets i) ∨
        t.bullets i = { bullet_moved (s.bullets i) with timer := 0 })) ∧
    (∀ (fuel i : Nat) (s : Game), (s.bullets i).timer ≥ 0 →
      (∀ j, j < kNumAsteroids → ¬ ((s.asteroids j).alive ≠ 0 ∧
        bullet_hits { s with bullets := Function.update s.bullets i (bullet_moved (s.bullets i)) }
          i j = true)) →
      move_bullet r fuel i s
        = some { s with bullets := Function.update s.bullets i (bullet_moved (s.bullets i)) }) ∧
    (∀ (b : bullet_type) (n : Nat), (bullet_moved^[n] b).timer = b.timer - n) := by
  refine ⟨fun s hs k hk => reachable_bullets hs k hk, ?_, ?_, ?_, ?_, bullet_moved_iterate⟩
  · intro x y a xm ym s k
    obtain ⟨b, c, l, e, hb⟩ := add_bullet_frame x y a xm ym s
    rw [e]
    exact hb k
  · intro fuel i n j s h
    exact bullet_scan_spent (by omega) n j
  · intro fuel i s t h
    obtain ⟨_, _, _, _, h1, h2⟩ := move_bullet_keeps h
    exact ⟨h1, h2⟩
  · intro fuel i s hge hmiss
    unfold move_bullet
    rw [if_pos hge]
    exact bullet_scan_miss kNumAsteroids 0 (fun j _ hj => hmiss j (by omega))

set_option maxRecDepth 20000 in
theorem bullet_timer_invariant_witness :
    Reachable zero_stream fired_game ∧ (fired_game.bullets 0).timer = 49 ∧
    (-1 ≤ (fired_game.bullets 0).timer ∧ (fired_game.bullets 0).timer ≤ 50) ∧
    (bullet_moved^[50] (bullet_type.mk 50 240 240 0 (-5))).timer = 50 - (50 : Nat) := by
  have hr : Reachable zero_stream fired_game :=
    Reachable.frame 1 [Event.key_down Key.space] new_game_state fired_game
      (Reachable.new_game 1 title_game new_game_state rfl rfl) rfl
  have h := bullet_timer_invariant zero_stream
  exact ⟨hr, by decide, h.1 fired_game hr 0 (by decide),
    h.2.2.2.2.2 (bullet_type.mk 50 240 240 0 (-5)) 50⟩

/-! ### C16 -/

/-- C16, counterexample.  In a new game the left key and then the right key go
down in one frame and neither is released, so both rotation keys are held.
The event loop leaves the left flag clear and the right flag set, and the
frame turns the ship from 90 to 82; the next frame, with both keys still held
and no event, turns it on to 74. -/
theorem rotate_both_counterexample :
    Reachable zero_stream new_game_state ∧
    key_held Key.left [Event.key_down Key.left, Event.key_down Key.right] false = true ∧
    key_held Key.right [Event.key_down Key.left, Event.key_down Key.right] false = true ∧
    step zero_stream 1 [Event.key_down Key.left, Event.key_down Key.right] new_game_state
      = some both_keys_game ∧
    new_game_state.player_angle = 90 ∧ both_keys_game.player_angle = 82 ∧
    both_keys_game.left_pressed = false ∧ both_keys_game.right_pressed = true ∧
    step zero_stream 1 [] both_keys_game = some both_keys_game_after ∧
    both_keys_game_after.player_angle = 74 := by
  refine ⟨Reachable.new_game 1 title_game new_game_state rfl rfl, rfl, rfl, rfl, rfl, ?_, ?_, ?_,
    rfl, ?_⟩
  · decide
  · decide
  · decide
  · decide

/-- C16, amended.  In a round the two rotation flags are never both set, before
or after the events of a frame: a press of the right key sets the right flag
and clears the left one, a press of the left key does the opposite.  So when
both keys are held the key that went down last decides: after a press of the
right key as the last event the rotation phase turns the ship by 8 degrees to
the right (360 is added to a negative angle), after a press of the left key by
8 degrees to the left (360 is taken from an angle of 360 or more).  With
neither flag set the rotation phase leaves the angle unchanged.  Nothing after
the event loop writes the flags, so they last until the next key event. -/
theorem rotate_ship_both (r : Nat → Nat) (s : Game) (hs : Reachable r s) :
    ¬ (s.left_pressed = true ∧ s.right_pressed = true) ∧
    (∀ es : List Event,
      ¬ ((handle_events es { s with counter := s.counter + 1 }).left_pressed = true ∧
        (handle_events es { s with counter := s.counter + 1 }).right_pressed = true)) ∧
    (∀ es : List Event,
      (handle_events (es ++ [Event.key_down Key.right])
        { s with counter := s.counter + 1 }).left_pressed = false ∧
      (handle_events (es ++ [Event.key_down Key.right])
        { s with counter := s.counter + 1 }).right_pressed = true ∧
      (rotate_ship (handle_events (es ++ [Event.key_down Key.right])
        { s with counter := s.counter + 1 })).player_angle
        = (if s.player_angle - 8 < 0 then s.player_angle - 8 + 360 else s.player_angle - 8)) ∧
    (∀ es : List Event,
      (handle_events (es ++ [Event.key_down Key.left])
        { s with counter := s.counter + 1 }).left_pressed = true ∧
      (handle_events (es ++ [Event.key_down Key.left])
        { s with counter := s.counter + 1 }).right_pressed = false ∧
      (rotate_ship (handle_events (es ++ [Event.key_down Key.left])
        { s with counter := s.counter + 1 })).player_angle
        = (if s.player_angle + 8 ≥ 360 then s.player_angle + 8 - 360 else s.player_angle + 8)) ∧
    (∀ t : Game, t.left_pressed = false → t.right_pressed = false →
      (rotate_ship t).player_angle = t.player_angle) ∧
    (∀ (fuel : Nat) (es : List Event) (t : Game), step r fuel es s = some t →
      t.left_pressed = (handle_events es { s with counter := s.counter + 1 }).left_pressed ∧
      t.right_pressed
        = (handle_events es { s with counter := s.counter + 1 }).right_pressed) := by
  have h0 := reachable_flags hs
  refine ⟨h0, fun es => handle_events_flags es _ h0,
    fun es => rotate_after_right es _, fun es => rotate_after_left es _,
    fun t hl hr => rotate_ship_neither hl hr, fun fuel es t h => step_flags h⟩

theorem rotate_ship_both_witness :
    Reachable zero_stream new_game_state ∧
    (rotate_ship (handle_events ([Event.key_down Key.left] ++ [Event.key_down Key.right])
      { new_game_state with counter := new_game_state.counter + 1 })).player_angle = 82 ∧
    new_game_state.left_pressed = false ∧ new_game_state.right_pressed = false ∧
    (rotate_ship new_game_state).player_angle = 90 ∧
    both_keys_game.right_pressed = true := by
  have hr : Reachable zero_stream new_game_state :=
    Reachable.new_game 1 title_game new_game_state rfl rfl
  have h := rotate_ship_both zero_stream new_game_state hr
  have h3 := (h.2.2.1 [Event.key_down Key.left]).2.2
  have h5 := h.2.2.2.2.1 new_game_state rfl rfl
  have h6 := (h.2.2.2.2.2 1 [Event.key_down Key.left, Event.key_down Key.right] both_keys_game
    rfl).2
  refine ⟨hr, ?_, rfl, rfl, ?_, ?_⟩
  · rw [h3]
    decide
  · rw [h5]
    decide
  · rw [h6]
    decide

/-! ### C17 -/

/-- C17, the failing input.  The segment from (0, -23) to (480, 0) has no point
in the screen rectangle, and with exact arithmetic `clip` returns 0 and
`sdl_drawline` writes no pixel, as the claim says.  In `double` arithmetic the
slope 23 / 480 is rounded up, so the move of the first endpoint onto the top
edge lands at `x = 480 - 2 ^ (-44)`, a point on the screen, instead of at
`x = 480`.  `clip` then moves the second endpoint to (479, 0) and returns 1
with both endpoints (479, 0), and `sdl_drawline` writes the pixel (479, 0). -/
theorem clip_outside_drawn :
    misses_screen ((0 : Int) : ℚ) ((-23 : Int) : ℚ) ((480 : Int) : ℚ) ((0 : Int) : ℚ) ∧
    (∃ a b, clip 3 0 (-23) 480 0 = some (a, b, 480, 0, false)) ∧
    sdl_drawline 3 0 (-23) { r := 255, g := 255, b := 255 } 480 0 { r := 255, g := 255, b := 255 }
      = some [] ∧
    23 / 480 < fl (23 / 480) ∧
    clip_edge_d 0 (-23) 480 0 (encode 0 (-23)) = (480 - 1 / 2 ^ 44, 0) ∧
    clip_d 3 0 (-23) 480 0 = some (479, 0, 479, 0, true) ∧
    sdl_drawline_d 3 0 (-23) { r := 255, g := 255, b := 255 } 480 0
        { r := 255, g := 255, b := 255 }
      = some [{ x := 479, y := 0, c := { r := 255, g := 255, b := 255 } }] := by
  have h := clip_exact_rejects_outside 0 (-23) 480 0 { r := 255, g := 255, b := 255 }
    { r := 255, g := 255, b := 255 } misses_screen_near_480 3 (le_refl _)
  have e : encode 0 (-23) = 4 := by
    rw [encode_eq]
    norm_num
  refine ⟨misses_screen_near_480, h.1, h.2, ?_, ?_, clip_d_near_480, sdl_drawline_d_near_480⟩
  · rw [fl_slope_23_480]
    norm_num
  · rw [e, clip_edge_d_near_480]
    norm_num

/-! ### C18 -/

/-- C18, clipping accepts inside lines unmodified.  For endpoints that both lie
in the screen rectangle `clip` returns non-zero in the first iteration of its
loop and leaves `x1, y1, x2, y2` as passed; and whenever `clip` returns
non-zero, for any input, both returned endpoints lie in the screen rectangle. -/
theorem clip_accepts_inside (x1 y1 x2 y2 : Int) :
    ((0 ≤ x1 ∧ x1 < 480 ∧ 0 ≤ y1 ∧ y1 < 480) → (0 ≤ x2 ∧ x2 < 480 ∧ 0 ≤ y2 ∧ y2 < 480) →
      ∀ fuel, clip (fuel + 1) x1 y1 x2 y2 = some (x1, y1, x2, y2, true)) ∧
    (∀ fuel a b c d, clip fuel x1 y1 x2 y2 = some (a, b, c, d, true) →
      (0 ≤ a ∧ a < 480 ∧ 0 ≤ b ∧ b < 480) ∧ (0 ≤ c ∧ c < 480 ∧ 0 ≤ d ∧ d < 480)) := by
  constructor
  · rintro ⟨a1, a2, a3, a4⟩ ⟨b1, b2, b3, b4⟩ fuel
    have h1 : on_screen (x1 : ℚ) (y1 : ℚ) :=
      ⟨by exact_mod_cast a1, by exact_mod_cast a2, by exact_mod_cast a3, by exact_mod_cast a4⟩
    have h2 : on_screen (x2 : ℚ) (y2 : ℚ) :=
      ⟨by exact_mod_cast b1, by exact_mod_cast b2, by exact_mod_cast b3, by exact_mod_cast b4⟩
    unfold clip
    rw [clip_loop_inside h1 h2]
    simp only [Bool.false_eq_true, if_false, trunc_int]
  · intro fuel a b c d h
    exact clip_draw_on_screen h

theorem clip_accepts_inside_witness :
    clip 1 10 20 300 400 = some (10, 20, 300, 400, true) ∧
    clip 2 (-100) 100 100 100 = some (0, 100, 100, 100, true) ∧
    ((0 : Int) ≤ 0 ∧ (0 : Int) < 480 ∧ (0 : Int) ≤ 100 ∧ (100 : Int) < 480) := by
  have h1 := (clip_accepts_inside 10 20 300 400).1 (by decide) (by decide) 0
  have e : clip 2 (-100) 100 100 100 = some (0, 100, 100, 100, true) := by
    norm_num [clip, clip_loop, clip_edge, encode, trunc, kScreenWidth, kScreenHeight,
      LEFT_EDGE, RIGHT_EDGE, TOP_EDGE, BOTTOM_EDGE]
  have h2 := (clip_accepts_inside (-100) 100 100 100).2 2 0 100 100 100 e
  exact ⟨h1, e, h2.1⟩

/-! ### C19 -/

/-- C19, counterexample.  The segment from (-2, 100), coloured (200, 0, 0), to
(2, 100), coloured (0, 0, 0), crosses the left edge half way.  `clip` truncates
it to (0, 100)-(2, 100), and `sdl_drawline` writes the pixel of the truncated
endpoint (0, 100) in the colour (200, 0, 0) of the off-screen endpoint; the
interpolation at the truncated fraction would be (100, 0, 0).  Every value of
this run is an integer, so the rounding of the `double` operations changes
nothing in it. -/
theorem clipped_colour_counterexample :
    clip_d 3 (-2) 100 2 100 = some (0, 100, 2, 100, true) ∧
    sdl_drawline_d 3 (-2) 100 { r := 200, g := 0, b := 0 } 2 100 { r := 0, g := 0, b := 0 }
      = some [{ x := 1, y := 101, c := { r := 0, g := 0, b := 0 } },
              { x := 0, y := 100, c := { r := 200, g := 0, b := 0 } },
              { x := 2, y := 101, c := { r := 0, g := 0, b := 0 } },
              { x := 1, y := 100, c := { r := 100, g := 0, b := 0 } }] :=
  ⟨clip_d_left_half, sdl_drawline_d_left_half⟩

/-- C19, amended.  All of it in `double` arithmetic.  For a segment with one
endpoint beyond exactly one screen edge and the other endpoint on the screen,
the first iteration of `clip` moves the off-screen endpoint to a point `q` on
the line of that edge, `x = 0`, `x = 479`, `y = 0` or `y = 479`; when `q` is on
the screen `clip` returns 1 after the next iteration, with `q` truncated in
the place of the off-screen endpoint; in every case `clip` returns 1 within
four iterations, with the on-screen endpoint as passed and the other endpoint
on the screen.  `clip` takes and returns no colour, and `sdl_drawline` then
returns: for a result that is not vertical the first run it draws is the run
of the column of the returned first endpoint, called with the colour `c1`
passed for the first endpoint, and for a vertical result it draws the one run
between `c1` and `c2`.  For every segment that `clip` accepts with a result
that is not vertical, `sdl_drawline` runs the loop over the columns from the
components of `c1`, in steps of `(c2 - c1) / (x2 - x1)` of the truncated
span. -/
theorem clipped_colour (x1 y1 x2 y2 : Int) (c1 c2 : color_type)
    (hc : c1.r < 256 ∧ c1.g < 256 ∧ c1.b < 256) :
    (edges_beyond x1 y1 = 1 → on_screen x2 y2 →
      (∃ q : ℚ × ℚ, q = clip_edge_d x1 y1 x2 y2 (encode x1 y1) ∧
        ((x1 : ℚ) < 0 → q.1 = 0) ∧ (480 ≤ (x1 : ℚ) → q.1 = 479) ∧
        ((y1 : ℚ) < 0 → q.2 = 0) ∧ (480 ≤ (y1 : ℚ) → q.2 = 479) ∧
        (∀ fuel, clip_loop_d (fuel + 1) x1 y1 x2 y2 false
          = clip_loop_d fuel q.1 q.2 x2 y2 false) ∧
        (on_screen q.1 q.2 → ∀ fuel,
          clip_d (fuel + 2) x1 y1 x2 y2 = some (trunc q.1, trunc q.2, x2, y2, true))) ∧
      (∀ fuel, ∃ a b, clip_d (fuel + 4) x1 y1 x2 y2 = some (a, b, x2, y2, true) ∧
        0 ≤ a ∧ a < 480 ∧ 0 ≤ b ∧ b < 480) ∧
      (∀ fuel, 480 ≤ fuel → ∃ a b l, clip_d fuel x1 y1 x2 y2 = some (a, b, x2, y2, true) ∧
        sdl_drawline_d fuel x1 y1 c1 x2 y2 c2 = some l ∧
        (x2 - a ≠ 0 → ∃ ya yb cn rest, l = drawvertline_d a ya c1 yb cn ++ rest) ∧
        (x2 - a = 0 → l = drawvertline_d a b c1 y2 c2))) ∧
    (on_screen x1 y1 → edges_beyond x2 y2 = 1 →
      (∃ q : ℚ × ℚ, q = clip_edge_d x2 y2 x1 y1 (encode x2 y2) ∧
        ((x2 : ℚ) < 0 → q.1 = 0) ∧ (480 ≤ (x2 : ℚ) → q.1 = 479) ∧
        ((y2 : ℚ) < 0 → q.2 = 0) ∧ (480 ≤ (y2 : ℚ) → q.2 = 479) ∧
        (∀ fuel, clip_loop_d (fuel + 1) x1 y1 x2 y2 false
          = clip_loop_d fuel q.1 q.2 x1 y1 true) ∧
        (on_screen q.1 q.2 → ∀ fuel,
          clip_d (fuel + 2) x1 y1 x2 y2 = some (x1, y1, trunc q.1, trunc q.2, true))) ∧
      (∀ fuel, ∃ c d, clip_d (fuel + 4) x1 y1 x2 y2 = some (x1, y1, c, d, true) ∧
        0 ≤ c ∧ c < 480 ∧ 0 ≤ d ∧ d < 480) ∧
      (∀ fuel, 480 ≤ fuel → ∃ c d l, clip_d fuel x1 y1 x2 y2 = some (x1, y1, c, d, true) ∧
        sdl_drawline_d fuel x1 y1 c1 x2 y2 c2 = some l ∧
        (c - x1 ≠ 0 → ∃ ya yb cn rest, l = drawvertline_d x1 ya c1 yb cn ++ rest) ∧
        (c - x1 = 0 → l = drawvertline_d x1 y1 c1 d c2))) ∧
    (∀ fuel a b c d dr, clip_d fuel x1 y1 x2 y2 = some (a, b, c, d, dr) →
      (on_screen x2 y2 → dr = true ∧ c = x2 ∧ d = y2 ∧ 0 ≤ a ∧ a < 480 ∧ 0 ≤ b ∧ b < 480) ∧
      (on_screen x1 y1 → ¬ on_screen x2 y2 →
        dr = true ∧ a = x1 ∧ b = y1 ∧ 0 ≤ c ∧ c < 480 ∧ 0 ≤ d ∧ d < 480)) ∧
    (∀ fuel a b c d, clip_d fuel x1 y1 x2 y2 = some (a, b, c, d, true) → c - a ≠ 0 →
      sdl_drawline_d fuel x1 y1 c1 x2 y2 c2 =
        sdl_drawline_loop_d (fl (((d - b : Int) : ℚ) / ((c - a : Int) : ℚ)))
          (fl ((b : ℚ) - fl (fl (((d - b : Int) : ℚ) / ((c - a : Int) : ℚ)) * (a : ℚ))))
          (if c ≥ a then 1 else -1)
          (fl (fl ((((c2.r : Int) - (c1.r : Int) : Int) : ℚ) / ((c - a : Int) : ℚ))
            * (((if c ≥ a then 1 else -1 : Int)) : ℚ)))
          (fl (fl ((((c2.g : Int) - (c1.g : Int) : Int) : ℚ) / ((c - a : Int) : ℚ))
            * (((if c ≥ a then 1 else -1 : Int)) : ℚ)))
          (fl (fl ((((c2.b : Int) - (c1.b : Int) : Int) : ℚ) / ((c - a : Int) : ℚ))
            * (((if c ≥ a then 1 else -1 : Int)) : ℚ)))
          c fuel a c1.r c1.g c1.b) := by
  refine ⟨fun h1 h2 => ⟨?_, fun fuel => clip_d_one_edge_returns h1 h2 fuel, fun fuel hf => ?_⟩,
    fun h1 h2 => ⟨?_, fun fuel => clip_d_one_edge_returns_swapped h1 h2 fuel, fun fuel hf => ?_⟩,
    fun fuel a b c d dr h => ⟨fun h2 => clip_d_keeps_second h2 h,
      fun h1 h2 => clip_d_keeps_first h1 h2 h⟩,
    fun fuel a b c d h hne => ?_⟩
  · obtain ⟨hP, hy1, hy2⟩ := edges_beyond_one h1
    obtain ⟨k1, k2, k3, k4⟩ := clip_edge_d_coord x1 y1 x2 y2
    exact ⟨_, rfl, k1, k2, fun h => k3 (hy1 h).1 (hy1 h).2 h, fun h => k4 (hy2 h).1 (hy2 h).2 h,
      fun fuel => clip_loop_d_step hP h2 fuel false,
      fun hq fuel => clip_d_one_move hP h2 hq fuel⟩
  · obtain ⟨n, rfl⟩ : ∃ n, fuel = n + 4 := ⟨fuel - 4, by omega⟩
    obtain ⟨a, b, hab, _⟩ := clip_d_one_edge_returns h1 h2 n
    obtain ⟨l, hl, r1, r2⟩ := sdl_drawline_d_first c2 hab hf hc
    exact ⟨a, b, l, hab, hl, r1, r2⟩
  · obtain ⟨hP, hy1, hy2⟩ := edges_beyond_one h2
    obtain ⟨k1, k2, k3, k4⟩ := clip_edge_d_coord x2 y2 x1 y1
    exact ⟨_, rfl, k1, k2, fun h => k3 (hy1 h).1 (hy1 h).2 h, fun h => k4 (hy2 h).1 (hy2 h).2 h,
      fun fuel => clip_loop_d_step_swapped h1 hP fuel false,
      fun hq fuel => clip_d_one_move_swapped h1 hP hq fuel⟩
  · obtain ⟨n, rfl⟩ : ∃ n, fuel = n + 4 := ⟨fuel - 4, by omega⟩
    obtain ⟨c, d, hcd, _⟩ := clip_d_one_edge_returns_swapped h1 h2 n
    obtain ⟨l, hl, r1, r2⟩ := sdl_drawline_d_first c2 hcd hf hc
    exact ⟨c, d, l, hcd, hl, r1, r2⟩
  · rw [sdl_drawline_d_of_clip c1 c2 h, if_pos hne]

theorem clipped_colour_witness :
    edges_beyond ((-2 : Int) : ℚ) ((100 : Int) : ℚ) = 1 ∧
    on_screen ((2 : Int) : ℚ) ((100 : Int) : ℚ) ∧
    clip_d 480 (-2) 100 2 100 = some (0, 100, 2, 100, true) ∧
    (∃ a b l, clip_d 480 (-2) 100 2 100 = some (a, b, 2, 100, true) ∧
      sdl_drawline_d 480 (-2) 100 { r := 200, g := 0, b := 0 } 2 100 { r := 0, g := 0, b := 0 }
        = some l ∧
      (2 - a ≠ 0 → ∃ ya yb cn rest,
        l = drawvertline_d a ya { r := 200, g := 0, b := 0 } yb cn ++ rest) ∧
      (2 - a = 0 → l = drawvertline_d a b { r := 200, g := 0, b := 0 } 100
        { r := 0, g := 0, b := 0 })) := by
  have h1 : edges_beyond ((-2 : Int) : ℚ) ((100 : Int) : ℚ) = 1 := by norm_num [edges_beyond]
  have h2 : on_screen ((2 : Int) : ℚ) ((100 : Int) : ℚ) := by norm_num [on_screen]
  have h := clipped_colour (-2) 100 2 100 { r := 200, g := 0, b := 0 } { r := 0, g := 0, b := 0 }
    (by decide)
  obtain ⟨⟨q, hq, _, _, _, _, _, hmove⟩, _, hdraw⟩ := h.1 h1 h2
  rw [clip_edge_d_left_half] at hq
  have e : clip_d 480 (-2) 100 2 100 = some (0, 100, 2, 100, true) := by
    have k := hmove (by
      rw [hq]
      norm_num [on_screen]) 478
    rw [hq] at k
    have t0 : trunc 0 = 0 := by
      unfold trunc
      norm_num
    have t100 : trunc 100 = 100 := by
      unfold trunc
      norm_num
    simp only [Nat.reduceAdd, t0, t100] at k
    exact k
  exact ⟨h1, h2, e, hdraw 480 (le_refl _)⟩

/-! ### C20 -/

set_option maxRecDepth 20000 in
/-- C20, counterexample.  `fputc` writes one byte of `level`.  A game at level
256, saved and loaded into the globals of a starting program, comes back at
level 0. -/
theorem state_file_round_trip_counterexample :
    c_state level_256_game ∧ level_256_game.level = 256 ∧
    ∃ t, load_state (some (save_state level_256_game)) fresh_game = some t ∧
      t.level = 0 ∧ t.level ≠ level_256_game.level := by
  have h : c_state level_256_game :=
    ⟨by decide, by decide, by decide, by decide, by decide, by decide, by decide,
      by decide, by decide, by decide, by decide, by decide, by decide, by decide⟩
  exact ⟨h, rfl, _, load_save_state h, by decide, by decide⟩

/-- C20, amended.  For every state of the C program, the file that the save
code writes is accepted by the load code, and reading it into the globals of a
starting program reproduces `game_pending`, `player_x`, `player_y`,
`player_xm`, `player_ym`, `player_angle` and every bullet, asteroid and bit
slot exactly; `lives`, `level`, `player_alive` and `player_die_timer` come
back modulo 256 and `score` and `high` modulo `2 ^ 32`.  So the round trip is
exact on every persisted field when `lives`, `level`, `player_alive` and
`player_die_timer` are in `0..255` and `score` and `high` are below `2 ^ 32`. -/
theorem state_file_round_trip (s : Game) (h : c_state s) :
    ∃ t, load_state (some (save_state s)) fresh_game = some t ∧
      t.game_pending = s.game_pending ∧
      t.lives = s.lives % 256 ∧ t.level = s.level % 256 ∧
      t.player_alive = s.player_alive % 256 ∧ t.player_die_timer = s.player_die_timer % 256 ∧
      t.score = s.score % 2 ^ 32 ∧ t.high = s.high % 2 ^ 32 ∧
      t.player_x = s.player_x ∧ t.player_y = s.player_y ∧
      t.player_xm = s.player_xm ∧ t.player_ym = s.player_ym ∧
      t.player_angle = s.player_angle ∧
      (∀ i, i < kNumBullets → t.bullets i = s.bullets i) ∧
      (∀ i, i < kNumAsteroids → t.asteroids i = s.asteroids i) ∧
      (∀ i, i < kNumBits → t.bits i = s.bits i) ∧
      (s.lives < 256 → s.level < 256 → (0 ≤ s.player_alive ∧ s.player_alive < 256) →
        (0 ≤ s.player_die_timer ∧ s.player_die_timer < 256) →
        s.score < 2 ^ 32 → s.high < 2 ^ 32 →
        t.lives = s.lives ∧ t.level = s.level ∧ t.player_alive = s.player_alive ∧
        t.player_die_timer = s.player_die_timer ∧ t.score = s.score ∧ t.high = s.high) := by
  refine ⟨_, load_save_state h, rfl, rfl, rfl, rfl, rfl, rfl, rfl, rfl, rfl, rfl, rfl, rfl,
    ?_, ?_, ?_, ?_⟩
  · intro i hi
    show (if 0 ≤ i ∧ i < 0 + kNumBullets then s.bullets i else default) = s.bullets i
    rw [if_pos ⟨Nat.zero_le _, by omega⟩]
  · intro i hi
    show (if 0 ≤ i ∧ i < 0 + kNumAsteroids then s.asteroids i else default) = s.asteroids i
    rw [if_pos ⟨Nat.zero_le _, by omega⟩]
  · intro i hi
    show (if 0 ≤ i ∧ i < 0 + kNumBits then s.bits i else default) = s.bits i
    rw [if_pos ⟨Nat.zero_le _, by omega⟩]
  · intro h1 h2 h3 h4 h5 h6
    refine ⟨?_, ?_, ?_, ?_, ?_, ?_⟩
    · show s.lives % 256 = s.lives
      omega
    · show s.level % 256 = s.level
      omega
    · show s.player_alive % 256 = s.player_alive
      omega
    · show s.player_die_timer % 256 = s.player_die_timer
      omega
    · show s.score % 2 ^ 32 = s.score
      omega
    · show s.high % 2 ^ 32 = s.high
      omega

set_option maxRecDepth 20000 in
theorem state_file_round_trip_witness :
    c_state saved_game ∧
    ∃ t, load_state (some (save_state saved_game)) fresh_game = some t ∧
      t.score = 12345 ∧ t.level = 3 ∧ t.lives = 2 ∧ t.player_xm = -37 ∧
      t.asteroids 0 = saved_game.asteroids 0 ∧ t.asteroids 1 = saved_game.asteroids 1 ∧
      t.bullets 0 = saved_game.bullets 0 := by
  have h : c_state saved_game :=
    ⟨by decide, by decide, by decide, by decide, by decide, by decide, by decide,
      by decide, by decide, by decide, by decide, by decide, by decide, by decide⟩
  obtain ⟨t, ht, _, hl, hv, _, _, hs, _, _, _, hxm, _, _, hb, ha, _, _⟩ :=
    state_file_round_trip saved_game h
  exact ⟨h, t, ht, hs, hv, hl, hxm, ha 0 (by decide), ha 1 (by decide), hb 0 (by decide)⟩

/-! ### C21 -/

/-- C21, counterexample.  For an empty file, and for a file that ends after
its first line, `fgets` returns the null pointer and the program exits with
`EXIT_FAILURE`. -/
theorem load_never_fails_counterexample :
    load_state (some []) fresh_game = none ∧
    load_state (some (str_bytes (kGameName ++ " State File\n"))) fresh_game = none :=
  ⟨(load_state_none_iff _ _).mpr (Or.inl rfl), (load_state_none_iff _ _).mpr (Or.inr (by decide))⟩

/-- C21, amended.  The load code returns normally for an absent file, for a
file whose version line differs from the expected tag and for a file that the
save code wrote; in the first two cases the state is left as it was.  It ends
the program exactly when the file is empty or ends with what the first `fgets`
reads, as a file of one line does. -/
theorem load_state_outcomes (s : Game) :
    load_state none s = some s ∧
    (∀ bs, load_state (some bs) s = none ↔ (bs = [] ∨ (fgets_go 255 bs).2 = [])) ∧
    (∀ l : List Nat, (∀ b ∈ l, b ≠ 10) → l.length < 255 →
      load_state (some (l ++ [10])) s = none) ∧
    (∀ (bs : List Nat) (l1 l2 : List Nat × List Nat),
      fgets 256 bs = some l1 → fgets 256 l1.2 = some l2 →
      strncmp (c_string l2.1).dropLast (str_bytes kGameDate) 10 = true →
      load_state (some bs) s = some s) ∧
    (∀ g : Game, c_state g → ∃ t, load_state (some (save_state g)) fresh_game = some t) := by
  refine ⟨rfl, fun bs => load_state_none_iff bs s, ?_, ?_, ?_⟩
  · intro l hl hn
    rw [load_state_none_iff]
    right
    have e := fgets_go_line 255 l [] hl hn
    rw [e]
  · intro bs l1 l2 h1 h2 hv
    rw [load_state_some s h1 h2, hv]
    rfl
  · intro g hg
    exact ⟨_, load_save_state hg⟩

set_option maxRecDepth 20000 in
theorem load_state_outcomes_witness :
    load_state (some (str_bytes "one line" ++ [10])) fresh_game = none ∧
    fgets 256 old_version_file = some (str_bytes "Vectoroids State File\n",
      str_bytes "2001.11.30\n" ++ [1]) ∧
    load_state (some old_version_file) fresh_game = some fresh_game := by
  have h := load_state_outcomes fresh_game
  refine ⟨h.2.2.1 (str_bytes "one line") (by decide) (by decide), by decide, ?_⟩
  exact h.2.2.2.1 old_version_file (str_bytes "Vectoroids State File\n",
      str_bytes "2001.11.30\n" ++ [1]) (str_bytes "2001.11.30\n", [1]) (by decide) (by decide)
    (by decide)

/-! ### C22 -/

/-- C22, the vector font.  For a character outside `'0'`-`'9'` and `'A'`-`'Z'`
`draw_char` makes no `draw_line` call and writes no pixel.  For every other
character it makes between 1 and 5 `draw_line` calls, each with the colour
passed for both ends and with the endpoints `(x + gx1 * r, y + gy1 * r)` and
`(x + gx2 * r, y + gy2 * r)`, where `gx1, gx2` are 0 or 1 and `gy1, gy2` are 0,
1 or 2; every used row of `char_vectors` lies in that grid. -/
theorem draw_char_font (c x y r : Int) (cl : color_type) :
    (¬ ((48 ≤ c ∧ c ≤ 57) ∨ (65 ≤ c ∧ c ≤ 90)) →
      draw_char_calls c x y r cl = [] ∧ ∀ fuel, draw_char fuel c x y r cl = some []) ∧
    (((48 ≤ c ∧ c ≤ 57) ∨ (65 ≤ c ∧ c ≤ 90)) →
      1 ≤ (draw_char_calls c x y r cl).length ∧ (draw_char_calls c x y r cl).length ≤ 5 ∧
      ∀ sg ∈ draw_char_calls c x y r cl, ∃ gx1 gy1 gx2 gy2 : Int,
        (gx1 = 0 ∨ gx1 = 1) ∧ (gy1 = 0 ∨ gy1 = 1 ∨ gy1 = 2) ∧
        (gx2 = 0 ∨ gx2 = 1) ∧ (gy2 = 0 ∨ gy2 = 1 ∨ gy2 = 2) ∧
        sg = (x + gx1 * r, y + gy1 * r, cl, x + gx2 * r, y + gy2 * r, cl)) ∧
    (∀ v, v < 36 → ∀ i, i < 5 → char_vector v i 0 ≠ -1 →
      (char_vector v i 0 = 0 ∨ char_vector v i 0 = 1) ∧
      (char_vector v i 1 = 0 ∨ char_vector v i 1 = 1 ∨ char_vector v i 1 = 2) ∧
      (char_vector v i 2 = 0 ∨ char_vector v i 2 = 1) ∧
      (char_vector v i 3 = 0 ∨ char_vector v i 3 = 1 ∨ char_vector v i 3 = 2)) := by
  refine ⟨fun h => ?_, fun h => ?_, char_vectors_grid⟩
  · have e : draw_char_calls c x y r cl = [] := by
      unfold draw_char_calls
      dsimp only
      rw [if_neg (by simp [(char_index_cases c).2 h])]
    refine ⟨e, fun fuel => ?_⟩
    unfold draw_char
    rw [e]
    rfl
  · obtain ⟨hv, hlt⟩ := (char_index_cases c).1 h
    unfold draw_char_calls
    dsimp only
    rw [if_pos hv, List.length_map]
    refine ⟨(char_vectors_count _ hlt).1, (char_vectors_count _ hlt).2, ?_⟩
    intro sg hsg
    rw [List.mem_map] at hsg
    obtain ⟨i, hi, rfl⟩ := hsg
    rw [List.mem_filter, List.mem_range] at hi
    obtain ⟨g1, g2, g3, g4⟩ := char_vectors_grid _ hlt i hi.1 (of_decide_eq_true hi.2)
    exact ⟨_, _, _, _, g1, g2, g3, g4, rfl⟩

theorem draw_char_font_witness :
    draw_char_calls 49 100 50 10 (mkcolor 255 255 255)
      = [(110, 50, mkcolor 255 255 255, 110, 70, mkcolor 255 255 255)] ∧
    1 ≤ (draw_char_calls 49 100 50 10 (mkcolor 255 255 255)).length ∧
    draw_char 3 97 100 50 10 (mkcolor 255 255 255) = some [] := by
  have h := draw_char_font 49 100 50 10 (mkcolor 255 255 255)
  have h2 := draw_char_font 97 100 50 10 (mkcolor 255 255 255)
  exact ⟨by decide, (h.2.1 (Or.inl (by decide))).1, (h2.1 (by decide)).2 3⟩

/-! ### C23 -/

/-- C23, counterexample.  At the reduced angle 12 the reflection fails:
`fast_cos 12` is `-trig[10] = -117` and `fast_cos (45 - 12)` is
`-trig[11] = 0`. -/
theorem fast_cos_reflection_counterexample :
    fast_cos 12 = -117 ∧ fast_cos (45 - 12) = 0 ∧ fast_cos (45 - 12) ≠ fast_cos 12 := by
  decide

/-- C23, amended.  For a reduced angle `v` in `1..11` or in `34..44`
`fast_cos (45 - v) = fast_cos v`.  For `v` in `12..33` the two values are one
table step apart and differ: `fast_cos v = -trig[22 - v]` and
`fast_cos (45 - v) = -trig[23 - v]` for `v` in `12..22`, and
`fast_cos v = -trig[v - 22]` and `fast_cos (45 - v) = -trig[v - 23]` for `v`
in `23..33`.  Every value is plus or minus an entry of the table. -/
theorem fast_cos_reflection (v : Int) (h1 : 1 ≤ v) (h2 : v ≤ 44) :
    ((v ≤ 11 ∨ 34 ≤ v) → fast_cos (45 - v) = fast_cos v) ∧
    ((12 ≤ v ∧ v ≤ 22) →
      fast_cos v = -trig_at (22 - v) ∧ fast_cos (45 - v) = -trig_at (23 - v)) ∧
    ((23 ≤ v ∧ v ≤ 33) →
      fast_cos v = -trig_at (v - 22) ∧ fast_cos (45 - v) = -trig_at (v - 23)) ∧
    ((12 ≤ v ∧ v ≤ 33) → fast_cos (45 - v) ≠ fast_cos v) ∧
    (∃ k, 0 ≤ k ∧ k ≤ 11 ∧ (fast_cos v = trig_at k ∨ fast_cos v = -trig_at k)) := by
  refine ⟨?_, ?_, ?_, ?_, ?_⟩
  · intro h
    interval_cases v <;> first | decide | (exfalso; omega)
  · intro h
    interval_cases v <;> first | decide | (exfalso; omega)
  · intro h
    interval_cases v <;> first | decide | (exfalso; omega)
  · intro h
    interval_cases v <;> first | decide | (exfalso; omega)
  · refine ⟨fast_cos_index v, ?_⟩
    interval_cases v <;> decide

theorem fast_cos_reflection_witness :
    (1 : Int) ≤ 5 ∧ (5 : Int) ≤ 44 ∧ fast_cos (45 - 5) = fast_cos 5 ∧ fast_cos 5 = 784 := by
  have h := (fast_cos_reflection 5 (by decide) (by decide)).1 (Or.inl (by decide))
  exact ⟨by decide, by decide, h, by decide⟩

/-! ### C24 -/

/-- C24, `fast_cos` has no error case.  For every angle `≥ 0` the angle reduced
modulo 45 is in `0..44`, the index at which the table is read is in `0..11`,
where the table has an entry, the result is plus or minus that entry and lies
in `-1024..1024`, and `fast_cos 0 = 1024`.  `fast_sin` passes `fast_cos` the
angle `(angle + 11) % 45`, which is again `≥ 0`, and negates the result, which
lies in `-1024..1024`. -/
theorem fast_cos_no_error (angle : Int) (h : 0 ≤ angle) :
    (0 ≤ Int.tmod angle 45 ∧ Int.tmod angle 45 < 45) ∧
    (0 ≤ fast_cos_index angle ∧ fast_cos_index angle ≤ 11) ∧
    trig.get? (fast_cos_index angle).toNat = some (trig_at (fast_cos_index angle)) ∧
    (fast_cos angle = trig_at (fast_cos_index angle) ∨
      fast_cos angle = -trig_at (fast_cos_index angle)) ∧
    (-1024 ≤ fast_cos angle ∧ fast_cos angle ≤ 1024) ∧
    fast_cos 0 = 1024 ∧
    (0 ≤ Int.tmod (angle + 11) 45 ∧
      (0 ≤ fast_cos_index (Int.tmod (angle + 11) 45) ∧
        fast_cos_index (Int.tmod (angle + 11) 45) ≤ 11)) ∧
    fast_sin angle = -fast_cos (Int.tmod (angle + 11) 45) ∧
    (-1024 ≤ fast_sin angle ∧ fast_sin angle ≤ 1024) := by
  have key : ∀ a : Int, 0 ≤ a →
      (0 ≤ Int.tmod a 45 ∧ Int.tmod a 45 < 45) ∧
      (0 ≤ fast_cos_index a ∧ fast_cos_index a ≤ 11) ∧
      trig.get? (fast_cos_index a).toNat = some (trig_at (fast_cos_index a)) ∧
      (fast_cos a = trig_at (fast_cos_index a) ∨ fast_cos a = -trig_at (fast_cos_index a)) := by
    intro a ha
    have hm : 0 ≤ Int.tmod a 45 ∧ Int.tmod a 45 < 45 := by
      rw [Int.tmod_eq_emod ha (by decide)]
      omega
    refine ⟨hm, ?_⟩
    unfold fast_cos fast_cos_index
    dsimp only
    generalize Int.tmod a 45 = v at hm
    obtain ⟨v0, v1⟩ := hm
    interval_cases v <;> decide
  obtain ⟨k1, k2, k3, k4⟩ := key angle h
  have hs : 0 ≤ Int.tmod (angle + 11) 45 := by
    rw [Int.tmod_eq_emod (by omega) (by decide)]
    omega
  exact ⟨k1, k2, k3, k4, fast_cos_bounds angle, by decide, ⟨hs, (key _ hs).2.1⟩, rfl,
    fast_sin_bounds angle⟩

theorem fast_cos_no_error_witness :
    (0 : Int) ≤ 100 ∧ fast_cos_index 100 = 10 ∧ fast_cos 100 = 117 ∧
    (-1024 ≤ fast_sin 100 ∧ fast_sin 100 ≤ 1024) := by
  have h := fast_cos_no_error 100 (by decide)
  exact ⟨by decide, by decide, by decide, h.2.2.2.2.2.2.2.2⟩

/-! ### C25 -/

/-- C25, the angle ranges.  In every state reachable from a new game by frames
with any events, the ship's heading satisfies `0 ≤ player_angle < 360`, and
every live asteroid of the pool has `0 ≤ angle < 360` and an angular velocity
`-3 ≤ angle_m ≤ 2`.  From such a state the block "Rotate ship" of the next
frame turns the heading by 8 modulo 360 (right before left), the loop "Move
asteroids" turns a live asteroid by its angular velocity modulo 360, and on a
fair stream every frame returns. -/
theorem angle_ranges (r : Nat → Nat) (s : Game) (h : Reachable r s) :
    (0 ≤ s.player_angle ∧ s.player_angle < 360) ∧
    (∀ i, i < kNumAsteroids → (s.asteroids i).alive ≠ 0 →
      (0 ≤ (s.asteroids i).angle ∧ (s.asteroids i).angle < 360) ∧
      (-3 ≤ (s.asteroids i).angle_m ∧ (s.asteroids i).angle_m ≤ 2) ∧
      ∀ c, (asteroid_moved c (s.asteroids i)).angle
        = ((s.asteroids i).angle + (s.asteroids i).angle_m) % 360) ∧
    (∀ events,
      (rotate_ship (handle_events events { s with counter := s.counter + 1 })).player_angle
        = (s.player_angle +
            (if (handle_events events { s with counter := s.counter + 1 }).right_pressed then -8
             else if (handle_events events { s with counter := s.counter + 1 }).left_pressed then 8
             else 0)) % 360) ∧
    (Fair r → ∀ events, ∃ fuel t, step r fuel events s = some t ∧ Reachable r t) := by
  have ha := reachable_angle h
  refine ⟨ha, fun i hi hl => ?_, fun events => ?_, fun hr events => ?_⟩
  · obtain ⟨h1, h2, _⟩ := reachable_rocks_ok h i hi hl
    exact ⟨h1, h2, fun c => (asteroid_moved_rock_ok c (reachable_rocks_ok h i hi hl)).2.2⟩
  · have m := (handle_events_keeps events { s with counter := s.counter + 1 }).1
    generalize handle_events events { s with counter := s.counter + 1 } = u at m
    have e : u.player_angle = s.player_angle := congrArg (fun p => p.2.2.2.2) m
    unfold rotate_ship
    split
    · dsimp only
      split <;> omega
    · split
      · dsimp only
        split <;> omega
      · omega
  · obtain ⟨fuel, t, ht⟩ := step_terminates hr events s
    exact ⟨fuel, t, ht, Reachable.frame fuel events s t h ht⟩

set_option maxRecDepth 20000 in
theorem angle_ranges_witness :
    Reachable zero_stream new_game_frame ∧ new_game_frame.player_angle = 90 ∧
    (new_game_state.asteroids 0).alive ≠ 0 ∧ (new_game_state.asteroids 0).angle = 0 ∧
    (new_game_state.asteroids 0).angle_m = -3 ∧
    (new_game_frame.asteroids 0).alive ≠ 0 ∧ (new_game_frame.asteroids 0).angle = 357 ∧
    (0 ≤ (new_game_frame.asteroids 0).angle ∧ (new_game_frame.asteroids 0).angle < 360) := by
  have hr : Reachable zero_stream new_game_frame :=
    Reachable.frame 1 [] new_game_state new_game_frame
      (Reachable.new_game 1 title_game new_game_state rfl rfl) rfl
  have h := (angle_ranges zero_stream new_game_frame hr).2.1 0 (by decide) (by decide)
  exact ⟨hr, by decide, by decide, by decide, by decide, by decide, by decide, h.1⟩

/-! ### C26 -/

/-- C26, the debris burst.  For an asteroid of size at least 1 the modulus
`size * 3` of the debris velocity and the divisor `size + 1` of the award are
not zero, and `hurt_asteroid` with explosion size `n` returns on every fair
stream, however few bit slots are free.  It starts exactly `min n free` debris bits, where `free` is
the number of slots below `kNumBits` that are not active; every slot it
changes gets the timer 16, and no slot that was active is changed.  With
`n = 50` every slot is active afterwards, so after the collision of an
asteroid with the ship all 50 bits are active. -/
theorem hurt_asteroid_debris (r : Nat → Nat) (j : Nat) (xm ym : Int) (n : Nat) (s : Game)
    (hsize : 1 ≤ (s.asteroids j).size) :
    ((s.asteroids j).size * 3 ≠ 0 ∧ (s.asteroids j).size + 1 ≠ 0) ∧
    (Fair r → ∃ fuel t, hurt_asteroid r fuel j xm ym n s = some t) ∧
    (∀ fuel t, hurt_asteroid r fuel j xm ym n s = some t →
      active_bits t.bits kNumBits
        = active_bits s.bits kNumBits + min n (kNumBits - active_bits s.bits kNumBits) ∧
      (∀ i, (s.bits i).timer > 0 → t.bits i = s.bits i) ∧
      (∀ i, t.bits i ≠ s.bits i → i < kNumBits ∧ (s.bits i).timer ≤ 0 ∧ (t.bits i).timer = 16) ∧
      (n = 50 → ∀ i, i < kNumBits → (t.bits i).timer > 0)) ∧
    (∀ fuel t, ship_hit s j = true →
      Option.map ship_dies (hurt_asteroid r fuel j (sar s.player_xm 4) (sar s.player_ym 4)
        kNumBits s) = some t →
      ∀ i, i < kNumBits → (t.bits i).timer > 0) := by
  have full : ∀ (fuel : Nat) (x y : Int) (t : Game),
      hurt_asteroid r fuel j x y kNumBits s = some t →
      ∀ i, i < kNumBits → (t.bits i).timer > 0 := by
    intro fuel x y t h
    obtain ⟨k1, _, _⟩ := hurt_asteroid_bits_of_some h
    have hle := active_bits_le s.bits kNumBits
    exact active_bits_full (by omega)
  refine ⟨⟨by omega, by omega⟩, fun hr => hurt_asteroid_terminates hr j xm ym n s,
    fun fuel t h => ?_, fun fuel t _ h => ?_⟩
  · obtain ⟨k1, k2, k3⟩ := hurt_asteroid_bits_of_some h
    refine ⟨k1, fun i hi => k2 i (Or.inl hi), fun i hne => ?_, fun hn => ?_⟩
    · have hlt : i < kNumBits := by
        by_contra hc
        exact hne (k2 i (Or.inr (by omega)))
      have hfree : (s.bits i).timer ≤ 0 := by
        by_contra hc
        exact hne (k2 i (Or.inl (by omega)))
      exact ⟨hlt, hfree, k3 i hne⟩
    · subst hn
      exact full fuel xm ym t h
  · cases hh : hurt_asteroid r fuel j (sar s.player_xm 4) (sar s.player_ym 4) kNumBits s with
    | none => simp [hh] at h
    | some t1 =>
      rw [hh] at h
      simp only [Option.map_some', Option.some.injEq] at h
      subst h
      obtain ⟨c, l, e⟩ := ship_dies_frame t1
      intro i hi
      rw [e]
      exact full fuel _ _ t1 hh i hi

set_option maxRecDepth 20000 in
theorem hurt_asteroid_debris_witness :
    (debris_game.asteroids 0).alive ≠ 0 ∧ 1 ≤ (debris_game.asteroids 0).size ∧
    active_bits debris_game.bits kNumBits = 3 ∧
    hurt_asteroid zero_stream 1 0 0 0 5 debris_game
      = some ((hurt_asteroid zero_stream 1 0 0 0 5 debris_game).getD empty_game) ∧
    active_bits ((hurt_asteroid zero_stream 1 0 0 0 5 debris_game).getD empty_game).bits kNumBits
      = 3 + min 5 (kNumBits - 3) ∧
    move_asteroids zero_stream 1 debris_game = some debris_game_after ∧
    active_bits debris_game_after.bits kNumBits = 50 := by
  have h := (hurt_asteroid_debris zero_stream 0 0 0 5 debris_game (by decide)).2.2.1 1
    ((hurt_asteroid zero_stream 1 0 0 0 5 debris_game).getD empty_game) rfl
  exact ⟨by decide, by decide, by decide, rfl, h.1, rfl, by decide⟩

/-! ### C27 -/

/-- C27, the size of a live asteroid.  In every state reachable from a new game
by frames with any events, every live asteroid of the pool has
`1 ≤ size ≤ 4`; so the divisor `size + 1` of the award and the modulus
`size * 3` of the debris velocity are not zero, and the sound
`SND_AST1 + size - 1` is one of the four asteroid sounds.  The same ranges hold
in the states inside the next frame in which `hurt_asteroid` is called: after
each bullet of the loop "Move bullets" and after each asteroid of the loop
"Move asteroids". -/
theorem asteroid_size_invariant (r : Nat → Nat) (s : Game) (h : Reachable r s) :
    (∀ i, i < kNumAsteroids → (s.asteroids i).alive ≠ 0 →
      (1 ≤ (s.asteroids i).size ∧ (s.asteroids i).size ≤ 4) ∧
      (s.asteroids i).size + 1 ≠ 0 ∧ (s.asteroids i).size * 3 ≠ 0 ∧
      (SND_AST1 + (s.asteroids i).size - 1 = SND_AST1 ∨
       SND_AST1 + (s.asteroids i).size - 1 = SND_AST2 ∨
       SND_AST1 + (s.asteroids i).size - 1 = SND_AST3 ∨
       SND_AST1 + (s.asteroids i).size - 1 = SND_AST4)) ∧
    (∀ fuel events k u, k ≤ kNumBullets →
      move_bullets_from r fuel k 0 (move_ship (handle_death (thrust_ship (rotate_ship
        (handle_events events { s with counter := s.counter + 1 }))))) = some u →
      ∀ i, i < kNumAsteroids → (u.asteroids i).alive ≠ 0 →
        1 ≤ (u.asteroids i).size ∧ (u.asteroids i).size ≤ 4) ∧
    (∀ fuel events u k v, step_head r fuel events s = some u → k ≤ kNumAsteroids →
      move_asteroids_from r fuel k 0 { u with num_asteroids_alive := 0 } = some v →
      ∀ i, i < kNumAsteroids → (v.asteroids i).alive ≠ 0 →
        1 ≤ (v.asteroids i).size ∧ (v.asteroids i).size ≤ 4) := by
  have hs := reachable_rocks_ok h
  refine ⟨fun i hi hl => ?_, fun fuel events k u _ hu i hi hl => ?_,
    fun fuel events u k v hu hk hv i hi hl => ?_⟩
  · obtain ⟨_, _, h3⟩ := hs i hi hl
    simp only [SND_AST1, SND_AST2, SND_AST3, SND_AST4]
    refine ⟨h3, ?_, ?_, ?_⟩ <;> omega
  · have k0 : rocks_ok (move_ship (handle_death (thrust_ship (rotate_ship
        (handle_events events { s with counter := s.counter + 1 }))))) := by
      intro j hj hjl
      rw [(before_bullets_pool events s).1] at hjl ⊢
      exact hs j hj hjl
    exact (move_bullets_from_rocks_ok hu k0 i hi hl).2.2
  · have k1 : rocks_ok u := step_head_rocks_ok hu hs
    have k2 := move_asteroids_from_rocks_ok hv (by omega) (fun j hj hjl => k1 j hj hjl)
    exact (k2 i hi hl).2.2

set_option maxRecDepth 20000 in
theorem asteroid_size_invariant_witness :
    Reachable zero_stream new_game_frame ∧
    (new_game_frame.asteroids 0).alive ≠ 0 ∧ (new_game_frame.asteroids 0).size = 2 ∧
    (1 ≤ (new_game_frame.asteroids 0).size ∧ (new_game_frame.asteroids 0).size ≤ 4) := by
  have hr : Reachable zero_stream new_game_frame :=
    Reachable.frame 1 [] new_game_state new_game_frame
      (Reachable.new_game 1 title_game new_game_state rfl rfl) rfl
  have h := (asteroid_size_invariant zero_stream new_game_frame hr).1 0 (by decide) (by decide)
  exact ⟨hr, by decide, by decide, h.1⟩

/-! ### C28 -/

/-- C28, lives never underflow.  In every state reachable from a new game by
frames with any events, while the frame counter `counter` of `game()` is
within `int32_t`, a live ship has at least one life, and `lives` is at most
`3 * counter + 3`.  A frame from such a state lowers `lives` by at most 1 and
raises it by at most 3.  The statement `lives--` of the asteroid loop is
reached only in a state with `lives ≥ 1`, whatever number of asteroids the
loop has passed, so the unsigned counter does not wrap below 0. -/
theorem lives_never_underflow (r : Nat → Nat) (s : Game) (h : Reachable r s)
    (hc : s.counter < 2 ^ 31) :
    (s.player_alive ≠ 0 → 1 ≤ s.lives) ∧
    (0 ≤ s.counter ∧ (s.lives : Int) ≤ 3 * s.counter + 3) ∧
    (∀ fuel events t, step r fuel events s = some t →
      s.lives ≤ t.lives + 1 ∧ t.lives ≤ s.lives + 3 ∧ (t.player_alive ≠ 0 → 1 ≤ t.lives)) ∧
    (∀ fuel events u k v w, step_head r fuel events s = some u →
      move_asteroids_from r fuel k 0 { u with num_asteroids_alive := 0 } = some v →
      ship_hit { v with
        num_asteroids_alive := v.num_asteroids_alive + 1,
        asteroids := Function.update v.asteroids k (asteroid_moved v.counter (v.asteroids k)) }
        k = true →
      hurt_asteroid r fuel k (sar v.player_xm 4) (sar v.player_ym 4) kNumBits { v with
        num_asteroids_alive := v.num_asteroids_alive + 1,
        asteroids := Function.update v.asteroids k (asteroid_moved v.counter (v.asteroids k)) }
        = some w →
      1 ≤ w.lives ∧ (ship_dies w).lives + 1 = w.lives) := by
  obtain ⟨c0, k⟩ := reachable_lives h
  have hM : ((SIZE_T_MOD : Nat) : Int) = 2 ^ 64 := by decide
  obtain ⟨b, ok⟩ := k (by omega)
  have hlt : s.lives + 3 < SIZE_T_MOD := by
    have : ((s.lives + 3 : Nat) : Int) < ((SIZE_T_MOD : Nat) : Int) := by
      push_cast
      omega
    exact_mod_cast this
  refine ⟨ok, ⟨c0, b⟩, fun fuel events t ht => ?_, fun fuel events u k v w hu hv hhit hw => ?_⟩
  · obtain ⟨ok2, b1, b2⟩ := (step_lives ht).2 hlt ok
    exact ⟨b1, b2, ok2⟩
  · obtain ⟨b1, b2, ok1⟩ := (step_head_lives hu).2 (by omega) ok
    have hv0 : move_asteroids_from r fuel k 0 { u with num_asteroids_alive := 0 } = some v := hv
    have hk : 0 + k = k := Nat.zero_add k
    refine ship_dies_call (u := { u with num_asteroids_alive := 0 }) (i := 0) (x := sar v.player_xm 4)
      (y := sar v.player_ym 4) (n := kNumBits) (fun hal => ok1 hal) (by show u.lives + 1 < _; omega)
      hv0 ?_ ?_
    · rw [hk]
      exact hhit
    · rw [hk]
      exact hw

set_option maxRecDepth 20000 in
theorem lives_never_underflow_witness :
    Reachable zero_stream new_game_frame ∧ new_game_frame.counter = 1 ∧
    new_game_frame.player_alive ≠ 0 ∧ new_game_frame.lives = 3 ∧
    (new_game_frame.player_alive ≠ 0 → 1 ≤ new_game_frame.lives) := by
  have hr : Reachable zero_stream new_game_frame :=
    Reachable.frame 1 [] new_game_state new_game_frame
      (Reachable.new_game 1 title_game new_game_state rfl rfl) rfl
  have h := lives_never_underflow zero_stream new_game_frame hr (by decide)
  exact ⟨hr, by decide, by decide, by decide, h.1⟩

/-! ### C29 -/

/-- C29, counterexample.  The vertical segment from (479, 10) to (479, 11) is
drawn as its two coloured pixels and nothing else: the shadow pixels would lie
at (480, 11) and (480, 12), and `putpixel` drops a write outside the screen.
In the same way the one-pixel segment at (10, 479) has no shadow pixel, which
would lie in row 480. -/
theorem rasterised_columns_counterexample :
    sdl_drawline 1 479 10 { r := 255, g := 255, b := 255 } 479 11 { r := 255, g := 255, b := 255 }
      = some [{ x := 479, y := 10, c := { r := 255, g := 255, b := 255 } },
              { x := 479, y := 11, c := { r := 255, g := 255, b := 255 } }] ∧
    sdl_drawline 1 10 479 { r := 255, g := 255, b := 255 } 10 479 { r := 255, g := 255, b := 255 }
      = some [{ x := 10, y := 479, c := { r := 255, g := 255, b := 255 } }] := by
  constructor
  · norm_num [sdl_drawline, sdl_drawline_loop, drawvertline, drawvertline_loop, putpixel, mkcolor,
      to_uint8, clip, clip_loop, clip_edge, encode, trunc, kScreenWidth, kScreenHeight,
      LEFT_EDGE, RIGHT_EDGE, TOP_EDGE, BOTTOM_EDGE]
    decide
  · norm_num [sdl_drawline, sdl_drawline_loop, drawvertline, drawvertline_loop, putpixel, mkcolor,
      to_uint8, clip, clip_loop, clip_edge, encode, trunc, kScreenWidth, kScreenHeight,
      LEFT_EDGE, RIGHT_EDGE, TOP_EDGE, BOTTOM_EDGE]
    decide

/-- C29, amended.  For a segment with both endpoints on the screen
`sdl_drawline` returns.  When `x1 ≠ x2` it issues `|x2 - x1|` vertical runs,
in this order: run `k` is the call of `drawvertline` for column `x1 + k * d`,
where `d` is `1` or `-1` towards `x2`, so the columns are `x1, x1 + d, ...,
x2 - d` and none of them is `x2`; every pixel written lies in the column of
its run or is a black shadow pixel one column to the right, so every pixel
written in the end column `x2` is a black shadow pixel.  When `x1 = x2` it
issues the single run `drawvertline x1 y1 c1 y2 c2`, which writes
`|y2 - y1| + 1` rows from `min y1 y2` on: in each row the black shadow pixel
at `(x + 1, y + 1)` when `x + 1 < 480` and `y + 1 < 480`, and nothing for the
shadow otherwise, followed by the coloured pixel at `(x, y)`; the pixels
written in column `x` number `|y2 - y1| + 1`. -/
theorem rasterised_columns (fuel : Nat) (x1 y1 x2 y2 : Int) (c1 c2 : color_type)
    (h1 : 0 ≤ x1 ∧ x1 < 480 ∧ 0 ≤ y1 ∧ y1 < 480) (h2 : 0 ≤ x2 ∧ x2 < 480 ∧ 0 ≤ y2 ∧ y2 < 480)
    (hf : (x2 - x1).natAbs + 1 ≤ fuel) :
    (x1 ≠ x2 →
      sdl_drawline fuel x1 y1 c1 x2 y2 c2
        = some ((List.range (x2 - x1).natAbs).map (segment_run x1 y1 c1 x2 y2 c2)).flatten ∧
      (∀ k, ∃ ya ca yb cb, segment_run x1 y1 c1 x2 y2 c2 k
        = drawvertline (x1 + k * (if x2 ≥ x1 then 1 else -1)) ya ca yb cb) ∧
      (∀ k, k < (x2 - x1).natAbs → x1 + k * (if x2 ≥ x1 then 1 else -1) ≠ x2) ∧
      x1 + ((x2 - x1).natAbs : Int) * (if x2 ≥ x1 then 1 else -1) = x2 ∧
      (∀ p ∈ ((List.range (x2 - x1).natAbs).map (segment_run x1 y1 c1 x2 y2 c2)).flatten,
        (∃ k, k < (x2 - x1).natAbs ∧
          (p.x = x1 + k * (if x2 ≥ x1 then 1 else -1) ∨
            (p.x = x1 + k * (if x2 ≥ x1 then 1 else -1) + 1 ∧ p.c = shadow_colour))) ∧
        (p.x = x2 → p.c = shadow_colour))) ∧
    (x1 = x2 →
      sdl_drawline fuel x1 y1 c1 x2 y2 c2 = some (drawvertline x1 y1 c1 y2 c2) ∧
      drawvertline x1 y1 c1 y2 c2 = vertical_run x1 y1 c1 y2 c2 ∧
      ((vertical_run x1 y1 c1 y2 c2).filter (fun p => decide (p.x = x1))).length
        = (y2 - y1).natAbs + 1) := by
  have hs := sdl_drawline_on_screen c1 c2 h1 h2 hf
  refine ⟨fun hne => ?_, fun he => ?_⟩
  · rw [if_pos (by omega)] at hs
    have hcol : ∀ k, k < (x2 - x1).natAbs → x1 + k * (if x2 ≥ x1 then 1 else -1) ≠ x2 := by
      intro k hk
      split <;> omega
    refine ⟨hs, fun k => ⟨_, _, _, _, rfl⟩, hcol, by split <;> omega, fun p hp => ?_⟩
    rw [List.mem_flatten] at hp
    obtain ⟨run, hrun, hp⟩ := hp
    rw [List.mem_map] at hrun
    obtain ⟨k, hk, rfl⟩ := hrun
    rw [List.mem_range] at hk
    have hc := segment_run_columns hp
    refine ⟨⟨k, hk, hc⟩, fun hx2 => ?_⟩
    rcases hc with e | ⟨_, e⟩
    · exact absurd (e.symm.trans hx2) (hcol k hk)
    · exact e
  · rw [if_neg (by omega)] at hs
    have hx : 0 ≤ x1 ∧ x1 < 480 := ⟨h1.1, h1.2.1⟩
    refine ⟨hs, drawvertline_rows c1 c2 hx ⟨h1.2.2.1, h1.2.2.2⟩ ⟨h2.2.2.1, h2.2.2.2⟩, ?_⟩
    unfold vertical_run
    dsimp only
    rw [shadowed_rows_count, List.length_range]

theorem rasterised_columns_witness :
    sdl_drawline 3 0 100 { r := 200, g := 0, b := 0 } 2 100 { r := 0, g := 0, b := 0 }
      = some ((List.range 2).map (segment_run 0 100 { r := 200, g := 0, b := 0 } 2 100
          { r := 0, g := 0, b := 0 })).flatten ∧
    sdl_drawline 3 0 100 { r := 200, g := 0, b := 0 } 2 100 { r := 0, g := 0, b := 0 }
      = some [{ x := 1, y := 101, c := { r := 0, g := 0, b := 0 } },
              { x := 0, y := 100, c := { r := 200, g := 0, b := 0 } },
              { x := 2, y := 101, c := { r := 0, g := 0, b := 0 } },
              { x := 1, y := 100, c := { r := 100, g := 0, b := 0 } }] := by
  have h := (rasterised_columns 3 0 100 2 100 { r := 200, g := 0, b := 0 } { r := 0, g := 0, b := 0 }
    (by decide) (by decide) (by decide)).1 (by decide)
  refine ⟨h.1, ?_⟩
  norm_num [sdl_drawline, sdl_drawline_loop, drawvertline, drawvertline_loop, putpixel, mkcolor,
    to_uint8, clip, clip_loop, clip_edge, encode, trunc, kScreenWidth, kScreenHeight,
    LEFT_EDGE, RIGHT_EDGE, TOP_EDGE, BOTTOM_EDGE]
  decide

/-! ### C30 -/

/-- C30, `clip` terminates.  For every pair of integer endpoints the loop of
`clip`, with its arithmetic taken exactly, ends within 8 iterations, the
iteration that ends it included: with a fuel of 8 or more the loop returns, and
so does `clip`, with a result that does not depend on the fuel.  In every state
in which the loop moves a point, that is whenever the two codes share no bit,
the divisor `fx2 - fx1` of the slope is not zero under the guard `fx2 != fx1`,
and the slope that the top and the bottom branch divide by is not zero. -/
theorem clip_terminates (x1 y1 x2 y2 : Int) :
    (∃ res, ∀ fuel, 8 ≤ fuel → clip_loop fuel x1 y1 x2 y2 false = some res) ∧
    (∃ out, ∀ fuel, 8 ≤ fuel → clip fuel x1 y1 x2 y2 = some out) ∧
    (∀ fx1 fy1 fx2 fy2 : ℚ, ¬ (encode fx1 fy1 &&& encode fx2 fy2 ≠ 0) →
      (fy1 < 0 ∨ 480 ≤ fy1) → fx2 ≠ fx1 →
      fx2 - fx1 ≠ 0 ∧ (fy2 - fy1) / (fx2 - fx1) ≠ 0) := by
  have hm : clip_measure (x1 : ℚ) (y1 : ℚ) (x2 : ℚ) (y2 : ℚ) ≤ 8 := by
    unfold clip_measure
    have a := edges_beyond_le (x1 : ℚ) (y1 : ℚ)
    have b := edges_beyond_le (x2 : ℚ) (y2 : ℚ)
    have c := hazard_int x1 y1 x2 y2
    omega
  obtain ⟨res, hres⟩ := clip_loop_terminates 8 (x1 : ℚ) (y1 : ℚ) (x2 : ℚ) (y2 : ℚ) false
    (grid_point_int x1 y1) (grid_point_int x2 y2) hm 8 (le_refl _) (by decide)
  have hall : ∀ fuel, 8 ≤ fuel → clip_loop fuel x1 y1 x2 y2 false = some res := by
    intro fuel hf
    obtain ⟨k, rfl⟩ : ∃ k, fuel = 8 + k := ⟨fuel - 8, by omega⟩
    exact clip_loop_mono k hres
  refine ⟨⟨res, hall⟩, ?_, fun fx1 fy1 fx2 fy2 hns hy hne =>
    ⟨sub_ne_zero.mpr hne, clip_slope_ne_zero hns hy hne⟩⟩
  obtain ⟨a, b, c, d, sw, dr⟩ := res
  refine ⟨if sw then (trunc c, trunc d, trunc a, trunc b, dr)
    else (trunc a, trunc b, trunc c, trunc d, dr), fun fuel hf => ?_⟩
  unfold clip
  rw [hall fuel hf]
  dsimp only
  split <;> rfl

/-- The segment from (470, -19) to (490, 21) takes four iterations: the first
point is moved to the top line at `x = 479.5`, the second point to the right
line, where it comes to lie above the screen, and then to the top line. -/
theorem clip_terminates_witness :
    (∃ out, ∀ fuel, 8 ≤ fuel → clip fuel 470 (-19) 490 21 = some out) ∧
    clip_loop 3 470 (-19) 490 21 false = none ∧
    clip 4 470 (-19) 490 21 = some (479, 0, 479, 0, true) ∧
    ((21 : ℚ) - (-19)) / (490 - 470) ≠ 0 := by
  have h := clip_terminates 470 (-19) 490 21
  refine ⟨h.2.1, ?_, ?_, (h.2.2 470 (-19) 490 21 ?_ (Or.inl (by norm_num)) (by norm_num)).2⟩
  · have a1 : (4 : Nat) ||| 2 = 6 := by decide
    have a2 : (4 : Nat) &&& 2 = 0 := by decide
    norm_num [clip_loop, clip_edge, encode, kScreenWidth, kScreenHeight,
      LEFT_EDGE, RIGHT_EDGE, TOP_EDGE, BOTTOM_EDGE, a1, a2]
  · have a1 : (4 : Nat) ||| 2 = 6 := by decide
    have a2 : (4 : Nat) &&& 2 = 0 := by decide
    norm_num [clip, clip_loop, clip_edge, encode, trunc, kScreenWidth, kScreenHeight,
      LEFT_EDGE, RIGHT_EDGE, TOP_EDGE, BOTTOM_EDGE, a1, a2]
  · have a2 : (4 : Nat) &&& 2 = 0 := by decide
    norm_num [encode, kScreenWidth, kScreenHeight, LEFT_EDGE, RIGHT_EDGE, TOP_EDGE, BOTTOM_EDGE,
      a2]

end Vectoroids
